import Mathlib

/-!
# Lowering of the Kaleidoscope AST to a control-flow graph

A shallow embedding of `driver.cpp`: the AST classes become inductive types, the
three LLVM singletons (`context`, `module`, `builder`) and the symbol table
`drv.NamedValues` become one record `World`, and every `codegen` method becomes
a function in the state monad `Gen`.

Conventions of the embedding.

* A C++ pointer that the code tests against `nullptr` is an `Option`; a generator
  that returns `nullptr` returns `none` together with the state it left behind
  (nothing is rolled back).
* Undefined behaviour of the C++ program (dereferencing a null pointer, reading an
  uninitialised local) has no result at all: the generator yields `none` instead
  of a pair.
* The instruction-emission backend is recorded, not interpreted: a
  `builder->CreateX` call appends one instruction to the insertion block and
  returns a fresh SSA value. The builder is the default `IRBuilder<>`, whose
  constant folder creates no instruction when every operand of an arithmetic,
  comparison, logical, conversion or address operation is a constant: the call
  returns a constant, which the embedding names by the operation and its operands
  without evaluating it. Loads, stores, calls, allocations, phi nodes and
  terminators are always instructions. Operand types are not checked.
* Functions and global variables share the symbol table of the module. A new
  symbol whose name is taken is renamed as `ValueSymbolTable` does, to the name
  followed by a dot and the next number that gives a free name, so that a lookup
  of the original name does not find it. Names of SSA registers and of formal
  parameters are not made unique.
* Storage is named by its register and is not freed: after a function has been
  erased, the entries of the symbol table that name its storage are looked up as
  before. In the C++ program the use of such an entry reads freed memory; the
  embedding does not represent that.
* Numeric literals (C++ `double`) are exact rationals.
-/

namespace Kaleidoscope

/-! ## Backend data -/

/-- Numeric literals of the source language (`double` in the C++ code). -/
abbrev Double := ℚ

/-- The IR types the generators ask for. -/
inductive IRType where
  | DoubleTy
  | FloatTy
  | Int32Ty
  | ArrayTy (NumElements : Nat)
  deriving DecidableEq, Repr

/-- Whether a type is an array type (`Type::isArrayTy`). -/
def IRType.isArrayTy : IRType → Bool
  | .ArrayTy _ => true
  | _ => false

/-- Opcodes of the two-operand instructions built by `BinaryExprAST::codegen`. -/
inductive Opcode where
  | FAdd | FSub | FMul | FDiv | FCmpULT | FCmpUGT | FCmpUEQ | And | Or
  deriving DecidableEq, Repr

/-- An SSA value: a constant, a formal argument of a function, the register
defined by an instruction, the address of a global variable, or a function. The
constructors `Folded...` are the constants that the builder's constant folder
returns for an operation on constants; they name the operation and its operands,
the value of the constant is not computed. -/
inductive Value where
  | ConstantFP (Val : Double)
  | ConstantInt (Val : Int)
  | Argument (fn : Nat) (ArgNo : Nat)
  | Instruction (id : Nat)
  | Global (id : Nat)
  | Function (id : Nat)
  | FoldedBinOp (op : Opcode) (L R : Value)
  | FoldedNot (V : Value)
  | FoldedFPTrunc (V : Value)
  | FoldedFPToSI (V : Value)
  | FoldedGEP (ptr idx : Value)
  deriving DecidableEq, Repr

/-- The scalar zero, `Constant::getNullValue(Type::getDoubleTy(*context))`. -/
def Value.getNullValue : Value := .ConstantFP 0

/-- Whether the value is an LLVM `Constant` (`isa<Constant>`): everything but
formal arguments and the registers of instructions. -/
def Value.isConstant : Value → Bool
  | .Argument _ _ => false
  | .Instruction _ => false
  | _ => true

/-- One IR instruction. Value-producing instructions carry the id of the register
they define; blocks are named by their index in the block arena. -/
inductive Instr where
  | alloca (id : Nat) (ty : IRType) (name : String)
  | load (id : Nat) (ty : IRType) (ptr : Value) (name : String)
  | store (val ptr : Value)
  | binop (id : Nat) (op : Opcode) (L R : Value)
  | not (id : Nat) (V : Value)
  | fptrunc (id : Nat) (V : Value)
  | fptosi (id : Nat) (V : Value)
  | gep (id : Nat) (ptr idx : Value)
  | call (id : Nat) (callee : Nat) (args : List Value)
  | phi (id : Nat) (incoming : List (Value × Nat))
  | br (dest : Nat)
  | condBr (cond : Value) (ifTrue ifFalse : Nat)
  | ret (V : Value)
  deriving DecidableEq, Repr

/-- Terminators: branch, conditional branch, return. -/
def Instr.isTerminator : Instr → Bool
  | .br _ => true
  | .condBr _ _ _ => true
  | .ret _ => true
  | _ => false

/-- Blocks a terminator can transfer control to. -/
def Instr.successors : Instr → List Nat
  | .br d => [d]
  | .condBr _ t f => [t, f]
  | _ => []

/-- Whether the instruction is an `alloca`. -/
def Instr.isAlloca : Instr → Bool
  | .alloca _ _ _ => true
  | _ => false

/-- Handle of an `alloca` instruction: the register holding the address and the
allocated type. -/
structure AllocaInst where
  id : Nat
  AllocatedType : IRType
  deriving DecidableEq, Repr

/-- An `AllocaInst*` used as a `Value*`. -/
def AllocaInst.toValue (A : AllocaInst) : Value := .Instruction A.id

/-- Handle of a phi node: the block it was created in (if any) and its register. -/
structure PHINode where
  block : Option Nat
  id : Nat
  deriving DecidableEq, Repr

/-- A phi node used as a `Value*`. -/
def PHINode.toValue (PN : PHINode) : Value := .Instruction PN.id

/-- A basic block: label hint, owning function (absent while detached) and its
instructions in order. -/
structure BasicBlock where
  Name : String
  parent : Option Nat
  insts : List Instr
  deriving DecidableEq, Repr

/-- A function registered in the module; its block list is `World.functionBlocks`. -/
structure Function where
  id : Nat
  Name : String
  Args : List String
  deriving DecidableEq, Repr

/-- A global variable registered in the module. -/
structure GlobalVariable where
  id : Nat
  Name : String
  ValueType : IRType
  deriving DecidableEq, Repr

/-- Text sent to `errs()` by the `print` calls. -/
inductive Printed where
  | function (fn : Nat)
  | globalVariable (id : Nat)
  deriving DecidableEq, Repr

/-- The whole mutable state: the symbol table of the driver, the module, the
block arena of the context and the insertion point of the builder. -/
structure World where
  NamedValues : String → Option AllocaInst
  functions : List Function
  functionBlocks : Nat → List Nat
  globals : List GlobalVariable
  blocks : Nat → BasicBlock
  numBlocks : Nat
  numFunctions : Nat
  numValues : Nat
  InsertBlock : Option Nat
  cerr : List String
  cout : List Char
  errs : List Printed
  LastUnique : Nat

/-- The state of a freshly started compiler: nothing bound, empty module, builder
without insertion point. -/
def World.empty : World where
  NamedValues := fun _ => none
  functions := []
  functionBlocks := fun _ => []
  globals := []
  blocks := fun _ => ⟨"", none, []⟩
  numBlocks := 0
  numFunctions := 0
  numValues := 0
  InsertBlock := none
  cerr := []
  cout := []
  errs := []
  LastUnique := 0

/-- Generators: state transformers that may have no result at all (undefined
behaviour of the C++ code). -/
def Gen (α : Type) : Type := World → Option (α × World)

/-- Sequencing of generators. -/
def Gen.bind {α β : Type} (m : Gen α) (f : α → Gen β) : Gen β := fun s =>
  match m s with
  | none => none
  | some (a, s1) => f a s1

/-- A generator that returns without touching the state. -/
def Gen.pure {α : Type} (a : α) : Gen α := fun s => some (a, s)

instance : Monad Gen where
  pure := Gen.pure
  bind := Gen.bind

/-- Undefined behaviour: no result. -/
def Gen.undefined {α : Type} : Gen α := fun _ => none

/-- Dereferences a pointer: undefined when it is null. -/
def Gen.deref {α : Type} : Option α → Gen α
  | some a => Gen.pure a
  | none => Gen.undefined

/-! ## Backend operations -/

/-- Appends an instruction at the end of block `b`. -/
def World.append (s : World) (b : Nat) (i : Instr) : World :=
  let bb : BasicBlock := { s.blocks b with insts := (s.blocks b).insts ++ [i] }
  { s with blocks := Function.update s.blocks b bb }

/-- Inserts an instruction at the builder's insertion point (the end of the
insertion block); without insertion block the instruction stays unattached. -/
def World.insert (s : World) (i : Instr) : World :=
  match s.InsertBlock with
  | some b => s.append b i
  | none => s

/-- Inserts a value-producing instruction that defines the next free register. -/
def World.emit (s : World) (mk : Nat → Instr) : World :=
  ({ s with numValues := s.numValues + 1 }).insert (mk s.numValues)

/-- Appends a message to `cerr`. -/
def World.logError (s : World) (Str : String) : World :=
  { s with cerr := s.cerr ++ [Str] }

/-- The assignment `drv.NamedValues[Name] = A`. -/
def World.setNamedValue (s : World) (Name : String) (A : Option AllocaInst) : World :=
  { s with NamedValues := Function.update s.NamedValues Name A }

/-- Adds an empty block with the next free index, appended to the block list of
`parent` when one is given. -/
def World.createBlock (s : World) (Name : String) (parent : Option Nat) : World :=
  let s1 : World :=
    { s with blocks := Function.update s.blocks s.numBlocks ⟨Name, parent, []⟩,
             numBlocks := s.numBlocks + 1 }
  match parent with
  | none => s1
  | some f =>
    { s1 with functionBlocks := Function.update s1.functionBlocks f (s1.functionBlocks f ++ [s.numBlocks]) }

/-- Appends block `BB` to the block list of function `f` and makes `f` its parent. -/
def World.insertBlock (s : World) (f BB : Nat) : World :=
  let bb : BasicBlock := { s.blocks BB with parent := some f }
  { s with blocks := Function.update s.blocks BB bb,
           functionBlocks := Function.update s.functionBlocks f (s.functionBlocks f ++ [BB]) }

/-- Moves the insertion point to the end of block `BB`. -/
def World.setInsertPoint (s : World) (BB : Nat) : World :=
  { s with InsertBlock := some BB }

/-- Places an `alloca` defining the next free register at the very beginning of
block `entry`. -/
def World.entryAlloca (s : World) (entry : Nat) (T : IRType) (VarName : String) : World :=
  let bb : BasicBlock :=
    { s.blocks entry with insts := .alloca s.numValues T VarName :: (s.blocks entry).insts }
  { s with numValues := s.numValues + 1, blocks := Function.update s.blocks entry bb }

/-- Adds an incoming edge to an instruction if it is the phi node `id`. -/
def Instr.addIncoming (id : Nat) (V : Value) (BB : Nat) : Instr → Instr
  | .phi id1 incoming => if id1 = id then .phi id1 (incoming ++ [(V, BB)]) else .phi id1 incoming
  | i => i

/-- Adds an incoming edge to the phi node `id` of block `b`. -/
def World.addIncoming (s : World) (b id : Nat) (V : Value) (BB : Nat) : World :=
  let bb : BasicBlock := { s.blocks b with insts := (s.blocks b).insts.map (Instr.addIncoming id V BB) }
  { s with blocks := Function.update s.blocks b bb }

/-- Emits a value-producing instruction at the insertion point and returns its
register. -/
def emitValue (mk : Nat → Instr) : Gen Value := fun s =>
  some (.Instruction s.numValues, s.emit mk)

/-- Emits an instruction without result at the insertion point. -/
def emitVoid (i : Instr) : Gen Unit := fun s => some ((), s.insert i)

/-- Prints the message on `cerr` and returns `nullptr`. -/
def LogErrorV {α : Type} (Str : String) : Gen (Option α) := fun s =>
  some (none, s.logError Str)

/-- Reads `drv.NamedValues[Name]` (absent keys read as null). -/
def getNamedValue (Name : String) : Gen (Option AllocaInst) := fun s =>
  some (s.NamedValues Name, s)

/-- Writes `drv.NamedValues[Name] = A`. -/
def setNamedValue (Name : String) (A : Option AllocaInst) : Gen Unit := fun s =>
  some ((), s.setNamedValue Name A)

/-- Looks a function up by name, `module->getFunction`. -/
def getFunction (Name : String) : Gen (Option Function) := fun s =>
  some (s.functions.find? (fun F => F.Name = Name), s)

/-- Looks a global variable up by name, `module->getNamedGlobal`. -/
def getNamedGlobal (Name : String) : Gen (Option GlobalVariable) := fun s =>
  some (s.globals.find? (fun G => G.Name = Name), s)

/-- The builder's insertion block, `builder->GetInsertBlock()`, dereferenced by
every caller. -/
def GetInsertBlock : Gen Nat := fun s =>
  match s.InsertBlock with
  | some b => some (b, s)
  | none => none

/-- The function owning the insertion block,
`builder->GetInsertBlock()->getParent()`. -/
def GetInsertBlockParent : Gen (Option Nat) := fun s =>
  match s.InsertBlock with
  | some b => some ((s.blocks b).parent, s)
  | none => none

/-- Creates a block, `BasicBlock::Create(*context, Name, parent)`: detached when no
parent is given, appended to the parent's block list otherwise. -/
def BasicBlock.Create (Name : String) (parent : Option Nat) : Gen Nat := fun s =>
  some (s.numBlocks, s.createBlock Name parent)

/-- Appends a detached block to a function, `function->insert(function->end(), BB)`. -/
def Function.insert (function : Option Nat) (BB : Nat) : Gen Unit := fun s =>
  match function with
  | none => none
  | some f => some ((), s.insertBlock f BB)

/-- Moves the insertion point to the end of a block, `builder->SetInsertPoint(BB)`. -/
def SetInsertPoint (BB : Nat) : Gen Unit := fun s => some ((), s.setInsertPoint BB)

/-- Allocation in the entry block of `fun`: the `alloca` is placed at the very
beginning of the function's first block. -/
def CreateEntryBlockAlloca (fn : Option Nat) (VarName : String) (T : IRType := .DoubleTy) :
    Gen AllocaInst := fun s =>
  match fn with
  | none => none
  | some f =>
    match (s.functionBlocks f).head? with
    | none => none
    | some entry => some (⟨s.numValues, T⟩, s.entryAlloca entry T VarName)

/-- Emits a load. -/
def CreateLoad (ty : IRType) (ptr : Value) (name : String) : Gen Value :=
  emitValue fun id => .load id ty ptr name

/-- Emits a store. -/
def CreateStore (val ptr : Value) : Gen Unit := emitVoid (.store val ptr)

/-- A two-operand operation (`CreateFAdd`, ..., `CreateFCmpULT`, ..., `CreateAnd`,
`CreateOr`): folded when both operands are constants, one instruction otherwise. -/
def CreateBinOp (op : Opcode) (L R : Value) : Gen Value :=
  if L.isConstant && R.isConstant then pure (.FoldedBinOp op L R)
  else emitValue fun id => .binop id op L R

/-- A logical negation: folded when the operand is a constant, one instruction
otherwise. -/
def CreateNot (V : Value) : Gen Value :=
  if V.isConstant then pure (.FoldedNot V) else emitValue fun id => .not id V

/-- The truncation to `float`: folded when the operand is a constant, one
instruction otherwise. -/
def CreateFPTrunc (V : Value) : Gen Value :=
  if V.isConstant then pure (.FoldedFPTrunc V) else emitValue fun id => .fptrunc id V

/-- The conversion to a 32-bit integer: folded when the operand is a constant, one
instruction otherwise. -/
def CreateFPToSI (V : Value) : Gen Value :=
  if V.isConstant then pure (.FoldedFPToSI V) else emitValue fun id => .fptosi id V

/-- An address computation over `double` elements: folded when the base address and
the index are constants, one instruction otherwise. -/
def CreateInBoundsGEP (ptr idx : Value) : Gen Value :=
  if ptr.isConstant && idx.isConstant then pure (.FoldedGEP ptr idx)
  else emitValue fun id => .gep id ptr idx

/-- Emits a call. -/
def CreateCall (CalleeF : Function) (ArgsV : List Value) : Gen Value :=
  emitValue fun id => .call id CalleeF.id ArgsV

/-- Emits an unconditional branch. -/
def CreateBr (Dest : Nat) : Gen Unit := emitVoid (.br Dest)

/-- Emits a conditional branch. -/
def CreateCondBr (Cond : Value) (True False : Nat) : Gen Unit :=
  emitVoid (.condBr Cond True False)

/-- Emits a return. -/
def CreateRet (V : Value) : Gen Unit := emitVoid (.ret V)

/-- Emits a phi node without incoming edges. -/
def CreatePHI : Gen PHINode := fun s =>
  some (⟨s.InsertBlock, s.numValues⟩, s.emit fun id => .phi id [])

/-- Adds an incoming edge to a phi node, `PN->addIncoming(V, BB)`. -/
def PHINode.addIncoming (PN : PHINode) (V : Value) (BB : Nat) : Gen Unit := fun s =>
  match PN.block with
  | none => some ((), s)
  | some b => some ((), s.addIncoming b PN.id V BB)

/-! ## Abstract syntax -/

/-- Expressions (`ExprAST` and its subclasses). A `BinaryExprAST` has no right
operand when it is the unary negation. -/
inductive ExprAST where
  | NumberExprAST (Val : Double)
  | VariableExprAST (Name : String)
  | BinaryExprAST (Op : Char) (LHS : ExprAST) (RHS : Option ExprAST)
  | CallExprAST (Callee : String) (Args : List ExprAST)
  | ArrayExprAST (Name : String) (Offset : ExprAST)
  | IfExprAST (Cond TrueExp FalseExp : ExprAST)
  deriving Repr

/-- Local variable definitions (`BindingAST` and its two subclasses). -/
inductive BindingAST where
  | VarBindingAST (Name : String) (Val : Option ExprAST)
  | ArrayBindingAST (Name : String) (Size : Double) (Values : List ExprAST)
  deriving Repr

/-- The name a binding defines, `BindingAST::getName`. -/
def BindingAST.getName : BindingAST → String
  | .VarBindingAST Name _ => Name
  | .ArrayBindingAST Name _ _ => Name

/-- Assignments to a scalar (`OffsetExpr` absent) or to an array cell. -/
structure AssignmentAST where
  Name : String
  OffsetExpr : Option ExprAST
  AssignExpr : ExprAST
  deriving Repr

/-- The init phase of a `for`: the variant `varOp`, whose alternative 0 is a
binding and whose alternative 1 is an assignment. -/
inductive VarOperation where
  | binding (b : BindingAST)
  | assignment (a : AssignmentAST)
  deriving Repr

/-- Statements (`StmtAST` and its subclasses; expressions and assignments are
statements). -/
inductive StmtAST where
  | expr (e : ExprAST)
  | assignment (a : AssignmentAST)
  | BlockAST (Def : List BindingAST) (Stmts : List StmtAST)
  | IfStmtAST (CondExpr : ExprAST) (TrueStmt : StmtAST) (ElseStmt : Option StmtAST)
  | ForStmtAST (InitExp : VarOperation) (CondExpr : ExprAST) (AssignExpr : AssignmentAST)
      (BodyStmt : StmtAST)
  | WhileStmtAST (CondExpr : ExprAST) (BodyStmt : StmtAST)
  | DoWhileStmtAST (BodyStmt : StmtAST) (CondExpr : ExprAST)
  | ForEachStmtAST (IterName ArrayName : String) (BodyStmt : StmtAST)
  deriving Repr

/-- Function prototypes; `emitcode` is cleared by `noemit`. -/
structure PrototypeAST where
  Name : String
  Args : List String
  emitcode : Bool := true
  deriving Repr

/-- Clears the flag that makes the prototype print its declaration. -/
def PrototypeAST.noemit (P : PrototypeAST) : PrototypeAST := { P with emitcode := false }

/-- Function definitions. -/
structure FunctionAST where
  Proto : PrototypeAST
  Body : StmtAST
  deriving Repr

/-- Global variable declarations; `Size` is zero for a scalar. -/
structure GlobalVarAST where
  Name : String
  Size : Int := 0
  deriving Repr

/-- Top-level items (`RootAST` and its subclasses). -/
inductive RootAST where
  | SeqAST (first : Option RootAST) (continuation : Option RootAST)
  | FunctionAST (F : FunctionAST)
  | PrototypeAST (P : PrototypeAST)
  | GlobalVarAST (G : GlobalVarAST)
  deriving Repr

/-! ## Expression generators -/

/-- Lowering of a variable reference, `VariableExprAST::codegen`. -/
def VariableExprAST.codegen (Name : String) : Gen (Option Value) := do
  let A ← getNamedValue Name
  match A with
  | none =>
    let gVar ← getNamedGlobal Name
    match gVar with
    | some gVar => some <$> CreateLoad gVar.ValueType (.Global gVar.id) Name
    | none => LogErrorV ("Variabile " ++ Name ++ " non definita")
  | some A => some <$> CreateLoad A.AllocatedType A.toValue Name

/-- The statement `std::cout << Op`. -/
def printOp (Op : Char) : Gen Unit := fun s => some ((), { s with cout := s.cout ++ [Op] })

/-- The `switch (Op)` of `BinaryExprAST::codegen`; `R` is uninitialised when the
node has no right operand, and only the two-operand cases read it. -/
def BinaryExprAST.emit (Op : Char) (L : Value) (R : Option Value) : Gen (Option Value) :=
  match Op with
  | '+' => do let R ← Gen.deref R; some <$> CreateBinOp .FAdd L R
  | '-' => do let R ← Gen.deref R; some <$> CreateBinOp .FSub L R
  | '*' => do let R ← Gen.deref R; some <$> CreateBinOp .FMul L R
  | '/' => do let R ← Gen.deref R; some <$> CreateBinOp .FDiv L R
  | '<' => do let R ← Gen.deref R; some <$> CreateBinOp .FCmpULT L R
  | '>' => do let R ← Gen.deref R; some <$> CreateBinOp .FCmpUGT L R
  | '=' => do let R ← Gen.deref R; some <$> CreateBinOp .FCmpUEQ L R
  | 'a' => do let R ← Gen.deref R; some <$> CreateBinOp .And L R
  | 'o' => do let R ← Gen.deref R; some <$> CreateBinOp .Or L R
  | 'n' => some <$> CreateNot L
  | _ => do
    printOp Op
    LogErrorV "Operatore binario non supportato"

mutual
/-- Lowering of expressions: the `codegen` methods of `NumberExprAST`,
`VariableExprAST`, `BinaryExprAST`, `CallExprAST`, `ArrayExprAST` and `IfExprAST`. -/
def ExprAST.codegen : ExprAST → Gen (Option Value)
  | .NumberExprAST Val => pure (some (.ConstantFP Val))
  | .VariableExprAST Name => VariableExprAST.codegen Name
  | .BinaryExprAST Op LHS RHS => do
    let L ← ExprAST.codegen LHS
    let R ← ExprAST.codegenRHS RHS
    match L with
    | none => return none
    | some L =>
      if RHS.isSome && R.isNone then return none
      BinaryExprAST.emit Op L R
  | .CallExprAST Callee Args => do
    let CalleeF ← getFunction Callee
    match CalleeF with
    | none => LogErrorV "Funzione non definita"
    | some CalleeF =>
      if CalleeF.Args.length ≠ Args.length then
        LogErrorV "Numero di argomenti non corretto"
      else
        let some ArgsV ← ExprAST.codegenArgs Args | return none
        some <$> CreateCall CalleeF ArgsV
  | .ArrayExprAST Name Offset => do
    let some doubleIndex ← ExprAST.codegen Offset | return none
    let floatIndex ← CreateFPTrunc doubleIndex
    let intIndex ← CreateFPToSI floatIndex
    let A ← getNamedValue Name
    let A ← (match A with
      | some A => pure (some A.toValue)
      | none => do
        let G ← getNamedGlobal Name
        pure (G.map fun G => Value.Global G.id))
    match A with
    | none => LogErrorV ("Variabile " ++ Name ++ " non definita")
    | some A =>
      let p ← CreateInBoundsGEP A intIndex
      some <$> CreateLoad .DoubleTy p Name
  | .IfExprAST Cond TrueExp FalseExp => do
    let some CondV ← ExprAST.codegen Cond | return none
    let function ← GetInsertBlockParent
    let TrueBB ← BasicBlock.Create "trueexp" function
    let FalseBB ← BasicBlock.Create "falseexp" none
    let MergeBB ← BasicBlock.Create "endcond" none
    CreateCondBr CondV TrueBB FalseBB
    SetInsertPoint TrueBB
    let some TrueV ← ExprAST.codegen TrueExp | return none
    CreateBr MergeBB
    let TrueBB ← GetInsertBlock
    Function.insert function FalseBB
    SetInsertPoint FalseBB
    let some FalseV ← ExprAST.codegen FalseExp | return none
    CreateBr MergeBB
    let FalseBB ← GetInsertBlock
    Function.insert function MergeBB
    SetInsertPoint MergeBB
    let PN ← CreatePHI
    PN.addIncoming TrueV TrueBB
    PN.addIncoming FalseV FalseBB
    return some PN.toValue
/-- The right operand of a binary node: lowered only when present. -/
def ExprAST.codegenRHS : Option ExprAST → Gen (Option Value)
  | none => pure none
  | some RHS => ExprAST.codegen RHS
/-- The argument loop of `CallExprAST::codegen`: left to right, stopping at the
first argument that fails. -/
def ExprAST.codegenArgs : List ExprAST → Gen (Option (List Value))
  | [] => pure (some [])
  | arg :: Args => do
    let some V ← ExprAST.codegen arg | return none
    let some ArgsV ← ExprAST.codegenArgs Args | return none
    return some (V :: ArgsV)
end

/-! ## Binding and assignment generators -/

/-- Lowering of a scalar definition, `VarBindingAST::codegen`. -/
def VarBindingAST.codegen (Name : String) (Val : Option ExprAST) : Gen (Option AllocaInst) := do
  let fn ← GetInsertBlockParent
  match Val with
  | some Val =>
    let some BoundVal ← Val.codegen | return none
    let Alloca ← CreateEntryBlockAlloca fn Name
    CreateStore BoundVal Alloca.toValue
    return some Alloca
  | none =>
    let Alloca ← CreateEntryBlockAlloca fn Name
    return some Alloca

/-- Number of iterations of `for (int i = 0; i < Size; i++)` for a `double` bound. -/
def loopCount (Size : Double) : Nat := Int.toNat ⌈Size⌉

/-- The first loop of `ArrayBindingAST::codegen` over the indices still to visit:
the initialiser at index `i` is lowered, indices past the list give zero. -/
def ArrayBindingAST.boundValues (Values : List ExprAST) : List Nat → Gen (Option (List Value))
  | [] => pure (some [])
  | i :: rest => do
    let boundValue ← (if i ≥ Values.length then pure (some Value.getNullValue)
      else match Values.get? i with
        | some e => e.codegen
        | none => Gen.undefined)
    let some boundValue ← pure boundValue | return none
    let some boundValues ← ArrayBindingAST.boundValues Values rest | return none
    return some (boundValue :: boundValues)

/-- The second loop of `ArrayBindingAST::codegen`: one address computation and one
store per index. -/
def ArrayBindingAST.storeValues (Alloca : AllocaInst) (boundValues : List Value) :
    List Nat → Gen Unit
  | [] => pure ()
  | i :: rest => do
    let p ← CreateInBoundsGEP Alloca.toValue (.ConstantInt i)
    let v ← Gen.deref (boundValues.get? i)
    CreateStore v p
    ArrayBindingAST.storeValues Alloca boundValues rest

/-- Lowering of an array definition, `ArrayBindingAST::codegen`. The conversion of
`Size` to an element count truncates, and is undefined for `Size ≤ -1`. The two
loops count with an `int`: for `Size > 2 ^ 31 - 1` the increment of the loop
variable overflows, which is undefined. -/
def ArrayBindingAST.codegen (Name : String) (Size : Double) (Values : List ExprAST) :
    Gen (Option AllocaInst) := do
  if !Values.isEmpty && (Values.length : Double) > Size then return none
  let fn ← GetInsertBlockParent
  if Size ≤ -1 then Gen.undefined
  let AT := IRType.ArrayTy (Int.toNat ⌊Size⌋)
  let Alloca ← CreateEntryBlockAlloca fn Name AT
  if !Values.isEmpty then
    if Size > 2 ^ 31 - 1 then Gen.undefined
    let some boundValues ← ArrayBindingAST.boundValues Values (List.range (loopCount Size))
      | return none
    ArrayBindingAST.storeValues Alloca boundValues (List.range (loopCount Size))
  return some Alloca

/-- Lowering of a definition: dispatch on the class of the binding. -/
def BindingAST.codegen : BindingAST → Gen (Option AllocaInst)
  | .VarBindingAST Name Val => VarBindingAST.codegen Name Val
  | .ArrayBindingAST Name Size Values => ArrayBindingAST.codegen Name Size Values

/-- Lowering of an assignment, `AssignmentAST::codegen`. The result of the offset
expression is used without a null check. -/
def AssignmentAST.codegen (a : AssignmentAST) : Gen (Option Value) := do
  let A ← getNamedValue a.Name
  let A ← (match A with
    | some A => pure (some A.toValue)
    | none => do
      let G ← getNamedGlobal a.Name
      pure (G.map fun G => Value.Global G.id))
  match A with
  | none => LogErrorV ("Variabile " ++ a.Name ++ " non definita")
  | some A =>
    let some RHS ← a.AssignExpr.codegen | return none
    match a.OffsetExpr with
    | some OffsetExpr =>
      let doubleIndex ← OffsetExpr.codegen
      let doubleIndex ← Gen.deref doubleIndex
      let floatIndex ← CreateFPTrunc doubleIndex
      let intIndex ← CreateFPToSI floatIndex
      let p ← CreateInBoundsGEP A intIndex
      CreateStore RHS p
    | none => CreateStore RHS A
    return some RHS

/-! ## Statement generators -/

/-- The first loop of `BlockAST::codegen`: each definition is lowered, the binding
it shadows is pushed on `AllocaTmp`, and the new one is installed. -/
def BlockAST.bindDefs : List BindingAST → List (Option AllocaInst) →
    Gen (Option (List (Option AllocaInst)))
  | [], AllocaTmp => pure (some AllocaTmp)
  | d :: Def, AllocaTmp => do
    let some boundval ← d.codegen | return none
    let old ← getNamedValue d.getName
    setNamedValue d.getName (some boundval)
    BlockAST.bindDefs Def (AllocaTmp ++ [old])

/-- The last loop of `BlockAST::codegen`: for `i` from `0` upwards,
`NamedValues[Def[i]->getName()] = AllocaTmp[i]`. -/
def BlockAST.restore : List BindingAST → List (Option AllocaInst) → Gen Unit
  | d :: Def, old :: AllocaTmp => do
    setNamedValue d.getName old
    BlockAST.restore Def AllocaTmp
  | _, _ => pure ()

/-- The synthetic counter of a for-each, `ForEachStmtAST::getCounterName`. -/
def ForEachStmtAST.getCounterName (IterName : String) : String := IterName ++ "_counter"

/-- Conversion of an element count to `int` (32 bits, two's complement). -/
def toInt32 (n : Nat) : Int := ((n : Int) + 2 ^ 31) % 2 ^ 32 - 2 ^ 31

mutual
/-- Lowering of statements: the `codegen` methods of the expression classes, of
`AssignmentAST`, `BlockAST`, `IfStmtAST`, `ForStmtAST`, `WhileStmtAST`,
`DoWhileStmtAST` and `ForEachStmtAST`. -/
def StmtAST.codegen : StmtAST → Gen (Option Value)
  | .expr e => e.codegen
  | .assignment a => a.codegen
  | .BlockAST Def Stmts => do
    let some AllocaTmp ← BlockAST.bindDefs Def [] | return none
    let some blockvalue ← StmtAST.codegenStmts Stmts none | return none
    BlockAST.restore Def AllocaTmp
    let blockvalue ← Gen.deref blockvalue
    return some blockvalue
  | .IfStmtAST CondExpr TrueStmt (some ElseStmt) => do
    let _ ← GetInsertBlock
    let some CondV ← CondExpr.codegen | return none
    let function ← GetInsertBlockParent
    let TrueBB ← BasicBlock.Create "truestmt" function
    let FalseBB ← BasicBlock.Create "elsestmt" none
    let MergeBB ← BasicBlock.Create "endstmt" none
    CreateCondBr CondV TrueBB FalseBB
    SetInsertPoint TrueBB
    let some TrueV ← StmtAST.codegen TrueStmt | return none
    CreateBr MergeBB
    let TrueBB ← GetInsertBlock
    Function.insert function FalseBB
    SetInsertPoint FalseBB
    let some FalseV ← StmtAST.codegen ElseStmt | return none
    CreateBr MergeBB
    let FalseBB ← GetInsertBlock
    Function.insert function MergeBB
    SetInsertPoint MergeBB
    let PN ← CreatePHI
    PN.addIncoming TrueV TrueBB
    PN.addIncoming FalseV FalseBB
    return some PN.toValue
  | .IfStmtAST CondExpr TrueStmt none => do
    let entryBB ← GetInsertBlock
    let some CondV ← CondExpr.codegen | return none
    let function ← GetInsertBlockParent
    let TrueBB ← BasicBlock.Create "truestmt" function
    let MergeBB ← BasicBlock.Create "endstmt" none
    CreateCondBr CondV TrueBB MergeBB
    SetInsertPoint TrueBB
    let some TrueV ← StmtAST.codegen TrueStmt | return none
    CreateBr MergeBB
    let TrueBB ← GetInsertBlock
    Function.insert function MergeBB
    SetInsertPoint MergeBB
    let PN ← CreatePHI
    PN.addIncoming TrueV TrueBB
    PN.addIncoming Value.getNullValue entryBB
    return some PN.toValue
  | .ForStmtAST InitExp CondExpr AssignExpr BodyStmt => do
    let tmpAlloca ← (match InitExp with
      | .assignment a => do
        let some _ ← a.codegen | return none
        return some none
      | .binding b => do
        let some boundval ← b.codegen | return none
        let tmpAlloca ← getNamedValue b.getName
        setNamedValue b.getName (some boundval)
        return some tmpAlloca)
    let some tmpAlloca ← pure tmpAlloca | return none
    let function ← GetInsertBlockParent
    let CondBB ← BasicBlock.Create "condstmt" function
    let LoopBB ← BasicBlock.Create "loopstmt" none
    let MergeBB ← BasicBlock.Create "mergestmt" none
    CreateBr CondBB
    SetInsertPoint CondBB
    let some condV ← CondExpr.codegen | return none
    CreateCondBr condV LoopBB MergeBB
    let CondBB ← GetInsertBlock
    Function.insert function LoopBB
    SetInsertPoint LoopBB
    let some _ ← StmtAST.codegen BodyStmt | return none
    let some _ ← AssignExpr.codegen | return none
    CreateBr CondBB
    let _ ← GetInsertBlock
    Function.insert function MergeBB
    SetInsertPoint MergeBB
    match InitExp with
    | .binding b => setNamedValue b.getName tmpAlloca
    | .assignment _ => pure ()
    return some Value.getNullValue
  | .WhileStmtAST CondExpr BodyStmt => do
    let function ← GetInsertBlockParent
    let CondBB ← BasicBlock.Create "condstmt" function
    let LoopBB ← BasicBlock.Create "loopstmt" none
    let MergeBB ← BasicBlock.Create "mergestmt" none
    CreateBr CondBB
    SetInsertPoint CondBB
    let some condV ← CondExpr.codegen | return none
    CreateCondBr condV LoopBB MergeBB
    let CondBB ← GetInsertBlock
    Function.insert function LoopBB
    SetInsertPoint LoopBB
    let some _ ← StmtAST.codegen BodyStmt | return none
    CreateBr CondBB
    let _ ← GetInsertBlock
    Function.insert function MergeBB
    SetInsertPoint MergeBB
    return some Value.getNullValue
  | .DoWhileStmtAST BodyStmt CondExpr => do
    let function ← GetInsertBlockParent
    let LoopBB ← BasicBlock.Create "loopstmt" function
    let CondBB ← BasicBlock.Create "condstmt" none
    let MergeBB ← BasicBlock.Create "mergestmt" none
    CreateBr LoopBB
    SetInsertPoint LoopBB
    let some _ ← StmtAST.codegen BodyStmt | return none
    let LoopBB ← GetInsertBlock
    Function.insert function CondBB
    CreateBr CondBB
    SetInsertPoint CondBB
    let some condV ← CondExpr.codegen | return none
    CreateCondBr condV LoopBB MergeBB
    let _ ← GetInsertBlock
    Function.insert function MergeBB
    SetInsertPoint MergeBB
    return some Value.getNullValue
  | .ForEachStmtAST IterName ArrayName BodyStmt => do
    let cur ← GetInsertBlock
    SetInsertPoint cur
    let function ← GetInsertBlockParent
    let CondBB ← BasicBlock.Create "condstmt" function
    let LoopBB ← BasicBlock.Create "loopstmt" none
    let MergeBB ← BasicBlock.Create "mergestmt" none
    let tmpCounter ← getNamedValue (ForEachStmtAST.getCounterName IterName)
    let boundValCounter ← VarBindingAST.codegen (ForEachStmtAST.getCounterName IterName)
      (some (.NumberExprAST 0))
    setNamedValue (ForEachStmtAST.getCounterName IterName) boundValCounter
    let A ← getNamedValue ArrayName
    let AT ← (match A with
      | none => do
        let A ← getNamedGlobal ArrayName
        match A with
        | none => LogErrorV ("Variabile " ++ ArrayName ++ " non definita.")
        | some A => pure (some A.ValueType)
      | some A => pure (some A.AllocatedType))
    let some AT ← pure AT | return none
    match AT with
    | .ArrayTy NumElements =>
      let ArraySize := toInt32 NumElements
      CreateBr CondBB
      SetInsertPoint CondBB
      let some condV ← ExprAST.codegen (.BinaryExprAST '<'
        (.VariableExprAST (ForEachStmtAST.getCounterName IterName))
        (some (.NumberExprAST ArraySize))) | return none
      CreateCondBr condV LoopBB MergeBB
      let CondBB ← GetInsertBlock
      Function.insert function LoopBB
      SetInsertPoint LoopBB
      let tmpIter ← getNamedValue IterName
      let some bindingValue ← VarBindingAST.codegen IterName
        (some (.ArrayExprAST ArrayName
          (.VariableExprAST (ForEachStmtAST.getCounterName IterName)))) | return none
      setNamedValue IterName (some bindingValue)
      let some _ ← StmtAST.codegen BodyStmt | return none
      let _ ← AssignmentAST.codegen ⟨ForEachStmtAST.getCounterName IterName, none,
        .BinaryExprAST '+' (.VariableExprAST (ForEachStmtAST.getCounterName IterName))
          (some (.NumberExprAST 1))⟩
      let _ ← GetInsertBlock
      CreateBr CondBB
      Function.insert function MergeBB
      SetInsertPoint MergeBB
      setNamedValue (ForEachStmtAST.getCounterName IterName) tmpCounter
      setNamedValue IterName tmpIter
      return some Value.getNullValue
    | _ => LogErrorV ("La variabile " ++ ArrayName ++ " non è un array.")
/-- The statement loop of `BlockAST::codegen`; `blockvalue` is uninitialised until
a statement has been lowered. -/
def StmtAST.codegenStmts : List StmtAST → Option Value → Gen (Option (Option Value))
  | [], blockvalue => pure (some blockvalue)
  | st :: Stmts, _ => do
    let some blockvalue ← StmtAST.codegen st | return none
    StmtAST.codegenStmts Stmts (some blockvalue)
end

/-! ## Top-level generators -/

/-- The names in the symbol table of the module: those of the registered functions
and of the global variables. -/
def World.symbols (s : World) : List String :=
  s.functions.map (fun F => F.Name) ++ s.globals.map (fun G => G.Name)

/-- The loop of `ValueSymbolTable::makeUniqueName`: the counter is incremented and
appended to the name, after a dot, until the result is not in the table. `last` is
the counter before the next increment; the result is the number appended. The loop
needs at most one round more than there are names in the table. -/
def uniqueSuffix (taken : List String) (Name : String) : Nat → Nat → Nat
  | 0, last => last + 1
  | fuel + 1, last =>
    if Name ++ "." ++ toString (last + 1) ∈ taken then uniqueSuffix taken Name fuel (last + 1)
    else last + 1

/-- The name under which a new function or global variable `Name` enters the symbol
table of the module, and the counter of the table afterwards: `Name` itself when it
is free, otherwise the name made unique. -/
def World.uniqueName (s : World) (Name : String) : String × Nat :=
  if Name ∈ s.symbols then
    (Name ++ "." ++ toString (uniqueSuffix s.symbols Name s.symbols.length s.LastUnique),
      uniqueSuffix s.symbols Name s.symbols.length s.LastUnique)
  else (Name, s.LastUnique)

/-- Lowering of a prototype, `PrototypeAST::codegen`: the function is registered in
the module without blocks, and printed when `emitcode` is set. -/
def PrototypeAST.codegen (P : PrototypeAST) : Gen Function := fun s =>
  let F : Function := ⟨s.numFunctions, (s.uniqueName P.Name).1, P.Args⟩
  let s1 : World := { s with
    functions := s.functions ++ [F],
    functionBlocks := Function.update s.functionBlocks F.id [],
    numFunctions := s.numFunctions + 1,
    LastUnique := (s.uniqueName P.Name).2 }
  if P.emitcode then some (F, { s1 with errs := s1.errs ++ [.function F.id] })
  else some (F, s1)

/-- Removal of a function from the module, `function->eraseFromParent()`. -/
def Function.eraseFromParent (F : Function) : Gen Unit := fun s =>
  some ((), { s with
    functions := s.functions.filter (fun G => G.id ≠ F.id),
    functionBlocks := Function.update s.functionBlocks F.id [] })

/-- Printing of a function on `errs()`. -/
def Function.print (F : Function) : Gen Unit := fun s =>
  some ((), { s with errs := s.errs ++ [.function F.id] })

/-- The parameter loop of `FunctionAST::codegen`: storage is allocated for each
formal parameter, the incoming value is stored into it, and the parameter name is
bound to it. `ArgNo` is the position of the first parameter of the list. -/
def FunctionAST.bindArgs (function : Function) : List String → Nat → Gen Unit
  | [], _ => pure ()
  | Arg :: Args, ArgNo => do
    let Alloca ← CreateEntryBlockAlloca (some function.id) Arg
    CreateStore (.Argument function.id ArgNo) Alloca.toValue
    setNamedValue Arg (some Alloca)
    FunctionAST.bindArgs function Args (ArgNo + 1)

/-- The part of `FunctionAST::codegen` that precedes the lowering of the body: the
duplicate check, the prototype, the entry block and the parameters. -/
def FunctionAST.prologue (F : FunctionAST) : Gen (Option Function) := do
  let function ← getFunction F.Proto.Name
  match function with
  | some _ => return none
  | none =>
    let function ← F.Proto.codegen
    let BB ← BasicBlock.Create "entry" (some function.id)
    SetInsertPoint BB
    FunctionAST.bindArgs function function.Args 0
    return some function

/-- Lowering of a function definition, `FunctionAST::codegen`. -/
def FunctionAST.codegen (F : FunctionAST) : Gen (Option Function) := do
  let some function ← F.prologue | return none
  let RetVal ← F.Body.codegen
  match RetVal with
  | some RetVal =>
    CreateRet RetVal
    function.print
    return some function
  | none =>
    function.eraseFromParent
    return none

/-- Lowering of a global variable, `GlobalVarAST::codegen`: a zero-initialised
scalar when `Size` is zero, a zero-initialised array otherwise. -/
def GlobalVarAST.codegen (G : GlobalVarAST) : Gen GlobalVariable := fun s =>
  let T : IRType := if G.Size = 0 then .DoubleTy else .ArrayTy (Int.toNat (G.Size % 2 ^ 64))
  let globVar : GlobalVariable := ⟨s.globals.length, (s.uniqueName G.Name).1, T⟩
  some (globVar, { s with
    globals := s.globals ++ [globVar],
    errs := s.errs ++ [.globalVariable globVar.id],
    LastUnique := (s.uniqueName G.Name).2 })

mutual
/-- Lowering of top-level items: `SeqAST::codegen` and the dispatch to the
function, prototype and global-variable generators. -/
def RootAST.codegen : RootAST → Gen (Option Value)
  | .SeqAST (some first) continuation => do
    let _ ← RootAST.codegen first
    let _ ← RootAST.codegenContinuation continuation
    return none
  | .SeqAST none none => return none
  | .SeqAST none (some continuation) => do
    let _ ← RootAST.codegen continuation
    return none
  | .FunctionAST F => do
    let function ← F.codegen
    return function.map fun F => Value.Function F.id
  | .PrototypeAST P => do
    let F ← P.codegen
    return some (Value.Function F.id)
  | .GlobalVarAST G => do
    let globVar ← G.codegen
    return some (Value.Global globVar.id)
/-- The call `continuation->codegen(drv)` of `SeqAST::codegen`, made without a
null check. -/
def RootAST.codegenContinuation : Option RootAST → Gen (Option Value)
  | none => Gen.undefined
  | some continuation => RootAST.codegen continuation
end

/-- The entry point, `driver::codegen`: lowers the root the parser left behind. -/
def driver.codegen (root : RootAST) : Gen Unit := do
  let _ ← root.codegen
  return ()

/-! ## Observations on the generated code -/

/-- A generator ran to completion, returned a non-null result, and the result and
final state pass the test `P`. -/
def Gen.succeedsWith {α : Type} (m : Gen (Option α)) (s : World) (P : α → World → Bool) : Bool :=
  match m s with
  | some (some a, s1) => P a s1
  | _ => false

/-- A generator ran to completion, returned `nullptr`, and the state it left passes
the test `P`. -/
def Gen.failsWith {α : Type} (m : Gen (Option α)) (s : World) (P : World → Bool) : Bool :=
  match m s with
  | some (none, s1) => P s1
  | _ => false

/-- The instruction is a store through the pointer `ptr`. -/
def Instr.storesInto (ptr : Value) : Instr → Bool
  | .store _ p => decide (p = ptr)
  | _ => false

/-- The stores of block `b` through the pointer `ptr`, in program order. -/
def World.storesInto (s : World) (b : Nat) (ptr : Value) : List Instr :=
  (s.blocks b).insts.filter (Instr.storesInto ptr)

/-- The state in which the statements of a block with definitions `Def` are lowered
when the block is entered in state `s`. -/
def scopeAfter (Def : List BindingAST) (s : World) : World :=
  match BlockAST.bindDefs Def [] s with
  | some (_, s1) => s1
  | none => World.empty

/-- The last instruction of a block. -/
def World.lastInst (s : World) (b : Nat) : Option Instr := (s.blocks b).insts.getLast?

/-- The blocks of function `f` that hold a branch to `target`. -/
def World.branchSources (s : World) (f target : Nat) : List Nat :=
  (s.functionBlocks f).filter fun b => (s.blocks b).insts.any fun i => decide (target ∈ i.successors)

/-- The number of branch instructions of function `f` that have `target` among
their destinations. -/
def World.branchCount (s : World) (f target : Nat) : Nat :=
  ((s.functionBlocks f).map fun b =>
    ((s.blocks b).insts.filter fun i => decide (target ∈ i.successors)).length).sum

/-- The state in which the body of `F` starts to be lowered when `F` is the first
item of a program. -/
def bodyEntry (F : FunctionAST) : World :=
  match F.prologue World.empty with
  | some (_, s) => s
  | none => World.empty

/-- The state in which the body of `F` starts to be lowered when the definition is
reached in state `s`. -/
def bodyEntryIn (s : World) (F : FunctionAST) : World :=
  match F.prologue s with
  | some (_, s1) => s1
  | none => World.empty

/-- The state in which the body of `F` starts to be lowered when the program is the
global-variable definition `G` followed by `F`. -/
def bodyEntryAfterGlobal (G : GlobalVarAST) (F : FunctionAST) : World :=
  match G.codegen World.empty with
  | some (_, s0) =>
    match F.prologue s0 with
    | some (_, s) => s
    | none => World.empty
  | none => World.empty

/-! ## Specification vocabulary -/

/-- Weakest precondition for partial correctness: every result the generator can
produce from `s` satisfies `Q`. -/
def Gen.wp {α : Type} (m : Gen α) (Q : α → World → Prop) (s : World) : Prop :=
  ∀ a s1, m s = some (a, s1) → Q a s1

/-- The generator relates every state to each state it can return in. -/
structure Gen.Rel (R : World → World → Prop) {α : Type} (m : Gen α) : Prop where
  out : ∀ s a s1, m s = some (a, s1) → R s s1

/-- The generator keeps the property `P` of the state, in whatever way it returns. -/
structure Gen.Inv (P : World → Prop) {α : Type} (m : Gen α) : Prop where
  out : ∀ s a s1, P s → m s = some (a, s1) → P s1

/-- The symbol table is the same in both states. -/
def SameNamedValues (s s1 : World) : Prop := s1.NamedValues = s.NamedValues

/-- What a generator that starts in `s` and stops in `s1` leaves alone: blocks are
only added, the insertion point stays or moves to a block created meanwhile, block
lists only grow at the end, the module keeps its functions and globals, and an
older block other than the insertion block of `s` keeps its instructions, at most
with new instructions in front of them. -/
structure Frame (s s1 : World) : Prop where
  numBlocks : s.numBlocks ≤ s1.numBlocks
  cur : s1.InsertBlock = s.InsertBlock ∨
    ∃ c, s1.InsertBlock = some c ∧ s.numBlocks ≤ c ∧ c < s1.numBlocks
  old : ∀ b, b < s.numBlocks → s.InsertBlock ≠ some b →
    ∃ pre, (s1.blocks b).insts = pre ++ (s.blocks b).insts
  layout : ∀ f, ∃ added, s1.functionBlocks f = s.functionBlocks f ++ added
  functions : s1.functions = s.functions
  globals : s1.globals = s.globals

/-- A block that ends with exactly one terminator and has none before it. -/
def Terminated (insts : List Instr) : Prop :=
  ∃ pre t, insts = pre ++ [t] ∧ t.isTerminator = true ∧ ∀ i ∈ pre, i.isTerminator = false

/-- A block without terminator. -/
def Unterminated (insts : List Instr) : Prop := ∀ i ∈ insts, i.isTerminator = false

/-- Shape of the control-flow graph of function `f` while it is being built. `T` are
the pending blocks (created, still detached, without terminator), `O` the blocks of the
function that are still open; every other block of the function is terminated,
and every branch target is a block of the function or a pending block. -/
structure CFG (s : World) (f : Nat) (T O : Set Nat) : Prop where
  bound : ∀ b ∈ s.functionBlocks f, b < s.numBlocks
  parent : ∀ b ∈ s.functionBlocks f, (s.blocks b).parent = some f
  pending : ∀ d ∈ T, d < s.numBlocks ∧ d ∉ s.functionBlocks f ∧ Unterminated (s.blocks d).insts
  opened : ∀ b ∈ O, b ∈ s.functionBlocks f ∧ Unterminated (s.blocks b).insts
  closed : ∀ b ∈ s.functionBlocks f, b ∉ O → Terminated (s.blocks b).insts ∧
    ∀ i ∈ (s.blocks b).insts, ∀ t ∈ i.successors, t ∈ s.functionBlocks f ∨ t ∈ T

/-- The state between two statements of function `f`: the insertion block is a
block of the function and its only open block; the blocks of `T` are created and
wait to be appended. -/
def Good (s : World) (f : Nat) (T : Set Nat) : Prop :=
  ∃ c, s.InsertBlock = some c ∧ CFG s f T {c}

/-- The code that stores the values `vs` at the sequential offsets `i`, `i + 1`, ...
of the array at `A`, given that `id` is the next free register: for each value one
address computation and one store through the address computed. -/
def elementStores (A : Value) : List Value → Nat → Nat → List Instr
  | [], _, _ => []
  | v :: vs, i, id =>
    .gep id A (.ConstantInt i) :: .store v (.Instruction id) :: elementStores A vs (i + 1) (id + 1)

/-- The state after the values `vs` have been stored at the sequential offsets `i`,
`i + 1`, ... of the array at `A`. -/
def World.storeElements (A : Value) : List Value → Nat → World → World
  | [], _, s => s
  | v :: vs, i, s =>
    World.storeElements A vs (i + 1)
      ((s.emit fun id => .gep id A (.ConstantInt i)).insert (.store v (.Instruction s.numValues)))

/-- The tree the parser builds for a program with the top-level items `items`, an
absent item being an empty `top`: the rule `program: top ";" program` nests to the
right and the rule `program: %empty` ends the chain with `SeqAST(nullptr, nullptr)`. -/
def programOf : List (Option RootAST) → RootAST
  | [] => .SeqAST none none
  | item :: rest => .SeqAST item (some (programOf rest))

/-- The items are generated one after the other, in the order of the list, each
present item once; an absent item is skipped, and the result of an item, failure
included, is ignored. There is a final state when every generation returns. -/
def runItems : List (Option RootAST) → World → Option World
  | [], s => some s
  | none :: rest, s => runItems rest s
  | some item :: rest, s =>
    match item.codegen s with
    | some (_, s1) => runItems rest s1
    | none => none

/-- The instruction that the `switch` of `BinaryExprAST::codegen` selects for an
operator tag with two operands; `none` for the unary `'n'` and for every tag the
`switch` does not list. -/
def twoOperandOpcode : Char → Option Opcode
  | '+' => some .FAdd
  | '-' => some .FSub
  | '*' => some .FMul
  | '/' => some .FDiv
  | '<' => some .FCmpULT
  | '>' => some .FCmpUGT
  | '=' => some .FCmpUEQ
  | 'a' => some .And
  | 'o' => some .Or
  | _ => none

/-- The arguments `Args` are lowered one after the other, from left to right,
starting in state `s`: each lowering succeeds, `vs` are the values returned, in
the order of the arguments, and `s1` is the state after the last one. -/
def LoweredInOrder : List ExprAST → World → List Value → World → Prop
  | [], s, vs, s1 => vs = [] ∧ s1 = s
  | arg :: Args, s, vs, s1 =>
    ∃ v s2 vs1, arg.codegen s = some (some v, s2) ∧ LoweredInOrder Args s2 vs1 s1 ∧ vs = v :: vs1

/-- What the lowering of a two-sided conditional did when, called in state `s`
with the condition generator `Cond` and the generators `TrueSide`, `FalseSide` of
its two sides, it returned `v` in state `s1` (`n1`, `n2`, `n3` are the names of
its three blocks). The condition ran from `s` to `sc` and returned `CondV`; the
three blocks were created, the first in the current function `f`, and the
conditional branch emitted; the first side ran in the first block from there to
`s3`, returned `TrueV` and ended in block `Pt`; the branch to the merge block was
inserted there, the second block appended to `f`, and the second side ran in it to
`s5`, returned `FalseV` and ended in block `Pf`; the branch to the merge block was
inserted there, the merge block appended and entered, and the phi created in it
with the edge `(TrueV, Pt)` added first and the edge `(FalseV, Pf)` second. So on
return the insertion block is the merge block, `v` is the phi that ends it, its
incoming edges are `(TrueV, Pt)` and `(FalseV, Pf)` in this order, and both `Pt`
and `Pf` end with the branch to the merge block. -/
def MergesTwoSides (n1 n2 n3 : String) (Cond TrueSide FalseSide : Gen (Option Value))
    (s s1 : World) (v : Value) : Prop :=
  ∃ CondV sc c f TrueV s3 Pt FalseV s5 Pf,
    Cond s = some (some CondV, sc) ∧ sc.InsertBlock = some c ∧
    (sc.blocks c).parent = some f ∧
    TrueSide (((((sc.createBlock n1 (some f)).createBlock n2 none).createBlock n3 none).insert
      (.condBr CondV sc.numBlocks (sc.numBlocks + 1))).setInsertPoint sc.numBlocks) =
        some (some TrueV, s3) ∧
    s3.InsertBlock = some Pt ∧
    FalseSide (((s3.insert (.br (sc.numBlocks + 2))).insertBlock f
      (sc.numBlocks + 1)).setInsertPoint (sc.numBlocks + 1)) = some (some FalseV, s5) ∧
    s5.InsertBlock = some Pf ∧
    s1 = (((((s5.insert (.br (sc.numBlocks + 2))).insertBlock f
      (sc.numBlocks + 2)).setInsertPoint (sc.numBlocks + 2)).emit fun id => .phi id []).addIncoming
        (sc.numBlocks + 2) s5.numValues TrueV Pt).addIncoming (sc.numBlocks + 2) s5.numValues
          FalseV Pf ∧
    v = .Instruction s5.numValues ∧
    s1.InsertBlock = some (sc.numBlocks + 2) ∧
    (s1.blocks (sc.numBlocks + 2)).insts.getLast? =
      some (.phi s5.numValues [(TrueV, Pt), (FalseV, Pf)]) ∧
    s1.lastInst Pt = some (.br (sc.numBlocks + 2)) ∧
    s1.lastInst Pf = some (.br (sc.numBlocks + 2)) ∧
    Pt ≠ Pf ∧ Pt ≠ sc.numBlocks + 2 ∧ Pf ≠ sc.numBlocks + 2

/-- Whether the instruction is a phi node. -/
def Instr.isPhi : Instr → Bool
  | .phi _ _ => true
  | _ => false

/-- The number of phi nodes in the blocks created so far. -/
def World.phis (s : World) : Nat :=
  ((List.range s.numBlocks).map fun b => ((s.blocks b).insts.filter Instr.isPhi).length).sum

/-- The generator leaves the number of phi nodes as it is. -/
def SamePhis (s s1 : World) : Prop := s1.phis = s.phis

mutual
/-- The number of conditional expressions in an expression. -/
def ExprAST.conditionals : ExprAST → Nat
  | .NumberExprAST _ => 0
  | .VariableExprAST _ => 0
  | .BinaryExprAST _ LHS RHS => ExprAST.conditionals LHS + ExprAST.conditionalsRHS RHS
  | .CallExprAST _ Args => ExprAST.conditionalsArgs Args
  | .ArrayExprAST _ Offset => ExprAST.conditionals Offset
  | .IfExprAST Cond TrueExp FalseExp =>
    1 + ExprAST.conditionals Cond + ExprAST.conditionals TrueExp + ExprAST.conditionals FalseExp
/-- The number of conditional expressions in an optional expression. -/
def ExprAST.conditionalsRHS : Option ExprAST → Nat
  | none => 0
  | some RHS => ExprAST.conditionals RHS
/-- The number of conditional expressions in a list of expressions. -/
def ExprAST.conditionalsArgs : List ExprAST → Nat
  | [] => 0
  | arg :: Args => ExprAST.conditionals arg + ExprAST.conditionalsArgs Args
end

/-- The number of conditional expressions in a definition. -/
def BindingAST.conditionals : BindingAST → Nat
  | .VarBindingAST _ Val => ExprAST.conditionalsRHS Val
  | .ArrayBindingAST _ _ Values => ExprAST.conditionalsArgs Values

/-- The number of conditional expressions in a list of definitions. -/
def BindingAST.conditionalsDefs : List BindingAST → Nat
  | [] => 0
  | d :: Def => d.conditionals + BindingAST.conditionalsDefs Def

/-- The number of conditional expressions in an assignment. -/
def AssignmentAST.conditionals (a : AssignmentAST) : Nat :=
  ExprAST.conditionalsRHS a.OffsetExpr + a.AssignExpr.conditionals

/-- The number of conditional expressions in the init part of a `for`. -/
def VarOperation.conditionals : VarOperation → Nat
  | .binding b => b.conditionals
  | .assignment a => a.conditionals

mutual
/-- The number of constructs of a statement that are lowered to three blocks:
conditional expressions, if-statements with else, while, do-while, for and
for-each statements. -/
def StmtAST.threeBlockNodes : StmtAST → Nat
  | .expr e => e.conditionals
  | .assignment a => a.conditionals
  | .BlockAST Def Stmts => BindingAST.conditionalsDefs Def + StmtAST.threeBlockNodesList Stmts
  | .IfStmtAST CondExpr TrueStmt (some ElseStmt) =>
    1 + CondExpr.conditionals + StmtAST.threeBlockNodes TrueStmt +
      StmtAST.threeBlockNodes ElseStmt
  | .IfStmtAST CondExpr TrueStmt none => CondExpr.conditionals + StmtAST.threeBlockNodes TrueStmt
  | .ForStmtAST InitExp CondExpr AssignExpr BodyStmt =>
    1 + InitExp.conditionals + CondExpr.conditionals + AssignExpr.conditionals +
      StmtAST.threeBlockNodes BodyStmt
  | .WhileStmtAST CondExpr BodyStmt => 1 + CondExpr.conditionals + StmtAST.threeBlockNodes BodyStmt
  | .DoWhileStmtAST BodyStmt CondExpr => 1 + StmtAST.threeBlockNodes BodyStmt + CondExpr.conditionals
  | .ForEachStmtAST _ _ BodyStmt => 1 + StmtAST.threeBlockNodes BodyStmt
/-- The number of three-block constructs in a list of statements. -/
def StmtAST.threeBlockNodesList : List StmtAST → Nat
  | [] => 0
  | st :: Stmts => StmtAST.threeBlockNodes st + StmtAST.threeBlockNodesList Stmts
end

mutual
/-- The number of if-statements without else in a statement. -/
def StmtAST.twoBlockNodes : StmtAST → Nat
  | .expr _ => 0
  | .assignment _ => 0
  | .BlockAST _ Stmts => StmtAST.twoBlockNodesList Stmts
  | .IfStmtAST _ TrueStmt (some ElseStmt) =>
    StmtAST.twoBlockNodes TrueStmt + StmtAST.twoBlockNodes ElseStmt
  | .IfStmtAST _ TrueStmt none => 1 + StmtAST.twoBlockNodes TrueStmt
  | .ForStmtAST _ _ _ BodyStmt => StmtAST.twoBlockNodes BodyStmt
  | .WhileStmtAST _ BodyStmt => StmtAST.twoBlockNodes BodyStmt
  | .DoWhileStmtAST BodyStmt _ => StmtAST.twoBlockNodes BodyStmt
  | .ForEachStmtAST _ _ BodyStmt => StmtAST.twoBlockNodes BodyStmt
/-- The number of if-statements without else in a list of statements. -/
def StmtAST.twoBlockNodesList : List StmtAST → Nat
  | [] => 0
  | st :: Stmts => StmtAST.twoBlockNodes st + StmtAST.twoBlockNodesList Stmts
end

/-- The insertion block is a block created so far that belongs to function `f`. -/
def InFunction (f : Nat) (s : World) : Prop :=
  ∃ c, s.InsertBlock = some c ∧ c < s.numBlocks ∧ (s.blocks c).parent = some f

/-- The step from `s` to `s1` creates no block, attaches none and leaves the
insertion point where it is. -/
structure Stays (s s1 : World) : Prop where
  functionBlocks : s1.functionBlocks = s.functionBlocks
  InsertBlock : s1.InsertBlock = s.InsertBlock
  numBlocks : s1.numBlocks = s.numBlocks
  parent : ∀ b, (s1.blocks b).parent = (s.blocks b).parent

/-- Between `s` and `s1` the block list of function `f` has grown by `k` blocks, and
in `s1` the insertion block is a block of `f`. -/
structure Reached (f : Nat) (s : World) (k : Nat) (s1 : World) : Prop where
  inFunction : InFunction f s1
  length : (s1.functionBlocks f).length = (s.functionBlocks f).length + k
  numBlocks : s.numBlocks ≤ s1.numBlocks

/-- The state in which `ForEachStmtAST::codegen` looks its array up, when it is
called in state `s` with the insertion block in function `f` whose entry block is
`e`: the three blocks of the loop are created, the first one appended to `f`; the
counter is allocated in the entry block, initialised with 0 and installed in the
symbol table under the counter name. -/
def ForEachStmtAST.atArrayCheck (IterName : String) (s : World) (f e : Nat) : World :=
  (((((s.createBlock "condstmt" (some f)).createBlock "loopstmt" none).createBlock "mergestmt"
    none).entryAlloca e .DoubleTy (ForEachStmtAST.getCounterName IterName)).insert
      (.store (.ConstantFP 0) (.Instruction s.numValues))).setNamedValue
        (ForEachStmtAST.getCounterName IterName) (some ⟨s.numValues, .DoubleTy⟩)

/-- The definitions `Def` are lowered one after the other, starting in state `s`:
each lowering succeeds, each definition is lowered in the state in which the names
of the definitions before it are installed, and its own name is installed after
it has been lowered. `As` is the storage returned, in the order of the definitions,
and `s1` the state after the last name is installed. -/
def DefinedInOrder : List BindingAST → World → List AllocaInst → World → Prop
  | [], s, As, s1 => As = [] ∧ s1 = s
  | d :: Def, s, As, s1 =>
    ∃ A s2 As1, d.codegen s = some (some A, s2) ∧
      DefinedInOrder Def (s2.setNamedValue d.getName (some A)) As1 s1 ∧ As = A :: As1

/-- The symbol table `nv` after the names of `Def` have been bound, in this order,
to the storage `As`. -/
def installed : List BindingAST → List AllocaInst → (String → Option AllocaInst) →
    String → Option AllocaInst
  | d :: Def, A :: As, nv => installed Def As (Function.update nv d.getName (some A))
  | _, _, nv => nv

/-- The block `{ var y = 1; var a = a + y; a }`. -/
def sampleShadowingBlock : StmtAST :=
  .BlockAST [.VarBindingAST "y" (some (.NumberExprAST 1)),
      .VarBindingAST "a" (some (.BinaryExprAST '+' (.VariableExprAST "a")
        (some (.VariableExprAST "y"))))]
    [.expr (.NumberExprAST 5), .expr (.VariableExprAST "a")]

/-- The name `n` is bound in the symbol table. -/
def Bound (n : String) (s : World) : Prop := (s.NamedValues n).isSome = true

/-- The block `B` exists, is not the insertion block and has no terminator. -/
def Kept (B : Nat) (s : World) : Prop :=
  B < s.numBlocks ∧ s.InsertBlock ≠ some B ∧ Unterminated (s.blocks B).insts

/-- The insertion block exists, belongs to function `f`, is the last block of the
block list of `f` and has no terminator. -/
def AtOpenEnd (f : Nat) (s : World) : Prop :=
  ∃ c, s.InsertBlock = some c ∧ c < s.numBlocks ∧ (s.blocks c).parent = some f ∧
    (s.functionBlocks f).getLast? = some c ∧ Unterminated (s.blocks c).insts

/-! ## Sample programs -/

/-- The expression `a < 1 ? 1 : 2`. -/
def sampleCondExp : ExprAST :=
  .IfExprAST (.BinaryExprAST '<' (.VariableExprAST "a") (some (.NumberExprAST 1)))
    (.NumberExprAST 1) (.NumberExprAST 2)

/-- The definition `def f(a) { st }`. -/
def sampleFunction (st : StmtAST) : FunctionAST :=
  ⟨⟨"f", ["a"], false⟩, .BlockAST [] [st]⟩

/-- The block `{ var x = 1; var x = 2; x }`. -/
def sampleDuplicateBlock : StmtAST :=
  .BlockAST [.VarBindingAST "x" (some (.NumberExprAST 1)), .VarBindingAST "x" (some (.NumberExprAST 2))]
    [.expr (.VariableExprAST "x")]

/-- The definition `def g() { 0 }`. -/
def sampleNoArgs : FunctionAST := ⟨⟨"g", [], false⟩, .BlockAST [] [.expr (.NumberExprAST 0)]⟩

/-- The statement `do { if (a < 1) 1 else 2 } while (a < 3)`. -/
def sampleDoWhileIf : StmtAST :=
  .DoWhileStmtAST
    (.IfStmtAST (.BinaryExprAST '<' (.VariableExprAST "a") (some (.NumberExprAST 1)))
      (.expr (.NumberExprAST 1)) (some (.expr (.NumberExprAST 2))))
    (.BinaryExprAST '<' (.VariableExprAST "a") (some (.NumberExprAST 3)))

/-- The statement `if ((a < 1 ? 1 : 2) < 2) a`, without else-branch. -/
def sampleIfNoElse : StmtAST :=
  .IfStmtAST (.BinaryExprAST '<' sampleCondExp (some (.NumberExprAST 2)))
    (.expr (.VariableExprAST "a")) none

/-- The statement `do { a < 1 ? 1 : 2 } while (a < 3)`. -/
def sampleDoWhile : StmtAST :=
  .DoWhileStmtAST (.expr sampleCondExp)
    (.BinaryExprAST '<' (.VariableExprAST "a") (some (.NumberExprAST 3)))

/-- The statement `while ((a < 1 ? 1 : 2) < 2) a`. -/
def sampleWhile : StmtAST :=
  .WhileStmtAST (.BinaryExprAST '<' sampleCondExp (some (.NumberExprAST 2)))
    (.expr (.VariableExprAST "a"))

/-- The statement `for (a = 0; (a < 1 ? 1 : 2) < 2; a = a + 1) a`. -/
def sampleFor : StmtAST :=
  .ForStmtAST (.assignment ⟨"a", none, .NumberExprAST 0⟩)
    (.BinaryExprAST '<' sampleCondExp (some (.NumberExprAST 2)))
    ⟨"a", none, .BinaryExprAST '+' (.VariableExprAST "a") (some (.NumberExprAST 1))⟩
    (.expr (.VariableExprAST "a"))

/-- The statement `for (var a = 0; a < 3; a = a + 1) a`. -/
def sampleForBinding : StmtAST :=
  .ForStmtAST (.binding (.VarBindingAST "a" (some (.NumberExprAST 0))))
    (.BinaryExprAST '<' (.VariableExprAST "a") (some (.NumberExprAST 3)))
    ⟨"a", none, .BinaryExprAST '+' (.VariableExprAST "a") (some (.NumberExprAST 1))⟩
    (.expr (.VariableExprAST "a"))

/-- The expression `a < 1 ? (a < 2 ? 1 : 2) : 3`, whose true side creates blocks. -/
def sampleNestedCondExp : ExprAST :=
  .IfExprAST (.BinaryExprAST '<' (.VariableExprAST "a") (some (.NumberExprAST 1)))
    (.IfExprAST (.BinaryExprAST '<' (.VariableExprAST "a") (some (.NumberExprAST 2)))
      (.NumberExprAST 1) (.NumberExprAST 2))
    (.NumberExprAST 3)

/-- The statement `if (a < 1) 3 else { if (a < 2) 1 else 2 }`, whose else side
creates blocks. -/
def sampleNestedIfElse : StmtAST :=
  .IfStmtAST (.BinaryExprAST '<' (.VariableExprAST "a") (some (.NumberExprAST 1)))
    (.expr (.NumberExprAST 3))
    (some (.IfStmtAST (.BinaryExprAST '<' (.VariableExprAST "a") (some (.NumberExprAST 2)))
      (.expr (.NumberExprAST 1)) (some (.expr (.NumberExprAST 2)))))

/-- The state at the start of the body of `f` in the program
`global g; def f(a) { 0 }`: `a` is a parameter, `g` a global scalar. -/
def sampleScope : World :=
  bodyEntryAfterGlobal ⟨"g", 0⟩ (sampleFunction (.expr (.NumberExprAST 0)))

/-- The state at the start of the body of `h` in the program `def h(a b) { 0 }`. -/
def sampleTwoParams : World :=
  bodyEntry ⟨⟨"h", ["a", "b"], false⟩, .BlockAST [] [.expr (.NumberExprAST 0)]⟩

/-- The state in which the statements of the block
`{ var A[2]; var x = 7; ... }` are lowered when the block is the body of `def g()`:
`A` is an array of two elements and `x` a scalar. -/
def sampleArrayScope : World :=
  match BlockAST.bindDefs [.ArrayBindingAST "A" 2 [], .VarBindingAST "x" (some (.NumberExprAST 7))]
      [] (bodyEntry sampleNoArgs) with
  | some (_, s) => s
  | none => World.empty

/-- The for-each over the array `A` with iterator `x` and body
`{ var x = 1; var x = 2; x }`. -/
def sampleForEach : StmtAST := .ForEachStmtAST "x" "A" sampleDuplicateBlock

/-- The state in which the statements of `{ var x_counter[3]; ... }` are lowered
when the block is the body of `def g()`. -/
def sampleCounterArrayScope : World :=
  scopeAfter [.ArrayBindingAST "x_counter" 3 []] (bodyEntry sampleNoArgs)

/-- The for-each over the array `x_counter` with iterator `x` and body `x`. -/
def sampleForEachOverCounter : StmtAST :=
  .ForEachStmtAST "x" "x_counter" (.expr (.VariableExprAST "x"))

/-- The state in which the statements of `{ var A[2147483648]; ... }` are lowered
when the block is the body of `def g()`. -/
def sampleHugeArrayScope : World :=
  scopeAfter [.ArrayBindingAST "A" 2147483648 []] (bodyEntry sampleNoArgs)

/-- The expression `((a < 1 ? 1 : 2) < 2) ? (a < 1 ? 1 : 2) : 3`, whose condition and
whose first side create blocks. -/
def sampleCondInCond : ExprAST :=
  .IfExprAST (.BinaryExprAST '<' sampleCondExp (some (.NumberExprAST 2))) sampleCondExp
    (.NumberExprAST 3)

/-- The definition `def f(x) { var y = x + 1; y * 2 }`. -/
def sampleRoundTrip : FunctionAST :=
  ⟨⟨"f", ["x"], false⟩,
   .BlockAST
     [.VarBindingAST "y" (some (.BinaryExprAST '+' (.VariableExprAST "x")
       (some (.NumberExprAST 1))))]
     [.expr (.BinaryExprAST '*' (.VariableExprAST "y") (some (.NumberExprAST 2)))]⟩

/-- The block `{ var g = 1; var g = 2; g }`. -/
def sampleDuplicateGlobalName : StmtAST :=
  .BlockAST [.VarBindingAST "g" (some (.NumberExprAST 1)),
      .VarBindingAST "g" (some (.NumberExprAST 2))]
    [.expr (.VariableExprAST "g")]

/-- The block `{ var x = 1; z }`. -/
def sampleFailingBlock : StmtAST :=
  .BlockAST [.VarBindingAST "x" (some (.NumberExprAST 1))] [.expr (.VariableExprAST "z")]

/-! # Theorems -/

/-! ## The generator monad -/

theorem Gen.succeedsWith_iff {α : Type} (m : Gen (Option α)) (s : World) (P : α → World → Bool) :
    m.succeedsWith s P = true ↔ ∃ a s1, m s = some (some a, s1) ∧ P a s1 = true := by
  unfold Gen.succeedsWith
  split
  · next a s1 h =>
    constructor
    · intro hP; exact ⟨a, s1, h, hP⟩
    · rintro ⟨a1, s2, h1, hP⟩
      rw [h] at h1
      simp only [Option.some.injEq, Prod.mk.injEq] at h1
      obtain ⟨rfl, rfl⟩ := h1
      exact hP
  · next h =>
    simp only [Bool.false_eq_true, false_iff, not_exists, not_and]
    intro a s1 h1; exact absurd h1 (h a s1)

theorem Gen.failsWith_iff {α : Type} (m : Gen (Option α)) (s : World) (P : World → Bool) :
    m.failsWith s P = true ↔ ∃ s1, m s = some (none, s1) ∧ P s1 = true := by
  unfold Gen.failsWith
  split
  · next s1 h =>
    constructor
    · intro hP; exact ⟨s1, h, hP⟩
    · rintro ⟨s2, h1, hP⟩
      rw [h] at h1
      simp only [Option.some.injEq, Prod.mk.injEq, true_and] at h1
      subst h1
      exact hP
  · next h =>
    simp only [Bool.false_eq_true, false_iff, not_exists, not_and]
    intro s1 h1; exact absurd h1 (h s1)

/-! ## Effect of the backend operations on the fields of the state -/

section fields
variable (s : World)

@[simp] theorem World.append_NamedValues (b : Nat) (i : Instr) :
    (s.append b i).NamedValues = s.NamedValues := rfl
@[simp] theorem World.append_numBlocks (b : Nat) (i : Instr) :
    (s.append b i).numBlocks = s.numBlocks := rfl
@[simp] theorem World.append_InsertBlock (b : Nat) (i : Instr) :
    (s.append b i).InsertBlock = s.InsertBlock := rfl
@[simp] theorem World.append_functionBlocks (b : Nat) (i : Instr) :
    (s.append b i).functionBlocks = s.functionBlocks := rfl
@[simp] theorem World.append_functions (b : Nat) (i : Instr) :
    (s.append b i).functions = s.functions := rfl
@[simp] theorem World.append_globals (b : Nat) (i : Instr) :
    (s.append b i).globals = s.globals := rfl
@[simp] theorem World.append_numValues (b : Nat) (i : Instr) :
    (s.append b i).numValues = s.numValues := rfl

@[simp] theorem World.insert_NamedValues (i : Instr) : (s.insert i).NamedValues = s.NamedValues := by
  unfold World.insert; split <;> rfl
@[simp] theorem World.insert_numBlocks (i : Instr) : (s.insert i).numBlocks = s.numBlocks := by
  unfold World.insert; split <;> rfl
@[simp] theorem World.insert_InsertBlock (i : Instr) : (s.insert i).InsertBlock = s.InsertBlock := by
  unfold World.insert; split <;> rfl
@[simp] theorem World.insert_functionBlocks (i : Instr) :
    (s.insert i).functionBlocks = s.functionBlocks := by
  unfold World.insert; split <;> rfl
@[simp] theorem World.insert_functions (i : Instr) : (s.insert i).functions = s.functions := by
  unfold World.insert; split <;> rfl
@[simp] theorem World.insert_globals (i : Instr) : (s.insert i).globals = s.globals := by
  unfold World.insert; split <;> rfl
@[simp] theorem World.insert_numValues (i : Instr) : (s.insert i).numValues = s.numValues := by
  unfold World.insert; split <;> rfl

theorem World.insert_blocks_of_ne (i : Instr) (b : Nat) (h : s.InsertBlock ≠ some b) :
    (s.insert i).blocks b = s.blocks b := by
  unfold World.insert
  split
  · next c hc =>
    have : b ≠ c := fun e => h (e ▸ hc)
    simp [World.append, Function.update_noteq this]
  · rfl

theorem World.insert_insts_self (i : Instr) (c : Nat) (h : s.InsertBlock = some c) :
    ((s.insert i).blocks c).insts = (s.blocks c).insts ++ [i] := by
  unfold World.insert
  rw [h]
  simp [World.append]

theorem World.insert_parent (i : Instr) (b : Nat) :
    ((s.insert i).blocks b).parent = (s.blocks b).parent := by
  unfold World.insert
  split
  · next c hc =>
    by_cases e : b = c
    · subst e; simp [World.append]
    · simp [World.append, Function.update_noteq e]
  · rfl

@[simp] theorem World.emit_NamedValues (mk : Nat → Instr) : (s.emit mk).NamedValues = s.NamedValues := by
  simp [World.emit]
@[simp] theorem World.emit_numBlocks (mk : Nat → Instr) : (s.emit mk).numBlocks = s.numBlocks := by
  simp [World.emit]
@[simp] theorem World.emit_InsertBlock (mk : Nat → Instr) : (s.emit mk).InsertBlock = s.InsertBlock := by
  simp [World.emit]
@[simp] theorem World.emit_functionBlocks (mk : Nat → Instr) :
    (s.emit mk).functionBlocks = s.functionBlocks := by
  simp [World.emit]
@[simp] theorem World.emit_functions (mk : Nat → Instr) : (s.emit mk).functions = s.functions := by
  simp [World.emit]
@[simp] theorem World.emit_globals (mk : Nat → Instr) : (s.emit mk).globals = s.globals := by
  simp [World.emit]

theorem World.emit_blocks_of_ne (mk : Nat → Instr) (b : Nat) (h : s.InsertBlock ≠ some b) :
    (s.emit mk).blocks b = s.blocks b := by
  unfold World.emit
  rw [World.insert_blocks_of_ne _ _ _ (by simpa using h)]

theorem World.emit_insts_self (mk : Nat → Instr) (c : Nat) (h : s.InsertBlock = some c) :
    ((s.emit mk).blocks c).insts = (s.blocks c).insts ++ [mk s.numValues] := by
  unfold World.emit
  rw [World.insert_insts_self _ _ _ (by simpa using h)]

theorem World.emit_parent (mk : Nat → Instr) (b : Nat) :
    ((s.emit mk).blocks b).parent = (s.blocks b).parent := by
  unfold World.emit
  rw [World.insert_parent]

@[simp] theorem World.logError_NamedValues (m : String) : (s.logError m).NamedValues = s.NamedValues := rfl
@[simp] theorem World.logError_numBlocks (m : String) : (s.logError m).numBlocks = s.numBlocks := rfl
@[simp] theorem World.logError_InsertBlock (m : String) : (s.logError m).InsertBlock = s.InsertBlock := rfl
@[simp] theorem World.logError_functionBlocks (m : String) :
    (s.logError m).functionBlocks = s.functionBlocks := rfl
@[simp] theorem World.logError_functions (m : String) : (s.logError m).functions = s.functions := rfl
@[simp] theorem World.logError_globals (m : String) : (s.logError m).globals = s.globals := rfl
@[simp] theorem World.logError_blocks (m : String) : (s.logError m).blocks = s.blocks := rfl

@[simp] theorem World.setNamedValue_apply (n : String) (A : Option AllocaInst) (k : String) :
    (s.setNamedValue n A).NamedValues k = if k = n then A else s.NamedValues k := by
  simp [World.setNamedValue, Function.update_apply]
@[simp] theorem World.setNamedValue_numBlocks (n : String) (A : Option AllocaInst) :
    (s.setNamedValue n A).numBlocks = s.numBlocks := rfl
@[simp] theorem World.setNamedValue_InsertBlock (n : String) (A : Option AllocaInst) :
    (s.setNamedValue n A).InsertBlock = s.InsertBlock := rfl
@[simp] theorem World.setNamedValue_functionBlocks (n : String) (A : Option AllocaInst) :
    (s.setNamedValue n A).functionBlocks = s.functionBlocks := rfl
@[simp] theorem World.setNamedValue_functions (n : String) (A : Option AllocaInst) :
    (s.setNamedValue n A).functions = s.functions := rfl
@[simp] theorem World.setNamedValue_globals (n : String) (A : Option AllocaInst) :
    (s.setNamedValue n A).globals = s.globals := rfl
@[simp] theorem World.setNamedValue_blocks (n : String) (A : Option AllocaInst) :
    (s.setNamedValue n A).blocks = s.blocks := rfl

@[simp] theorem World.createBlock_NamedValues (n : String) (p : Option Nat) :
    (s.createBlock n p).NamedValues = s.NamedValues := by
  unfold World.createBlock; split <;> rfl
@[simp] theorem World.createBlock_numBlocks (n : String) (p : Option Nat) :
    (s.createBlock n p).numBlocks = s.numBlocks + 1 := by
  unfold World.createBlock; split <;> rfl
@[simp] theorem World.createBlock_InsertBlock (n : String) (p : Option Nat) :
    (s.createBlock n p).InsertBlock = s.InsertBlock := by
  unfold World.createBlock; split <;> rfl
@[simp] theorem World.createBlock_functions (n : String) (p : Option Nat) :
    (s.createBlock n p).functions = s.functions := by
  unfold World.createBlock; split <;> rfl
@[simp] theorem World.createBlock_globals (n : String) (p : Option Nat) :
    (s.createBlock n p).globals = s.globals := by
  unfold World.createBlock; split <;> rfl
@[simp] theorem World.createBlock_blocks (n : String) (p : Option Nat) :
    (s.createBlock n p).blocks = Function.update s.blocks s.numBlocks ⟨n, p, []⟩ := by
  unfold World.createBlock; split <;> rfl
@[simp] theorem World.createBlock_none_functionBlocks (n : String) :
    (s.createBlock n none).functionBlocks = s.functionBlocks := rfl
@[simp] theorem World.createBlock_some_functionBlocks (n : String) (f : Nat) :
    (s.createBlock n (some f)).functionBlocks =
      Function.update s.functionBlocks f (s.functionBlocks f ++ [s.numBlocks]) := rfl

@[simp] theorem World.insertBlock_NamedValues (f BB : Nat) :
    (s.insertBlock f BB).NamedValues = s.NamedValues := rfl
@[simp] theorem World.insertBlock_numBlocks (f BB : Nat) :
    (s.insertBlock f BB).numBlocks = s.numBlocks := rfl
@[simp] theorem World.insertBlock_InsertBlock (f BB : Nat) :
    (s.insertBlock f BB).InsertBlock = s.InsertBlock := rfl
@[simp] theorem World.insertBlock_functions (f BB : Nat) :
    (s.insertBlock f BB).functions = s.functions := rfl
@[simp] theorem World.insertBlock_globals (f BB : Nat) :
    (s.insertBlock f BB).globals = s.globals := rfl
@[simp] theorem World.insertBlock_functionBlocks (f BB : Nat) :
    (s.insertBlock f BB).functionBlocks =
      Function.update s.functionBlocks f (s.functionBlocks f ++ [BB]) := rfl
@[simp] theorem World.insertBlock_insts (f BB b : Nat) :
    ((s.insertBlock f BB).blocks b).insts = (s.blocks b).insts := by
  by_cases e : b = BB
  · subst e; simp [World.insertBlock]
  · simp [World.insertBlock, Function.update_noteq e]
theorem World.insertBlock_parent (f BB b : Nat) :
    ((s.insertBlock f BB).blocks b).parent = if b = BB then some f else (s.blocks b).parent := by
  by_cases e : b = BB
  · subst e; simp [World.insertBlock]
  · simp [World.insertBlock, Function.update_noteq e, e]

@[simp] theorem World.setInsertPoint_NamedValues (BB : Nat) :
    (s.setInsertPoint BB).NamedValues = s.NamedValues := rfl
@[simp] theorem World.setInsertPoint_numBlocks (BB : Nat) :
    (s.setInsertPoint BB).numBlocks = s.numBlocks := rfl
@[simp] theorem World.setInsertPoint_InsertBlock (BB : Nat) :
    (s.setInsertPoint BB).InsertBlock = some BB := rfl
@[simp] theorem World.setInsertPoint_functionBlocks (BB : Nat) :
    (s.setInsertPoint BB).functionBlocks = s.functionBlocks := rfl
@[simp] theorem World.setInsertPoint_functions (BB : Nat) :
    (s.setInsertPoint BB).functions = s.functions := rfl
@[simp] theorem World.setInsertPoint_globals (BB : Nat) :
    (s.setInsertPoint BB).globals = s.globals := rfl
@[simp] theorem World.setInsertPoint_blocks (BB : Nat) :
    (s.setInsertPoint BB).blocks = s.blocks := rfl

@[simp] theorem World.entryAlloca_NamedValues (e : Nat) (T : IRType) (n : String) :
    (s.entryAlloca e T n).NamedValues = s.NamedValues := rfl
@[simp] theorem World.entryAlloca_numBlocks (e : Nat) (T : IRType) (n : String) :
    (s.entryAlloca e T n).numBlocks = s.numBlocks := rfl
@[simp] theorem World.entryAlloca_InsertBlock (e : Nat) (T : IRType) (n : String) :
    (s.entryAlloca e T n).InsertBlock = s.InsertBlock := rfl
@[simp] theorem World.entryAlloca_functionBlocks (e : Nat) (T : IRType) (n : String) :
    (s.entryAlloca e T n).functionBlocks = s.functionBlocks := rfl
@[simp] theorem World.entryAlloca_functions (e : Nat) (T : IRType) (n : String) :
    (s.entryAlloca e T n).functions = s.functions := rfl
@[simp] theorem World.entryAlloca_globals (e : Nat) (T : IRType) (n : String) :
    (s.entryAlloca e T n).globals = s.globals := rfl
theorem World.entryAlloca_insts (e : Nat) (T : IRType) (n : String) (b : Nat) :
    ((s.entryAlloca e T n).blocks b).insts =
      if b = e then .alloca s.numValues T n :: (s.blocks b).insts else (s.blocks b).insts := by
  by_cases h : b = e
  · subst h; simp [World.entryAlloca]
  · simp [World.entryAlloca, Function.update_noteq h, h]
@[simp] theorem World.entryAlloca_parent (e : Nat) (T : IRType) (n : String) (b : Nat) :
    ((s.entryAlloca e T n).blocks b).parent = (s.blocks b).parent := by
  by_cases h : b = e
  · subst h; simp [World.entryAlloca]
  · simp [World.entryAlloca, Function.update_noteq h]

@[simp] theorem World.addIncoming_NamedValues (b id : Nat) (V : Value) (BB : Nat) :
    (s.addIncoming b id V BB).NamedValues = s.NamedValues := rfl
@[simp] theorem World.addIncoming_numBlocks (b id : Nat) (V : Value) (BB : Nat) :
    (s.addIncoming b id V BB).numBlocks = s.numBlocks := rfl
@[simp] theorem World.addIncoming_InsertBlock (b id : Nat) (V : Value) (BB : Nat) :
    (s.addIncoming b id V BB).InsertBlock = s.InsertBlock := rfl
@[simp] theorem World.addIncoming_functionBlocks (b id : Nat) (V : Value) (BB : Nat) :
    (s.addIncoming b id V BB).functionBlocks = s.functionBlocks := rfl
@[simp] theorem World.addIncoming_functions (b id : Nat) (V : Value) (BB : Nat) :
    (s.addIncoming b id V BB).functions = s.functions := rfl
@[simp] theorem World.addIncoming_globals (b id : Nat) (V : Value) (BB : Nat) :
    (s.addIncoming b id V BB).globals = s.globals := rfl
theorem World.addIncoming_insts (b id : Nat) (V : Value) (BB : Nat) (k : Nat) :
    ((s.addIncoming b id V BB).blocks k).insts =
      if k = b then (s.blocks k).insts.map (Instr.addIncoming id V BB) else (s.blocks k).insts := by
  by_cases h : k = b
  · subst h; simp [World.addIncoming]
  · simp [World.addIncoming, Function.update_noteq h, h]
@[simp] theorem World.addIncoming_parent (b id : Nat) (V : Value) (BB : Nat) (k : Nat) :
    ((s.addIncoming b id V BB).blocks k).parent = (s.blocks k).parent := by
  by_cases h : k = b
  · subst h; simp [World.addIncoming]
  · simp [World.addIncoming, Function.update_noteq h]

end fields

/-! ## Rules of the weakest precondition -/

theorem Gen.wp_pure {α : Type} (a : α) (Q : α → World → Prop) (s : World) :
    (Pure.pure a : Gen α).wp Q s ↔ Q a s := by
  simp [Gen.wp, Pure.pure, Gen.pure]

theorem Gen.wp_bind {α β : Type} (m : Gen α) (f : α → Gen β) (Q : β → World → Prop) (s : World) :
    (m >>= f).wp Q s ↔ m.wp (fun a s1 => (f a).wp Q s1) s := by
  simp only [Gen.wp, Bind.bind, Gen.bind]
  cases m s with
  | none => simp
  | some p => obtain ⟨a, s1⟩ := p; simp

theorem Gen.wp_map {α β : Type} (m : Gen α) (f : α → β) (Q : β → World → Prop) (s : World) :
    (f <$> m).wp Q s ↔ m.wp (fun a s1 => Q (f a) s1) s := by
  simp only [Gen.wp, Functor.map, Gen.bind, Function.comp]
  cases m s with
  | none => simp
  | some p => obtain ⟨a, s1⟩ := p; simp [Gen.pure]

theorem Gen.wp_mono {α : Type} {m : Gen α} {P Q : α → World → Prop} {s : World}
    (h : m.wp P s) (hPQ : ∀ a s1, P a s1 → Q a s1) : m.wp Q s :=
  fun a s1 h1 => hPQ a s1 (h a s1 h1)

theorem Gen.wp_and {α : Type} {m : Gen α} {P Q : α → World → Prop} {s : World}
    (hP : m.wp P s) (hQ : m.wp Q s) : m.wp (fun a s1 => P a s1 ∧ Q a s1) s :=
  fun a s1 h1 => ⟨hP a s1 h1, hQ a s1 h1⟩

theorem Gen.wp_of_eq {α : Type} {m : Gen α} {s : World} {a : α} {s1 : World}
    (h : m s = some (a, s1)) (Q : α → World → Prop) : m.wp Q s ↔ Q a s1 :=
  ⟨fun H => H a s1 h, fun H b s2 e => by rw [h] at e; cases e; exact H⟩

theorem Gen.wp_of_none {α : Type} {m : Gen α} {s : World}
    (h : m s = none) (Q : α → World → Prop) : m.wp Q s ↔ True :=
  ⟨fun _ => trivial, fun _ b s2 e => by rw [h] at e; cases e⟩

theorem Gen.wp_undefined {α : Type} (Q : α → World → Prop) (s : World) :
    (Gen.undefined : Gen α).wp Q s ↔ True := by
  simp [Gen.wp, Gen.undefined]

theorem Gen.wp_deref {α : Type} (o : Option α) (Q : α → World → Prop) (s : World) :
    (Gen.deref o).wp Q s ↔ ∀ a, o = some a → Q a s := by
  cases o <;> simp [Gen.wp, Gen.deref, Gen.undefined, Gen.pure]

theorem wp_emitValue (mk : Nat → Instr) (Q : Value → World → Prop) (s : World) :
    (emitValue mk).wp Q s ↔ Q (.Instruction s.numValues) (s.emit mk) := by
  simp [Gen.wp, emitValue]

theorem wp_emitVoid (i : Instr) (Q : Unit → World → Prop) (s : World) :
    (emitVoid i).wp Q s ↔ Q () (s.insert i) :=
  Gen.wp_of_eq rfl Q

theorem wp_LogErrorV {α : Type} (m : String) (Q : Option α → World → Prop) (s : World) :
    (LogErrorV m).wp Q s ↔ Q none (s.logError m) := by
  simp [Gen.wp, LogErrorV]

theorem wp_printOp (Op : Char) (Q : Unit → World → Prop) (s : World) :
    (printOp Op).wp Q s ↔ Q () { s with cout := s.cout ++ [Op] } :=
  Gen.wp_of_eq rfl Q

theorem wp_getNamedValue (n : String) (Q : Option AllocaInst → World → Prop) (s : World) :
    (getNamedValue n).wp Q s ↔ Q (s.NamedValues n) s := by
  simp [Gen.wp, getNamedValue]

theorem wp_setNamedValue (n : String) (A : Option AllocaInst) (Q : Unit → World → Prop)
    (s : World) : (setNamedValue n A).wp Q s ↔ Q () (s.setNamedValue n A) :=
  Gen.wp_of_eq rfl Q

theorem wp_getNamedGlobal (n : String) (Q : Option GlobalVariable → World → Prop) (s : World) :
    (getNamedGlobal n).wp Q s ↔ Q (s.globals.find? (fun G => G.Name = n)) s := by
  simp [Gen.wp, getNamedGlobal]

theorem wp_getFunction (n : String) (Q : Option Function → World → Prop) (s : World) :
    (getFunction n).wp Q s ↔ Q (s.functions.find? (fun G => G.Name = n)) s := by
  simp [Gen.wp, getFunction]

theorem wp_GetInsertBlock (Q : Nat → World → Prop) (s : World) :
    GetInsertBlock.wp Q s ↔ ∀ b, s.InsertBlock = some b → Q b s := by
  simp only [Gen.wp, GetInsertBlock]
  cases s.InsertBlock <;> simp

theorem wp_GetInsertBlockParent (Q : Option Nat → World → Prop) (s : World) :
    GetInsertBlockParent.wp Q s ↔ ∀ b, s.InsertBlock = some b → Q (s.blocks b).parent s := by
  simp only [Gen.wp, GetInsertBlockParent]
  cases s.InsertBlock <;> simp

theorem wp_Create (n : String) (p : Option Nat) (Q : Nat → World → Prop) (s : World) :
    (BasicBlock.Create n p).wp Q s ↔ Q s.numBlocks (s.createBlock n p) := by
  simp [Gen.wp, BasicBlock.Create]

theorem wp_Function_insert (fn : Option Nat) (BB : Nat) (Q : Unit → World → Prop) (s : World) :
    (Function.insert fn BB).wp Q s ↔ ∀ f, fn = some f → Q () (s.insertBlock f BB) := by
  cases fn with
  | none => simp [Gen.wp, Function.insert]
  | some f =>
    rw [Gen.wp_of_eq (show Function.insert (some f) BB s = some ((), s.insertBlock f BB) from rfl)]
    simp

theorem wp_SetInsertPoint (BB : Nat) (Q : Unit → World → Prop) (s : World) :
    (SetInsertPoint BB).wp Q s ↔ Q () (s.setInsertPoint BB) :=
  Gen.wp_of_eq rfl Q

theorem wp_CreateEntryBlockAlloca (fn : Option Nat) (n : String) (T : IRType)
    (Q : AllocaInst → World → Prop) (s : World) :
    (CreateEntryBlockAlloca fn n T).wp Q s ↔
      ∀ f e, fn = some f → (s.functionBlocks f).head? = some e →
        Q ⟨s.numValues, T⟩ (s.entryAlloca e T n) := by
  cases fn with
  | none => simp [Gen.wp, CreateEntryBlockAlloca]
  | some f =>
    cases hh : (s.functionBlocks f).head? with
    | none =>
      rw [Gen.wp_of_none (show CreateEntryBlockAlloca (some f) n T s = none by
        simp [CreateEntryBlockAlloca, hh])]
      simp only [Option.some.injEq, true_iff]
      intro f1 e hf he; subst hf; rw [hh] at he; cases he
    | some e =>
      rw [Gen.wp_of_eq (show CreateEntryBlockAlloca (some f) n T s =
        some (⟨s.numValues, T⟩, s.entryAlloca e T n) by simp [CreateEntryBlockAlloca, hh])]
      constructor
      · intro h f1 e1 hf he; cases hf; rw [hh] at he; cases he; exact h
      · intro h; exact h f e rfl hh

theorem wp_CreatePHI (Q : PHINode → World → Prop) (s : World) :
    CreatePHI.wp Q s ↔ Q ⟨s.InsertBlock, s.numValues⟩ (s.emit fun id => .phi id []) := by
  simp [Gen.wp, CreatePHI]

theorem wp_addIncoming (PN : PHINode) (V : Value) (BB : Nat) (Q : Unit → World → Prop)
    (s : World) :
    (PN.addIncoming V BB).wp Q s ↔
      (PN.block = none → Q () s) ∧ ∀ b, PN.block = some b → Q () (s.addIncoming b PN.id V BB) := by
  cases hb : PN.block with
  | none =>
    rw [Gen.wp_of_eq (show PN.addIncoming V BB s = some ((), s) by simp [PHINode.addIncoming, hb])]
    simp
  | some b =>
    rw [Gen.wp_of_eq (show PN.addIncoming V BB s = some ((), s.addIncoming b PN.id V BB) by
      simp [PHINode.addIncoming, hb])]
    simp

/-! ## Generators that keep a relation between entry and exit -/

theorem Gen.Rel.bind {R : World → World → Prop} (htrans : ∀ a b c, R a b → R b c → R a c)
    {α β : Type} {m : Gen α} {f : α → Gen β}
    (hm : Gen.Rel R m) (hf : ∀ a, Gen.Rel R (f a)) : Gen.Rel R (m >>= f) := by
  refine ⟨fun s b s1 h => ?_⟩
  simp only [Bind.bind, Gen.bind] at h
  cases hms : m s with
  | none => simp [hms] at h
  | some p =>
    obtain ⟨a, s2⟩ := p
    simp only [hms] at h
    exact htrans _ _ _ (hm.out _ _ _ hms) ((hf a).out _ _ _ h)

theorem Gen.Rel.pure {R : World → World → Prop} (hrefl : ∀ a, R a a)
    {α : Type} (a : α) : Gen.Rel R (Pure.pure a : Gen α) := by
  refine ⟨fun s b s1 h => ?_⟩
  simp only [Pure.pure, Gen.pure, Option.some.injEq, Prod.mk.injEq] at h
  rw [← h.2]; exact hrefl _

theorem Gen.Rel.map {R : World → World → Prop} {α β : Type} {m : Gen α} (f : α → β)
    (hm : Gen.Rel R m) : Gen.Rel R (f <$> m) := by
  refine ⟨fun s b s1 h => ?_⟩
  simp only [Functor.map, Gen.bind] at h
  cases hms : m s with
  | none => simp [hms] at h
  | some p =>
    obtain ⟨a, s2⟩ := p
    simp only [hms, Function.comp, Gen.pure, Option.some.injEq, Prod.mk.injEq] at h
    rw [← h.2]; exact hm.out _ _ _ hms

theorem Gen.Rel.undefined {R : World → World → Prop} {α : Type} :
    Gen.Rel R (Gen.undefined : Gen α) :=
  ⟨fun s a s1 h => by simp [Gen.undefined] at h⟩

theorem Gen.Rel.deref {R : World → World → Prop} (hrefl : ∀ a, R a a) {α : Type}
    (o : Option α) : Gen.Rel R (Gen.deref o) := by
  cases o with
  | none => exact Gen.Rel.undefined
  | some a => exact ⟨fun s b s1 h => by
      simp only [Gen.deref, Gen.pure, Option.some.injEq, Prod.mk.injEq] at h
      rw [← h.2]; exact hrefl _⟩

theorem Gen.Rel.of_wp {R : World → World → Prop} {α : Type} {m : Gen α}
    (h : ∀ s, m.wp (fun _ s1 => R s s1) s) : Gen.Rel R m :=
  ⟨fun s a s1 e => h s a s1 e⟩

theorem Gen.Rel.wp {R : World → World → Prop} {α : Type} {m : Gen α}
    (h : Gen.Rel R m) (s : World) : m.wp (fun _ s1 => R s s1) s :=
  fun a s1 e => h.out s a s1 e

theorem Gen.wp_of_rel {R : World → World → Prop} {α : Type} {m : Gen α} (h : Gen.Rel R m)
    {s : World} {Q : α → World → Prop} (hQ : ∀ a s1, R s s1 → Q a s1) : m.wp Q s :=
  fun a s1 e => hQ a s1 (h.out s a s1 e)

/-! ## Generators that do not write the symbol table -/

theorem sameNV_refl (s : World) : SameNamedValues s s := rfl

theorem sameNV_trans (a b c : World) (h1 : SameNamedValues a b)
    (h2 : SameNamedValues b c) : SameNamedValues a c := by
  unfold SameNamedValues at *; rw [h2, h1]

theorem sameNV_bind {α β : Type} {m : Gen α} {f : α → Gen β}
    (hm : Gen.Rel SameNamedValues m) (hf : ∀ a, Gen.Rel SameNamedValues (f a)) :
    Gen.Rel SameNamedValues (m >>= f) :=
  Gen.Rel.bind sameNV_trans hm hf

theorem sameNV_pure {α : Type} (a : α) : Gen.Rel SameNamedValues (Pure.pure a : Gen α) :=
  Gen.Rel.pure sameNV_refl a

theorem sameNV_deref {α : Type} (o : Option α) : Gen.Rel SameNamedValues (Gen.deref o) :=
  Gen.Rel.deref sameNV_refl o

theorem sameNV_emitValue (mk : Nat → Instr) : Gen.Rel SameNamedValues (emitValue mk) :=
  Gen.Rel.of_wp fun s => by simp [wp_emitValue, SameNamedValues]

theorem sameNV_emitVoid (i : Instr) : Gen.Rel SameNamedValues (emitVoid i) :=
  Gen.Rel.of_wp fun s => by simp [wp_emitVoid, SameNamedValues]

theorem sameNV_LogErrorV {α : Type} (m : String) :
    Gen.Rel SameNamedValues (LogErrorV m : Gen (Option α)) :=
  Gen.Rel.of_wp fun s => by simp [wp_LogErrorV, SameNamedValues]

theorem sameNV_printOp (Op : Char) : Gen.Rel SameNamedValues (printOp Op) :=
  Gen.Rel.of_wp fun s => by simp [wp_printOp, SameNamedValues]

theorem sameNV_getNamedValue (n : String) : Gen.Rel SameNamedValues (getNamedValue n) :=
  Gen.Rel.of_wp fun s => by simp [wp_getNamedValue, SameNamedValues]

theorem sameNV_getNamedGlobal (n : String) : Gen.Rel SameNamedValues (getNamedGlobal n) :=
  Gen.Rel.of_wp fun s => by simp [wp_getNamedGlobal, SameNamedValues]

theorem sameNV_getFunction (n : String) : Gen.Rel SameNamedValues (getFunction n) :=
  Gen.Rel.of_wp fun s => by simp [wp_getFunction, SameNamedValues]

theorem sameNV_GetInsertBlock : Gen.Rel SameNamedValues GetInsertBlock :=
  Gen.Rel.of_wp fun s => by simp [wp_GetInsertBlock, SameNamedValues]

theorem sameNV_GetInsertBlockParent : Gen.Rel SameNamedValues GetInsertBlockParent :=
  Gen.Rel.of_wp fun s => by simp [wp_GetInsertBlockParent, SameNamedValues]

theorem sameNV_Create (n : String) (p : Option Nat) :
    Gen.Rel SameNamedValues (BasicBlock.Create n p) :=
  Gen.Rel.of_wp fun s => by simp [wp_Create, SameNamedValues]

theorem sameNV_Function_insert (fn : Option Nat) (BB : Nat) :
    Gen.Rel SameNamedValues (Function.insert fn BB) :=
  Gen.Rel.of_wp fun s => by simp [wp_Function_insert, SameNamedValues]

theorem sameNV_SetInsertPoint (BB : Nat) : Gen.Rel SameNamedValues (SetInsertPoint BB) :=
  Gen.Rel.of_wp fun s => by simp [wp_SetInsertPoint, SameNamedValues]

theorem sameNV_CreateEntryBlockAlloca (fn : Option Nat) (n : String) (T : IRType) :
    Gen.Rel SameNamedValues (CreateEntryBlockAlloca fn n T) :=
  Gen.Rel.of_wp fun s => by simp [wp_CreateEntryBlockAlloca, SameNamedValues]

theorem sameNV_CreatePHI : Gen.Rel SameNamedValues CreatePHI :=
  Gen.Rel.of_wp fun s => by simp [wp_CreatePHI, SameNamedValues]

theorem sameNV_addIncoming (PN : PHINode) (V : Value) (BB : Nat) :
    Gen.Rel SameNamedValues (PN.addIncoming V BB) :=
  Gen.Rel.of_wp fun s => by simp [wp_addIncoming, SameNamedValues]

theorem VariableExprAST_codegen_sameNV (Name : String) :
    Gen.Rel SameNamedValues (VariableExprAST.codegen Name) := by
  unfold VariableExprAST.codegen CreateLoad
  repeat' first
    | exact sameNV_pure _
    | exact sameNV_emitValue _
    | exact sameNV_LogErrorV _
    | exact sameNV_getNamedValue _
    | exact sameNV_getNamedGlobal _
    | apply sameNV_bind
    | apply Gen.Rel.map
    | intro _
    | split

theorem BinaryExprAST_emit_sameNV (Op : Char) (L : Value) (R : Option Value) :
    Gen.Rel SameNamedValues (BinaryExprAST.emit Op L R) := by
  unfold BinaryExprAST.emit CreateBinOp CreateNot
  repeat' first
    | exact sameNV_pure _
    | exact sameNV_emitValue _
    | exact sameNV_LogErrorV _
    | exact sameNV_printOp _
    | exact sameNV_deref _
    | apply sameNV_bind
    | apply Gen.Rel.map
    | intro _
    | split

mutual
theorem ExprAST_codegen_sameNV : ∀ e : ExprAST, Gen.Rel SameNamedValues e.codegen
  | .NumberExprAST Val => by
    simp only [ExprAST.codegen]; exact sameNV_pure _
  | .VariableExprAST Name => by
    simp only [ExprAST.codegen]; exact VariableExprAST_codegen_sameNV Name
  | .BinaryExprAST Op LHS RHS => by
    have hL := ExprAST_codegen_sameNV LHS
    have hR := ExprAST_codegenRHS_sameNV RHS
    simp only [ExprAST.codegen]
    repeat' first
      | exact sameNV_pure _
      | exact hL
      | exact hR
      | exact BinaryExprAST_emit_sameNV _ _ _
      | apply sameNV_bind
      | intro _
      | split
  | .CallExprAST Callee Args => by
    have hA := ExprAST_codegenArgs_sameNV Args
    simp only [ExprAST.codegen, CreateCall]
    repeat' first
      | exact sameNV_pure _
      | exact hA
      | exact sameNV_getFunction _
      | exact sameNV_LogErrorV _
      | exact sameNV_emitValue _
      | apply sameNV_bind
      | apply Gen.Rel.map
      | intro _
      | split
  | .ArrayExprAST Name Offset => by
    have hO := ExprAST_codegen_sameNV Offset
    simp only [ExprAST.codegen, CreateFPTrunc, CreateFPToSI, CreateInBoundsGEP, CreateLoad]
    repeat' first
      | exact sameNV_pure _
      | exact hO
      | exact sameNV_getNamedValue _
      | exact sameNV_getNamedGlobal _
      | exact sameNV_LogErrorV _
      | exact sameNV_emitValue _
      | apply sameNV_bind
      | apply Gen.Rel.map
      | intro _
      | split
  | .IfExprAST Cond TrueExp FalseExp => by
    have hC := ExprAST_codegen_sameNV Cond
    have hT := ExprAST_codegen_sameNV TrueExp
    have hF := ExprAST_codegen_sameNV FalseExp
    simp only [ExprAST.codegen, CreateCondBr, CreateBr]
    repeat' first
      | exact sameNV_pure _
      | exact hC
      | exact hT
      | exact hF
      | exact sameNV_GetInsertBlock
      | exact sameNV_GetInsertBlockParent
      | exact sameNV_Create _ _
      | exact sameNV_Function_insert _ _
      | exact sameNV_SetInsertPoint _
      | exact sameNV_CreatePHI
      | exact sameNV_addIncoming _ _ _
      | exact sameNV_emitVoid _
      | apply sameNV_bind
      | intro _
      | split
theorem ExprAST_codegenRHS_sameNV : ∀ o : Option ExprAST, Gen.Rel SameNamedValues (ExprAST.codegenRHS o)
  | none => by simp only [ExprAST.codegenRHS]; exact sameNV_pure _
  | some RHS => by simp only [ExprAST.codegenRHS]; exact ExprAST_codegen_sameNV RHS
theorem ExprAST_codegenArgs_sameNV : ∀ l : List ExprAST, Gen.Rel SameNamedValues (ExprAST.codegenArgs l)
  | [] => by simp only [ExprAST.codegenArgs]; exact sameNV_pure _
  | arg :: Args => by
    have h1 := ExprAST_codegen_sameNV arg
    have h2 := ExprAST_codegenArgs_sameNV Args
    simp only [ExprAST.codegenArgs]
    repeat' first
      | exact sameNV_pure _
      | exact h1
      | exact h2
      | apply sameNV_bind
      | intro _
      | split
end

theorem VarBindingAST_codegen_sameNV (Name : String) (Val : Option ExprAST) :
    Gen.Rel SameNamedValues (VarBindingAST.codegen Name Val) := by
  unfold VarBindingAST.codegen CreateStore
  repeat' first
    | exact sameNV_pure _
    | exact ExprAST_codegen_sameNV _
    | exact sameNV_GetInsertBlockParent
    | exact sameNV_CreateEntryBlockAlloca _ _ _
    | exact sameNV_emitVoid _
    | apply sameNV_bind
    | intro _
    | split

theorem ArrayBindingAST_boundValues_sameNV (Values : List ExprAST) :
    ∀ l : List Nat, Gen.Rel SameNamedValues (ArrayBindingAST.boundValues Values l)
  | [] => by simp only [ArrayBindingAST.boundValues]; exact sameNV_pure _
  | i :: rest => by
    have h := ArrayBindingAST_boundValues_sameNV Values rest
    simp only [ArrayBindingAST.boundValues]
    repeat' first
      | exact sameNV_pure _
      | exact h
      | exact ExprAST_codegen_sameNV _
      | exact Gen.Rel.undefined
      | apply sameNV_bind
      | intro _
      | split

theorem ArrayBindingAST_storeValues_sameNV (Alloca : AllocaInst) (boundValues : List Value) :
    ∀ l : List Nat, Gen.Rel SameNamedValues (ArrayBindingAST.storeValues Alloca boundValues l)
  | [] => by simp only [ArrayBindingAST.storeValues]; exact sameNV_pure _
  | i :: rest => by
    have h := ArrayBindingAST_storeValues_sameNV Alloca boundValues rest
    simp only [ArrayBindingAST.storeValues, CreateInBoundsGEP, CreateStore]
    repeat' first
      | exact sameNV_pure _
      | exact h
      | exact sameNV_emitValue _
      | exact sameNV_emitVoid _
      | exact sameNV_deref _
      | apply sameNV_bind
      | intro _

theorem ArrayBindingAST_codegen_sameNV (Name : String) (Size : Double) (Values : List ExprAST) :
    Gen.Rel SameNamedValues (ArrayBindingAST.codegen Name Size Values) := by
  unfold ArrayBindingAST.codegen
  repeat' first
    | exact sameNV_pure _
    | exact ArrayBindingAST_boundValues_sameNV _ _
    | exact ArrayBindingAST_storeValues_sameNV _ _ _
    | exact sameNV_GetInsertBlockParent
    | exact sameNV_CreateEntryBlockAlloca _ _ _
    | exact Gen.Rel.undefined
    | apply sameNV_bind
    | intro _
    | split

theorem BindingAST_codegen_sameNV (b : BindingAST) : Gen.Rel SameNamedValues b.codegen := by
  cases b with
  | VarBindingAST Name Val => exact VarBindingAST_codegen_sameNV Name Val
  | ArrayBindingAST Name Size Values => exact ArrayBindingAST_codegen_sameNV Name Size Values

theorem AssignmentAST_codegen_sameNV (a : AssignmentAST) : Gen.Rel SameNamedValues a.codegen := by
  unfold AssignmentAST.codegen CreateStore CreateFPTrunc CreateFPToSI CreateInBoundsGEP
  repeat' first
    | exact sameNV_pure _
    | exact ExprAST_codegen_sameNV _
    | exact sameNV_getNamedValue _
    | exact sameNV_getNamedGlobal _
    | exact sameNV_LogErrorV _
    | exact sameNV_emitValue _
    | exact sameNV_emitVoid _
    | exact sameNV_deref _
    | apply sameNV_bind
    | intro _
    | split

/-! ## The frame of a generator run -/

theorem Frame_refl (s : World) : Frame s s where
  numBlocks := Nat.le_refl _
  cur := Or.inl rfl
  old := fun _ _ _ => ⟨[], rfl⟩
  layout := fun _ => ⟨[], by simp⟩
  functions := rfl
  globals := rfl

theorem Frame_cur_ne {s s1 : World} (h : Frame s s1) {b : Nat} (hb : b < s.numBlocks)
    (hne : s.InsertBlock ≠ some b) : s1.InsertBlock ≠ some b := by
  rcases h.cur with e | ⟨c, hc, hle, _⟩
  · rw [e]; exact hne
  · rw [hc]; intro e; cases e; omega

theorem Frame_trans (a b c : World) (h1 : Frame a b) (h2 : Frame b c) : Frame a c where
  numBlocks := Nat.le_trans h1.numBlocks h2.numBlocks
  cur := by
    rcases h2.cur with e | ⟨x, hx, hle, hlt⟩
    · rw [e]
      rcases h1.cur with e1 | ⟨y, hy, hle1, hlt1⟩
      · exact Or.inl e1
      · exact Or.inr ⟨y, hy, hle1, Nat.lt_of_lt_of_le hlt1 h2.numBlocks⟩
    · exact Or.inr ⟨x, hx, Nat.le_trans h1.numBlocks hle, hlt⟩
  old := by
    intro k hk hne
    obtain ⟨p1, e1⟩ := h1.old k hk hne
    obtain ⟨p2, e2⟩ := h2.old k (Nat.lt_of_lt_of_le hk h1.numBlocks) (Frame_cur_ne h1 hk hne)
    exact ⟨p2 ++ p1, by rw [e2, e1, List.append_assoc]⟩
  layout := by
    intro f
    obtain ⟨l1, e1⟩ := h1.layout f
    obtain ⟨l2, e2⟩ := h2.layout f
    exact ⟨l1 ++ l2, by rw [e2, e1, List.append_assoc]⟩
  functions := h2.functions.trans h1.functions
  globals := h2.globals.trans h1.globals

/-- A step that leaves alone every block other than the current insertion block and
keeps everything else extends a frame. -/
theorem Frame_step {s0 s s1 : World} (h : Frame s0 s)
    (hn : s.numBlocks ≤ s1.numBlocks)
    (hc : s1.InsertBlock = s.InsertBlock ∨
      ∃ c, s1.InsertBlock = some c ∧ s0.numBlocks ≤ c ∧ c < s1.numBlocks)
    (ho : ∀ b, b < s0.numBlocks → s0.InsertBlock ≠ some b →
      ∃ pre, (s1.blocks b).insts = pre ++ (s.blocks b).insts)
    (hl : ∀ f, ∃ added, s1.functionBlocks f = s.functionBlocks f ++ added)
    (hf : s1.functions = s.functions) (hg : s1.globals = s.globals) : Frame s0 s1 where
  numBlocks := Nat.le_trans h.numBlocks hn
  cur := by
    rcases hc with e | hc
    · rw [e]
      rcases h.cur with e1 | ⟨y, hy, hle1, hlt1⟩
      · exact Or.inl e1
      · exact Or.inr ⟨y, hy, hle1, Nat.lt_of_lt_of_le hlt1 hn⟩
    · exact Or.inr hc
  old := by
    intro k hk hne
    obtain ⟨p1, e1⟩ := h.old k hk hne
    obtain ⟨p2, e2⟩ := ho k hk hne
    exact ⟨p2 ++ p1, by rw [e2, e1, List.append_assoc]⟩
  layout := by
    intro f
    obtain ⟨l1, e1⟩ := h.layout f
    obtain ⟨l2, e2⟩ := hl f
    exact ⟨l1 ++ l2, by rw [e2, e1, List.append_assoc]⟩
  functions := hf.trans h.functions
  globals := hg.trans h.globals

theorem Frame_insert {s0 s : World} (h : Frame s0 s) (i : Instr) : Frame s0 (s.insert i) := by
  refine Frame_step h (by simp) (Or.inl (by simp)) ?_ (fun f => ⟨[], by simp⟩) (by simp) (by simp)
  intro b hb hne
  rw [World.insert_blocks_of_ne _ _ _ (Frame_cur_ne h hb hne)]
  exact ⟨[], rfl⟩

theorem Frame_emit {s0 s : World} (h : Frame s0 s) (mk : Nat → Instr) : Frame s0 (s.emit mk) := by
  refine Frame_step h (by simp) (Or.inl (by simp)) ?_ (fun f => ⟨[], by simp⟩) (by simp) (by simp)
  intro b hb hne
  rw [World.emit_blocks_of_ne _ _ _ (Frame_cur_ne h hb hne)]
  exact ⟨[], rfl⟩

theorem Frame_logError {s0 s : World} (h : Frame s0 s) (m : String) : Frame s0 (s.logError m) :=
  Frame_step h (by simp) (Or.inl (by simp)) (fun b _ _ => ⟨[], by simp⟩)
    (fun f => ⟨[], by simp⟩) (by simp) (by simp)

theorem Frame_setNamedValue {s0 s : World} (h : Frame s0 s) (n : String) (A : Option AllocaInst) :
    Frame s0 (s.setNamedValue n A) :=
  Frame_step h (by simp) (Or.inl (by simp)) (fun b _ _ => ⟨[], by simp⟩)
    (fun f => ⟨[], by simp⟩) (by simp) (by simp)

theorem Frame_createBlock {s0 s : World} (h : Frame s0 s) (n : String) (p : Option Nat) :
    Frame s0 (s.createBlock n p) := by
  refine Frame_step h (by simp) (Or.inl (by simp)) ?_ ?_ (by simp) (by simp)
  · intro b hb _
    have : b ≠ s.numBlocks := by have := h.numBlocks; omega
    exact ⟨[], by simp [Function.update_noteq this]⟩
  · intro f
    cases p with
    | none => exact ⟨[], by simp⟩
    | some g =>
      by_cases e : f = g
      · subst e; exact ⟨[s.numBlocks], by simp⟩
      · exact ⟨[], by simp [Function.update_noteq e]⟩

theorem Frame_insertBlock {s0 s : World} (h : Frame s0 s) (g BB : Nat) :
    Frame s0 (s.insertBlock g BB) := by
  refine Frame_step h (by simp) (Or.inl (by simp)) (fun b _ _ => ⟨[], by simp⟩) ?_ (by simp)
    (by simp)
  intro f
  by_cases e : f = g
  · subst e; exact ⟨[BB], by simp⟩
  · exact ⟨[], by simp [Function.update_noteq e]⟩

theorem Frame_setInsertPoint {s0 s : World} (h : Frame s0 s) (BB : Nat)
    (h1 : s0.numBlocks ≤ BB) (h2 : BB < s.numBlocks) : Frame s0 (s.setInsertPoint BB) :=
  Frame_step h (by simp) (Or.inr ⟨BB, by simp, h1, by simpa using h2⟩)
    (fun b _ _ => ⟨[], by simp⟩) (fun f => ⟨[], by simp⟩) (by simp) (by simp)

theorem Frame_setInsertPoint_same {s0 s : World} (h : Frame s0 s) (BB : Nat)
    (h1 : s.InsertBlock = some BB) : Frame s0 (s.setInsertPoint BB) :=
  Frame_step h (by simp) (Or.inl (by simp [h1]))
    (fun b _ _ => ⟨[], by simp⟩) (fun f => ⟨[], by simp⟩) (by simp) (by simp)

theorem Frame_entryAlloca {s0 s : World} (h : Frame s0 s) (e : Nat) (T : IRType) (n : String) :
    Frame s0 (s.entryAlloca e T n) := by
  refine Frame_step h (by simp) (Or.inl (by simp)) ?_ (fun f => ⟨[], by simp⟩) (by simp) (by simp)
  intro b _ _
  rw [World.entryAlloca_insts]
  split
  · exact ⟨[_], rfl⟩
  · exact ⟨[], rfl⟩

theorem Frame_addIncoming {s0 s : World} (h : Frame s0 s) (b id : Nat) (V : Value) (BB : Nat)
    (hb : s0.numBlocks ≤ b) : Frame s0 (s.addIncoming b id V BB) := by
  refine Frame_step h (by simp) (Or.inl (by simp)) ?_ (fun f => ⟨[], by simp⟩) (by simp) (by simp)
  intro k hk _
  rw [World.addIncoming_insts]
  have : k ≠ b := by omega
  simp only [this, if_false]
  exact ⟨[], rfl⟩

theorem Frame_printOp {s0 s : World} (h : Frame s0 s) (Op : Char) :
    Frame s0 { s with cout := s.cout ++ [Op] } :=
  Frame_step h (Nat.le_refl _) (Or.inl rfl) (fun b _ _ => ⟨[], rfl⟩)
    (fun f => ⟨[], by simp⟩) rfl rfl

theorem frame_bind {α β : Type} {m : Gen α} {f : α → Gen β}
    (hm : Gen.Rel Frame m) (hf : ∀ a, Gen.Rel Frame (f a)) : Gen.Rel Frame (m >>= f) :=
  Gen.Rel.bind Frame_trans hm hf

theorem frame_pure {α : Type} (a : α) : Gen.Rel Frame (Pure.pure a : Gen α) :=
  Gen.Rel.pure Frame_refl a

theorem frame_deref {α : Type} (o : Option α) : Gen.Rel Frame (Gen.deref o) :=
  Gen.Rel.deref Frame_refl o

theorem frame_emitValue (mk : Nat → Instr) : Gen.Rel Frame (emitValue mk) :=
  Gen.Rel.of_wp fun s => by rw [wp_emitValue]; exact Frame_emit (Frame_refl s) mk

theorem frame_emitVoid (i : Instr) : Gen.Rel Frame (emitVoid i) :=
  Gen.Rel.of_wp fun s => by rw [wp_emitVoid]; exact Frame_insert (Frame_refl s) i

theorem frame_LogErrorV {α : Type} (m : String) : Gen.Rel Frame (LogErrorV m : Gen (Option α)) :=
  Gen.Rel.of_wp fun s => by rw [wp_LogErrorV]; exact Frame_logError (Frame_refl s) m

theorem frame_printOp (Op : Char) : Gen.Rel Frame (printOp Op) :=
  Gen.Rel.of_wp fun s => by rw [wp_printOp]; exact Frame_printOp (Frame_refl s) Op

theorem frame_getNamedValue (n : String) : Gen.Rel Frame (getNamedValue n) :=
  Gen.Rel.of_wp fun s => by rw [wp_getNamedValue]; exact Frame_refl s

theorem frame_setNamedValue (n : String) (A : Option AllocaInst) :
    Gen.Rel Frame (setNamedValue n A) :=
  Gen.Rel.of_wp fun s => by rw [wp_setNamedValue]; exact Frame_setNamedValue (Frame_refl s) n A

theorem frame_getNamedGlobal (n : String) : Gen.Rel Frame (getNamedGlobal n) :=
  Gen.Rel.of_wp fun s => by rw [wp_getNamedGlobal]; exact Frame_refl s

theorem frame_getFunction (n : String) : Gen.Rel Frame (getFunction n) :=
  Gen.Rel.of_wp fun s => by rw [wp_getFunction]; exact Frame_refl s

theorem frame_GetInsertBlock : Gen.Rel Frame GetInsertBlock :=
  Gen.Rel.of_wp fun s => by rw [wp_GetInsertBlock]; exact fun _ _ => Frame_refl s

theorem frame_GetInsertBlockParent : Gen.Rel Frame GetInsertBlockParent :=
  Gen.Rel.of_wp fun s => by rw [wp_GetInsertBlockParent]; exact fun _ _ => Frame_refl s

theorem frame_CreateEntryBlockAlloca (fn : Option Nat) (n : String) (T : IRType) :
    Gen.Rel Frame (CreateEntryBlockAlloca fn n T) :=
  Gen.Rel.of_wp fun s => by
    rw [wp_CreateEntryBlockAlloca]; exact fun _ e _ _ => Frame_entryAlloca (Frame_refl s) e T n

theorem VariableExprAST_codegen_frame (Name : String) :
    Gen.Rel Frame (VariableExprAST.codegen Name) := by
  unfold VariableExprAST.codegen CreateLoad
  repeat' first
    | exact frame_pure _
    | exact frame_emitValue _
    | exact frame_LogErrorV _
    | exact frame_getNamedValue _
    | exact frame_getNamedGlobal _
    | apply frame_bind
    | apply Gen.Rel.map
    | intro _
    | split

theorem BinaryExprAST_emit_frame (Op : Char) (L : Value) (R : Option Value) :
    Gen.Rel Frame (BinaryExprAST.emit Op L R) := by
  unfold BinaryExprAST.emit CreateBinOp CreateNot
  repeat' first
    | exact frame_pure _
    | exact frame_emitValue _
    | exact frame_LogErrorV _
    | exact frame_printOp _
    | exact frame_deref _
    | apply frame_bind
    | apply Gen.Rel.map
    | intro _
    | split

mutual
theorem ExprAST_codegen_frame : ∀ e : ExprAST, Gen.Rel Frame e.codegen
  | .NumberExprAST Val => by
    simp only [ExprAST.codegen]; exact frame_pure _
  | .VariableExprAST Name => by
    simp only [ExprAST.codegen]; exact VariableExprAST_codegen_frame Name
  | .BinaryExprAST Op LHS RHS => by
    have hL := ExprAST_codegen_frame LHS
    have hR := ExprAST_codegenRHS_frame RHS
    simp only [ExprAST.codegen]
    repeat' first
      | exact frame_pure _
      | exact hL
      | exact hR
      | exact BinaryExprAST_emit_frame _ _ _
      | apply frame_bind
      | intro _
      | split
  | .CallExprAST Callee Args => by
    have hA := ExprAST_codegenArgs_frame Args
    simp only [ExprAST.codegen, CreateCall]
    repeat' first
      | exact frame_pure _
      | exact hA
      | exact frame_getFunction _
      | exact frame_LogErrorV _
      | exact frame_emitValue _
      | apply frame_bind
      | apply Gen.Rel.map
      | intro _
      | split
  | .ArrayExprAST Name Offset => by
    have hO := ExprAST_codegen_frame Offset
    simp only [ExprAST.codegen, CreateFPTrunc, CreateFPToSI, CreateInBoundsGEP, CreateLoad]
    repeat' first
      | exact frame_pure _
      | exact hO
      | exact frame_getNamedValue _
      | exact frame_getNamedGlobal _
      | exact frame_LogErrorV _
      | exact frame_emitValue _
      | apply frame_bind
      | apply Gen.Rel.map
      | intro _
      | split
  | .IfExprAST Cond TrueExp FalseExp => by
    have hC := ExprAST_codegen_frame Cond
    have hT := ExprAST_codegen_frame TrueExp
    have hF := ExprAST_codegen_frame FalseExp
    refine Gen.Rel.of_wp fun s => ?_
    simp only [ExprAST.codegen, Gen.wp_bind]
    refine Gen.wp_mono (hC.wp s) ?_
    intro r s1 h1
    cases r with
    | none => simp only [Gen.wp_pure]; exact h1
    | some CondV =>
      simp only [Gen.wp_bind, wp_GetInsertBlockParent, wp_Create, CreateCondBr, wp_emitVoid,
        wp_SetInsertPoint, World.createBlock_numBlocks]
      intro c hc
      have hn1 := h1.numBlocks
      have h2 : Frame s (((((s1.createBlock "trueexp" (s1.blocks c).parent).createBlock "falseexp"
          none).createBlock "endcond" none).insert (.condBr CondV s1.numBlocks
            (s1.numBlocks + 1))).setInsertPoint s1.numBlocks) :=
        Frame_setInsertPoint (Frame_insert (Frame_createBlock (Frame_createBlock
          (Frame_createBlock h1 _ _) _ _) _ _) _) _ hn1 (by simp; omega)
      refine Gen.wp_mono (hT.wp _) ?_
      intro r s3 h3
      have hn3 : s1.numBlocks + 3 ≤ s3.numBlocks := by simpa using h3.numBlocks
      have h3 := Frame_trans _ _ _ h2 h3
      cases r with
      | none => simp only [Gen.wp_pure]; exact h3
      | some TrueV =>
        simp only [Gen.wp_bind, CreateBr, wp_emitVoid, wp_GetInsertBlock, wp_Function_insert,
          wp_SetInsertPoint]
        intro Pt hPt f hf
        have h4 : Frame s (((s3.insert (.br (s1.numBlocks + 1 + 1))).insertBlock f
            (s1.numBlocks + 1)).setInsertPoint (s1.numBlocks + 1)) :=
          Frame_setInsertPoint (Frame_insertBlock (Frame_insert h3 _) _ _) _ (by omega)
            (by simp; omega)
        refine Gen.wp_mono (hF.wp _) ?_
        intro r s5 h5
        have hn5 : s3.numBlocks ≤ s5.numBlocks := by simpa using h5.numBlocks
        have h5 := Frame_trans _ _ _ h4 h5
        cases r with
        | none => simp only [Gen.wp_pure]; exact h5
        | some FalseV =>
          simp only [Gen.wp_bind, Gen.wp_pure, CreateBr, wp_emitVoid, wp_GetInsertBlock,
            wp_Function_insert, wp_SetInsertPoint, wp_CreatePHI, wp_addIncoming]
          intro Pf hPf f2 hf2
          simp only [World.setInsertPoint_InsertBlock, World.emit_InsertBlock, reduceCtorEq,
            false_implies, true_and, Option.some.injEq, forall_eq']
          exact Frame_addIncoming (Frame_addIncoming (Frame_emit (Frame_setInsertPoint
            (Frame_insertBlock (Frame_insert h5 _) _ _) _ (by omega) (by simp; omega)) _)
            _ _ _ _ (by omega)) _ _ _ _ (by omega)
theorem ExprAST_codegenRHS_frame : ∀ o : Option ExprAST, Gen.Rel Frame (ExprAST.codegenRHS o)
  | none => by simp only [ExprAST.codegenRHS]; exact frame_pure _
  | some RHS => by simp only [ExprAST.codegenRHS]; exact ExprAST_codegen_frame RHS
theorem ExprAST_codegenArgs_frame : ∀ l : List ExprAST, Gen.Rel Frame (ExprAST.codegenArgs l)
  | [] => by simp only [ExprAST.codegenArgs]; exact frame_pure _
  | arg :: Args => by
    have h1 := ExprAST_codegen_frame arg
    have h2 := ExprAST_codegenArgs_frame Args
    simp only [ExprAST.codegenArgs]
    repeat' first
      | exact frame_pure _
      | exact h1
      | exact h2
      | apply frame_bind
      | intro _
      | split
end

theorem VarBindingAST_codegen_frame (Name : String) (Val : Option ExprAST) :
    Gen.Rel Frame (VarBindingAST.codegen Name Val) := by
  unfold VarBindingAST.codegen CreateStore
  repeat' first
    | exact frame_pure _
    | exact ExprAST_codegen_frame _
    | exact frame_GetInsertBlockParent
    | exact frame_CreateEntryBlockAlloca _ _ _
    | exact frame_emitVoid _
    | apply frame_bind
    | intro _
    | split

theorem ArrayBindingAST_boundValues_frame (Values : List ExprAST) :
    ∀ l : List Nat, Gen.Rel Frame (ArrayBindingAST.boundValues Values l)
  | [] => by simp only [ArrayBindingAST.boundValues]; exact frame_pure _
  | i :: rest => by
    have h := ArrayBindingAST_boundValues_frame Values rest
    simp only [ArrayBindingAST.boundValues]
    repeat' first
      | exact frame_pure _
      | exact h
      | exact ExprAST_codegen_frame _
      | exact Gen.Rel.undefined
      | apply frame_bind
      | intro _
      | split

theorem ArrayBindingAST_storeValues_frame (Alloca : AllocaInst) (boundValues : List Value) :
    ∀ l : List Nat, Gen.Rel Frame (ArrayBindingAST.storeValues Alloca boundValues l)
  | [] => by simp only [ArrayBindingAST.storeValues]; exact frame_pure _
  | i :: rest => by
    have h := ArrayBindingAST_storeValues_frame Alloca boundValues rest
    simp only [ArrayBindingAST.storeValues, CreateInBoundsGEP, CreateStore]
    repeat' first
      | exact frame_pure _
      | exact h
      | exact frame_emitValue _
      | exact frame_emitVoid _
      | exact frame_deref _
      | apply frame_bind
      | intro _

theorem ArrayBindingAST_codegen_frame (Name : String) (Size : Double) (Values : List ExprAST) :
    Gen.Rel Frame (ArrayBindingAST.codegen Name Size Values) := by
  unfold ArrayBindingAST.codegen
  repeat' first
    | exact frame_pure _
    | exact ArrayBindingAST_boundValues_frame _ _
    | exact ArrayBindingAST_storeValues_frame _ _ _
    | exact frame_GetInsertBlockParent
    | exact frame_CreateEntryBlockAlloca _ _ _
    | exact Gen.Rel.undefined
    | apply frame_bind
    | intro _
    | split

theorem BindingAST_codegen_frame (b : BindingAST) : Gen.Rel Frame b.codegen := by
  cases b with
  | VarBindingAST Name Val => exact VarBindingAST_codegen_frame Name Val
  | ArrayBindingAST Name Size Values => exact ArrayBindingAST_codegen_frame Name Size Values

theorem AssignmentAST_codegen_frame (a : AssignmentAST) : Gen.Rel Frame a.codegen := by
  unfold AssignmentAST.codegen CreateStore CreateFPTrunc CreateFPToSI CreateInBoundsGEP
  repeat' first
    | exact frame_pure _
    | exact ExprAST_codegen_frame _
    | exact frame_getNamedValue _
    | exact frame_getNamedGlobal _
    | exact frame_LogErrorV _
    | exact frame_emitValue _
    | exact frame_emitVoid _
    | exact frame_deref _
    | apply frame_bind
    | intro _
    | split

theorem BlockAST_bindDefs_frame : ∀ (Def : List BindingAST) (AllocaTmp : List (Option AllocaInst)),
    Gen.Rel Frame (BlockAST.bindDefs Def AllocaTmp)
  | [], _ => by simp only [BlockAST.bindDefs]; exact frame_pure _
  | d :: Def, AllocaTmp => by
    have h := fun l => BlockAST_bindDefs_frame Def l
    simp only [BlockAST.bindDefs]
    repeat' first
      | exact frame_pure _
      | exact h _
      | exact BindingAST_codegen_frame _
      | exact frame_getNamedValue _
      | exact frame_setNamedValue _ _
      | apply frame_bind
      | intro _
      | split

theorem BlockAST_restore_frame : ∀ (Def : List BindingAST) (AllocaTmp : List (Option AllocaInst)),
    Gen.Rel Frame (BlockAST.restore Def AllocaTmp)
  | [], _ => by simp only [BlockAST.restore]; exact frame_pure _
  | _ :: _, [] => by simp only [BlockAST.restore]; exact frame_pure _
  | d :: Def, old :: AllocaTmp => by
    have h := BlockAST_restore_frame Def AllocaTmp
    simp only [BlockAST.restore]
    repeat' first
      | exact frame_pure _
      | exact h
      | exact frame_setNamedValue _ _
      | apply frame_bind
      | intro _

/-- A sub-generator called in a state inside the frame of `s` returns inside the
frame of `s`. -/
theorem wp_frame_call {α : Type} {m : Gen α} {P : α → World → Prop} (s : World) {X : World}
    (hm : Gen.Rel Frame m) (hX : Frame s X)
    (hk : ∀ r s1, Frame s s1 → X.numBlocks ≤ s1.numBlocks → P r s1) : m.wp P X :=
  fun r s1 e => hk r s1 (Frame_trans _ _ _ hX (hm.out _ _ _ e)) (hm.out _ _ _ e).numBlocks

mutual
theorem StmtAST_codegen_frame : ∀ st : StmtAST, Gen.Rel Frame st.codegen
  | .expr e => by simp only [StmtAST.codegen]; exact ExprAST_codegen_frame e
  | .assignment a => by simp only [StmtAST.codegen]; exact AssignmentAST_codegen_frame a
  | .BlockAST Def Stmts => by
    have h := fun v => StmtAST_codegenStmts_frame Stmts v
    simp only [StmtAST.codegen]
    repeat' first
      | exact frame_pure _
      | exact h _
      | exact BlockAST_bindDefs_frame _ _
      | exact BlockAST_restore_frame _ _
      | exact frame_deref _
      | apply frame_bind
      | intro _
      | split
  | .IfStmtAST CondExpr TrueStmt (some ElseStmt) => by
    have hC := ExprAST_codegen_frame CondExpr
    have hT := StmtAST_codegen_frame TrueStmt
    have hF := StmtAST_codegen_frame ElseStmt
    refine Gen.Rel.of_wp fun s => ?_
    simp only [StmtAST.codegen, Gen.wp_bind, wp_GetInsertBlock]
    intro entryBB hentry
    refine wp_frame_call s hC (Frame_refl s) ?_
    intro r s1 h1 hn1
    cases r with
    | none => simp only [Gen.wp_pure]; exact h1
    | some CondV =>
      simp only [Gen.wp_bind, wp_GetInsertBlockParent, wp_Create, CreateCondBr, wp_emitVoid,
        wp_SetInsertPoint, World.createBlock_numBlocks]
      intro c hc
      refine wp_frame_call s hT ?_ ?_
      · repeat' first
          | assumption
          | with_reducible apply Frame_insert
          | with_reducible apply Frame_createBlock
          | with_reducible apply Frame_setInsertPoint
          | omega
          | (simp only [World.setInsertPoint_numBlocks, World.insert_numBlocks,
              World.emit_numBlocks, World.insertBlock_numBlocks, World.createBlock_numBlocks,
              World.setNamedValue_numBlocks, World.addIncoming_numBlocks]; omega)
      intro r s3 h3 hn3
      simp only [World.setInsertPoint_numBlocks, World.insert_numBlocks,
        World.createBlock_numBlocks] at hn3
      cases r with
      | none => simp only [Gen.wp_pure]; exact h3
      | some TrueV =>
        simp only [Gen.wp_bind, CreateBr, wp_emitVoid, wp_GetInsertBlock, wp_Function_insert,
          wp_SetInsertPoint]
        intro Pt hPt f hf
        refine wp_frame_call s hF ?_ ?_
        · repeat' first
            | assumption
            | with_reducible apply Frame_insert
            | with_reducible apply Frame_insertBlock
            | with_reducible apply Frame_setInsertPoint
            | omega
            | (simp only [World.setInsertPoint_numBlocks, World.insert_numBlocks,
                World.emit_numBlocks, World.insertBlock_numBlocks, World.createBlock_numBlocks,
                World.setNamedValue_numBlocks, World.addIncoming_numBlocks]; omega)
        intro r s5 h5 hn5
        simp only [World.setInsertPoint_numBlocks, World.insert_numBlocks,
          World.insertBlock_numBlocks] at hn5
        cases r with
        | none => simp only [Gen.wp_pure]; exact h5
        | some FalseV =>
          simp only [Gen.wp_bind, Gen.wp_pure, CreateBr, wp_emitVoid, wp_GetInsertBlock,
            wp_Function_insert, wp_SetInsertPoint, wp_CreatePHI, wp_addIncoming]
          intro Pf hPf f2 hf2
          simp only [World.setInsertPoint_InsertBlock, World.emit_InsertBlock, reduceCtorEq,
            false_implies, true_and, Option.some.injEq, forall_eq']
          repeat' first
            | assumption
            | with_reducible apply Frame_insert
            | with_reducible apply Frame_emit
            | with_reducible apply Frame_insertBlock
            | with_reducible apply Frame_setInsertPoint
            | with_reducible apply Frame_addIncoming
            | omega
            | (simp only [World.setInsertPoint_numBlocks, World.insert_numBlocks,
                World.emit_numBlocks, World.insertBlock_numBlocks, World.createBlock_numBlocks,
                World.setNamedValue_numBlocks, World.addIncoming_numBlocks]; omega)
  | .IfStmtAST CondExpr TrueStmt none => by
    have hC := ExprAST_codegen_frame CondExpr
    have hT := StmtAST_codegen_frame TrueStmt
    refine Gen.Rel.of_wp fun s => ?_
    simp only [StmtAST.codegen, Gen.wp_bind, wp_GetInsertBlock]
    intro entryBB hentry
    refine wp_frame_call s hC (Frame_refl s) ?_
    intro r s1 h1 hn1
    cases r with
    | none => simp only [Gen.wp_pure]; exact h1
    | some CondV =>
      simp only [Gen.wp_bind, wp_GetInsertBlockParent, wp_Create, CreateCondBr, wp_emitVoid,
        wp_SetInsertPoint, World.createBlock_numBlocks]
      intro c hc
      refine wp_frame_call s hT ?_ ?_
      · repeat' first
          | assumption
          | with_reducible apply Frame_insert
          | with_reducible apply Frame_createBlock
          | with_reducible apply Frame_setInsertPoint
          | omega
          | (simp only [World.setInsertPoint_numBlocks, World.insert_numBlocks,
              World.emit_numBlocks, World.insertBlock_numBlocks, World.createBlock_numBlocks,
              World.setNamedValue_numBlocks, World.addIncoming_numBlocks]; omega)
      intro r s3 h3 hn3
      simp only [World.setInsertPoint_numBlocks, World.insert_numBlocks,
        World.createBlock_numBlocks] at hn3
      cases r with
      | none => simp only [Gen.wp_pure]; exact h3
      | some TrueV =>
        simp only [Gen.wp_bind, Gen.wp_pure, CreateBr, wp_emitVoid, wp_GetInsertBlock,
          wp_Function_insert, wp_SetInsertPoint, wp_CreatePHI, wp_addIncoming]
        intro Pt hPt f hf
        simp only [World.setInsertPoint_InsertBlock, World.emit_InsertBlock, reduceCtorEq,
          false_implies, true_and, Option.some.injEq, forall_eq']
        repeat' first
          | assumption
          | with_reducible apply Frame_insert
          | with_reducible apply Frame_emit
          | with_reducible apply Frame_insertBlock
          | with_reducible apply Frame_setInsertPoint
          | with_reducible apply Frame_addIncoming
          | omega
          | (simp only [World.setInsertPoint_numBlocks, World.insert_numBlocks,
              World.emit_numBlocks, World.insertBlock_numBlocks, World.createBlock_numBlocks,
              World.setNamedValue_numBlocks, World.addIncoming_numBlocks]; omega)
  | .ForStmtAST InitExp CondExpr AssignExpr BodyStmt => by
    have hC := ExprAST_codegen_frame CondExpr
    have hB := StmtAST_codegen_frame BodyStmt
    have hA := AssignmentAST_codegen_frame AssignExpr
    refine Gen.Rel.of_wp fun s => ?_
    simp only [StmtAST.codegen, Gen.wp_bind]
    refine wp_frame_call s ?_ (Frame_refl s) ?_
    · cases InitExp <;>
      · simp only []
        repeat' first
          | exact frame_pure _
          | exact BindingAST_codegen_frame _
          | exact AssignmentAST_codegen_frame _
          | exact frame_getNamedValue _
          | exact frame_setNamedValue _ _
          | apply frame_bind
          | intro _
          | split
    intro r s1 h1 hn1
    simp only [Gen.wp_pure]
    cases r with
    | none => simp only [Gen.wp_pure]; exact h1
    | some tmpAlloca =>
      simp only [Gen.wp_bind, wp_GetInsertBlockParent, wp_Create, CreateBr, wp_emitVoid,
        wp_SetInsertPoint, World.createBlock_numBlocks]
      intro c hc
      refine wp_frame_call s hC ?_ ?_
      · repeat' first
          | assumption
          | with_reducible apply Frame_insert
          | with_reducible apply Frame_createBlock
          | with_reducible apply Frame_setInsertPoint
          | omega
          | (simp only [World.setInsertPoint_numBlocks, World.insert_numBlocks,
              World.emit_numBlocks, World.insertBlock_numBlocks, World.createBlock_numBlocks,
              World.setNamedValue_numBlocks, World.addIncoming_numBlocks]; omega)
      intro r s3 h3 hn3
      simp only [World.setInsertPoint_numBlocks, World.insert_numBlocks,
        World.createBlock_numBlocks] at hn3
      cases r with
      | none => simp only [Gen.wp_pure]; exact h3
      | some condV =>
        simp only [Gen.wp_bind, CreateCondBr, wp_emitVoid, wp_GetInsertBlock, wp_Function_insert,
          wp_SetInsertPoint]
        intro CondBB hCondBB f hf
        refine wp_frame_call s hB ?_ ?_
        · repeat' first
            | assumption
            | with_reducible apply Frame_insert
            | with_reducible apply Frame_insertBlock
            | with_reducible apply Frame_setInsertPoint
            | omega
            | (simp only [World.setInsertPoint_numBlocks, World.insert_numBlocks,
                World.emit_numBlocks, World.insertBlock_numBlocks, World.createBlock_numBlocks,
                World.setNamedValue_numBlocks, World.addIncoming_numBlocks]; omega)
        intro r s5 h5 hn5
        simp only [World.setInsertPoint_numBlocks, World.insert_numBlocks,
          World.insertBlock_numBlocks] at hn5
        cases r with
        | none => simp only [Gen.wp_pure]; exact h5
        | some bodyV =>
          simp only [Gen.wp_bind]
          refine wp_frame_call s hA h5 ?_
          intro r s6 h6 hn6
          cases r with
          | none => simp only [Gen.wp_pure]; exact h6
          | some stepV =>
            simp only [Gen.wp_bind, Gen.wp_pure, CreateBr, wp_emitVoid, wp_GetInsertBlock,
              wp_Function_insert, wp_SetInsertPoint]
            intro c6 hc6 f2 hf2
            cases InitExp <;>
            · simp only [Gen.wp_bind, wp_setNamedValue, Gen.wp_pure]
              repeat' first
                | assumption
                | with_reducible apply Frame_insert
                | with_reducible apply Frame_insertBlock
                | with_reducible apply Frame_setNamedValue
                | with_reducible apply Frame_setInsertPoint
                | omega
                | (simp only [World.setInsertPoint_numBlocks, World.insert_numBlocks,
                    World.emit_numBlocks, World.insertBlock_numBlocks, World.createBlock_numBlocks,
                    World.setNamedValue_numBlocks, World.addIncoming_numBlocks]; omega)
  | .WhileStmtAST CondExpr BodyStmt => by
    have hC := ExprAST_codegen_frame CondExpr
    have hB := StmtAST_codegen_frame BodyStmt
    refine Gen.Rel.of_wp fun s => ?_
    simp only [StmtAST.codegen, Gen.wp_bind, wp_GetInsertBlockParent, wp_Create, CreateBr,
      wp_emitVoid, wp_SetInsertPoint, World.createBlock_numBlocks]
    intro c hc
    refine wp_frame_call s hC ?_ ?_
    · repeat' first
        | with_reducible apply Frame_refl
        | with_reducible apply Frame_insert
        | with_reducible apply Frame_createBlock
        | with_reducible apply Frame_setInsertPoint
        | omega
        | (simp only [World.setInsertPoint_numBlocks, World.insert_numBlocks,
            World.emit_numBlocks, World.insertBlock_numBlocks, World.createBlock_numBlocks,
            World.setNamedValue_numBlocks, World.addIncoming_numBlocks]; omega)
    intro r s3 h3 hn3
    simp only [World.setInsertPoint_numBlocks, World.insert_numBlocks,
      World.createBlock_numBlocks] at hn3
    cases r with
    | none => simp only [Gen.wp_pure]; exact h3
    | some condV =>
      simp only [Gen.wp_bind, CreateCondBr, wp_emitVoid, wp_GetInsertBlock, wp_Function_insert,
        wp_SetInsertPoint]
      intro CondBB hCondBB f hf
      refine wp_frame_call s hB ?_ ?_
      · repeat' first
          | assumption
          | with_reducible apply Frame_insert
          | with_reducible apply Frame_insertBlock
          | with_reducible apply Frame_setInsertPoint
          | omega
          | (simp only [World.setInsertPoint_numBlocks, World.insert_numBlocks,
              World.emit_numBlocks, World.insertBlock_numBlocks, World.createBlock_numBlocks,
              World.setNamedValue_numBlocks, World.addIncoming_numBlocks]; omega)
      intro r s5 h5 hn5
      simp only [World.setInsertPoint_numBlocks, World.insert_numBlocks,
        World.insertBlock_numBlocks] at hn5
      cases r with
      | none => simp only [Gen.wp_pure]; exact h5
      | some bodyV =>
        simp only [Gen.wp_bind, Gen.wp_pure, CreateBr, wp_emitVoid, wp_GetInsertBlock,
          wp_Function_insert, wp_SetInsertPoint]
        intro c6 hc6 f2 hf2
        repeat' first
          | assumption
          | with_reducible apply Frame_insert
          | with_reducible apply Frame_insertBlock
          | with_reducible apply Frame_setInsertPoint
          | omega
          | (simp only [World.setInsertPoint_numBlocks, World.insert_numBlocks,
              World.emit_numBlocks, World.insertBlock_numBlocks, World.createBlock_numBlocks,
              World.setNamedValue_numBlocks, World.addIncoming_numBlocks]; omega)
  | .DoWhileStmtAST BodyStmt CondExpr => by
    have hC := ExprAST_codegen_frame CondExpr
    have hB := StmtAST_codegen_frame BodyStmt
    refine Gen.Rel.of_wp fun s => ?_
    simp only [StmtAST.codegen, Gen.wp_bind, wp_GetInsertBlockParent, wp_Create, CreateBr,
      wp_emitVoid, wp_SetInsertPoint, World.createBlock_numBlocks]
    intro c hc
    refine wp_frame_call s hB ?_ ?_
    · repeat' first
        | with_reducible apply Frame_refl
        | with_reducible apply Frame_insert
        | with_reducible apply Frame_createBlock
        | with_reducible apply Frame_setInsertPoint
        | omega
        | (simp only [World.setInsertPoint_numBlocks, World.insert_numBlocks,
            World.emit_numBlocks, World.insertBlock_numBlocks, World.createBlock_numBlocks,
            World.setNamedValue_numBlocks, World.addIncoming_numBlocks]; omega)
    intro r s3 h3 hn3
    simp only [World.setInsertPoint_numBlocks, World.insert_numBlocks,
      World.createBlock_numBlocks] at hn3
    cases r with
    | none => simp only [Gen.wp_pure]; exact h3
    | some bodyV =>
      simp only [Gen.wp_bind, CreateBr, wp_emitVoid, wp_GetInsertBlock, wp_Function_insert,
        wp_SetInsertPoint]
      intro LoopBB hLoopBB f hf
      refine wp_frame_call s hC ?_ ?_
      · repeat' first
          | assumption
          | with_reducible apply Frame_insert
          | with_reducible apply Frame_insertBlock
          | with_reducible apply Frame_setInsertPoint
          | omega
          | (simp only [World.setInsertPoint_numBlocks, World.insert_numBlocks,
              World.emit_numBlocks, World.insertBlock_numBlocks, World.createBlock_numBlocks,
              World.setNamedValue_numBlocks, World.addIncoming_numBlocks]; omega)
      intro r s5 h5 hn5
      simp only [World.setInsertPoint_numBlocks, World.insert_numBlocks,
        World.insertBlock_numBlocks] at hn5
      cases r with
      | none => simp only [Gen.wp_pure]; exact h5
      | some condV =>
        simp only [Gen.wp_bind, Gen.wp_pure, CreateCondBr, wp_emitVoid, wp_GetInsertBlock,
          wp_Function_insert, wp_SetInsertPoint]
        intro c6 hc6 f2 hf2
        repeat' first
          | assumption
          | with_reducible apply Frame_insert
          | with_reducible apply Frame_insertBlock
          | with_reducible apply Frame_setInsertPoint
          | omega
          | (simp only [World.setInsertPoint_numBlocks, World.insert_numBlocks,
              World.emit_numBlocks, World.insertBlock_numBlocks, World.createBlock_numBlocks,
              World.setNamedValue_numBlocks, World.addIncoming_numBlocks]; omega)
  | .ForEachStmtAST IterName ArrayName BodyStmt => by
    have hB := StmtAST_codegen_frame BodyStmt
    refine Gen.Rel.of_wp fun s => ?_
    simp only [StmtAST.codegen, Gen.wp_bind, wp_GetInsertBlock, wp_GetInsertBlockParent,
      wp_Create, wp_SetInsertPoint, wp_getNamedValue, World.createBlock_numBlocks,
      World.setInsertPoint_InsertBlock, Option.some.injEq, forall_eq']
    intro c hc
    refine wp_frame_call s (VarBindingAST_codegen_frame _ _) ?_ ?_
    · repeat' first
        | exact Frame_setInsertPoint_same (Frame_refl s) c hc
        | with_reducible apply Frame_createBlock
    intro boundValCounter s1 h1 hn1
    simp only [World.setInsertPoint_numBlocks, World.createBlock_numBlocks] at hn1
    simp only [Gen.wp_bind, wp_setNamedValue, wp_getNamedValue]
    refine wp_frame_call s (m := match (s1.setNamedValue (ForEachStmtAST.getCounterName IterName)
        boundValCounter).NamedValues ArrayName with
      | none => do
        let A ← getNamedGlobal ArrayName
        match A with
        | none => LogErrorV ("Variabile " ++ ArrayName ++ " non definita.")
        | some A => pure (some A.ValueType)
      | some A => pure (some A.AllocatedType)) ?_ (Frame_setNamedValue h1 _ _) ?_
    · split
      · repeat' first
          | exact frame_pure _
          | exact frame_getNamedGlobal _
          | exact frame_LogErrorV _
          | apply frame_bind
          | intro _
          | split
      · exact frame_pure _
    intro AT s2 h2 hn2
    simp only [World.setNamedValue_numBlocks] at hn2
    simp only [Gen.wp_pure]
    cases AT with
    | none => simp only [Gen.wp_pure]; exact h2
    | some AT =>
      simp only []
      cases AT with
      | ArrayTy NumElements =>
        simp only [Gen.wp_bind, CreateBr, wp_emitVoid, wp_SetInsertPoint]
        refine wp_frame_call s (ExprAST_codegen_frame _) ?_ ?_
        · repeat' first
            | assumption
            | with_reducible apply Frame_insert
            | with_reducible apply Frame_setInsertPoint
            | omega
            | (simp only [World.setInsertPoint_numBlocks, World.insert_numBlocks,
                World.emit_numBlocks, World.insertBlock_numBlocks, World.createBlock_numBlocks,
                World.setNamedValue_numBlocks, World.addIncoming_numBlocks]; omega)
        intro r s3 h3 hn3
        simp only [World.setInsertPoint_numBlocks, World.insert_numBlocks] at hn3
        cases r with
        | none => simp only [Gen.wp_pure]; exact h3
        | some condV =>
          simp only [Gen.wp_bind, CreateCondBr, wp_emitVoid, wp_GetInsertBlock,
            wp_Function_insert, wp_SetInsertPoint, wp_getNamedValue]
          intro CondBB hCondBB f hf
          refine wp_frame_call s (VarBindingAST_codegen_frame _ _) ?_ ?_
          · repeat' first
              | assumption
              | with_reducible apply Frame_insert
              | with_reducible apply Frame_insertBlock
              | with_reducible apply Frame_setInsertPoint
              | omega
              | (simp only [World.setInsertPoint_numBlocks, World.insert_numBlocks,
                  World.emit_numBlocks, World.insertBlock_numBlocks, World.createBlock_numBlocks,
                  World.setNamedValue_numBlocks, World.addIncoming_numBlocks]; omega)
          intro r s4 h4 hn4
          simp only [World.setInsertPoint_numBlocks, World.insert_numBlocks,
            World.insertBlock_numBlocks] at hn4
          cases r with
          | none => simp only [Gen.wp_pure]; exact h4
          | some bindingValue =>
            simp only [Gen.wp_bind, wp_setNamedValue]
            refine wp_frame_call s hB (Frame_setNamedValue h4 _ _) ?_
            intro r s5 h5 hn5
            simp only [World.setNamedValue_numBlocks] at hn5
            cases r with
            | none => simp only [Gen.wp_pure]; exact h5
            | some bodyV =>
              simp only [Gen.wp_bind]
              refine wp_frame_call s (AssignmentAST_codegen_frame _) h5 ?_
              intro r s6 h6 hn6
              simp only [Gen.wp_bind, Gen.wp_pure, CreateBr, wp_emitVoid, wp_GetInsertBlock,
                wp_Function_insert, wp_SetInsertPoint, wp_setNamedValue]
              intro c6 hc6 f2 hf2
              repeat' first
                | assumption
                | with_reducible apply Frame_insert
                | with_reducible apply Frame_insertBlock
                | with_reducible apply Frame_setNamedValue
                | with_reducible apply Frame_setInsertPoint
                | omega
                | (simp only [World.setInsertPoint_numBlocks, World.insert_numBlocks,
                    World.emit_numBlocks, World.insertBlock_numBlocks, World.createBlock_numBlocks,
                    World.setNamedValue_numBlocks, World.addIncoming_numBlocks]; omega)
      | DoubleTy => simp only [wp_LogErrorV]; exact Frame_logError h2 _
      | FloatTy => simp only [wp_LogErrorV]; exact Frame_logError h2 _
      | Int32Ty => simp only [wp_LogErrorV]; exact Frame_logError h2 _
theorem StmtAST_codegenStmts_frame : ∀ (l : List StmtAST) (v : Option Value),
    Gen.Rel Frame (StmtAST.codegenStmts l v)
  | [], _ => by simp only [StmtAST.codegenStmts]; exact frame_pure _
  | st :: Stmts, _ => by
    have h1 := StmtAST_codegen_frame st
    have h2 := fun v => StmtAST_codegenStmts_frame Stmts v
    simp only [StmtAST.codegenStmts]
    repeat' first
      | exact frame_pure _
      | exact h1
      | exact h2 _
      | apply frame_bind
      | intro _
      | split
end

@[simp] theorem World.insertBlock_numValues (s : World) (f BB : Nat) :
    (s.insertBlock f BB).numValues = s.numValues := rfl
@[simp] theorem World.setInsertPoint_numValues (s : World) (BB : Nat) :
    (s.setInsertPoint BB).numValues = s.numValues := rfl
@[simp] theorem World.createBlock_numValues (s : World) (n : String) (p : Option Nat) :
    (s.createBlock n p).numValues = s.numValues := by
  unfold World.createBlock; split <;> rfl

theorem World.lastInst_insert (s : World) (i : Instr) (c : Nat) (h : s.InsertBlock = some c) :
    (s.insert i).lastInst c = some i := by
  simp [World.lastInst, World.insert_insts_self _ _ _ h]

theorem Instr.addIncoming_phi_self (id : Nat) (V : Value) (BB : Nat) (l : List (Value × Nat)) :
    Instr.addIncoming id V BB (.phi id l) = .phi id (l ++ [(V, BB)]) := by
  simp [Instr.addIncoming]

/-- The last steps of a conditional construct, seen on the states: `s2` is the state
in which the first side starts (in block `n`, with `n + 1` and `n + 2` created for
the second side and the merge), `s3` the state in which it ends, `s5` the state in
which the second side ends. -/
theorem merge_two_sides {s2 s3 s5 : World} {n f f2 Pt Pf : Nat} (TrueV FalseV : Value)
    (hcur2 : s2.InsertBlock = some n) (hn2 : n + 3 ≤ s2.numBlocks)
    (h23 : Frame s2 s3) (hPt : s3.InsertBlock = some Pt)
    (h45 : Frame (((s3.insert (.br (n + 2))).insertBlock f (n + 1)).setInsertPoint (n + 1)) s5)
    (hPf : s5.InsertBlock = some Pf) (sF : World)
    (hF : sF = (((((s5.insert (.br (n + 2))).insertBlock f2 (n + 2)).setInsertPoint (n + 2)).emit
      fun id => .phi id []).addIncoming (n + 2) s5.numValues TrueV Pt).addIncoming (n + 2)
        s5.numValues FalseV Pf) :
    sF.InsertBlock = some (n + 2) ∧
      (sF.blocks (n + 2)).insts.getLast? = some (.phi s5.numValues [(TrueV, Pt), (FalseV, Pf)]) ∧
      sF.lastInst Pt = some (.br (n + 2)) ∧ sF.lastInst Pf = some (.br (n + 2)) ∧
      Pt ≠ Pf ∧ Pt ≠ n + 2 ∧ Pf ≠ n + 2 := by
  have hn3 := h23.numBlocks
  have hn5 : s3.numBlocks ≤ s5.numBlocks := by simpa using h45.numBlocks
  -- where the two sides end
  have hPt' : (Pt = n ∨ s2.numBlocks ≤ Pt) ∧ Pt < s3.numBlocks := by
    rcases h23.cur with e | ⟨c, hc, h1, h2⟩
    · rw [hPt, hcur2] at e; cases e; exact ⟨Or.inl rfl, by omega⟩
    · rw [hPt] at hc; cases hc; exact ⟨Or.inr h1, h2⟩
  have hPf' : Pf = n + 1 ∨ s3.numBlocks ≤ Pf := by
    rcases h45.cur with e | ⟨c, hc, h1, _⟩
    · rw [hPf] at e; simp at e; exact Or.inl e
    · rw [hPf] at hc; cases hc; exact Or.inr (by simpa using h1)
  have hPtF : Pt ≠ n + 1 := by omega
  have hPtM : Pt ≠ n + 2 := by omega
  have hPfM : Pf ≠ n + 2 := by omega
  have hPtPf : Pt ≠ Pf := by omega
  -- the first side's branch survives the second side
  have hlast3 : ((s3.insert (.br (n + 2))).blocks Pt).insts = (s3.blocks Pt).insts ++ [.br (n + 2)] :=
    World.insert_insts_self _ _ _ hPt
  obtain ⟨pre, hpre⟩ := h45.old Pt (by simpa using hPt'.2)
    (by simp only [World.setInsertPoint_InsertBlock, ne_eq, Option.some.injEq]; omega)
  simp only [World.setInsertPoint_blocks, World.insertBlock_insts, hlast3] at hpre
  have hPt5 : ((s5.insert (.br (n + 2))).blocks Pt).insts = pre ++ ((s3.blocks Pt).insts ++ [.br (n + 2)]) := by
    rw [World.insert_blocks_of_ne _ _ _ (by rw [hPf]; simpa using hPtPf.symm)]; exact hpre
  have hPf5 : ((s5.insert (.br (n + 2))).blocks Pf).insts = (s5.blocks Pf).insts ++ [.br (n + 2)] :=
    World.insert_insts_self _ _ _ hPf
  subst hF
  refine ⟨by simp, ?_, ?_, ?_, hPtPf, hPtM, hPfM⟩
  · simp only [World.addIncoming_insts, if_true]
    rw [World.emit_insts_self _ _ _ (by simp)]
    simp [Instr.addIncoming]
  · simp only [World.lastInst, World.addIncoming_insts, hPtM, if_false]
    rw [World.emit_blocks_of_ne _ _ _ (by simpa using hPtM.symm)]
    simp only [World.setInsertPoint_blocks, World.insertBlock_insts, hPt5]
    simp
  · simp only [World.lastInst, World.addIncoming_insts, hPfM, if_false]
    rw [World.emit_blocks_of_ne _ _ _ (by simpa using hPfM.symm)]
    simp only [World.setInsertPoint_blocks, World.insertBlock_insts, hPf5]
    simp

/-! ## Shape of the control-flow graph under the backend operations -/

theorem Unterminated_nil : Unterminated [] := by
  intro i hi; cases hi

theorem Unterminated_append {l : List Instr} {i : Instr} (h : Unterminated l)
    (hi : i.isTerminator = false) : Unterminated (l ++ [i]) := by
  intro j hj
  rcases List.mem_append.1 hj with h1 | h1
  · exact h j h1
  · rw [List.mem_singleton.1 h1]; exact hi

theorem Unterminated_cons {l : List Instr} {i : Instr} (h : Unterminated l)
    (hi : i.isTerminator = false) : Unterminated (i :: l) := by
  intro j hj
  rcases List.mem_cons.1 hj with h1 | h1
  · rw [h1]; exact hi
  · exact h j h1

theorem Terminated_of_append {l : List Instr} {i : Instr} (h : Unterminated l)
    (hi : i.isTerminator = true) : Terminated (l ++ [i]) :=
  ⟨l, i, rfl, hi, h⟩

theorem Terminated_cons {l : List Instr} {i : Instr} (h : Terminated l)
    (hi : i.isTerminator = false) : Terminated (i :: l) := by
  obtain ⟨pre, t, e, ht, hpre⟩ := h
  exact ⟨i :: pre, t, by rw [e]; rfl, ht, Unterminated_cons hpre hi⟩

theorem Instr.addIncoming_isTerminator (id : Nat) (V : Value) (BB : Nat) (i : Instr) :
    (Instr.addIncoming id V BB i).isTerminator = i.isTerminator := by
  cases i with
  | phi id1 l => by_cases h : id1 = id <;> simp [Instr.addIncoming, Instr.isTerminator, h]
  | _ => rfl

theorem Instr.addIncoming_successors (id : Nat) (V : Value) (BB : Nat) (i : Instr) :
    (Instr.addIncoming id V BB i).successors = i.successors := by
  cases i with
  | phi id1 l => by_cases h : id1 = id <;> simp [Instr.addIncoming, Instr.successors, h]
  | _ => rfl

theorem Unterminated_map_addIncoming {l : List Instr} (id : Nat) (V : Value) (BB : Nat)
    (h : Unterminated l) : Unterminated (l.map (Instr.addIncoming id V BB)) := by
  intro j hj
  obtain ⟨i, hi, rfl⟩ := List.mem_map.1 hj
  rw [Instr.addIncoming_isTerminator]; exact h i hi

theorem Terminated_map_addIncoming {l : List Instr} (id : Nat) (V : Value) (BB : Nat)
    (h : Terminated l) : Terminated (l.map (Instr.addIncoming id V BB)) := by
  obtain ⟨pre, t, e, ht, hpre⟩ := h
  refine ⟨pre.map (Instr.addIncoming id V BB), Instr.addIncoming id V BB t, by simp [e], ?_,
    Unterminated_map_addIncoming id V BB hpre⟩
  rw [Instr.addIncoming_isTerminator]; exact ht

theorem successors_of_not_terminator {i : Instr} (h : i.isTerminator = false) :
    i.successors = [] := by
  cases i <;> simp_all [Instr.isTerminator, Instr.successors]

/-- A step that changes no block list and keeps the status and the targets of every
block keeps the shape. -/
theorem CFG_of_same_layout {s s1 : World} {f : Nat} {T O : Set Nat} (h : CFG s f T O)
    (hl : s1.functionBlocks f = s.functionBlocks f) (hn : s.numBlocks ≤ s1.numBlocks)
    (hp : ∀ b, (s1.blocks b).parent = (s.blocks b).parent)
    (hu : ∀ b, Unterminated (s.blocks b).insts → Unterminated (s1.blocks b).insts)
    (ht : ∀ b, Terminated (s.blocks b).insts → Terminated (s1.blocks b).insts)
    (hs : ∀ b, ∀ i ∈ (s1.blocks b).insts, ∀ t ∈ i.successors,
      ∃ j ∈ (s.blocks b).insts, t ∈ j.successors) : CFG s1 f T O where
  bound := by intro b hb; rw [hl] at hb; exact Nat.lt_of_lt_of_le (h.bound b hb) hn
  parent := by intro b hb; rw [hl] at hb; rw [hp]; exact h.parent b hb
  pending := by
    intro d hd
    obtain ⟨h1, h2, h3⟩ := h.pending d hd
    exact ⟨Nat.lt_of_lt_of_le h1 hn, by rw [hl]; exact h2, hu d h3⟩
  opened := by
    intro b hb
    obtain ⟨h1, h2⟩ := h.opened b hb
    exact ⟨by rw [hl]; exact h1, hu b h2⟩
  closed := by
    intro b hb hO
    rw [hl] at hb
    obtain ⟨h1, h2⟩ := h.closed b hb hO
    refine ⟨ht b h1, ?_⟩
    intro i hi t htt
    obtain ⟨j, hj, hjt⟩ := hs b i hi t htt
    rw [hl]; exact h2 j hj t hjt

theorem CFG_setInsertPoint {s : World} {f : Nat} {T O : Set Nat} (h : CFG s f T O) (BB : Nat) :
    CFG (s.setInsertPoint BB) f T O :=
  CFG_of_same_layout h rfl (Nat.le_refl _) (fun _ => rfl) (fun _ h => h) (fun _ h => h)
    (fun _ i hi _ ht => ⟨i, hi, ht⟩)

theorem CFG_setNamedValue {s : World} {f : Nat} {T O : Set Nat} (h : CFG s f T O) (n : String)
    (A : Option AllocaInst) : CFG (s.setNamedValue n A) f T O :=
  CFG_of_same_layout h rfl (Nat.le_refl _) (fun _ => rfl) (fun _ h => h) (fun _ h => h)
    (fun _ i hi _ ht => ⟨i, hi, ht⟩)

theorem CFG_logError {s : World} {f : Nat} {T O : Set Nat} (h : CFG s f T O) (m : String) :
    CFG (s.logError m) f T O :=
  CFG_of_same_layout h rfl (Nat.le_refl _) (fun _ => rfl) (fun _ h => h) (fun _ h => h)
    (fun _ i hi _ ht => ⟨i, hi, ht⟩)

theorem CFG_printOp {s : World} {f : Nat} {T O : Set Nat} (h : CFG s f T O) (Op : Char) :
    CFG { s with cout := s.cout ++ [Op] } f T O :=
  CFG_of_same_layout h rfl (Nat.le_refl _) (fun _ => rfl) (fun _ h => h) (fun _ h => h)
    (fun _ i hi _ ht => ⟨i, hi, ht⟩)

theorem CFG_entryAlloca {s : World} {f : Nat} {T O : Set Nat} (h : CFG s f T O) (e : Nat)
    (ty : IRType) (n : String) : CFG (s.entryAlloca e ty n) f T O := by
  refine CFG_of_same_layout h rfl (Nat.le_refl _) (fun _ => by simp) ?_ ?_ ?_
  · intro b hb
    rw [World.entryAlloca_insts]; split
    · exact Unterminated_cons hb rfl
    · exact hb
  · intro b hb
    rw [World.entryAlloca_insts]; split
    · exact Terminated_cons hb rfl
    · exact hb
  · intro b i hi t ht
    rw [World.entryAlloca_insts] at hi
    split at hi
    · rcases List.mem_cons.1 hi with e1 | e1
      · subst e1; simp [Instr.successors] at ht
      · exact ⟨i, e1, ht⟩
    · exact ⟨i, hi, ht⟩

theorem CFG_addIncoming {s : World} {f : Nat} {T O : Set Nat} (h : CFG s f T O) (b id : Nat)
    (V : Value) (BB : Nat) : CFG (s.addIncoming b id V BB) f T O := by
  refine CFG_of_same_layout h rfl (Nat.le_refl _) (fun _ => by simp) ?_ ?_ ?_
  · intro k hk
    rw [World.addIncoming_insts]; split
    · exact Unterminated_map_addIncoming _ _ _ hk
    · exact hk
  · intro k hk
    rw [World.addIncoming_insts]; split
    · exact Terminated_map_addIncoming _ _ _ hk
    · exact hk
  · intro k i hi t ht
    rw [World.addIncoming_insts] at hi
    split at hi
    · obtain ⟨j, hj, rfl⟩ := List.mem_map.1 hi
      rw [Instr.addIncoming_successors] at ht
      exact ⟨j, hj, ht⟩
    · exact ⟨i, hi, ht⟩

theorem CFG_insert_open {s : World} {f : Nat} {T O : Set Nat} (h : CFG s f T O) {c : Nat}
    (hc : s.InsertBlock = some c) (hO : c ∈ O) (i : Instr) (hi : i.isTerminator = false) :
    CFG (s.insert i) f T O where
  bound := by simpa using h.bound
  parent := by intro b hb; rw [World.insert_parent]; exact h.parent b (by simpa using hb)
  pending := by
    intro d hd
    obtain ⟨h1, h2, h3⟩ := h.pending d hd
    refine ⟨by simpa using h1, by simpa using h2, ?_⟩
    have : d ≠ c := fun e => h2 (e ▸ (h.opened c hO).1)
    rw [World.insert_blocks_of_ne _ _ _ (by rw [hc]; simpa using this.symm)]; exact h3
  opened := by
    intro b hb
    obtain ⟨h1, h2⟩ := h.opened b hb
    refine ⟨by simpa using h1, ?_⟩
    by_cases e : b = c
    · subst e; rw [World.insert_insts_self _ _ _ hc]; exact Unterminated_append h2 hi
    · rw [World.insert_blocks_of_ne _ _ _ (by rw [hc]; simpa using fun x => e x.symm)]; exact h2
  closed := by
    intro b hb hbO
    have hb' : b ∈ s.functionBlocks f := by simpa using hb
    have : b ≠ c := fun e => hbO (e ▸ hO)
    rw [World.insert_blocks_of_ne _ _ _ (by rw [hc]; simpa using this.symm)]
    simpa using h.closed b hb' hbO

theorem CFG_emit_open {s : World} {f : Nat} {T O : Set Nat} (h : CFG s f T O) {c : Nat}
    (hc : s.InsertBlock = some c) (hO : c ∈ O) (mk : Nat → Instr)
    (hi : ∀ n, (mk n).isTerminator = false) : CFG (s.emit mk) f T O := by
  have h1 : CFG { s with numValues := s.numValues + 1 } f T O :=
    CFG_of_same_layout h rfl (Nat.le_refl _) (fun _ => rfl) (fun _ h => h) (fun _ h => h)
      (fun _ i hi _ ht => ⟨i, hi, ht⟩)
  exact CFG_insert_open h1 hc hO _ (hi _)

theorem CFG_insert_term {s : World} {f : Nat} {T O : Set Nat} (h : CFG s f T O) {c : Nat}
    (hc : s.InsertBlock = some c) (hO : c ∈ O) (i : Instr) (hi : i.isTerminator = true)
    (ht : ∀ t ∈ i.successors, t ∈ s.functionBlocks f ∨ t ∈ T) :
    CFG (s.insert i) f T (O \ {c}) where
  bound := by simpa using h.bound
  parent := by intro b hb; rw [World.insert_parent]; exact h.parent b (by simpa using hb)
  pending := by
    intro d hd
    obtain ⟨h1, h2, h3⟩ := h.pending d hd
    refine ⟨by simpa using h1, by simpa using h2, ?_⟩
    have : d ≠ c := fun e => h2 (e ▸ (h.opened c hO).1)
    rw [World.insert_blocks_of_ne _ _ _ (by rw [hc]; simpa using this.symm)]; exact h3
  opened := by
    intro b hb
    obtain ⟨h1, h2⟩ := h.opened b hb.1
    refine ⟨by simpa using h1, ?_⟩
    have e : b ≠ c := by simpa using hb.2
    rw [World.insert_blocks_of_ne _ _ _ (by rw [hc]; simpa using fun x => e x.symm)]; exact h2
  closed := by
    intro b hb hbO
    have hb' : b ∈ s.functionBlocks f := by simpa using hb
    by_cases e : b = c
    · subst e
      rw [World.insert_insts_self _ _ _ hc]
      refine ⟨Terminated_of_append (h.opened b hO).2 hi, ?_⟩
      intro j hj t htj
      rcases List.mem_append.1 hj with h1 | h1
      · rw [successors_of_not_terminator ((h.opened b hO).2 j h1)] at htj; cases htj
      · rw [List.mem_singleton.1 h1] at htj; simpa using ht t htj
    · have hbO' : b ∉ O := fun x => hbO ⟨x, by simpa using e⟩
      rw [World.insert_blocks_of_ne _ _ _ (by rw [hc]; simpa using fun x => e x.symm)]
      simpa using h.closed b hb' hbO'

theorem CFG_createBlock_none {s : World} {f : Nat} {T O : Set Nat} (h : CFG s f T O)
    (n : String) : CFG (s.createBlock n none) f (insert s.numBlocks T) O where
  bound := by
    intro b hb
    have := h.bound b (by simpa using hb)
    simp only [World.createBlock_numBlocks]; omega
  parent := by
    intro b hb
    have hb' : b ∈ s.functionBlocks f := by simpa using hb
    have : b ≠ s.numBlocks := Nat.ne_of_lt (h.bound b hb')
    simp only [World.createBlock_blocks, Function.update_noteq this]
    exact h.parent b hb'
  pending := by
    intro d hd
    rcases hd with e | hd
    · subst e
      refine ⟨by simp, fun x => ?_, by simpa using Unterminated_nil⟩
      exact absurd (h.bound _ (by simpa using x)) (Nat.lt_irrefl _)
    · obtain ⟨h1, h2, h3⟩ := h.pending d hd
      have : d ≠ s.numBlocks := Nat.ne_of_lt h1
      refine ⟨by simp only [World.createBlock_numBlocks]; omega, by simpa using h2, ?_⟩
      simpa [Function.update_noteq this] using h3
  opened := by
    intro b hb
    obtain ⟨h1, h2⟩ := h.opened b hb
    have : b ≠ s.numBlocks := Nat.ne_of_lt (h.bound b h1)
    exact ⟨by simpa using h1, by simpa [Function.update_noteq this] using h2⟩
  closed := by
    intro b hb hbO
    have hb' : b ∈ s.functionBlocks f := by simpa using hb
    have : b ≠ s.numBlocks := Nat.ne_of_lt (h.bound b hb')
    obtain ⟨h1, h2⟩ := h.closed b hb' hbO
    simp only [World.createBlock_blocks, Function.update_noteq this,
      World.createBlock_none_functionBlocks]
    refine ⟨h1, fun i hi t ht => ?_⟩
    rcases h2 i hi t ht with x | x
    · exact Or.inl x
    · exact Or.inr (Or.inr x)

theorem CFG_createBlock_some {s : World} {f : Nat} {T O : Set Nat} (h : CFG s f T O)
    (n : String) : CFG (s.createBlock n (some f)) f T (insert s.numBlocks O) where
  bound := by
    intro b hb
    simp only [World.createBlock_some_functionBlocks, Function.update_same, List.mem_append,
      List.mem_singleton] at hb
    simp only [World.createBlock_numBlocks]
    rcases hb with hb | hb
    · have := h.bound b hb; omega
    · omega
  parent := by
    intro b hb
    simp only [World.createBlock_some_functionBlocks, Function.update_same, List.mem_append,
      List.mem_singleton] at hb
    by_cases e : b = s.numBlocks
    · subst e; simp
    · simp only [World.createBlock_blocks, Function.update_noteq e]
      exact h.parent b (hb.resolve_right e)
  pending := by
    intro d hd
    obtain ⟨h1, h2, h3⟩ := h.pending d hd
    have : d ≠ s.numBlocks := Nat.ne_of_lt h1
    refine ⟨by simp only [World.createBlock_numBlocks]; omega, ?_, ?_⟩
    · simp only [World.createBlock_some_functionBlocks, Function.update_same, List.mem_append,
        List.mem_singleton, not_or]
      exact ⟨h2, this⟩
    · simpa [Function.update_noteq this] using h3
  opened := by
    intro b hb
    rcases hb with e | hb
    · subst e
      exact ⟨by simp, by simpa using Unterminated_nil⟩
    · obtain ⟨h1, h2⟩ := h.opened b hb
      have : b ≠ s.numBlocks := Nat.ne_of_lt (h.bound b h1)
      exact ⟨by simp [h1], by simpa [Function.update_noteq this] using h2⟩
  closed := by
    intro b hb hbO
    simp only [World.createBlock_some_functionBlocks, Function.update_same, List.mem_append,
      List.mem_singleton] at hb
    have e : b ≠ s.numBlocks := fun x => hbO (Or.inl x)
    have hb' := hb.resolve_right e
    obtain ⟨h1, h2⟩ := h.closed b hb' (fun x => hbO (Or.inr x))
    simp only [World.createBlock_blocks, Function.update_noteq e,
      World.createBlock_some_functionBlocks, Function.update_same, List.mem_append,
      List.mem_singleton]
    refine ⟨h1, fun i hi t ht => ?_⟩
    rcases h2 i hi t ht with x | x
    · exact Or.inl (Or.inl x)
    · exact Or.inr x

theorem CFG_insertBlock {s : World} {f : Nat} {T O : Set Nat} (h : CFG s f T O) {d : Nat}
    (hd : d ∈ T) : CFG (s.insertBlock f d) f (T \ {d}) (insert d O) where
  bound := by
    intro b hb
    simp only [World.insertBlock_functionBlocks, Function.update_same, List.mem_append,
      List.mem_singleton] at hb
    simp only [World.insertBlock_numBlocks]
    rcases hb with hb | hb
    · exact h.bound b hb
    · subst hb; exact (h.pending b hd).1
  parent := by
    intro b hb
    simp only [World.insertBlock_functionBlocks, Function.update_same, List.mem_append,
      List.mem_singleton] at hb
    rw [World.insertBlock_parent]
    split
    · rfl
    · next e => exact h.parent b (hb.resolve_right e)
  pending := by
    intro x hx
    obtain ⟨h1, h2, h3⟩ := h.pending x hx.1
    have e : x ≠ d := by simpa using hx.2
    refine ⟨by simpa using h1, ?_, by simpa using h3⟩
    simp only [World.insertBlock_functionBlocks, Function.update_same, List.mem_append,
      List.mem_singleton, not_or]
    exact ⟨h2, e⟩
  opened := by
    intro b hb
    rcases hb with e | hb
    · subst e
      exact ⟨by simp, by simpa using (h.pending b hd).2.2⟩
    · obtain ⟨h1, h2⟩ := h.opened b hb
      exact ⟨by simp [h1], by simpa using h2⟩
  closed := by
    intro b hb hbO
    simp only [World.insertBlock_functionBlocks, Function.update_same, List.mem_append,
      List.mem_singleton] at hb
    have e : b ≠ d := fun x => hbO (Or.inl x)
    have hb' := hb.resolve_right e
    obtain ⟨h1, h2⟩ := h.closed b hb' (fun x => hbO (Or.inr x))
    simp only [World.insertBlock_insts, World.insertBlock_functionBlocks, Function.update_same,
      List.mem_append, List.mem_singleton]
    refine ⟨h1, fun i hi t ht => ?_⟩
    rcases h2 i hi t ht with x | x
    · exact Or.inl (Or.inl x)
    · by_cases e2 : t = d
      · exact Or.inl (Or.inr e2)
      · exact Or.inr ⟨x, by simpa using e2⟩

theorem CFG_congr {s : World} {f : Nat} {T O T1 O1 : Set Nat} (h : CFG s f T O)
    (hT : T = T1) (hO : O = O1) : CFG s f T1 O1 := hT ▸ hO ▸ h

/-! ## The state between two statements -/

theorem Good_cur {s : World} {f : Nat} {T : Set Nat} (h : Good s f T) {c : Nat}
    (hc : s.InsertBlock = some c) :
    CFG s f T {c} := by
  obtain ⟨c1, h1, h3⟩ := h
  rw [hc] at h1; cases h1
  exact h3

theorem Good_mem {s : World} {f : Nat} {T : Set Nat} (h : Good s f T) {c : Nat}
    (hc : s.InsertBlock = some c) : c ∈ s.functionBlocks f :=
  ((Good_cur h hc).opened c rfl).1

theorem Good_parent {s : World} {f : Nat} {T : Set Nat} (h : Good s f T) {c : Nat}
    (hc : s.InsertBlock = some c) : (s.blocks c).parent = some f :=
  (Good_cur h hc).parent c (Good_mem h hc)

theorem Good_lt {s : World} {f : Nat} {T : Set Nat} (h : Good s f T) {c : Nat}
    (hc : s.InsertBlock = some c) : c < s.numBlocks :=
  (Good_cur h hc).bound c (Good_mem h hc)

theorem Good_pending_lt {s : World} {f : Nat} {T : Set Nat} (h : Good s f T) :
    ∀ d ∈ T, d < s.numBlocks := by
  obtain ⟨c1, _, h3⟩ := h
  exact fun d hd => (h3.pending d hd).1

theorem Good_mk {s : World} {f : Nat} {T T1 O : Set Nat} {c : Nat} (h : CFG s f T O)
    (hT : T = T1) (hO : O = {c}) (hc : s.InsertBlock = some c) : Good s f T1 :=
  ⟨c, hc, CFG_congr h hT hO⟩

theorem Good_insert {s : World} {f : Nat} {T : Set Nat} (h : Good s f T) (i : Instr)
    (hi : i.isTerminator = false) : Good (s.insert i) f T := by
  obtain ⟨c, h1, h3⟩ := h
  exact ⟨c, by simpa using h1, CFG_insert_open h3 h1 rfl i hi⟩

theorem Good_emit {s : World} {f : Nat} {T : Set Nat} (h : Good s f T) (mk : Nat → Instr)
    (hi : ∀ n, (mk n).isTerminator = false) : Good (s.emit mk) f T := by
  obtain ⟨c, h1, h3⟩ := h
  exact ⟨c, by simpa using h1, CFG_emit_open h3 h1 rfl mk hi⟩

theorem Good_entryAlloca {s : World} {f : Nat} {T : Set Nat} (h : Good s f T) (e : Nat)
    (ty : IRType) (n : String) : Good (s.entryAlloca e ty n) f T := by
  obtain ⟨c, h1, h3⟩ := h
  exact ⟨c, h1, CFG_entryAlloca h3 e ty n⟩

theorem Good_logError {s : World} {f : Nat} {T : Set Nat} (h : Good s f T) (m : String) :
    Good (s.logError m) f T := by
  obtain ⟨c, h1, h3⟩ := h
  exact ⟨c, h1, CFG_logError h3 m⟩

theorem Good_setNamedValue {s : World} {f : Nat} {T : Set Nat} (h : Good s f T) (n : String)
    (A : Option AllocaInst) : Good (s.setNamedValue n A) f T := by
  obtain ⟨c, h1, h3⟩ := h
  exact ⟨c, h1, CFG_setNamedValue h3 n A⟩

theorem Good_printOp {s : World} {f : Nat} {T : Set Nat} (h : Good s f T) (Op : Char) :
    Good { s with cout := s.cout ++ [Op] } f T := by
  obtain ⟨c, h1, h3⟩ := h
  exact ⟨c, h1, CFG_printOp h3 Op⟩

/-! ## Straight-line generators keep the state between two statements -/

theorem Inv_bind {P : World → Prop} {α β : Type} {m : Gen α} {f : α → Gen β}
    (hm : Gen.Inv P m) (hf : ∀ a, Gen.Inv P (f a)) : Gen.Inv P (m >>= f) := by
  refine ⟨fun s b s1 hP h => ?_⟩
  simp only [Bind.bind, Gen.bind] at h
  cases hms : m s with
  | none => simp [hms] at h
  | some p =>
    obtain ⟨a, s2⟩ := p
    simp only [hms] at h
    exact (hf a).out _ _ _ (hm.out _ _ _ hP hms) h

theorem Inv_pure {P : World → Prop} {α : Type} (a : α) : Gen.Inv P (Pure.pure a : Gen α) := by
  refine ⟨fun s b s1 hP h => ?_⟩
  simp only [Pure.pure, Gen.pure, Option.some.injEq, Prod.mk.injEq] at h
  rw [← h.2]; exact hP

theorem Inv_map {P : World → Prop} {α β : Type} {m : Gen α} (f : α → β)
    (hm : Gen.Inv P m) : Gen.Inv P (f <$> m) := by
  refine ⟨fun s b s1 hP h => ?_⟩
  simp only [Functor.map, Gen.bind] at h
  cases hms : m s with
  | none => simp [hms] at h
  | some p =>
    obtain ⟨a, s2⟩ := p
    simp only [hms, Function.comp, Gen.pure, Option.some.injEq, Prod.mk.injEq] at h
    rw [← h.2]; exact hm.out _ _ _ hP hms

theorem Inv_undefined {P : World → Prop} {α : Type} : Gen.Inv P (Gen.undefined : Gen α) :=
  ⟨fun s a s1 _ h => by simp [Gen.undefined] at h⟩

theorem Inv_deref {P : World → Prop} {α : Type} (o : Option α) : Gen.Inv P (Gen.deref o) := by
  cases o with
  | none => exact Inv_undefined
  | some a => exact ⟨fun s b s1 hP h => by
      simp only [Gen.deref, Gen.pure, Option.some.injEq, Prod.mk.injEq] at h
      rw [← h.2]; exact hP⟩

theorem Inv_of_wp {P : World → Prop} {α : Type} {m : Gen α}
    (h : ∀ s, P s → m.wp (fun _ s1 => P s1) s) : Gen.Inv P m :=
  ⟨fun s a s1 hP e => h s hP a s1 e⟩

theorem Inv_wp {P : World → Prop} {α : Type} {m : Gen α} (h : Gen.Inv P m) {s : World}
    (hP : P s) : m.wp (fun _ s1 => P s1) s :=
  fun a s1 e => h.out s a s1 hP e

theorem Gen.wp_of_inv {P : World → Prop} {α : Type} {m : Gen α} (h : Gen.Inv P m) {s : World}
    (hP : P s) {Q : α → World → Prop} (hQ : ∀ a s1, P s1 → Q a s1) : m.wp Q s :=
  fun a s1 e => hQ a s1 (h.out s a s1 hP e)

theorem good_emitValue (f : Nat) (T : Set Nat) (mk : Nat → Instr)
    (hi : ∀ n, (mk n).isTerminator = false) : Gen.Inv (fun s => Good s f T) (emitValue mk) :=
  Inv_of_wp fun s hs => by rw [wp_emitValue]; exact Good_emit hs mk hi

theorem good_emitVoid (f : Nat) (T : Set Nat) (i : Instr) (hi : i.isTerminator = false) :
    Gen.Inv (fun s => Good s f T) (emitVoid i) :=
  Inv_of_wp fun s hs => by rw [wp_emitVoid]; exact Good_insert hs i hi

theorem good_LogErrorV (f : Nat) (T : Set Nat) {α : Type} (m : String) :
    Gen.Inv (fun s => Good s f T) (LogErrorV m : Gen (Option α)) :=
  Inv_of_wp fun s hs => by rw [wp_LogErrorV]; exact Good_logError hs m

theorem good_printOp (f : Nat) (T : Set Nat) (Op : Char) :
    Gen.Inv (fun s => Good s f T) (printOp Op) :=
  Inv_of_wp fun s hs => by rw [wp_printOp]; exact Good_printOp hs Op

theorem good_getNamedValue (f : Nat) (T : Set Nat) (n : String) :
    Gen.Inv (fun s => Good s f T) (getNamedValue n) :=
  Inv_of_wp fun s hs => by rw [wp_getNamedValue]; exact hs

theorem good_setNamedValue (f : Nat) (T : Set Nat) (n : String) (A : Option AllocaInst) :
    Gen.Inv (fun s => Good s f T) (setNamedValue n A) :=
  Inv_of_wp fun s hs => by rw [wp_setNamedValue]; exact Good_setNamedValue hs n A

theorem good_getNamedGlobal (f : Nat) (T : Set Nat) (n : String) :
    Gen.Inv (fun s => Good s f T) (getNamedGlobal n) :=
  Inv_of_wp fun s hs => by rw [wp_getNamedGlobal]; exact hs

theorem good_getFunction (f : Nat) (T : Set Nat) (n : String) :
    Gen.Inv (fun s => Good s f T) (getFunction n) :=
  Inv_of_wp fun s hs => by rw [wp_getFunction]; exact hs

theorem good_GetInsertBlockParent (f : Nat) (T : Set Nat) :
    Gen.Inv (fun s => Good s f T) GetInsertBlockParent :=
  Inv_of_wp fun s hs => by rw [wp_GetInsertBlockParent]; exact fun _ _ => hs

theorem good_CreateEntryBlockAlloca (f : Nat) (T : Set Nat) (fn : Option Nat) (n : String)
    (ty : IRType) : Gen.Inv (fun s => Good s f T) (CreateEntryBlockAlloca fn n ty) :=
  Inv_of_wp fun s hs => by
    rw [wp_CreateEntryBlockAlloca]; exact fun _ e _ _ => Good_entryAlloca hs e ty n

theorem VariableExprAST_codegen_good (f : Nat) (T : Set Nat) (Name : String) :
    Gen.Inv (fun s => Good s f T) (VariableExprAST.codegen Name) := by
  unfold VariableExprAST.codegen CreateLoad
  repeat' first
    | exact Inv_pure _
    | exact good_emitValue _ _ _ (fun _ => rfl)
    | exact good_LogErrorV _ _ _
    | exact good_getNamedValue _ _ _
    | exact good_getNamedGlobal _ _ _
    | apply Inv_bind
    | apply Inv_map
    | intro _
    | split

theorem BinaryExprAST_emit_good (f : Nat) (T : Set Nat) (Op : Char) (L : Value)
    (R : Option Value) : Gen.Inv (fun s => Good s f T) (BinaryExprAST.emit Op L R) := by
  unfold BinaryExprAST.emit CreateBinOp CreateNot
  repeat' first
    | exact Inv_pure _
    | exact good_emitValue _ _ _ (fun _ => rfl)
    | exact good_LogErrorV _ _ _
    | exact good_printOp _ _ _
    | exact Inv_deref _
    | apply Inv_bind
    | apply Inv_map
    | intro _
    | split

theorem good_CreateFPTrunc (f : Nat) (T : Set Nat) (V : Value) :
    Gen.Inv (fun s => Good s f T) (CreateFPTrunc V) := by
  unfold CreateFPTrunc
  split
  · exact Inv_pure _
  · exact good_emitValue _ _ _ (fun _ => rfl)

theorem good_CreateFPToSI (f : Nat) (T : Set Nat) (V : Value) :
    Gen.Inv (fun s => Good s f T) (CreateFPToSI V) := by
  unfold CreateFPToSI
  split
  · exact Inv_pure _
  · exact good_emitValue _ _ _ (fun _ => rfl)

theorem good_CreateInBoundsGEP (f : Nat) (T : Set Nat) (ptr idx : Value) :
    Gen.Inv (fun s => Good s f T) (CreateInBoundsGEP ptr idx) := by
  unfold CreateInBoundsGEP
  split
  · exact Inv_pure _
  · exact good_emitValue _ _ _ (fun _ => rfl)

theorem ArrayBindingAST_storeValues_good (f : Nat) (T : Set Nat) (Alloca : AllocaInst)
    (boundValues : List Value) :
    ∀ l : List Nat, Gen.Inv (fun s => Good s f T) (ArrayBindingAST.storeValues Alloca boundValues l)
  | [] => by simp only [ArrayBindingAST.storeValues]; exact Inv_pure _
  | i :: rest => by
    have h := ArrayBindingAST_storeValues_good f T Alloca boundValues rest
    simp only [ArrayBindingAST.storeValues, CreateInBoundsGEP, CreateStore]
    repeat' first
      | exact Inv_pure _
      | exact h
      | exact good_emitValue _ _ _ (fun _ => rfl)
      | exact good_emitVoid _ _ _ rfl
      | exact Inv_deref _
      | apply Inv_bind
      | intro _

theorem BlockAST_restore_good (f : Nat) (T : Set Nat) :
    ∀ (Def : List BindingAST) (AllocaTmp : List (Option AllocaInst)),
      Gen.Inv (fun s => Good s f T) (BlockAST.restore Def AllocaTmp)
  | [], _ => by simp only [BlockAST.restore]; exact Inv_pure _
  | _ :: _, [] => by simp only [BlockAST.restore]; exact Inv_pure _
  | d :: Def, old :: AllocaTmp => by
    have h := BlockAST_restore_good f T Def AllocaTmp
    simp only [BlockAST.restore]
    repeat' first
      | exact Inv_pure _
      | exact h
      | exact good_setNamedValue _ _ _ _
      | apply Inv_bind
      | intro _

/-! ## Moving between the blocks of a control structure -/

theorem Good_addIncoming {s : World} {f : Nat} {T : Set Nat} (h : Good s f T) (b id : Nat)
    (V : Value) (BB : Nat) : Good (s.addIncoming b id V BB) f T := by
  obtain ⟨c, h1, h3⟩ := h
  exact ⟨c, by simpa using h1, CFG_addIncoming h3 b id V BB⟩

/-- The current block is closed by a terminator and generation continues in a fresh
block of the function, with two more fresh blocks pending. -/
theorem Good_enter3 {s : World} {f : Nat} {T : Set Nat} (h : Good s f T) {c : Nat}
    (hc : s.InsertBlock = some c) (a b d : String) (i : Instr) (hi : i.isTerminator = true)
    (ht : ∀ t ∈ i.successors, t = s.numBlocks ∨ t = s.numBlocks + 1 ∨ t = s.numBlocks + 2 ∨
      t ∈ s.functionBlocks f ∨ t ∈ T) :
    Good ((((((s.createBlock a (some f)).createBlock b none).createBlock d none).insert i)
      ).setInsertPoint s.numBlocks) f (insert (s.numBlocks + 1) (insert (s.numBlocks + 2) T)) := by
  have hcfg := Good_cur h hc
  have hcl := Good_lt h hc
  have a1 := CFG_createBlock_some hcfg a
  have a2 := CFG_createBlock_none a1 b
  have a3 := CFG_createBlock_none a2 d
  have a4 := CFG_insert_term a3 (c := c) (by simpa using hc) (Or.inr rfl) i hi (by
    intro t htt
    simp only [World.createBlock_none_functionBlocks, World.createBlock_some_functionBlocks,
      Function.update_same, List.mem_append, List.mem_singleton, World.createBlock_numBlocks]
    rcases ht t htt with e | e | e | e | e
    · exact Or.inl (Or.inr e)
    · exact Or.inr (Or.inr (Or.inl e))
    · exact Or.inr (Or.inl e)
    · exact Or.inl (Or.inl e)
    · exact Or.inr (Or.inr (Or.inr e)))
  have a5 := CFG_setInsertPoint a4 s.numBlocks
  refine Good_mk (c := s.numBlocks) a5 ?_ ?_ (by simp [World.setInsertPoint])
  · simp only [World.createBlock_numBlocks]
    exact Set.insert_comm _ _ _
  · ext x
    simp only [Set.mem_diff, Set.mem_insert_iff, Set.mem_singleton_iff]
    constructor
    · rintro ⟨e | e, h2⟩
      · exact e
      · exact absurd e h2
    · intro e; subst e; exact ⟨Or.inl rfl, by omega⟩

/-- The current block is closed by a terminator and generation continues in a fresh
block of the function, with one more fresh block pending. -/
theorem Good_enter2 {s : World} {f : Nat} {T : Set Nat} (h : Good s f T) {c : Nat}
    (hc : s.InsertBlock = some c) (a b : String) (i : Instr) (hi : i.isTerminator = true)
    (ht : ∀ t ∈ i.successors, t = s.numBlocks ∨ t = s.numBlocks + 1 ∨
      t ∈ s.functionBlocks f ∨ t ∈ T) :
    Good (((((s.createBlock a (some f)).createBlock b none).insert i)
      ).setInsertPoint s.numBlocks) f (insert (s.numBlocks + 1) T) := by
  have hcfg := Good_cur h hc
  have hcl := Good_lt h hc
  have a1 := CFG_createBlock_some hcfg a
  have a2 := CFG_createBlock_none a1 b
  have a4 := CFG_insert_term a2 (c := c) (by simpa using hc) (Or.inr rfl) i hi (by
    intro t htt
    simp only [World.createBlock_none_functionBlocks, World.createBlock_some_functionBlocks,
      Function.update_same, List.mem_append, List.mem_singleton, World.createBlock_numBlocks]
    rcases ht t htt with e | e | e | e
    · exact Or.inl (Or.inr e)
    · exact Or.inr (Or.inl e)
    · exact Or.inl (Or.inl e)
    · exact Or.inr (Or.inr e))
  have a5 := CFG_setInsertPoint a4 s.numBlocks
  refine Good_mk (c := s.numBlocks) a5 ?_ ?_ (by simp [World.setInsertPoint])
  · simp only [World.createBlock_numBlocks]
  · ext x
    simp only [Set.mem_diff, Set.mem_insert_iff, Set.mem_singleton_iff]
    constructor
    · rintro ⟨e | e, h2⟩
      · exact e
      · exact absurd e h2
    · intro e; subst e; exact ⟨Or.inl rfl, by omega⟩

/-- The current block is closed by a terminator, a pending block is appended to the
function, and generation continues there. -/
theorem Good_next {s : World} {f : Nat} {T : Set Nat} {d : Nat} (h : Good s f (insert d T))
    (hd : d ∉ T) {c : Nat} (hc : s.InsertBlock = some c) (i : Instr)
    (hi : i.isTerminator = true)
    (ht : ∀ t ∈ i.successors, t = d ∨ t ∈ s.functionBlocks f ∨ t ∈ T) :
    Good (((s.insert i).insertBlock f d).setInsertPoint d) f T := by
  have hcfg := Good_cur h hc
  have hcd : c ≠ d := fun e => (hcfg.pending d (Or.inl rfl)).2.1 (e ▸ Good_mem h hc)
  have a1 := CFG_insert_term hcfg hc rfl i hi (by
    intro t htt
    rcases ht t htt with e | e | e
    · exact Or.inr (Or.inl e)
    · exact Or.inl e
    · exact Or.inr (Or.inr e))
  have a2 := CFG_insertBlock a1 (d := d) (Or.inl rfl)
  have a3 := CFG_setInsertPoint a2 d
  refine Good_mk (c := d) a3 ?_ ?_ (by simp [World.setInsertPoint])
  · exact Set.insert_diff_self_of_not_mem hd
  · simp

/-- A pending block is appended to the function, the current block is closed by a
terminator, and generation continues in the appended block. -/
theorem Good_next_swapped {s : World} {f : Nat} {T : Set Nat} {d : Nat}
    (h : Good s f (insert d T)) (hd : d ∉ T) {c : Nat} (hc : s.InsertBlock = some c)
    (i : Instr) (hi : i.isTerminator = true)
    (ht : ∀ t ∈ i.successors, t = d ∨ t ∈ s.functionBlocks f ∨ t ∈ T) :
    Good (((s.insertBlock f d).insert i).setInsertPoint d) f T := by
  have hcfg := Good_cur h hc
  have hcd : c ≠ d := fun e => (hcfg.pending d (Or.inl rfl)).2.1 (e ▸ Good_mem h hc)
  have a1 := CFG_insertBlock hcfg (d := d) (Or.inl rfl)
  have a2 := CFG_insert_term a1 (c := c) (by simpa using hc) (Or.inr rfl) i hi (by
    intro t htt
    simp only [World.insertBlock_functionBlocks, Function.update_same, List.mem_append,
      List.mem_singleton]
    rcases ht t htt with e | e | e
    · exact Or.inl (Or.inr e)
    · exact Or.inl (Or.inl e)
    · refine Or.inr ⟨Or.inr e, ?_⟩
      simp only [Set.mem_singleton_iff]
      intro x; exact hd (x ▸ e))
  have a3 := CFG_setInsertPoint a2 d
  refine Good_mk (c := d) a3 ?_ ?_ (by simp [World.setInsertPoint])
  · exact Set.insert_diff_self_of_not_mem hd
  · ext x
    simp only [Set.mem_diff, Set.mem_insert_iff, Set.mem_singleton_iff]
    constructor
    · rintro ⟨e | e, h2⟩
      · exact e
      · exact absurd e h2
    · intro e; subst e; exact ⟨Or.inl rfl, fun x => hcd x.symm⟩

theorem Good_mem_of_frame {s s1 : World} {f : Nat} {b : Nat} (h : Frame s s1)
    (hb : b ∈ s.functionBlocks f) : b ∈ s1.functionBlocks f := by
  obtain ⟨added, e⟩ := h.layout f
  rw [e]; exact List.mem_append_left _ hb

/-! ## Generators that leave the function well formed when they succeed -/

mutual
theorem ExprAST_codegen_good : ∀ (e : ExprAST) (f : Nat) (T : Set Nat) (s : World),
    Good s f T → e.codegen.wp (fun r s1 => r.isSome = true → Good s1 f T) s
  | .NumberExprAST Val => by
    intro f T s hs
    simp only [ExprAST.codegen, Gen.wp_pure]
    exact fun _ => hs
  | .VariableExprAST Name => by
    intro f T s hs
    simp only [ExprAST.codegen]
    exact Gen.wp_mono (Inv_wp (VariableExprAST_codegen_good f T Name) hs) fun _ _ h _ => h
  | .BinaryExprAST Op LHS RHS => by
    intro f T s hs
    simp only [ExprAST.codegen, Gen.wp_bind]
    intro rL s1 h1
    have g1 := ExprAST_codegen_good LHS f T s hs _ _ h1
    intro rR s2 h2
    cases rL with
    | none => simp [Gen.wp_pure]
    | some L =>
      have g2 := ExprAST_codegenRHS_good RHS f T s1 (g1 rfl) _ _ h2
      simp only []
      split
      · simp [Gen.wp_pure]
      · next hcond =>
        have g : Good s2 f T := by
          apply g2
          cases rR with
          | some _ => exact Or.inl rfl
          | none =>
            cases RHS with
            | none => exact Or.inr rfl
            | some _ => simp at hcond
        exact Gen.wp_mono (Inv_wp (BinaryExprAST_emit_good f T Op L rR) g) fun _ _ h _ => h
  | .CallExprAST Callee Args => by
    intro f T s hs
    simp only [ExprAST.codegen, Gen.wp_bind, wp_getFunction]
    split
    · simp [wp_LogErrorV]
    · split
      · simp [wp_LogErrorV]
      · simp only [Gen.wp_bind]
        intro r s1 h1
        have g1 := ExprAST_codegenArgs_good Args f T s hs _ _ h1
        cases r with
        | none => simp [Gen.wp_pure]
        | some ArgsV =>
          have g1 := g1 rfl
          simp only [Gen.wp_map, CreateCall, wp_emitValue]
          intro _
          repeat' first
            | assumption
            | with_reducible apply Good_emit
            | with_reducible apply Good_addIncoming
            | (intro _; rfl)
  | .ArrayExprAST Name Offset => by
    intro f T s hs
    simp only [ExprAST.codegen]
    rw [Gen.wp_bind]
    intro r s1 h1
    have g1 := ExprAST_codegen_good Offset f T s hs _ _ h1
    cases r with
    | none => simp [Gen.wp_pure]
    | some doubleIndex =>
      have g1 := g1 rfl
      simp only []
      intro r2 s2 h2 _
      refine Gen.Inv.out (P := fun s => Good s f T) ?_ _ _ _ g1 h2
      simp only [CreateFPTrunc, CreateFPToSI, CreateInBoundsGEP, CreateLoad]
      repeat' first
        | exact Inv_pure _
        | exact good_getNamedValue _ _ _
        | exact good_getNamedGlobal _ _ _
        | exact good_LogErrorV _ _ _
        | exact good_emitValue _ _ _ (fun _ => rfl)
        | apply Inv_map
        | apply Inv_bind
        | intro _
        | split
  | .IfExprAST Cond TrueExp FalseExp => by
    intro f T s hs
    simp only [ExprAST.codegen, Gen.wp_bind]
    intro r s1 h1
    have g1 := ExprAST_codegen_good Cond f T s hs _ _ h1
    cases r with
    | none => simp [Gen.wp_pure]
    | some CondV =>
      have g1 := g1 rfl
      have hT := Good_pending_lt g1
      simp only [Gen.wp_bind, wp_GetInsertBlockParent, wp_Create, CreateCondBr, wp_emitVoid,
        wp_SetInsertPoint, World.createBlock_numBlocks]
      intro c hc
      rw [Good_parent g1 hc]
      intro r s3 h3
      have g3 := ExprAST_codegen_good TrueExp f _ _
        (Good_enter3 g1 hc "trueexp" "falseexp" "endcond"
          (.condBr CondV s1.numBlocks (s1.numBlocks + 1)) rfl
          (by intro t ht; simp [Instr.successors] at ht; omega)) _ _ h3
      cases r with
      | none => simp [Gen.wp_pure]
      | some TrueV =>
        have g3 := g3 rfl
        simp only [Gen.wp_bind, CreateBr, wp_emitVoid, wp_GetInsertBlock, wp_Function_insert,
          wp_SetInsertPoint, World.insert_InsertBlock]
        intro Pt hPt f1 hf1
        cases hf1
        intro r s5 h5
        have g5 := ExprAST_codegen_good FalseExp f _ _
          (Good_next g3 (by
              simp only [Set.mem_insert_iff, not_or]
              exact ⟨by omega, fun x => by have := hT _ x; omega⟩)
            hPt (.br (s1.numBlocks + 1 + 1)) rfl
            (by intro t ht; simp [Instr.successors] at ht; subst ht; exact Or.inr (Or.inr (Or.inl rfl)))) _ _ h5
        cases r with
        | none => simp [Gen.wp_pure]
        | some FalseV =>
          have g5 := g5 rfl
          simp only [Gen.wp_bind, Gen.wp_pure, CreateBr, wp_emitVoid, wp_GetInsertBlock,
            wp_Function_insert, wp_SetInsertPoint, wp_CreatePHI, wp_addIncoming,
            World.insert_InsertBlock]
          intro Pf hPf f2 hf2
          cases hf2
          have g6 := Good_next g5 (fun x => by have := hT _ x; omega) hPf
            (.br (s1.numBlocks + 1 + 1)) rfl
            (by intro t ht; simp [Instr.successors] at ht; exact Or.inl ht)
          simp only [World.setInsertPoint_InsertBlock, World.emit_InsertBlock, reduceCtorEq,
            false_implies, true_and, Option.some.injEq, forall_eq']
          intro _
          repeat' first
            | assumption
            | with_reducible apply Good_emit
            | with_reducible apply Good_addIncoming
            | (intro _; rfl)
theorem ExprAST_codegenRHS_good : ∀ (o : Option ExprAST) (f : Nat) (T : Set Nat) (s : World),
    Good s f T → (ExprAST.codegenRHS o).wp (fun r s1 => r.isSome = true ∨ o = none → Good s1 f T) s
  | none => by
    intro f T s hs
    simp only [ExprAST.codegenRHS, Gen.wp_pure]
    exact fun _ => hs
  | some RHS => by
    intro f T s hs
    simp only [ExprAST.codegenRHS]
    exact Gen.wp_mono (ExprAST_codegen_good RHS f T s hs) fun _ _ h x => h (by simpa using x)
theorem ExprAST_codegenArgs_good : ∀ (l : List ExprAST) (f : Nat) (T : Set Nat) (s : World),
    Good s f T → (ExprAST.codegenArgs l).wp (fun r s1 => r.isSome = true → Good s1 f T) s
  | [] => by
    intro f T s hs
    simp only [ExprAST.codegenArgs, Gen.wp_pure]
    exact fun _ => hs
  | arg :: Args => by
    intro f T s hs
    simp only [ExprAST.codegenArgs, Gen.wp_bind]
    intro r s1 h1
    have g1 := ExprAST_codegen_good arg f T s hs _ _ h1
    cases r with
    | none => simp [Gen.wp_pure]
    | some V =>
      simp only [Gen.wp_bind]
      intro r s2 h2
      have g2 := ExprAST_codegenArgs_good Args f T s1 (g1 rfl) _ _ h2
      cases r with
      | none => simp [Gen.wp_pure]
      | some ArgsV =>
        simp only [Gen.wp_pure]
        exact fun _ => g2 rfl
end

theorem VarBindingAST_codegen_good (Name : String) (Val : Option ExprAST) (f : Nat) (T : Set Nat)
    (s : World) (hs : Good s f T) :
    (VarBindingAST.codegen Name Val).wp (fun r s1 => r.isSome = true → Good s1 f T) s := by
  simp only [VarBindingAST.codegen, Gen.wp_bind, wp_GetInsertBlockParent]
  intro c hc
  cases Val with
  | none =>
    simp only [Gen.wp_bind, Gen.wp_pure, wp_CreateEntryBlockAlloca]
    intro f1 e _ _ _
    exact Good_entryAlloca hs e _ _
  | some Val =>
    simp only [Gen.wp_bind]
    intro r s1 h1
    have g1 := ExprAST_codegen_good Val f T s hs _ _ h1
    cases r with
    | none => simp [Gen.wp_pure]
    | some BoundVal =>
      simp only [Gen.wp_bind, Gen.wp_pure, wp_CreateEntryBlockAlloca, CreateStore, wp_emitVoid]
      intro f1 e _ _ _
      apply Good_insert (Good_entryAlloca (g1 rfl) e _ _)
      rfl

theorem ArrayBindingAST_boundValues_good (Values : List ExprAST) (f : Nat) (T : Set Nat) :
    ∀ (l : List Nat) (s : World), Good s f T →
      (ArrayBindingAST.boundValues Values l).wp (fun r s1 => r.isSome = true → Good s1 f T) s
  | [], s, hs => by
    simp only [ArrayBindingAST.boundValues, Gen.wp_pure]
    exact fun _ => hs
  | i :: rest, s, hs => by
    simp only [ArrayBindingAST.boundValues, Gen.wp_bind]
    have key : (if i ≥ Values.length then pure (some Value.getNullValue)
        else match Values.get? i with
          | some e => e.codegen
          | none => Gen.undefined : Gen (Option Value)).wp
        (fun r s1 => r.isSome = true → Good s1 f T) s := by
      split
      · simp only [Gen.wp_pure]; exact fun _ => hs
      · split
        · exact ExprAST_codegen_good _ f T s hs
        · simp [Gen.wp_undefined]
    intro r s1 h1
    have g1 := key _ _ h1
    cases r with
    | none => simp [Gen.wp_pure]
    | some boundValue =>
      simp only [Gen.wp_pure, Gen.wp_bind]
      intro r s2 h2
      have g2 := ArrayBindingAST_boundValues_good Values f T rest s1 (g1 rfl) _ _ h2
      cases r with
      | none => simp [Gen.wp_pure]
      | some boundValues =>
        simp only [Gen.wp_pure]
        exact fun _ => g2 rfl

theorem ArrayBindingAST_codegen_good (Name : String) (Size : Double) (Values : List ExprAST)
    (f : Nat) (T : Set Nat) (s : World) (hs : Good s f T) :
    (ArrayBindingAST.codegen Name Size Values).wp (fun r s1 => r.isSome = true → Good s1 f T) s := by
  simp only [ArrayBindingAST.codegen]
  split
  · simp [Gen.wp_pure]
  · simp only [Gen.wp_bind, Gen.wp_pure, wp_GetInsertBlockParent]
    intro c hc
    split
    · simp [Gen.wp_bind, Gen.wp_undefined]
    · simp only [Gen.wp_pure, Gen.wp_bind, wp_CreateEntryBlockAlloca]
      intro f1 e _ _
      have g1 := Good_entryAlloca hs e (IRType.ArrayTy (Int.toNat ⌊Size⌋)) Name
      split
      · split
        · simp [Gen.wp_bind, Gen.wp_undefined]
        · simp only [Gen.wp_bind, Gen.wp_pure]
          intro r s2 h2
          have g2 := ArrayBindingAST_boundValues_good Values f T _ _ g1 _ _ h2
          cases r with
          | none => simp [Gen.wp_pure]
          | some boundValues =>
            simp only [Gen.wp_bind, Gen.wp_pure]
            intro r s3 h3 _
            exact (ArrayBindingAST_storeValues_good f T _ _ _).out _ _ _ (g2 rfl) h3
      · simp only [Gen.wp_bind, Gen.wp_pure]
        exact fun _ => g1

theorem BindingAST_codegen_good (b : BindingAST) (f : Nat) (T : Set Nat) (s : World)
    (hs : Good s f T) : b.codegen.wp (fun r s1 => r.isSome = true → Good s1 f T) s := by
  cases b with
  | VarBindingAST Name Val => exact VarBindingAST_codegen_good Name Val f T s hs
  | ArrayBindingAST Name Size Values => exact ArrayBindingAST_codegen_good Name Size Values f T s hs

theorem AssignmentAST_codegen_good (a : AssignmentAST) (f : Nat) (T : Set Nat) (s : World)
    (hs : Good s f T) : a.codegen.wp (fun r s1 => r.isSome = true → Good s1 f T) s := by
  have key : ∀ A : Value, (do
      let some RHS ← a.AssignExpr.codegen | return none
      match a.OffsetExpr with
      | some OffsetExpr =>
        let doubleIndex ← OffsetExpr.codegen
        let doubleIndex ← Gen.deref doubleIndex
        let floatIndex ← CreateFPTrunc doubleIndex
        let intIndex ← CreateFPToSI floatIndex
        let p ← CreateInBoundsGEP A intIndex
        CreateStore RHS p
      | none => CreateStore RHS A
      return some RHS : Gen (Option Value)).wp (fun r s1 => r.isSome = true → Good s1 f T) s := by
    intro A
    simp only [Gen.wp_bind]
    intro r s1 h1
    have g1 := ExprAST_codegen_good a.AssignExpr f T s hs _ _ h1
    cases r with
    | none => simp [Gen.wp_pure]
    | some RHS =>
      have g1 := g1 rfl
      simp only [Gen.wp_bind]
      split
      · simp only [Gen.wp_bind]
        intro r s2 h2
        have g2 := ExprAST_codegen_good _ f T s1 g1 _ _ h2
        cases r with
        | none => simp [Gen.wp_deref]
        | some doubleIndex =>
          have g2 := g2 rfl
          simp only [Gen.wp_deref, Option.some.injEq, forall_eq']
          refine Gen.wp_of_inv (good_CreateFPTrunc f T _) g2 fun _ _ g3 => ?_
          refine Gen.wp_of_inv (good_CreateFPToSI f T _) g3 fun _ _ g4 => ?_
          refine Gen.wp_of_inv (good_CreateInBoundsGEP f T _ _) g4 fun _ _ g5 => ?_
          simp only [CreateStore, wp_emitVoid, Gen.wp_pure]
          intro _
          exact Good_insert g5 _ rfl
      · simp only [Gen.wp_pure, Gen.wp_bind, CreateStore, wp_emitVoid]
        intro _
        apply Good_insert g1
        rfl
  simp only [AssignmentAST.codegen, Gen.wp_bind, wp_getNamedValue]
  split
  · simp only [Gen.wp_pure]
    exact key _
  · simp only [Gen.wp_pure, Gen.wp_bind, wp_getNamedGlobal]
    split
    · simp [wp_LogErrorV]
    · exact key _

theorem BlockAST_bindDefs_good (f : Nat) (T : Set Nat) :
    ∀ (Def : List BindingAST) (AllocaTmp : List (Option AllocaInst)) (s : World), Good s f T →
      (BlockAST.bindDefs Def AllocaTmp).wp (fun r s1 => r.isSome = true → Good s1 f T) s
  | [], _, s, hs => by
    simp only [BlockAST.bindDefs, Gen.wp_pure]
    exact fun _ => hs
  | d :: Def, AllocaTmp, s, hs => by
    simp only [BlockAST.bindDefs, Gen.wp_bind]
    intro r s1 h1
    have g1 := BindingAST_codegen_good d f T s hs _ _ h1
    cases r with
    | none => simp [Gen.wp_pure]
    | some boundval =>
      simp only [Gen.wp_bind, wp_getNamedValue, wp_setNamedValue]
      exact BlockAST_bindDefs_good f T Def _ _ (Good_setNamedValue (g1 rfl) _ _)

/-- The increment of the counter of a for-each keeps the function well formed
whether it succeeds or not. -/
theorem counter_increment_good (f : Nat) (T : Set Nat) (n : String) :
    Gen.Inv (fun s => Good s f T) (AssignmentAST.codegen ⟨n, none,
      .BinaryExprAST '+' (.VariableExprAST n) (some (.NumberExprAST 1))⟩) := by
  simp only [AssignmentAST.codegen, ExprAST.codegen, ExprAST.codegenRHS, CreateStore]
  repeat' first
    | exact Inv_pure _
    | exact good_emitVoid _ _ _ rfl
    | exact good_LogErrorV _ _ _
    | exact good_getNamedValue _ _ _
    | exact good_getNamedGlobal _ _ _
    | exact VariableExprAST_codegen_good _ _ _
    | exact BinaryExprAST_emit_good _ _ _ _ _
    | apply Inv_bind
    | intro _
    | split

theorem Good_setInsertPoint_same {s : World} {f : Nat} {T : Set Nat} (h : Good s f T) {c : Nat}
    (hc : s.InsertBlock = some c) : Good (s.setInsertPoint c) f T := by
  exact ⟨c, rfl, CFG_setInsertPoint (Good_cur h hc) c⟩

/-! ## Straight-line code while a fresh block is already open -/

theorem mid_emitVoid {f : Nat} {T O : Set Nat} {c : Nat} (hO : c ∈ O) (i : Instr)
    (hi : i.isTerminator = false) :
    Gen.Inv (fun s => s.InsertBlock = some c ∧ CFG s f T O) (emitVoid i) :=
  Inv_of_wp fun s hs => by
    rw [wp_emitVoid]; exact ⟨by simpa using hs.1, CFG_insert_open hs.2 hs.1 hO i hi⟩

theorem mid_LogErrorV {f : Nat} {T O : Set Nat} {c : Nat} {α : Type} (m : String) :
    Gen.Inv (fun s => s.InsertBlock = some c ∧ CFG s f T O) (LogErrorV m : Gen (Option α)) :=
  Inv_of_wp fun s hs => by rw [wp_LogErrorV]; exact ⟨hs.1, CFG_logError hs.2 m⟩

theorem mid_getNamedGlobal {f : Nat} {T O : Set Nat} {c : Nat} (n : String) :
    Gen.Inv (fun s => s.InsertBlock = some c ∧ CFG s f T O) (getNamedGlobal n) :=
  Inv_of_wp fun s hs => by rw [wp_getNamedGlobal]; exact hs

theorem mid_GetInsertBlockParent {f : Nat} {T O : Set Nat} {c : Nat} :
    Gen.Inv (fun s => s.InsertBlock = some c ∧ CFG s f T O) GetInsertBlockParent :=
  Inv_of_wp fun s hs => by rw [wp_GetInsertBlockParent]; exact fun _ _ => hs

theorem mid_CreateEntryBlockAlloca {f : Nat} {T O : Set Nat} {c : Nat} (fn : Option Nat)
    (n : String) (ty : IRType) :
    Gen.Inv (fun s => s.InsertBlock = some c ∧ CFG s f T O) (CreateEntryBlockAlloca fn n ty) :=
  Inv_of_wp fun s hs => by
    rw [wp_CreateEntryBlockAlloca]; exact fun _ e _ _ => ⟨hs.1, CFG_entryAlloca hs.2 e ty n⟩

/-- The definition of the counter of a for-each, lowered while the condition block
is already open. -/
theorem mid_counter_binding {f : Nat} {T O : Set Nat} {c : Nat} (hO : c ∈ O) (n : String)
    (x : Double) :
    Gen.Inv (fun s => s.InsertBlock = some c ∧ CFG s f T O)
      (VarBindingAST.codegen n (some (.NumberExprAST x))) := by
  simp only [VarBindingAST.codegen, ExprAST.codegen, CreateStore]
  repeat' first
    | exact Inv_pure _
    | exact mid_emitVoid hO _ rfl
    | exact mid_GetInsertBlockParent
    | exact mid_CreateEntryBlockAlloca _ _ _
    | apply Inv_bind
    | intro _
    | split

mutual
theorem StmtAST_codegen_good : ∀ (st : StmtAST) (f : Nat) (T : Set Nat) (s : World),
    Good s f T → st.codegen.wp (fun r s1 => r.isSome = true → Good s1 f T) s
  | .expr e => by
    intro f T s hs
    simp only [StmtAST.codegen]
    exact ExprAST_codegen_good e f T s hs
  | .assignment a => by
    intro f T s hs
    simp only [StmtAST.codegen]
    exact AssignmentAST_codegen_good a f T s hs
  | .BlockAST Def Stmts => by
    intro f T s hs
    simp only [StmtAST.codegen, Gen.wp_bind]
    intro r s1 h1
    have g1 := BlockAST_bindDefs_good f T Def [] s hs _ _ h1
    cases r with
    | none => simp [Gen.wp_pure]
    | some AllocaTmp =>
      simp only [Gen.wp_bind]
      intro r s2 h2
      have g2 := StmtAST_codegenStmts_good Stmts none f T s1 (g1 rfl) _ _ h2
      cases r with
      | none => simp [Gen.wp_pure]
      | some blockvalue =>
        simp only [Gen.wp_bind]
        intro r s3 h3
        have g3 := (BlockAST_restore_good f T Def AllocaTmp).out _ _ _ (g2 rfl) h3
        simp only [Gen.wp_deref, Gen.wp_pure]
        intro _ _ _
        exact g3
  | .IfStmtAST CondExpr TrueStmt (some ElseStmt) => by
    intro f T s hs
    simp only [StmtAST.codegen, Gen.wp_bind, wp_GetInsertBlock]
    intro entryBB _ r s1 h1
    have g1 := ExprAST_codegen_good CondExpr f T s hs _ _ h1
    cases r with
    | none => simp [Gen.wp_pure]
    | some CondV =>
      have g1 := g1 rfl
      have hT := Good_pending_lt g1
      simp only [Gen.wp_bind, wp_GetInsertBlockParent, wp_Create, CreateCondBr, wp_emitVoid,
        wp_SetInsertPoint, World.createBlock_numBlocks]
      intro c hc
      rw [Good_parent g1 hc]
      intro r s3 h3
      have g3 := StmtAST_codegen_good TrueStmt f _ _
        (Good_enter3 g1 hc "truestmt" "elsestmt" "endstmt"
          (.condBr CondV s1.numBlocks (s1.numBlocks + 1)) rfl
          (by intro t ht; simp [Instr.successors] at ht; omega)) _ _ h3
      cases r with
      | none => simp [Gen.wp_pure]
      | some TrueV =>
        have g3 := g3 rfl
        simp only [Gen.wp_bind, CreateBr, wp_emitVoid, wp_GetInsertBlock, wp_Function_insert,
          wp_SetInsertPoint, World.insert_InsertBlock]
        intro Pt hPt f1 hf1
        cases hf1
        intro r s5 h5
        have g5 := StmtAST_codegen_good ElseStmt f _ _
          (Good_next g3 (by
              simp only [Set.mem_insert_iff, not_or]
              exact ⟨by omega, fun x => by have := hT _ x; omega⟩)
            hPt (.br (s1.numBlocks + 1 + 1)) rfl
            (by intro t ht; simp [Instr.successors] at ht; subst ht; exact Or.inr (Or.inr (Or.inl rfl)))) _ _ h5
        cases r with
        | none => simp [Gen.wp_pure]
        | some FalseV =>
          have g5 := g5 rfl
          simp only [Gen.wp_bind, Gen.wp_pure, CreateBr, wp_emitVoid, wp_GetInsertBlock,
            wp_Function_insert, wp_SetInsertPoint, wp_CreatePHI, wp_addIncoming,
            World.insert_InsertBlock]
          intro Pf hPf f2 hf2
          cases hf2
          have g6 := Good_next g5 (fun x => by have := hT _ x; omega) hPf
            (.br (s1.numBlocks + 1 + 1)) rfl
            (by intro t ht; simp [Instr.successors] at ht; exact Or.inl ht)
          simp only [World.setInsertPoint_InsertBlock, World.emit_InsertBlock, reduceCtorEq,
            false_implies, true_and, Option.some.injEq, forall_eq']
          intro _
          repeat' first
            | assumption
            | with_reducible apply Good_emit
            | with_reducible apply Good_addIncoming
            | (intro _; rfl)
  | .IfStmtAST CondExpr TrueStmt none => by
    intro f T s hs
    simp only [StmtAST.codegen, Gen.wp_bind, wp_GetInsertBlock]
    intro entryBB _ r s1 h1
    have g1 := ExprAST_codegen_good CondExpr f T s hs _ _ h1
    cases r with
    | none => simp [Gen.wp_pure]
    | some CondV =>
      have g1 := g1 rfl
      have hT := Good_pending_lt g1
      simp only [Gen.wp_bind, wp_GetInsertBlockParent, wp_Create, CreateCondBr, wp_emitVoid,
        wp_SetInsertPoint, World.createBlock_numBlocks]
      intro c hc
      rw [Good_parent g1 hc]
      intro r s3 h3
      have g3 := StmtAST_codegen_good TrueStmt f _ _
        (Good_enter2 g1 hc "truestmt" "endstmt"
          (.condBr CondV s1.numBlocks (s1.numBlocks + 1)) rfl
          (by intro t ht; simp [Instr.successors] at ht; omega)) _ _ h3
      cases r with
      | none => simp [Gen.wp_pure]
      | some TrueV =>
        have g3 := g3 rfl
        simp only [Gen.wp_bind, Gen.wp_pure, CreateBr, wp_emitVoid, wp_GetInsertBlock,
          wp_Function_insert, wp_SetInsertPoint, wp_CreatePHI, wp_addIncoming,
          World.insert_InsertBlock]
        intro Pt hPt f1 hf1
        cases hf1
        have g6 := Good_next g3 (fun x => by have := hT _ x; omega) hPt
          (.br (s1.numBlocks + 1)) rfl
          (by intro t ht; simp [Instr.successors] at ht; exact Or.inl ht)
        simp only [World.setInsertPoint_InsertBlock, World.emit_InsertBlock, reduceCtorEq,
          false_implies, true_and, Option.some.injEq, forall_eq']
        intro _
        repeat' first
          | assumption
          | with_reducible apply Good_emit
          | with_reducible apply Good_addIncoming
          | (intro _; rfl)
  | .ForStmtAST InitExp CondExpr AssignExpr BodyStmt => by
    intro f T s hs
    simp only [StmtAST.codegen, Gen.wp_bind]
    intro r s1 h1
    have g1 : r.isSome = true → Good s1 f T := by
      revert h1
      cases InitExp with
      | binding b =>
        simp only []
        refine (?_ : Gen.wp _ (fun r s1 => r.isSome = true → Good s1 f T) s) r s1
        simp only [Gen.wp_bind]
        intro r0 s0 h0
        have g0 := BindingAST_codegen_good b f T s hs _ _ h0
        cases r0 with
        | none => simp [Gen.wp_pure]
        | some boundval =>
          simp only [Gen.wp_bind, Gen.wp_pure, wp_getNamedValue, wp_setNamedValue]
          exact fun _ => Good_setNamedValue (g0 rfl) _ _
      | assignment a =>
        simp only []
        refine (?_ : Gen.wp _ (fun r s1 => r.isSome = true → Good s1 f T) s) r s1
        simp only [Gen.wp_bind]
        intro r0 s0 h0
        have g0 := AssignmentAST_codegen_good a f T s hs _ _ h0
        cases r0 with
        | none => simp [Gen.wp_pure]
        | some v =>
          simp only [Gen.wp_pure]
          exact fun _ => g0 rfl
    simp only [Gen.wp_pure]
    cases r with
    | none => simp [Gen.wp_pure]
    | some tmpAlloca =>
      have g1 := g1 rfl
      have hT := Good_pending_lt g1
      simp only [Gen.wp_bind, wp_GetInsertBlockParent, wp_Create, CreateBr, wp_emitVoid,
        wp_SetInsertPoint, World.createBlock_numBlocks]
      intro c hc
      rw [Good_parent g1 hc]
      intro r s3 h3
      have g3 := ExprAST_codegen_good CondExpr f _ _
        (Good_enter3 g1 hc "condstmt" "loopstmt" "mergestmt" (.br s1.numBlocks) rfl
          (by intro t ht; simp [Instr.successors] at ht; omega)) _ _ h3
      cases r with
      | none => simp [Gen.wp_pure]
      | some condV =>
        have g3 := g3 rfl
        simp only [Gen.wp_bind, CreateCondBr, wp_emitVoid, wp_GetInsertBlock, wp_Function_insert,
          wp_SetInsertPoint, World.insert_InsertBlock]
        intro Pc hPc f1 hf1
        cases hf1
        intro r s5 h5
        have F5 := (StmtAST_codegen_frame BodyStmt).out _ _ _ h5
        have g5 := StmtAST_codegen_good BodyStmt f _ _
          (Good_next g3 (by
              simp only [Set.mem_insert_iff, not_or]
              exact ⟨by omega, fun x => by have := hT _ x; omega⟩)
            hPc (.condBr condV (s1.numBlocks + 1) (s1.numBlocks + 1 + 1)) rfl
            (by
              intro t ht; simp [Instr.successors] at ht
              rcases ht with e | e
              · exact Or.inl e
              · subst e; exact Or.inr (Or.inr (Or.inl rfl)))) _ _ h5
        cases r with
        | none => simp [Gen.wp_pure]
        | some bodyV =>
          have g5 := g5 rfl
          simp only [Gen.wp_bind]
          intro r s6 h6
          have F6 := (AssignmentAST_codegen_frame AssignExpr).out _ _ _ h6
          have g6 := AssignmentAST_codegen_good AssignExpr f _ _ g5 _ _ h6
          cases r with
          | none => simp [Gen.wp_pure]
          | some stepV =>
            have g6 := g6 rfl
            simp only [Gen.wp_bind, Gen.wp_pure, CreateBr, wp_emitVoid, wp_GetInsertBlock,
              wp_Function_insert, wp_SetInsertPoint, World.insert_InsertBlock]
            intro Pb hPb f2 hf2
            cases hf2
            have g7 := Good_next g6 (fun x => by have := hT _ x; omega) hPb (.br Pc) rfl
              (by
                intro t ht; simp [Instr.successors] at ht; subst ht
                exact Or.inr (Or.inl (Good_mem_of_frame F6 (Good_mem_of_frame F5
                  (by simp [Good_mem g3 hPc])))))
            cases InitExp with
            | binding b =>
              simp only [wp_setNamedValue, Gen.wp_bind, Gen.wp_pure]
              exact fun _ => Good_setNamedValue g7 _ _
            | assignment a =>
              simp only [Gen.wp_bind, Gen.wp_pure]
              exact fun _ => g7
  | .WhileStmtAST CondExpr BodyStmt => by
    intro f T s hs
    have hT := Good_pending_lt hs
    simp only [StmtAST.codegen, Gen.wp_bind, wp_GetInsertBlockParent, wp_Create, CreateBr,
      wp_emitVoid, wp_SetInsertPoint, World.createBlock_numBlocks]
    intro c hc
    rw [Good_parent hs hc]
    intro r s3 h3
    have g3 := ExprAST_codegen_good CondExpr f _ _
      (Good_enter3 hs hc "condstmt" "loopstmt" "mergestmt" (.br s.numBlocks) rfl
        (by intro t ht; simp [Instr.successors] at ht; omega)) _ _ h3
    cases r with
    | none => simp [Gen.wp_pure]
    | some condV =>
      have g3 := g3 rfl
      simp only [Gen.wp_bind, CreateCondBr, wp_emitVoid, wp_GetInsertBlock, wp_Function_insert,
        wp_SetInsertPoint, World.insert_InsertBlock]
      intro Pc hPc f1 hf1
      cases hf1
      intro r s5 h5
      have F5 := (StmtAST_codegen_frame BodyStmt).out _ _ _ h5
      have g5 := StmtAST_codegen_good BodyStmt f _ _
        (Good_next g3 (by
            simp only [Set.mem_insert_iff, not_or]
            exact ⟨by omega, fun x => by have := hT _ x; omega⟩)
          hPc (.condBr condV (s.numBlocks + 1) (s.numBlocks + 1 + 1)) rfl
          (by
            intro t ht; simp [Instr.successors] at ht
            rcases ht with e | e
            · exact Or.inl e
            · subst e; exact Or.inr (Or.inr (Or.inl rfl)))) _ _ h5
      cases r with
      | none => simp [Gen.wp_pure]
      | some bodyV =>
        have g5 := g5 rfl
        simp only [Gen.wp_bind, Gen.wp_pure, CreateBr, wp_emitVoid, wp_GetInsertBlock,
          wp_Function_insert, wp_SetInsertPoint, World.insert_InsertBlock]
        intro Pb hPb f2 hf2
        cases hf2
        have g7 := Good_next g5 (fun x => by have := hT _ x; omega) hPb (.br Pc) rfl
          (by
            intro t ht; simp [Instr.successors] at ht; subst ht
            exact Or.inr (Or.inl (Good_mem_of_frame F5 (by simp [Good_mem g3 hPc]))))
        exact fun _ => g7
  | .DoWhileStmtAST BodyStmt CondExpr => by
    intro f T s hs
    have hT := Good_pending_lt hs
    simp only [StmtAST.codegen, Gen.wp_bind, wp_GetInsertBlockParent, wp_Create, CreateBr,
      wp_emitVoid, wp_SetInsertPoint, World.createBlock_numBlocks]
    intro c hc
    rw [Good_parent hs hc]
    intro r s3 h3
    have g3 := StmtAST_codegen_good BodyStmt f _ _
      (Good_enter3 hs hc "loopstmt" "condstmt" "mergestmt" (.br s.numBlocks) rfl
        (by intro t ht; simp [Instr.successors] at ht; omega)) _ _ h3
    cases r with
    | none => simp [Gen.wp_pure]
    | some bodyV =>
      have g3 := g3 rfl
      simp only [Gen.wp_bind, CreateBr, wp_emitVoid, wp_GetInsertBlock, wp_Function_insert,
        wp_SetInsertPoint, World.insert_InsertBlock]
      intro Pl hPl f1 hf1
      cases hf1
      intro r s5 h5
      have F5 := (ExprAST_codegen_frame CondExpr).out _ _ _ h5
      have g5 := ExprAST_codegen_good CondExpr f _ _
        (Good_next_swapped g3 (by
            simp only [Set.mem_insert_iff, not_or]
            exact ⟨by omega, fun x => by have := hT _ x; omega⟩)
          hPl (.br (s.numBlocks + 1)) rfl
          (by intro t ht; simp [Instr.successors] at ht; exact Or.inl ht)) _ _ h5
      cases r with
      | none => simp [Gen.wp_pure]
      | some condV =>
        have g5 := g5 rfl
        simp only [Gen.wp_bind, Gen.wp_pure, CreateCondBr, wp_emitVoid, wp_GetInsertBlock,
          wp_Function_insert, wp_SetInsertPoint, World.insert_InsertBlock]
        intro Pc hPc f2 hf2
        cases hf2
        have g7 := Good_next g5 (fun x => by have := hT _ x; omega) hPc
          (.condBr condV Pl (s.numBlocks + 1 + 1)) rfl
          (by
            intro t ht; simp [Instr.successors] at ht
            rcases ht with e | e
            · subst e
              exact Or.inr (Or.inl (Good_mem_of_frame F5 (by simp [Good_mem g3 hPl])))
            · exact Or.inl e)
        exact fun _ => g7
  | .ForEachStmtAST IterName ArrayName BodyStmt => by
    intro f T s hs
    have hT := Good_pending_lt hs
    simp only [StmtAST.codegen, Gen.wp_bind, wp_GetInsertBlock, wp_GetInsertBlockParent,
      wp_Create, wp_SetInsertPoint, wp_getNamedValue, World.createBlock_numBlocks,
      World.setInsertPoint_InsertBlock, Option.some.injEq, forall_eq']
    intro c hc
    have hcl := Good_lt hs hc
    have g0 := Good_setInsertPoint_same hs hc
    have cfg0 := Good_cur g0 rfl
    rw [Good_parent g0 rfl]
    have a1 := CFG_createBlock_some cfg0 "condstmt"
    have a2 := CFG_createBlock_none a1 "loopstmt"
    have a3 := CFG_createBlock_none a2 "mergestmt"
    simp only [World.createBlock_numBlocks, World.setInsertPoint_numBlocks] at a3
    intro boundValCounter s1 h1
    have m1 := Gen.Inv.out (mid_counter_binding (Or.inr rfl) _ _) _ _ _
      ⟨(by simp [World.setInsertPoint] : World.InsertBlock _ = some c), a3⟩ h1
    simp only [Gen.wp_bind, wp_setNamedValue, wp_getNamedValue]
    intro AT s2 h2
    have m2 : s2.InsertBlock = some c ∧ CFG s2 f
        (insert (s.numBlocks + 1 + 1) (insert (s.numBlocks + 1) T)) {s.numBlocks, c} := by
      refine Gen.Inv.out (P := fun s2 => s2.InsertBlock = some c ∧ CFG s2 f
        (insert (s.numBlocks + 1 + 1) (insert (s.numBlocks + 1) T)) {s.numBlocks, c})
        ?_ _ _ _ ⟨by simpa using m1.1, CFG_setNamedValue m1.2 _ _⟩ h2
      repeat' first
        | exact Inv_pure _
        | exact mid_getNamedGlobal _
        | exact mid_LogErrorV _
        | apply Inv_bind
        | intro _
        | split
    simp only [Gen.wp_pure]
    cases AT with
    | none => simp [Gen.wp_pure]
    | some AT =>
      simp only []
      cases AT with
      | ArrayTy NumElements =>
        simp only [Gen.wp_bind, CreateBr, wp_emitVoid, wp_SetInsertPoint]
        have b1 := CFG_insert_term m2.2 m2.1 (Or.inr rfl) (.br s.numBlocks) rfl (by
          intro t ht; simp [Instr.successors] at ht; subst ht
          exact Or.inl (m2.2.opened _ (Or.inl rfl)).1)
        have g2 : Good ((s2.insert (.br s.numBlocks)).setInsertPoint s.numBlocks) f
            (insert (s.numBlocks + 1) (insert (s.numBlocks + 1 + 1) T)) :=
          Good_mk (c := s.numBlocks) (CFG_setInsertPoint b1 _) (Set.insert_comm _ _ _) (by
            ext x
            simp only [Set.mem_diff, Set.mem_insert_iff, Set.mem_singleton_iff]
            constructor
            · rintro ⟨e | e, h2⟩
              · exact e
              · exact absurd e h2
            · intro e; subst e; exact ⟨Or.inl rfl, by omega⟩) (by simp [World.setInsertPoint])
        intro r s3 h3
        have g3 := ExprAST_codegen_good _ f _ _ g2 _ _ h3
        cases r with
        | none => simp [Gen.wp_pure]
        | some condV =>
          have g3 := g3 rfl
          simp only [Gen.wp_bind, CreateCondBr, wp_emitVoid, wp_GetInsertBlock,
            wp_Function_insert, wp_SetInsertPoint, wp_getNamedValue, World.insert_InsertBlock]
          intro Pc hPc f1 hf1
          cases hf1
          intro r s4 h4
          have F4 := (VarBindingAST_codegen_frame _ _).out _ _ _ h4
          have g4 := VarBindingAST_codegen_good _ _ f _ _
            (Good_next g3 (by
                simp only [Set.mem_insert_iff, not_or]
                exact ⟨by omega, fun x => by have := hT _ x; omega⟩)
              hPc (.condBr condV (s.numBlocks + 1) (s.numBlocks + 1 + 1)) rfl
              (by
                intro t ht; simp [Instr.successors] at ht
                rcases ht with e | e
                · exact Or.inl e
                · subst e; exact Or.inr (Or.inr (Or.inl rfl)))) _ _ h4
          cases r with
          | none => simp [Gen.wp_pure]
          | some bindingValue =>
            have g4 := g4 rfl
            simp only [Gen.wp_bind, wp_setNamedValue]
            intro r s5 h5
            have F5 := (StmtAST_codegen_frame BodyStmt).out _ _ _ h5
            have g5 := StmtAST_codegen_good BodyStmt f _ _ (Good_setNamedValue g4 _ _) _ _ h5
            cases r with
            | none => simp [Gen.wp_pure]
            | some bodyV =>
              have g5 := g5 rfl
              simp only [Gen.wp_bind]
              intro r s6 h6
              have F6 := (AssignmentAST_codegen_frame _).out _ _ _ h6
              have g6 := (counter_increment_good f _ _).out _ _ _ g5 h6
              simp only [Gen.wp_bind, Gen.wp_pure, CreateBr, wp_emitVoid, wp_GetInsertBlock,
                wp_Function_insert, wp_SetInsertPoint, wp_setNamedValue, World.insert_InsertBlock]
              intro Pb hPb f2 hf2
              cases hf2
              have g7 := Good_next g6 (fun x => by have := hT _ x; omega) hPb (.br Pc) rfl
                (by
                  intro t ht; simp [Instr.successors] at ht; subst ht
                  refine Or.inr (Or.inl (Good_mem_of_frame F6 (Good_mem_of_frame F5 ?_)))
                  have := Good_mem_of_frame F4 (f := f) (b := t) (by simp [Good_mem g3 hPc])
                  simpa using this)
              exact fun _ => Good_setNamedValue (Good_setNamedValue g7 _ _) _ _
      | DoubleTy => simp [wp_LogErrorV]
      | FloatTy => simp [wp_LogErrorV]
      | Int32Ty => simp [wp_LogErrorV]
theorem StmtAST_codegenStmts_good : ∀ (l : List StmtAST) (v : Option Value) (f : Nat)
    (T : Set Nat) (s : World),
    Good s f T → (StmtAST.codegenStmts l v).wp (fun r s1 => r.isSome = true → Good s1 f T) s
  | [], _ => by
    intro f T s hs
    simp only [StmtAST.codegenStmts, Gen.wp_pure]
    exact fun _ => hs
  | st :: Stmts, _ => by
    intro f T s hs
    simp only [StmtAST.codegenStmts, Gen.wp_bind]
    intro r s1 h1
    have g1 := StmtAST_codegen_good st f T s hs _ _ h1
    cases r with
    | none => simp [Gen.wp_pure]
    | some blockvalue =>
      exact StmtAST_codegenStmts_good Stmts _ f T s1 (g1 rfl)
end

/-! ## Running a generator step by step -/

theorem Gen.bind_of_eq {α β : Type} {m : Gen α} {f : α → Gen β} {s s1 : World} {a : α}
    (h : m s = some (a, s1)) : (m >>= f) s = f a s1 := by
  simp only [Bind.bind, Gen.bind, h]

theorem Gen.bind_of_none {α β : Type} {m : Gen α} {f : α → Gen β} {s : World}
    (h : m s = none) : (m >>= f) s = none := by
  simp only [Bind.bind, Gen.bind, h]

theorem Gen.map_of_eq {α β : Type} {m : Gen α} {f : α → β} {s s1 : World} {a : α}
    (h : m s = some (a, s1)) : (f <$> m) s = some (f a, s1) := by
  simp only [Functor.map, Gen.bind, h, Function.comp, Gen.pure]

theorem Gen.pure_apply {α : Type} (a : α) (s : World) : (Pure.pure a : Gen α) s = some (a, s) :=
  rfl

theorem getNamedValue_apply (n : String) (s : World) :
    getNamedValue n s = some (s.NamedValues n, s) := rfl

theorem getNamedGlobal_apply (n : String) (s : World) :
    getNamedGlobal n s = some (s.globals.find? (fun G => G.Name = n), s) := rfl

theorem getFunction_apply (n : String) (s : World) :
    getFunction n s = some (s.functions.find? (fun F => F.Name = n), s) := rfl

theorem emitValue_apply (mk : Nat → Instr) (s : World) :
    emitValue mk s = some (.Instruction s.numValues, s.emit mk) := rfl

theorem emitVoid_apply (i : Instr) (s : World) : emitVoid i s = some ((), s.insert i) := rfl

theorem LogErrorV_apply {α : Type} (m : String) (s : World) :
    (LogErrorV m : Gen (Option α)) s = some (none, s.logError m) := rfl

theorem GetInsertBlockParent_apply (s : World) (c : Nat) (hc : s.InsertBlock = some c) :
    GetInsertBlockParent s = some ((s.blocks c).parent, s) := by
  simp only [GetInsertBlockParent, hc]

theorem CreateEntryBlockAlloca_apply (s : World) (f e : Nat) (n : String) (ty : IRType)
    (he : (s.functionBlocks f).head? = some e) :
    CreateEntryBlockAlloca (some f) n ty s = some (⟨s.numValues, ty⟩, s.entryAlloca e ty n) := by
  simp only [CreateEntryBlockAlloca, he]

/-! ## The three outcomes of a variable reference -/

theorem VariableExprAST_codegen_local (n : String) (s : World) (A : AllocaInst)
    (hA : s.NamedValues n = some A) :
    (ExprAST.VariableExprAST n).codegen s =
      some (some (.Instruction s.numValues),
        s.emit fun id => .load id A.AllocatedType A.toValue n) := by
  simp only [ExprAST.codegen, VariableExprAST.codegen]
  rw [Gen.bind_of_eq (getNamedValue_apply n s), hA]
  exact Gen.map_of_eq rfl

theorem VariableExprAST_codegen_global (n : String) (s : World) (G : GlobalVariable)
    (hA : s.NamedValues n = none) (hG : s.globals.find? (fun G => G.Name = n) = some G) :
    (ExprAST.VariableExprAST n).codegen s =
      some (some (.Instruction s.numValues),
        s.emit fun id => .load id G.ValueType (.Global G.id) n) := by
  simp only [ExprAST.codegen, VariableExprAST.codegen]
  rw [Gen.bind_of_eq (getNamedValue_apply n s), hA]
  simp only []
  rw [Gen.bind_of_eq (getNamedGlobal_apply n s), hG]
  exact Gen.map_of_eq rfl

theorem VariableExprAST_codegen_undefined (n : String) (s : World)
    (hA : s.NamedValues n = none) (hG : s.globals.find? (fun G => G.Name = n) = none) :
    (ExprAST.VariableExprAST n).codegen s =
      some (none, s.logError ("Variabile " ++ n ++ " non definita")) := by
  simp only [ExprAST.codegen, VariableExprAST.codegen]
  rw [Gen.bind_of_eq (getNamedValue_apply n s), hA]
  simp only []
  rw [Gen.bind_of_eq (getNamedGlobal_apply n s), hG]
  rfl

/-! ## Scope restoration of blocks (C1) -/

/-- C1, evaluated on the code: the block `{ var x = 1; var x = 2; x }`, lowered where
the body of `def g()` starts, succeeds; `x` was unbound before the call and is
bound afterwards, to the storage of the first of the two definitions. -/
theorem C1_duplicate_definition_leaks :
    ∃ v s1, sampleDuplicateBlock.codegen (bodyEntry sampleNoArgs) = some (some v, s1) ∧
      (bodyEntry sampleNoArgs).NamedValues "x" = none ∧
      s1.NamedValues "x" = some ⟨0, .DoubleTy⟩ := by
  have h := (Gen.succeedsWith_iff sampleDuplicateBlock.codegen (bodyEntry sampleNoArgs)
    (fun _ s1 => decide (s1.NamedValues "x" = some ⟨0, .DoubleTy⟩))).1 (by decide)
  obtain ⟨v, s1, h1, h2⟩ := h
  exact ⟨v, s1, h1, by decide, of_decide_eq_true h2⟩

/-! ## Scope at the start of a function body (C2) -/

/-- C2, evaluated on the code: after `def f(a) { a }` has been generated, the body
of `def g() { 0 }` starts with `a` still bound, to the storage allocated for the
parameter of `f`, although `g` has no parameter. -/
theorem C2_parameter_of_earlier_function_visible :
    ∃ F s1 G s2, (sampleFunction (.expr (.VariableExprAST "a"))).codegen World.empty = some (some F, s1) ∧
      sampleNoArgs.prologue s1 = some (some G, s2) ∧ G.Args = [] ∧
      s2.NamedValues "a" = some ⟨0, .DoubleTy⟩ := by
  have h := (Gen.succeedsWith_iff (sampleFunction (.expr (.VariableExprAST "a"))).codegen World.empty
    (fun _ s1 => sampleNoArgs.prologue.succeedsWith s1
      (fun G s2 => decide (G.Args = [] ∧ s2.NamedValues "a" = some ⟨0, .DoubleTy⟩)))).1 (by decide)
  obtain ⟨F, s1, h1, h2⟩ := h
  obtain ⟨G, s2, h3, h4⟩ := (Gen.succeedsWith_iff _ _ _).1 h2
  have h5 := of_decide_eq_true h4
  exact ⟨F, s1, G, s2, h1, h3, h5.1, h5.2⟩

/-! ## Phi nodes and loop edges on sample programs (C3, C4, C6, C7, C8) -/

/-- C3, evaluated on the code: in `def f(a) { do { if (a < 1) 1 else 2 } while (a < 3) }`
generation succeeds, the phi of the if-statement sits in block 6 with the two
incoming edges from blocks 4 and 5, and three branch instructions of the function
target block 6, held by blocks 4, 5 and 2 (the back edge of the do-while). -/
theorem C3_phi_misses_a_predecessor :
    ∃ F s, (sampleFunction sampleDoWhileIf).codegen World.empty = some (some F, s) ∧
      (s.blocks 6).insts.head? = some (.phi 3 [(.ConstantFP 1, 4), (.ConstantFP 2, 5)]) ∧
      s.branchCount F.id 6 = 3 ∧ s.branchSources F.id 6 = [4, 5, 2] := by
  have h := (Gen.succeedsWith_iff (sampleFunction sampleDoWhileIf).codegen World.empty
    (fun F s => decide ((s.blocks 6).insts.head? = some (.phi 3 [(.ConstantFP 1, 4), (.ConstantFP 2, 5)]) ∧
      s.branchCount F.id 6 = 3 ∧ s.branchSources F.id 6 = [4, 5, 2]))).1 (by decide)
  obtain ⟨F, s, h1, h2⟩ := h
  exact ⟨F, s, h1, of_decide_eq_true h2⟩

set_option maxHeartbeats 1000000 in
/-- C4, evaluated on the code: in `def f(a) { if ((a < 1 ? 1 : 2) < 2) a }` generation
succeeds, the conditional branch whose false target is the merge block 5 is the
last instruction of block 3 (where the lowering of the condition ended), and the
phi in block 5 names block 0 as the predecessor of its zero input; block 0 ends
with a branch to blocks 1 and 2. -/
theorem C4_phi_names_stale_entry_block :
    ∃ F s, (sampleFunction sampleIfNoElse).codegen World.empty = some (some F, s) ∧
      (s.blocks 5).insts.head? = some (.phi 6 [(.Instruction 5, 4), (Value.getNullValue, 0)]) ∧
      s.lastInst 3 = some (.condBr (.Instruction 4) 4 5) ∧
      s.lastInst 0 = some (.condBr (.Instruction 2) 1 2) ∧
      s.branchSources F.id 5 = [3, 4] := by
  have h := (Gen.succeedsWith_iff (sampleFunction sampleIfNoElse).codegen World.empty
    (fun F s => decide (
      (s.blocks 5).insts.head? = some (.phi 6 [(.Instruction 5, 4), (Value.getNullValue, 0)]) ∧
      s.lastInst 3 = some (.condBr (.Instruction 4) 4 5) ∧
      s.lastInst 0 = some (.condBr (.Instruction 2) 1 2) ∧
      s.branchSources F.id 5 = [3, 4]))).1 (by decide)
  obtain ⟨F, s, h1, h2⟩ := h
  exact ⟨F, s, h1, of_decide_eq_true h2⟩

/-- C6, evaluated on the code: in `def f(a) { do { a < 1 ? 1 : 2 } while (a < 3) }`
generation succeeds, the entry block 0 branches to the body block 1, and the
conditional branch after the condition (end of block 2) has block 6, the block in
which the lowering of the body ended, as its true target. -/
theorem C6_do_while_back_edge_misses_body :
    ∃ F s, (sampleFunction sampleDoWhile).codegen World.empty = some (some F, s) ∧
      s.functionBlocks F.id = [0, 1, 4, 5, 6, 2, 3] ∧
      s.lastInst 0 = some (.br 1) ∧
      s.lastInst 2 = some (.condBr (.Instruction 5) 6 3) := by
  have h := (Gen.succeedsWith_iff (sampleFunction sampleDoWhile).codegen World.empty
    (fun F s => decide (s.functionBlocks F.id = [0, 1, 4, 5, 6, 2, 3] ∧
      s.lastInst 0 = some (.br 1) ∧
      s.lastInst 2 = some (.condBr (.Instruction 5) 6 3)))).1 (by decide)
  obtain ⟨F, s, h1, h2⟩ := h
  exact ⟨F, s, h1, of_decide_eq_true h2⟩

/-- C7, evaluated on the code: in `def f(a) { while ((a < 1 ? 1 : 2) < 2) a }`
generation succeeds, the entry block 0 branches to the condition block 1, in which
the guard starts with a load of `a`, and the branch at the end of the body (block
2) targets block 6, the block in which the lowering of the guard ended. -/
theorem C7_while_back_edge_misses_condition :
    ∃ F s, (sampleFunction sampleWhile).codegen World.empty = some (some F, s) ∧
      s.functionBlocks F.id = [0, 1, 4, 5, 6, 2, 3] ∧
      s.lastInst 0 = some (.br 1) ∧
      (s.blocks 1).insts.head? = some (.load 1 .DoubleTy (.Instruction 0) "a") ∧
      s.lastInst 2 = some (.br 6) := by
  have h := (Gen.succeedsWith_iff (sampleFunction sampleWhile).codegen World.empty
    (fun F s => decide (s.functionBlocks F.id = [0, 1, 4, 5, 6, 2, 3] ∧
      s.lastInst 0 = some (.br 1) ∧
      (s.blocks 1).insts.head? = some (.load 1 .DoubleTy (.Instruction 0) "a") ∧
      s.lastInst 2 = some (.br 6)))).1 (by decide)
  obtain ⟨F, s, h1, h2⟩ := h
  exact ⟨F, s, h1, of_decide_eq_true h2⟩

/-- C8, evaluated on the code: in
`def f(a) { for (a = 0; (a < 1 ? 1 : 2) < 2; a = a + 1) a }` generation succeeds,
the branch after the init phase (end of block 0) targets the condition block 1,
and the branch that follows the step assignment (end of block 2) targets block 6,
the block in which the lowering of the condition ended. -/
theorem C8_for_back_edge_misses_condition :
    ∃ F s, (sampleFunction sampleFor).codegen World.empty = some (some F, s) ∧
      s.functionBlocks F.id = [0, 1, 4, 5, 6, 2, 3] ∧
      s.lastInst 0 = some (.br 1) ∧
      (s.blocks 2).insts = [.load 5 .DoubleTy (.Instruction 0) "a",
        .load 6 .DoubleTy (.Instruction 0) "a",
        .binop 7 .FAdd (.Instruction 6) (.ConstantFP 1),
        .store (.Instruction 7) (.Instruction 0), .br 6] := by
  have h := (Gen.succeedsWith_iff (sampleFunction sampleFor).codegen World.empty
    (fun F s => decide (s.functionBlocks F.id = [0, 1, 4, 5, 6, 2, 3] ∧
      s.lastInst 0 = some (.br 1) ∧
      (s.blocks 2).insts = [.load 5 .DoubleTy (.Instruction 0) "a",
        .load 6 .DoubleTy (.Instruction 0) "a",
        .binop 7 .FAdd (.Instruction 6) (.ConstantFP 1),
        .store (.Instruction 7) (.Instruction 0), .br 6]))).1 (by decide)
  obtain ⟨F, s, h1, h2⟩ := h
  exact ⟨F, s, h1, of_decide_eq_true h2⟩

/-! ## Scope handling of the for statement (C10) -/

theorem ForStmtAST_binding_restores (b : BindingAST) (CondExpr : ExprAST)
    (AssignExpr : AssignmentAST) (BodyStmt : StmtAST) (s : World) :
    (StmtAST.ForStmtAST (.binding b) CondExpr AssignExpr BodyStmt).codegen.wp
      (fun r s1 => r.isSome → s1.NamedValues b.getName = s.NamedValues b.getName) s := by
  simp only [StmtAST.codegen, Gen.wp_bind, Gen.wp_pure]
  refine Gen.wp_mono ((BindingAST_codegen_sameNV b).wp s) ?_
  intro r0 s0 h0
  cases r0 with
  | none => simp [Gen.wp_pure]
  | some boundval =>
    simp only [Gen.wp_bind, Gen.wp_pure, wp_getNamedValue, wp_setNamedValue, wp_GetInsertBlockParent,
      wp_Create, CreateBr, wp_emitVoid, wp_SetInsertPoint]
    intro c hc r1 s2 _
    cases r1 with
    | none => simp [Gen.wp_pure]
    | some condV =>
      simp only [Gen.wp_bind, Gen.wp_pure, CreateCondBr, wp_emitVoid, wp_GetInsertBlock,
        wp_Function_insert, wp_SetInsertPoint]
      intro c2 hc2 f hf r2 s3 _
      cases r2 with
      | none => simp [Gen.wp_pure]
      | some bodyV =>
        simp only [Gen.wp_bind]
        intro r3 s4 _
        cases r3 with
        | none => simp [Gen.wp_pure]
        | some stepV =>
          simp only [Gen.wp_bind, Gen.wp_pure, CreateBr, wp_emitVoid, wp_GetInsertBlock,
            wp_Function_insert, wp_SetInsertPoint, wp_setNamedValue]
          intro c3 hc3 f2 hf2 _
          simp only [World.setNamedValue_apply, if_true]
          exact congrFun h0 _


theorem ForStmtAST_assignment_writes_nothing (a : AssignmentAST) (CondExpr : ExprAST)
    (AssignExpr : AssignmentAST) (BodyStmt : StmtAST) (s : World) :
    (StmtAST.ForStmtAST (.assignment a) CondExpr AssignExpr BodyStmt).codegen.wp
      (fun _ s1 => s1.NamedValues = s.NamedValues ∨
        ∃ s2 r3 s3, BodyStmt.codegen s2 = some (r3, s3) ∧ s2.NamedValues = s.NamedValues ∧
          s1.NamedValues = s3.NamedValues) s := by
  simp only [StmtAST.codegen, Gen.wp_bind, Gen.wp_pure]
  refine Gen.wp_mono ((AssignmentAST_codegen_sameNV a).wp s) ?_
  intro r0 s0 h0
  cases r0 with
  | none => simp only [Gen.wp_pure]; exact Or.inl h0
  | some initV =>
    simp only [Gen.wp_bind, Gen.wp_pure, wp_GetInsertBlockParent,
      wp_Create, CreateBr, wp_emitVoid, wp_SetInsertPoint]
    intro c hc
    refine Gen.wp_mono ((ExprAST_codegen_sameNV CondExpr).wp _) ?_
    intro r1 s2 h1
    simp only [SameNamedValues, World.setInsertPoint_NamedValues, World.insert_NamedValues,
      World.createBlock_NamedValues] at h1
    cases r1 with
    | none => simp only [Gen.wp_pure]; exact Or.inl (h1.trans h0)
    | some condV =>
      simp only [Gen.wp_bind, Gen.wp_pure, CreateCondBr, wp_emitVoid, wp_GetInsertBlock,
        wp_Function_insert, wp_SetInsertPoint]
      intro c2 hc2 f hf r2 s3 hbody
      have hin : ∀ (i : Instr) (g k l : Nat),
          (((s2.insert i).insertBlock g k).setInsertPoint l).NamedValues = s.NamedValues := by
        intro i g k l
        simp only [World.setInsertPoint_NamedValues, World.insertBlock_NamedValues,
          World.insert_NamedValues]
        exact h1.trans h0
      cases r2 with
      | none => simp only [Gen.wp_pure]; exact Or.inr ⟨_, _, _, hbody, hin _ _ _ _, rfl⟩
      | some bodyV =>
        simp only [Gen.wp_bind]
        refine Gen.wp_mono ((AssignmentAST_codegen_sameNV AssignExpr).wp _) ?_
        intro r3 s4 h4
        cases r3 with
        | none => simp only [Gen.wp_pure]; exact Or.inr ⟨_, _, _, hbody, hin _ _ _ _, h4⟩
        | some stepV =>
          simp only [Gen.wp_bind, Gen.wp_pure, CreateBr, wp_emitVoid, wp_GetInsertBlock,
            wp_Function_insert, wp_SetInsertPoint]
          intro c3 hc3 f2 hf2
          refine Or.inr ⟨_, _, _, hbody, hin _ _ _ _, ?_⟩
          simp only [World.setInsertPoint_NamedValues, World.insertBlock_NamedValues,
            World.insert_NamedValues]
          exact h4

/-- C10: when a for statement whose init phase is a variable binding is generated
successfully, the name of the init variable looks up after the call to what it
looked up before the call, whatever condition, step and body are; and when the init
phase is an assignment, the symbol table on return (success or failure) is the
table of the call or the table the lowering of the body returned, and the body
was entered with the table of the call: the for statement writes no entry itself. -/
theorem C10_for_scope (InitExp : VarOperation) (CondExpr : ExprAST) (AssignExpr : AssignmentAST)
    (BodyStmt : StmtAST) (s : World) (r : Option Value) (s1 : World)
    (h : (StmtAST.ForStmtAST InitExp CondExpr AssignExpr BodyStmt).codegen s = some (r, s1)) :
    (∀ b, InitExp = .binding b → r.isSome →
      s1.NamedValues b.getName = s.NamedValues b.getName) ∧
    (∀ a, InitExp = .assignment a →
      s1.NamedValues = s.NamedValues ∨
        ∃ s2 r3 s3, BodyStmt.codegen s2 = some (r3, s3) ∧ s2.NamedValues = s.NamedValues ∧
          s1.NamedValues = s3.NamedValues) := by
  constructor
  · intro b hb hr
    subst hb
    exact ForStmtAST_binding_restores b CondExpr AssignExpr BodyStmt s r s1 h hr
  · intro a ha
    subst ha
    exact ForStmtAST_assignment_writes_nothing a CondExpr AssignExpr BodyStmt s r s1 h

/-- C10 at concrete inputs: in the body of `def f(a)`, the loop
`for (var a = 0; a < 3; a = a + 1) a` shadows the parameter and gives it back, and
the loop `for (a = 0; a < 3; a = a + 1) a` is generated as well. -/
theorem C10_for_scope_witness :
    (∃ v s1, sampleForBinding.codegen (bodyEntry (sampleFunction sampleForBinding)) = some (some v, s1) ∧
      s1.NamedValues "a" = (bodyEntry (sampleFunction sampleForBinding)).NamedValues "a" ∧
      s1.NamedValues "a" = some ⟨0, .DoubleTy⟩) ∧
    (∃ r s1, sampleFor.codegen (bodyEntry (sampleFunction sampleFor)) = some (r, s1) ∧
      (s1.NamedValues = (bodyEntry (sampleFunction sampleFor)).NamedValues ∨
        ∃ s2 r3 s3, (StmtAST.expr (.VariableExprAST "a")).codegen s2 = some (r3, s3) ∧
          s2.NamedValues = (bodyEntry (sampleFunction sampleFor)).NamedValues ∧
          s1.NamedValues = s3.NamedValues)) := by
  constructor
  · obtain ⟨v, s1, h1, h2⟩ := (Gen.succeedsWith_iff sampleForBinding.codegen
      (bodyEntry (sampleFunction sampleForBinding))
      (fun _ s1 => decide (s1.NamedValues "a" = some ⟨0, .DoubleTy⟩))).1 (by decide)
    exact ⟨v, s1, h1, (C10_for_scope _ _ _ _ _ _ _ h1).1 _ rfl rfl, of_decide_eq_true h2⟩
  · obtain ⟨v, s1, h1, _⟩ := (Gen.succeedsWith_iff sampleFor.codegen
      (bodyEntry (sampleFunction sampleFor)) (fun _ _ => true)).1 (by decide)
    exact ⟨some v, s1, h1, (C10_for_scope _ _ _ _ _ _ _ h1).2 _ rfl⟩

/-! ## The phi of a two-sided conditional (C5) -/

theorem IfExprAST_merges (Cond TrueExp FalseExp : ExprAST) (s : World) :
    (ExprAST.IfExprAST Cond TrueExp FalseExp).codegen.wp
      (fun r s1 => ∀ v, r = some v →
        MergesTwoSides "trueexp" "falseexp" "endcond" Cond.codegen TrueExp.codegen
          FalseExp.codegen s s1 v) s := by
  simp only [ExprAST.codegen, Gen.wp_bind]
  intro r sc hcond
  cases r with
  | none => simp [Gen.wp_pure]
  | some CondV =>
    simp only [Gen.wp_bind, wp_GetInsertBlockParent, wp_Create, CreateCondBr, wp_emitVoid,
      wp_SetInsertPoint, World.createBlock_numBlocks]
    intro c hc r s3 ht
    have h23 := (ExprAST_codegen_frame TrueExp).out _ _ _ ht
    cases r with
    | none => simp [Gen.wp_pure]
    | some TrueV =>
      simp only [Gen.wp_bind, CreateBr, wp_emitVoid, wp_GetInsertBlock, wp_Function_insert,
        wp_SetInsertPoint, World.insert_InsertBlock]
      intro Pt hPt f hf r s5 hf5
      have h45 := (ExprAST_codegen_frame FalseExp).out _ _ _ hf5
      cases r with
      | none => simp [Gen.wp_pure]
      | some FalseV =>
        simp only [Gen.wp_bind, Gen.wp_pure, CreateBr, wp_emitVoid, wp_GetInsertBlock,
          wp_Function_insert, wp_SetInsertPoint, wp_CreatePHI, wp_addIncoming,
          World.insert_InsertBlock]
        intro Pf hPf f2 hf2
        simp only [World.setInsertPoint_InsertBlock, World.emit_InsertBlock, reduceCtorEq,
          false_implies, true_and, Option.some.injEq, forall_eq', World.setInsertPoint_numValues,
          World.insertBlock_numValues, World.insert_numValues]
        obtain rfl : f = f2 := Option.some.inj (hf.symm.trans hf2)
        rw [hf] at ht
        obtain ⟨g1, g2, g3, g4, g5, g6, g7⟩ := merge_two_sides TrueV FalseV
          (by simp : World.InsertBlock _ = some sc.numBlocks) (by simp) h23 hPt h45 hPf _ rfl
        exact ⟨CondV, sc, c, f, TrueV, s3, Pt, FalseV, s5, Pf, hcond, hc, hf, ht, hPt, hf5, hPf,
          rfl, rfl, g1, g2, g3, g4, g5, g6, g7⟩

theorem IfStmtAST_merges (CondExpr : ExprAST) (TrueStmt ElseStmt : StmtAST) (s : World) :
    (StmtAST.IfStmtAST CondExpr TrueStmt (some ElseStmt)).codegen.wp
      (fun r s1 => ∀ v, r = some v →
        MergesTwoSides "truestmt" "elsestmt" "endstmt" CondExpr.codegen TrueStmt.codegen
          ElseStmt.codegen s s1 v) s := by
  simp only [StmtAST.codegen, Gen.wp_bind, wp_GetInsertBlock]
  intro entryBB _ r sc hcond
  cases r with
  | none => simp [Gen.wp_pure]
  | some CondV =>
    simp only [Gen.wp_bind, wp_GetInsertBlockParent, wp_Create, CreateCondBr, wp_emitVoid,
      wp_SetInsertPoint, World.createBlock_numBlocks]
    intro c hc r s3 ht
    have h23 := (StmtAST_codegen_frame TrueStmt).out _ _ _ ht
    cases r with
    | none => simp [Gen.wp_pure]
    | some TrueV =>
      simp only [Gen.wp_bind, CreateBr, wp_emitVoid, wp_GetInsertBlock, wp_Function_insert,
        wp_SetInsertPoint, World.insert_InsertBlock]
      intro Pt hPt f hf r s5 hf5
      have h45 := (StmtAST_codegen_frame ElseStmt).out _ _ _ hf5
      cases r with
      | none => simp [Gen.wp_pure]
      | some FalseV =>
        simp only [Gen.wp_bind, Gen.wp_pure, CreateBr, wp_emitVoid, wp_GetInsertBlock,
          wp_Function_insert, wp_SetInsertPoint, wp_CreatePHI, wp_addIncoming,
          World.insert_InsertBlock]
        intro Pf hPf f2 hf2
        simp only [World.setInsertPoint_InsertBlock, World.emit_InsertBlock, reduceCtorEq,
          false_implies, true_and, Option.some.injEq, forall_eq', World.setInsertPoint_numValues,
          World.insertBlock_numValues, World.insert_numValues]
        obtain rfl : f = f2 := Option.some.inj (hf.symm.trans hf2)
        rw [hf] at ht
        obtain ⟨g1, g2, g3, g4, g5, g6, g7⟩ := merge_two_sides TrueV FalseV
          (by simp : World.InsertBlock _ = some sc.numBlocks) (by simp) h23 hPt h45 hPf _ rfl
        exact ⟨CondV, sc, c, f, TrueV, s3, Pt, FalseV, s5, Pf, hcond, hc, hf, ht, hPt, hf5, hPf,
          rfl, rfl, g1, g2, g3, g4, g5, g6, g7⟩

/-- C5: when a conditional expression, or an if-statement with an else-branch, called
in state `s`, is generated successfully, then the condition and the two sides
were lowered successfully one after the other, each from the state the code
reaches before it, and the value returned is a phi at the end of the merge block,
the insertion block on return, with exactly the two incoming edges
`(TrueV, Pt)`, `(FalseV, Pf)` in this order: `TrueV` is the value that the
lowering of the true side returned and `Pt` the insertion block in which that
lowering ended, `FalseV` the value that the lowering of the false side returned
and `Pf` the insertion block in which that lowering ended. The branches to the
merge block were inserted in `Pt` and `Pf`: in the final state both blocks end
with that branch. -/
theorem C5_phi_of_two_sides :
    (∀ (Cond TrueExp FalseExp : ExprAST) (s : World) (v : Value) (s1 : World),
      (ExprAST.IfExprAST Cond TrueExp FalseExp).codegen s = some (some v, s1) →
        MergesTwoSides "trueexp" "falseexp" "endcond" Cond.codegen TrueExp.codegen
          FalseExp.codegen s s1 v) ∧
    (∀ (CondExpr : ExprAST) (TrueStmt ElseStmt : StmtAST) (s : World) (v : Value) (s1 : World),
      (StmtAST.IfStmtAST CondExpr TrueStmt (some ElseStmt)).codegen s = some (some v, s1) →
        MergesTwoSides "truestmt" "elsestmt" "endstmt" CondExpr.codegen TrueStmt.codegen
          ElseStmt.codegen s s1 v) :=
  ⟨fun Cond TrueExp FalseExp s v _ h => IfExprAST_merges Cond TrueExp FalseExp s _ _ h v rfl,
   fun CondExpr TrueStmt ElseStmt s v _ h => IfStmtAST_merges CondExpr TrueStmt ElseStmt s _ _ h v rfl⟩

/-- C5 at concrete inputs: in the body of `def f(a)`, the expression
`a < 1 ? (a < 2 ? 1 : 2) : 3` and the statement
`if (a < 1) 3 else { if (a < 2) 1 else 2 }` are generated successfully, each with a
side that creates blocks (4, 5 and 6, the side ends in block 6), and their phis
merge the two sides: the phi of the expression, in block 3, takes the inner phi
from block 6 and the constant 3 from block 2; the phi of the statement takes the
constant 3 from block 1 and the inner phi from block 6. -/
theorem C5_phi_of_two_sides_witness :
    (∃ v s1, sampleNestedCondExp.codegen (bodyEntry (sampleFunction (.expr sampleNestedCondExp))) =
        some (some v, s1) ∧
      (s1.blocks 3).insts = [.phi 6 [(.Instruction 5, 6), (.ConstantFP 3, 2)]] ∧
      MergesTwoSides "trueexp" "falseexp" "endcond"
        (ExprAST.BinaryExprAST '<' (.VariableExprAST "a") (some (.NumberExprAST 1))).codegen
        (ExprAST.IfExprAST (.BinaryExprAST '<' (.VariableExprAST "a") (some (.NumberExprAST 2)))
          (.NumberExprAST 1) (.NumberExprAST 2)).codegen
        (ExprAST.NumberExprAST 3).codegen
        (bodyEntry (sampleFunction (.expr sampleNestedCondExp))) s1 v) ∧
    (∃ v s1, sampleNestedIfElse.codegen (bodyEntry (sampleFunction sampleNestedIfElse)) =
        some (some v, s1) ∧
      (s1.blocks 3).insts = [.phi 6 [(.ConstantFP 3, 1), (.Instruction 5, 6)]] ∧
      MergesTwoSides "truestmt" "elsestmt" "endstmt"
        (ExprAST.BinaryExprAST '<' (.VariableExprAST "a") (some (.NumberExprAST 1))).codegen
        (StmtAST.expr (.NumberExprAST 3)).codegen
        (StmtAST.IfStmtAST (.BinaryExprAST '<' (.VariableExprAST "a") (some (.NumberExprAST 2)))
          (.expr (.NumberExprAST 1)) (some (.expr (.NumberExprAST 2)))).codegen
        (bodyEntry (sampleFunction sampleNestedIfElse)) s1 v) := by
  constructor
  · obtain ⟨v, s1, h1, h2⟩ := (Gen.succeedsWith_iff sampleNestedCondExp.codegen
      (bodyEntry (sampleFunction (.expr sampleNestedCondExp)))
      (fun _ s1 => decide ((s1.blocks 3).insts =
        [.phi 6 [(.Instruction 5, 6), (.ConstantFP 3, 2)]]))).1 (by decide)
    exact ⟨v, s1, h1, of_decide_eq_true h2, C5_phi_of_two_sides.1 _ _ _ _ _ _ h1⟩
  · obtain ⟨v, s1, h1, h2⟩ := (Gen.succeedsWith_iff sampleNestedIfElse.codegen
      (bodyEntry (sampleFunction sampleNestedIfElse))
      (fun _ s1 => decide ((s1.blocks 3).insts =
        [.phi 6 [(.ConstantFP 3, 1), (.Instruction 5, 6)]]))).1 (by decide)
    exact ⟨v, s1, h1, of_decide_eq_true h2, C5_phi_of_two_sides.2 _ _ _ _ _ _ h1⟩

/-! ## Terminators of a generated function (C9) -/

/-- The entry block of a function that has no block yet. -/
theorem Good_entry (s : World) (f : Nat) (n : String) (h : s.functionBlocks f = []) :
    Good ((s.createBlock n (some f)).setInsertPoint s.numBlocks) f ∅ := by
  refine ⟨s.numBlocks, by simp [World.setInsertPoint], ?_⟩
  have hl : ((s.createBlock n (some f)).setInsertPoint s.numBlocks).functionBlocks f =
      [s.numBlocks] := by simp [h]
  have hb : (((s.createBlock n (some f)).setInsertPoint s.numBlocks).blocks s.numBlocks) =
      ⟨n, some f, []⟩ := by simp [World.setInsertPoint]
  refine ⟨?_, ?_, ?_, ?_, ?_⟩
  · intro b hb1
    rw [hl, List.mem_singleton] at hb1
    subst hb1; simp
  · intro b hb1
    rw [hl, List.mem_singleton] at hb1
    subst hb1; rw [hb]
  · intro d hd; exact absurd hd (Set.not_mem_empty d)
  · intro b hb1
    rw [Set.mem_singleton_iff] at hb1
    subst hb1
    refine ⟨by rw [hl]; exact List.mem_singleton.2 rfl, ?_⟩
    rw [hb]; exact Unterminated_nil
  · intro b hb1 hb2
    rw [hl, List.mem_singleton] at hb1
    exact absurd hb1 hb2

theorem FunctionAST_bindArgs_good (f : Nat) (T : Set Nat) (function : Function) :
    ∀ (Args : List String) (ArgNo : Nat),
      Gen.Inv (fun s => Good s f T) (FunctionAST.bindArgs function Args ArgNo)
  | [], _ => by simp only [FunctionAST.bindArgs]; exact Inv_pure _
  | Arg :: Args, ArgNo => by
    have h := FunctionAST_bindArgs_good f T function Args (ArgNo + 1)
    simp only [FunctionAST.bindArgs, CreateStore]
    repeat' first
      | exact Inv_pure _
      | exact h
      | exact good_emitVoid _ _ _ rfl
      | exact good_setNamedValue _ _ _ _
      | exact good_CreateEntryBlockAlloca _ _ _ _ _
      | apply Inv_bind
      | intro _

theorem PrototypeAST_codegen_fresh (P : PrototypeAST) (s : World) (F : Function) (s1 : World)
    (h : P.codegen s = some (F, s1)) :
    s1.functionBlocks F.id = [] ∧ s1.numBlocks = s.numBlocks := by
  simp only [PrototypeAST.codegen] at h
  split at h <;> simp at h <;> obtain ⟨h1, h2⟩ := h <;> subst h1 <;> subst h2 <;> simp

theorem FunctionAST_prologue_good (F : FunctionAST) (s : World) :
    F.prologue.wp (fun r s1 => ∀ fn, r = some fn → Good s1 fn.id ∅) s := by
  simp only [FunctionAST.prologue, Gen.wp_bind, wp_getFunction]
  split
  · simp [Gen.wp_pure]
  · simp only [Gen.wp_bind]
    intro function s1 h1
    have hf := (PrototypeAST_codegen_fresh _ _ _ _ h1).1
    simp only [wp_Create, wp_SetInsertPoint, Gen.wp_bind]
    intro r s2 h2
    have g2 := (FunctionAST_bindArgs_good function.id ∅ function function.Args 0).out _ _ _
      (Good_entry s1 function.id "entry" hf) h2
    simp only [Gen.wp_pure, Option.some.injEq]
    intro fn e
    subst e
    exact g2

theorem CFG_print {s : World} {f : Nat} {T O : Set Nat} (h : CFG s f T O) (p : Printed) :
    CFG { s with errs := s.errs ++ [p] } f T O :=
  CFG_of_same_layout h rfl (Nat.le_refl _) (fun _ => rfl) (fun _ h => h) (fun _ h => h)
    (fun _ i hi _ ht => ⟨i, hi, ht⟩)

/-- When the lowering of a function definition succeeds, no block of the function
is left open and no block is left pending. -/
theorem FunctionAST_codegen_closed (F : FunctionAST) (s : World) :
    F.codegen.wp (fun r s1 => ∀ fn, r = some fn → CFG s1 fn.id ∅ ∅) s := by
  simp only [FunctionAST.codegen, Gen.wp_bind]
  intro r s1 h1
  have g1 := FunctionAST_prologue_good F s _ _ h1
  cases r with
  | none => simp [Gen.wp_pure]
  | some function =>
    have g1 := g1 function rfl
    simp only [Gen.wp_bind]
    intro r s2 h2
    have g2 := StmtAST_codegen_good F.Body function.id ∅ s1 g1 _ _ h2
    cases r with
    | none =>
      simp only [Gen.wp_bind, Gen.wp_pure]
      intro _ _ _ fn e
      cases e
    | some RetVal =>
      obtain ⟨c, hc, cfg⟩ := g2 rfl
      simp only [Gen.wp_bind, Gen.wp_pure, CreateRet, wp_emitVoid, Option.some.injEq]
      have a1 := CFG_insert_term cfg hc rfl (.ret RetVal) rfl (by
        intro t ht; simp [Instr.successors] at ht)
      rw [Set.diff_self] at a1
      intro r s3 h3 fn e
      subst e
      simp only [Function.print, Option.some.injEq, Prod.mk.injEq] at h3
      rw [← h3.2]
      exact CFG_print a1 _

/-- C9: in every function whose generation succeeds, every block of the block list
of the function ends with a terminator (branch, conditional branch or return), holds
no terminator before its last instruction, and every branch target of its
instructions is a block of that list. This holds for every function definition and
every state in which it is lowered. -/
theorem C9_blocks_end_with_one_terminator (F : FunctionAST) (s : World) (fn : Function)
    (s1 : World) (h : F.codegen s = some (some fn, s1)) :
    ∀ b ∈ s1.functionBlocks fn.id,
      (∃ pre t, (s1.blocks b).insts = pre ++ [t] ∧ t.isTerminator = true ∧
        ∀ i ∈ pre, i.isTerminator = false) ∧
      ∀ i ∈ (s1.blocks b).insts, ∀ t ∈ i.successors, t ∈ s1.functionBlocks fn.id := by
  intro b hb
  have cfg := FunctionAST_codegen_closed F s _ _ h fn rfl
  obtain ⟨h1, h2⟩ := cfg.closed b hb (Set.not_mem_empty b)
  refine ⟨h1, fun i hi t ht => ?_⟩
  rcases h2 i hi t ht with x | x
  · exact x
  · exact absurd x (Set.not_mem_empty t)

/-- C9 at a concrete input: `def f(a) { do { if (a < 1) 1 else 2 } while (a < 3) }`
is generated successfully as the first item of a program, its block list is
`[0, 1, 4, 5, 6, 2, 3]`, and each of these seven blocks ends with its only
terminator and branches only to blocks of the list. -/
theorem C9_blocks_end_with_one_terminator_witness :
    ∃ fn s1, (sampleFunction sampleDoWhileIf).codegen World.empty = some (some fn, s1) ∧
      s1.functionBlocks fn.id = [0, 1, 4, 5, 6, 2, 3] ∧
      ∀ b ∈ s1.functionBlocks fn.id,
        (∃ pre t, (s1.blocks b).insts = pre ++ [t] ∧ t.isTerminator = true ∧
          ∀ i ∈ pre, i.isTerminator = false) ∧
        ∀ i ∈ (s1.blocks b).insts, ∀ t ∈ i.successors, t ∈ s1.functionBlocks fn.id := by
  obtain ⟨fn, s1, h1, h2⟩ := (Gen.succeedsWith_iff (sampleFunction sampleDoWhileIf).codegen
    World.empty (fun fn s1 => decide (s1.functionBlocks fn.id = [0, 1, 4, 5, 6, 2, 3]))).1
    (by decide)
  exact ⟨fn, s1, h1, of_decide_eq_true h2, C9_blocks_end_with_one_terminator _ _ _ _ h1⟩

/-! ## Variable references (C14) -/

theorem PrototypeAST_codegen_total (P : PrototypeAST) (s : World) :
    ∃ s1, P.codegen s = some (⟨s.numFunctions, (s.uniqueName P.Name).1, P.Args⟩, s1) ∧
      s1.functionBlocks s.numFunctions = [] := by
  simp only [PrototypeAST.codegen]
  split <;> exact ⟨_, rfl, by simp⟩

theorem FunctionAST_bindArgs_total (function : Function) :
    ∀ (Args : List String) (ArgNo : Nat) (s : World),
      (s.functionBlocks function.id).head? ≠ none →
      ∃ s1, FunctionAST.bindArgs function Args ArgNo s = some ((), s1)
  | [], _, s, _ => ⟨s, rfl⟩
  | Arg :: Args, ArgNo, s, h => by
    obtain ⟨e, he⟩ := Option.ne_none_iff_exists'.1 h
    simp only [FunctionAST.bindArgs]
    rw [Gen.bind_of_eq (show CreateEntryBlockAlloca (some function.id) Arg .DoubleTy s =
      some (⟨s.numValues, .DoubleTy⟩, s.entryAlloca e .DoubleTy Arg) by
        simp [CreateEntryBlockAlloca, he])]
    simp only [CreateStore]
    rw [Gen.bind_of_eq (emitVoid_apply _ _)]
    rw [Gen.bind_of_eq (show setNamedValue Arg _ _ = some ((), _) from rfl)]
    exact FunctionAST_bindArgs_total function Args (ArgNo + 1) _ (by simpa using h)

/-- C18: a call to a name under which no function is registered fails; a call to a
registered function whose parameter count differs from the number of arguments
fails; in both cases the state changes only by the message on `cerr`, so no
argument has been lowered and no instruction emitted. Definitions compare no
arities: a prototype is registered with whatever parameter list it has, and the
prologue of a function definition succeeds whenever its name is not yet
registered. -/
theorem C18_call_checks (Callee : String) (Args : List ExprAST) (s : World) :
    (s.functions.find? (fun F => F.Name = Callee) = none →
      (ExprAST.CallExprAST Callee Args).codegen s =
        some (none, s.logError "Funzione non definita")) ∧
    (∀ F, s.functions.find? (fun F => F.Name = Callee) = some F →
      F.Args.length ≠ Args.length →
      (ExprAST.CallExprAST Callee Args).codegen s =
        some (none, s.logError "Numero di argomenti non corretto")) ∧
    (∀ m, (s.logError m).blocks = s.blocks ∧ (s.logError m).numValues = s.numValues) ∧
    (∀ P : PrototypeAST, ∃ F s1, P.codegen s = some (F, s1) ∧ F.Args = P.Args) ∧
    (∀ D : FunctionAST, s.functions.find? (fun F => F.Name = D.Proto.Name) = none →
      ∃ F s1, D.prologue s = some (some F, s1) ∧ F.Args = D.Proto.Args) := by
  refine ⟨fun h => ?_, fun F h hn => ?_, fun m => ⟨rfl, rfl⟩, fun P => ?_, fun D h => ?_⟩
  · simp only [ExprAST.codegen]
    rw [Gen.bind_of_eq (getFunction_apply Callee s), h]
    rfl
  · simp only [ExprAST.codegen]
    rw [Gen.bind_of_eq (getFunction_apply Callee s), h]
    simp only []
    rw [if_pos hn]
    rfl
  · obtain ⟨s1, h1, _⟩ := PrototypeAST_codegen_total P s
    exact ⟨_, s1, h1, rfl⟩
  · obtain ⟨s1, h1, h2⟩ := PrototypeAST_codegen_total D.Proto s
    simp only [FunctionAST.prologue]
    rw [Gen.bind_of_eq (getFunction_apply _ s), h]
    simp only []
    rw [Gen.bind_of_eq h1]
    rw [Gen.bind_of_eq (show BasicBlock.Create "entry" _ s1 = some (s1.numBlocks, _) from rfl)]
    rw [Gen.bind_of_eq (show SetInsertPoint s1.numBlocks _ = some ((), _) from rfl)]
    obtain ⟨s2, h3⟩ := FunctionAST_bindArgs_total
      ⟨s.numFunctions, (s.uniqueName D.Proto.Name).1, D.Proto.Args⟩
      D.Proto.Args 0 ((s1.createBlock "entry" (some s.numFunctions)).setInsertPoint s1.numBlocks)
      (by simp [h2])
    rw [Gen.bind_of_eq h3]
    exact ⟨_, s2, rfl, rfl⟩

/-- C18 at concrete inputs, in the body of `f` of `global g; def f(a) { 0 }`: the
call `h(a)` fails because `h` is not registered, the call `f(a, a)` fails because
`f` has one parameter. -/
theorem C18_call_checks_witness :
    (ExprAST.CallExprAST "h" [.VariableExprAST "a"]).codegen sampleScope =
      some (none, sampleScope.logError "Funzione non definita") ∧
    (ExprAST.CallExprAST "f" [.VariableExprAST "a", .VariableExprAST "a"]).codegen sampleScope =
      some (none, sampleScope.logError "Numero di argomenti non corretto") :=
  ⟨(C18_call_checks "h" [.VariableExprAST "a"] sampleScope).1 (by decide),
   (C18_call_checks "f" [.VariableExprAST "a", .VariableExprAST "a"] sampleScope).2.1
     ⟨0, "f", ["a"]⟩ (by decide) (by decide)⟩

/-! ## Lowering of the arguments of a call (C19) -/

theorem ExprAST_codegenArgs_of_lowered : ∀ (Args : List ExprAST) (s : World) (vs : List Value)
    (s1 : World), LoweredInOrder Args s vs s1 → ExprAST.codegenArgs Args s = some (some vs, s1)
  | [], s, vs, s1, h => by
    obtain ⟨rfl, rfl⟩ := h
    rfl
  | arg :: Args, s, vs, s1, h => by
    obtain ⟨v, s2, vs1, h1, h2, rfl⟩ := h
    simp only [ExprAST.codegenArgs]
    rw [Gen.bind_of_eq h1]
    simp only []
    rw [Gen.bind_of_eq (ExprAST_codegenArgs_of_lowered Args s2 vs1 s1 h2)]
    rfl

theorem ExprAST_codegenArgs_first_failure : ∀ (pre : List ExprAST) (arg : ExprAST)
    (post : List ExprAST) (s : World) (vs : List Value) (s1 s2 : World),
    LoweredInOrder pre s vs s1 → arg.codegen s1 = some (none, s2) →
      ExprAST.codegenArgs (pre ++ arg :: post) s = some (none, s2)
  | [], arg, post, s, vs, s1, s2, h, hk => by
    obtain ⟨rfl, rfl⟩ := h
    simp only [List.nil_append, ExprAST.codegenArgs]
    rw [Gen.bind_of_eq hk]
    rfl
  | a :: pre, arg, post, s, vs, s1, s2, h, hk => by
    obtain ⟨v, s3, vs1, h1, h2, rfl⟩ := h
    show ExprAST.codegenArgs (a :: (pre ++ arg :: post)) s = _
    simp only [ExprAST.codegenArgs]
    rw [Gen.bind_of_eq h1]
    simp only []
    rw [Gen.bind_of_eq (ExprAST_codegenArgs_first_failure pre arg post s3 vs1 s1 s2 h2 hk)]
    rfl

/-- C19: in a call that passes the callee and arity checks the arguments are
lowered from left to right. If the arguments before `arg` are lowered with
success and the lowering of `arg` fails, leaving state `s2`, the call fails and
returns in `s2`: the arguments after `arg` are not lowered and no call instruction
is emitted. If all arguments are lowered with success, with values `vs` and final
state `s1`, the call emits exactly one instruction, the call of the callee with
operand list `vs`, and returns it. -/
theorem C19_arguments_left_to_right (Callee : String) (Args : List ExprAST) (s : World)
    (F : Function) (hF : s.functions.find? (fun F => F.Name = Callee) = some F)
    (hn : F.Args.length = Args.length) :
    (∀ pre arg post vs s1 s2, Args = pre ++ arg :: post → LoweredInOrder pre s vs s1 →
      arg.codegen s1 = some (none, s2) →
      (ExprAST.CallExprAST Callee Args).codegen s = some (none, s2)) ∧
    (∀ vs s1, LoweredInOrder Args s vs s1 →
      (ExprAST.CallExprAST Callee Args).codegen s =
        some (some (.Instruction s1.numValues), s1.emit fun id => .call id F.id vs)) := by
  have start : (ExprAST.CallExprAST Callee Args).codegen s =
      (do
        let some ArgsV ← ExprAST.codegenArgs Args | return none
        some <$> CreateCall F ArgsV : Gen (Option Value)) s := by
    simp only [ExprAST.codegen]
    rw [Gen.bind_of_eq (getFunction_apply Callee s), hF]
    simp only []
    rw [if_neg (by simpa using hn)]
  constructor
  · intro pre arg post vs s1 s2 e h hk
    rw [start, e, Gen.bind_of_eq (ExprAST_codegenArgs_first_failure pre arg post s vs s1 s2 h hk)]
    rfl
  · intro vs s1 h
    rw [start, Gen.bind_of_eq (ExprAST_codegenArgs_of_lowered Args s vs s1 h)]
    exact Gen.map_of_eq rfl

/-- C19 at concrete inputs, in the body of `def h(a b) { 0 }`: the call `h(a, b)`
loads `a`, then `b`, and emits the call on the two loaded values; the call
`h(z, b)` fails at its first argument, in the state that lowering left, without
lowering `b`. -/
theorem C19_arguments_left_to_right_witness :
    (ExprAST.CallExprAST "h" [.VariableExprAST "a", .VariableExprAST "b"]).codegen
        sampleTwoParams =
      some (some (.Instruction 4),
        ((sampleTwoParams.emit fun id => .load id .DoubleTy (.Instruction 0) "a").emit
          fun id => .load id .DoubleTy (.Instruction 1) "b").emit
          fun id => .call id 0 [.Instruction 2, .Instruction 3]) ∧
    (ExprAST.CallExprAST "h" [.VariableExprAST "z", .VariableExprAST "b"]).codegen
        sampleTwoParams =
      some (none, sampleTwoParams.logError ("Variabile " ++ "z" ++ " non definita")) :=
  ⟨(C19_arguments_left_to_right "h" [.VariableExprAST "a", .VariableExprAST "b"]
      sampleTwoParams ⟨0, "h", ["a", "b"]⟩ (by decide) (by decide)).2 _ _
      ⟨_, _, _, VariableExprAST_codegen_local "a" sampleTwoParams ⟨0, .DoubleTy⟩ (by decide),
        ⟨_, _, _, VariableExprAST_codegen_local "b" _ ⟨1, .DoubleTy⟩ (by decide),
          ⟨rfl, rfl⟩, rfl⟩, rfl⟩,
   (C19_arguments_left_to_right "h" [.VariableExprAST "z", .VariableExprAST "b"]
      sampleTwoParams ⟨0, "h", ["a", "b"]⟩ (by decide) (by decide)).1
      [] (.VariableExprAST "z") [.VariableExprAST "b"] [] sampleTwoParams _ rfl ⟨rfl, rfl⟩
      (VariableExprAST_codegen_undefined "z" sampleTwoParams (by decide) (by decide))⟩

/-! ## Binary operation nodes (C20) -/

theorem CreateBinOp_of_constants (op : Opcode) (L R : Value) (s : World)
    (hL : L.isConstant = true) (hR : R.isConstant = true) :
    CreateBinOp op L R s = some (.FoldedBinOp op L R, s) := by
  simp only [CreateBinOp, hL, hR, Bool.and_self, if_true]
  rfl

theorem CreateBinOp_of_register (op : Opcode) (L R : Value) (s : World)
    (h : L.isConstant = false ∨ R.isConstant = false) :
    CreateBinOp op L R s =
      some (.Instruction s.numValues, s.emit fun id => .binop id op L R) := by
  have hc : (L.isConstant && R.isConstant) = false := by
    rcases h with h | h <;> simp [h]
  simp only [CreateBinOp, hc, Bool.false_eq_true, if_false]
  rfl

theorem CreateNot_of_constant (V : Value) (s : World) (h : V.isConstant = true) :
    CreateNot V s = some (.FoldedNot V, s) := by
  simp only [CreateNot, h, if_true]
  rfl

theorem CreateNot_of_register (V : Value) (s : World) (h : V.isConstant = false) :
    CreateNot V s = some (.Instruction s.numValues, s.emit fun id => .not id V) := by
  simp only [CreateNot, h, Bool.false_eq_true, if_false]
  rfl

theorem BinaryExprAST_emit_two_operands (Op : Char) (opc : Opcode) (L R : Value) (s : World)
    (h : twoOperandOpcode Op = some opc) :
    BinaryExprAST.emit Op L (some R) s = (some <$> CreateBinOp opc L R) s := by
  unfold twoOperandOpcode at h
  split at h <;> first
    | (cases h; rfl)
    | cases h

theorem BinaryExprAST_emit_not (L : Value) (R : Option Value) (s : World) :
    BinaryExprAST.emit 'n' L R s = (some <$> CreateNot L) s := rfl

theorem BinaryExprAST_emit_unsupported (Op : Char) (L : Value) (R : Option Value) (s : World)
    (h : twoOperandOpcode Op = none) (hn : Op ≠ 'n') :
    BinaryExprAST.emit Op L R s =
      some (none, ({ s with cout := s.cout ++ [Op] } : World).logError
        "Operatore binario non supportato") := by
  unfold BinaryExprAST.emit
  split <;> first
    | (simp [twoOperandOpcode] at h; done)
    | exact absurd rfl hn
    | rfl

/-- C20, evaluated on the code: where the body of `def g()` starts, the node `1 + 2`
succeeds and returns the constant that the builder folds `fadd 1.0, 2.0` to; the
state is the one of the call, so no instruction has been emitted. The same holds
for `not 1`. -/
theorem C20_constant_operands_emit_nothing :
    (ExprAST.BinaryExprAST '+' (.NumberExprAST 1) (some (.NumberExprAST 2))).codegen
        (bodyEntry sampleNoArgs) =
      some (some (.FoldedBinOp .FAdd (.ConstantFP 1) (.ConstantFP 2)), bodyEntry sampleNoArgs) ∧
    (ExprAST.BinaryExprAST 'n' (.NumberExprAST 1) none).codegen (bodyEntry sampleNoArgs) =
      some (some (.FoldedNot (.ConstantFP 1)), bodyEntry sampleNoArgs) :=
  ⟨rfl, rfl⟩

/-- C20 as amended: a binary operation node lowers its left operand, then its right
operand when it has one.
* If the left operand fails, or the right operand is present and fails, the node
  fails in the state the operands left: no operator instruction is emitted.
* If the operands succeed and the tag is none of the tags of the `switch`, the
  node fails, and emits nothing.
* If both operands succeed with values `L` and `R`, the tag is a two-operand tag
  and one of `L`, `R` is not a constant, exactly one instruction is emitted, the
  one of the tag over `L` and `R`, and returned; if `L` and `R` are constants,
  nothing is emitted and the constant folded from the operation is returned.
* For the unary `'n'`, whether or not a right operand was lowered: if `L` is not a
  constant exactly one instruction is emitted, the negation of `L`; if `L` is a
  constant nothing is emitted and the folded constant is returned. -/
theorem C20_binary_operation (Op : Char) (LHS : ExprAST) (RHS : Option ExprAST) (s : World) :
    (∀ s1 rR s2, LHS.codegen s = some (none, s1) → ExprAST.codegenRHS RHS s1 = some (rR, s2) →
      (ExprAST.BinaryExprAST Op LHS RHS).codegen s = some (none, s2)) ∧
    (∀ rL s1 e s2, RHS = some e → LHS.codegen s = some (rL, s1) →
      e.codegen s1 = some (none, s2) →
      (ExprAST.BinaryExprAST Op LHS RHS).codegen s = some (none, s2)) ∧
    (∀ L s1 rR s2, LHS.codegen s = some (some L, s1) →
      ExprAST.codegenRHS RHS s1 = some (rR, s2) → (RHS.isSome = true → rR.isSome = true) →
      twoOperandOpcode Op = none → Op ≠ 'n' →
      ∃ s3, (ExprAST.BinaryExprAST Op LHS RHS).codegen s = some (none, s3) ∧
        s3.blocks = s2.blocks ∧ s3.numValues = s2.numValues) ∧
    (∀ L s1 e R s2 opc, RHS = some e → LHS.codegen s = some (some L, s1) →
      e.codegen s1 = some (some R, s2) → twoOperandOpcode Op = some opc →
      (L.isConstant = false ∨ R.isConstant = false) →
      (ExprAST.BinaryExprAST Op LHS RHS).codegen s =
        some (some (.Instruction s2.numValues), s2.emit fun id => .binop id opc L R)) ∧
    (∀ L s1 e R s2 opc, RHS = some e → LHS.codegen s = some (some L, s1) →
      e.codegen s1 = some (some R, s2) → twoOperandOpcode Op = some opc →
      L.isConstant = true → R.isConstant = true →
      (ExprAST.BinaryExprAST Op LHS RHS).codegen s = some (some (.FoldedBinOp opc L R), s2)) ∧
    (∀ L s1 rR s2, Op = 'n' → LHS.codegen s = some (some L, s1) →
      ExprAST.codegenRHS RHS s1 = some (rR, s2) → (RHS.isSome = true → rR.isSome = true) →
      L.isConstant = false →
      (ExprAST.BinaryExprAST Op LHS RHS).codegen s =
        some (some (.Instruction s2.numValues), s2.emit fun id => .not id L)) ∧
    (∀ L s1 rR s2, Op = 'n' → LHS.codegen s = some (some L, s1) →
      ExprAST.codegenRHS RHS s1 = some (rR, s2) → (RHS.isSome = true → rR.isSome = true) →
      L.isConstant = true →
      (ExprAST.BinaryExprAST Op LHS RHS).codegen s = some (some (.FoldedNot L), s2)) := by
  have run : ∀ rL s1 rR s2, LHS.codegen s = some (rL, s1) →
      ExprAST.codegenRHS RHS s1 = some (rR, s2) →
      (ExprAST.BinaryExprAST Op LHS RHS).codegen s =
        (match rL with
          | none => pure none
          | some L =>
            if RHS.isSome && rR.isNone then pure none
            else BinaryExprAST.emit Op L rR : Gen (Option Value)) s2 := by
    intro rL s1 rR s2 h1 h2
    simp only [ExprAST.codegen]
    rw [Gen.bind_of_eq h1, Gen.bind_of_eq h2]
    cases rL <;> rfl
  have present : ∀ rR : Option Value, (RHS.isSome = true → rR.isSome = true) →
      ¬ ((RHS.isSome && rR.isNone) = true) := by
    intro rR hR
    cases RHS with
    | none => simp
    | some e =>
      have := hR rfl
      cases rR with
      | none => simp at this
      | some R => simp
  refine ⟨?_, ?_, ?_, ?_, ?_, ?_, ?_⟩
  · intro s1 rR s2 h1 h2
    rw [run _ _ _ _ h1 h2]
    rfl
  · intro rL s1 e s2 he h1 h2
    subst he
    rw [run _ _ _ _ h1 (show ExprAST.codegenRHS (some e) s1 = some (none, s2) from h2)]
    cases rL <;> rfl
  · intro L s1 rR s2 h1 h2 hR hop hn
    rw [run _ _ _ _ h1 h2]
    simp only []
    rw [if_neg (present rR hR)]
    rw [BinaryExprAST_emit_unsupported Op L rR s2 hop hn]
    exact ⟨_, rfl, rfl, rfl⟩
  · intro L s1 e R s2 opc he h1 h2 hop hreg
    subst he
    rw [run _ _ _ _ h1 (show ExprAST.codegenRHS (some e) s1 = some (some R, s2) from h2)]
    simp only []
    rw [if_neg (by simp), BinaryExprAST_emit_two_operands Op opc L R s2 hop]
    exact Gen.map_of_eq (CreateBinOp_of_register opc L R s2 hreg)
  · intro L s1 e R s2 opc he h1 h2 hop hL hR
    subst he
    rw [run _ _ _ _ h1 (show ExprAST.codegenRHS (some e) s1 = some (some R, s2) from h2)]
    simp only []
    rw [if_neg (by simp), BinaryExprAST_emit_two_operands Op opc L R s2 hop]
    exact Gen.map_of_eq (CreateBinOp_of_constants opc L R s2 hL hR)
  · intro L s1 rR s2 hop h1 h2 hR hreg
    subst hop
    rw [run _ _ _ _ h1 h2]
    simp only []
    rw [if_neg (present rR hR), BinaryExprAST_emit_not L rR s2]
    exact Gen.map_of_eq (CreateNot_of_register L s2 hreg)
  · intro L s1 rR s2 hop h1 h2 hR hL
    subst hop
    rw [run _ _ _ _ h1 h2]
    simp only []
    rw [if_neg (present rR hR), BinaryExprAST_emit_not L rR s2]
    exact Gen.map_of_eq (CreateNot_of_constant L s2 hL)

/-- C20 as amended, at concrete inputs, in the body of `def h(a b) { 0 }`: `a + b`
loads both operands and emits one `fadd` over the two loads; `a + 1` emits one
`fadd` over the load and the constant; `1 + 2` emits nothing; `z + b` fails after
both operands were lowered, `z` without success; `a ^ b` fails on its tag;
`not a` emits one negation of the load of `a`. -/
theorem C20_binary_operation_witness :
    (ExprAST.BinaryExprAST '+' (.VariableExprAST "a") (some (.VariableExprAST "b"))).codegen
        sampleTwoParams =
      some (some (.Instruction 4),
        ((sampleTwoParams.emit fun id => .load id .DoubleTy (.Instruction 0) "a").emit
          fun id => .load id .DoubleTy (.Instruction 1) "b").emit
          fun id => .binop id .FAdd (.Instruction 2) (.Instruction 3)) ∧
    (ExprAST.BinaryExprAST '+' (.VariableExprAST "a") (some (.NumberExprAST 1))).codegen
        sampleTwoParams =
      some (some (.Instruction 3),
        (sampleTwoParams.emit fun id => .load id .DoubleTy (.Instruction 0) "a").emit
          fun id => .binop id .FAdd (.Instruction 2) (.ConstantFP 1)) ∧
    (ExprAST.BinaryExprAST '+' (.NumberExprAST 1) (some (.NumberExprAST 2))).codegen
        sampleTwoParams =
      some (some (.FoldedBinOp .FAdd (.ConstantFP 1) (.ConstantFP 2)), sampleTwoParams) ∧
    (ExprAST.BinaryExprAST '+' (.VariableExprAST "z") (some (.VariableExprAST "b"))).codegen
        sampleTwoParams =
      some (none, (sampleTwoParams.logError ("Variabile " ++ "z" ++ " non definita")).emit
        fun id => .load id .DoubleTy (.Instruction 1) "b") ∧
    (∃ s3, (ExprAST.BinaryExprAST '^' (.VariableExprAST "a") (some (.VariableExprAST "b"))).codegen
        sampleTwoParams = some (none, s3)) ∧
    (ExprAST.BinaryExprAST 'n' (.VariableExprAST "a") none).codegen sampleTwoParams =
      some (some (.Instruction 3),
        (sampleTwoParams.emit fun id => .load id .DoubleTy (.Instruction 0) "a").emit
          fun id => .not id (.Instruction 2)) := by
  have ha := VariableExprAST_codegen_local "a" sampleTwoParams ⟨0, .DoubleTy⟩ (by decide)
  have hz := VariableExprAST_codegen_undefined "z" sampleTwoParams (by decide) (by decide)
  refine ⟨?_, ?_, ?_, ?_, ?_, ?_⟩
  · exact (C20_binary_operation '+' (.VariableExprAST "a") (some (.VariableExprAST "b"))
      sampleTwoParams).2.2.2.1 _ _ _ _ _ .FAdd rfl ha
      (VariableExprAST_codegen_local "b" _ ⟨1, .DoubleTy⟩ (by decide)) rfl (Or.inl rfl)
  · exact (C20_binary_operation '+' (.VariableExprAST "a") (some (.NumberExprAST 1))
      sampleTwoParams).2.2.2.1 _ _ _ _ _ .FAdd rfl ha rfl rfl (Or.inl rfl)
  · exact (C20_binary_operation '+' (.NumberExprAST 1) (some (.NumberExprAST 2))
      sampleTwoParams).2.2.2.2.1 _ _ _ _ _ .FAdd rfl rfl rfl rfl rfl rfl
  · exact (C20_binary_operation '+' (.VariableExprAST "z") (some (.VariableExprAST "b"))
      sampleTwoParams).1 _ _ _ hz
      (VariableExprAST_codegen_local "b" _ ⟨1, .DoubleTy⟩ (by decide))
  · obtain ⟨s3, h, _⟩ := (C20_binary_operation '^' (.VariableExprAST "a")
      (some (.VariableExprAST "b")) sampleTwoParams).2.2.1 _ _ _ _ ha
      (VariableExprAST_codegen_local "b" _ ⟨1, .DoubleTy⟩ (by decide)) (fun _ => rfl)
      (by decide) (by decide)
    exact ⟨s3, h⟩
  · exact (C20_binary_operation 'n' (.VariableExprAST "a") none sampleTwoParams).2.2.2.2.2.1
      _ _ _ _ rfl ha rfl (fun h => by cases h) rfl

/-! ## Scope handling of the for-each statement (C11) -/

theorem ForEachStmtAST.getCounterName_ne (x : String) : ForEachStmtAST.getCounterName x ≠ x := by
  intro h
  have h1 := congrArg String.length h
  simp only [ForEachStmtAST.getCounterName, String.length_append] at h1
  have h2 : "_counter".length = 8 := by decide
  omega

theorem ForEachStmtAST_restores (IterName ArrayName : String) (BodyStmt : StmtAST) (s : World) :
    (StmtAST.ForEachStmtAST IterName ArrayName BodyStmt).codegen.wp
      (fun r s1 => r.isSome = true →
        s1.NamedValues IterName = s.NamedValues IterName ∧
        s1.NamedValues (ForEachStmtAST.getCounterName IterName) =
          s.NamedValues (ForEachStmtAST.getCounterName IterName)) s := by
  have hne := ForEachStmtAST.getCounterName_ne IterName
  simp only [StmtAST.codegen, Gen.wp_bind, wp_GetInsertBlock, wp_GetInsertBlockParent,
    wp_Create, wp_SetInsertPoint, wp_getNamedValue, World.createBlock_numBlocks,
    World.setInsertPoint_InsertBlock, Option.some.injEq, forall_eq']
  intro c hc boundValCounter s1 h1
  have e1 := (VarBindingAST_codegen_sameNV _ _).out _ _ _ h1
  simp only [SameNamedValues, World.createBlock_NamedValues,
    World.setInsertPoint_NamedValues] at e1
  simp only [Gen.wp_bind, wp_setNamedValue, wp_getNamedValue]
  intro AT s2 h2
  have e2 : SameNamedValues (s1.setNamedValue (ForEachStmtAST.getCounterName IterName)
      boundValCounter) s2 := by
    refine Gen.Rel.out (R := SameNamedValues) ?_ _ _ _ h2
    repeat' first
      | exact sameNV_pure _
      | exact sameNV_getNamedGlobal _
      | exact sameNV_LogErrorV _
      | apply sameNV_bind
      | intro _
      | split
  simp only [Gen.wp_pure]
  cases AT with
  | none => simp [Gen.wp_pure]
  | some AT =>
    simp only []
    cases AT with
    | ArrayTy NumElements =>
      simp only [Gen.wp_bind, CreateBr, wp_emitVoid, wp_SetInsertPoint]
      intro r s3 h3
      have e3 := (ExprAST_codegen_sameNV _).out _ _ _ h3
      simp only [SameNamedValues, World.setInsertPoint_NamedValues,
        World.insert_NamedValues] at e3
      cases r with
      | none => simp [Gen.wp_pure]
      | some condV =>
        simp only [Gen.wp_bind, CreateCondBr, wp_emitVoid, wp_GetInsertBlock,
          wp_Function_insert, wp_SetInsertPoint, wp_getNamedValue, World.insert_InsertBlock]
        intro Pc hPc f1 hf1 r s4 h4
        cases r with
        | none => simp [Gen.wp_pure]
        | some bindingValue =>
          simp only [Gen.wp_bind, wp_setNamedValue]
          intro r s5 h5
          cases r with
          | none => simp [Gen.wp_pure]
          | some bodyV =>
            simp only [Gen.wp_bind]
            intro r s6 h6
            simp only [Gen.wp_bind, Gen.wp_pure, CreateBr, wp_emitVoid, wp_GetInsertBlock,
              wp_Function_insert, wp_SetInsertPoint, wp_setNamedValue, World.insert_InsertBlock]
            intro Pb hPb f2 hf2 _
            simp only [World.setNamedValue_apply, if_true, if_neg hne,
              World.setInsertPoint_NamedValues, World.insertBlock_NamedValues,
              World.insert_NamedValues, World.createBlock_NamedValues, and_true]
            rw [e3, e2, World.setNamedValue_apply, if_neg (Ne.symm hne), e1]
    | DoubleTy => simp [wp_LogErrorV]
    | FloatTy => simp [wp_LogErrorV]
    | Int32Ty => simp [wp_LogErrorV]

/-- C11: when the lowering of a for-each with iterator `x` succeeds, the symbol
table binds `x` and `x_counter` on return exactly as it did before the call
(absent when they were absent), for every body and every state. -/
theorem C11_for_each_scope (IterName ArrayName : String) (BodyStmt : StmtAST) (s : World)
    (v : Value) (s1 : World)
    (h : (StmtAST.ForEachStmtAST IterName ArrayName BodyStmt).codegen s = some (some v, s1)) :
    s1.NamedValues IterName = s.NamedValues IterName ∧
    s1.NamedValues (IterName ++ "_counter") = s.NamedValues (IterName ++ "_counter") :=
  ForEachStmtAST_restores IterName ArrayName BodyStmt s _ _ h rfl

set_option maxHeartbeats 1000000 in
/-- C11 at a concrete input: in the block `{ var A[2]; var x = 7; ... }` of `def g()`
the for-each over `A` with iterator `x` and body `{ var x = 1; var x = 2; x }` is
generated successfully;
its body leaves `x` bound to other storage, and on return `x` is bound to the
storage of `var x = 7` again and `x_counter` is unbound, as before the call. -/
theorem C11_for_each_scope_witness :
    ∃ v s1, sampleForEach.codegen sampleArrayScope = some (some v, s1) ∧
      sampleArrayScope.NamedValues "x" = some ⟨1, .DoubleTy⟩ ∧
      sampleArrayScope.NamedValues "x_counter" = none ∧
      s1.NamedValues "x" = sampleArrayScope.NamedValues "x" ∧
      s1.NamedValues ("x" ++ "_counter") = sampleArrayScope.NamedValues ("x" ++ "_counter") := by
  obtain ⟨v, s1, h1, _⟩ := (Gen.succeedsWith_iff sampleForEach.codegen sampleArrayScope
    (fun _ _ => true)).1 (by decide)
  exact ⟨v, s1, h1, by decide, by decide,
    C11_for_each_scope "x" "A" sampleDuplicateBlock sampleArrayScope v s1 h1⟩

/-! ## The counter of a for-each on sample programs (C12, C13) -/

set_option maxHeartbeats 1000000 in
/-- C13, evaluated on the code: in the block `{ var x_counter[3]; ... }` of
`def g()` the name `x_counter` is bound to array-typed storage of three elements,
and the for-each over `x_counter` with iterator `x` fails with the message that
`x_counter` is not an array: the counter of the loop is installed under the name
`x_counter` before the array name is looked up. -/
theorem C13_array_named_like_counter_rejected :
    ∃ s1, sampleForEachOverCounter.codegen sampleCounterArrayScope = some (none, s1) ∧
      sampleCounterArrayScope.NamedValues "x_counter" = some ⟨0, .ArrayTy 3⟩ ∧
      s1.cerr = ["La variabile x_counter non è un array."] := by
  have h := (Gen.failsWith_iff sampleForEachOverCounter.codegen sampleCounterArrayScope
    (fun s1 => decide (s1.cerr = ["La variabile x_counter non è un array."]))).1 (by decide)
  obtain ⟨s1, h1, h2⟩ := h
  exact ⟨s1, h1, by decide, of_decide_eq_true h2⟩

set_option maxHeartbeats 1000000 in
/-- The loop bound of a for-each is the element count converted to `int`: over an
array of `2 ^ 31` elements the condition block compares the counter with
`-2 ^ 31`. -/
theorem ForEachStmtAST_bound_wraps :
    ∃ v s1, (StmtAST.ForEachStmtAST "x" "A" (.expr (.VariableExprAST "x"))).codegen
        sampleHugeArrayScope = some (some v, s1) ∧
      sampleHugeArrayScope.NamedValues "A" = some ⟨0, .ArrayTy 2147483648⟩ ∧
      (s1.blocks 1).insts =
        [.load 2 .DoubleTy (.Instruction 1) "x_counter",
         .binop 3 .FCmpULT (.Instruction 2) (.ConstantFP (-2147483648)),
         .condBr (.Instruction 3) 2 3] := by
  have h := (Gen.succeedsWith_iff
    (StmtAST.ForEachStmtAST "x" "A" (.expr (.VariableExprAST "x"))).codegen sampleHugeArrayScope
    (fun _ s1 => decide ((s1.blocks 1).insts =
        [.load 2 .DoubleTy (.Instruction 1) "x_counter",
         .binop 3 .FCmpULT (.Instruction 2) (.ConstantFP (-2147483648)),
         .condBr (.Instruction 3) 2 3]))).1 (by decide)
  obtain ⟨v, s1, h1, h2⟩ := h
  exact ⟨v, s1, h1, by decide, of_decide_eq_true h2⟩

/-! ## Indexing on sample programs (C15, C16, C17) -/

/-- C15, evaluated on the code: in the body of `f` of `global g; def f(a) { 0 }` the
name `b` is bound neither in the symbol table nor as a global, and the offset `a`
alone lowers to one load. The element reference `b[a]` fails, and at that point
the entry block holds, after the load of the offset, the two conversions of the
index: they are emitted before the name is looked up. -/
theorem C15_index_conversions_emitted_before_lookup :
    ∃ v s0 s1,
      (ExprAST.VariableExprAST "a").codegen sampleScope = some (some v, s0) ∧
      (ExprAST.ArrayExprAST "b" (.VariableExprAST "a")).codegen sampleScope = some (none, s1) ∧
      sampleScope.NamedValues "b" = none ∧
      sampleScope.globals.find? (fun G => G.Name = "b") = none ∧
      (s0.blocks 0).insts = (sampleScope.blocks 0).insts ++
        [.load 1 .DoubleTy (.Instruction 0) "a"] ∧
      (s1.blocks 0).insts = (sampleScope.blocks 0).insts ++
        [.load 1 .DoubleTy (.Instruction 0) "a", .fptrunc 2 (.Instruction 1),
         .fptosi 3 (.Instruction 2)] := by
  obtain ⟨v, s0, h0, h0'⟩ := (Gen.succeedsWith_iff (ExprAST.VariableExprAST "a").codegen
    sampleScope (fun _ s0 => decide ((s0.blocks 0).insts = (sampleScope.blocks 0).insts ++
        [.load 1 .DoubleTy (.Instruction 0) "a"]))).1 (by decide)
  obtain ⟨s1, h1, h1'⟩ := (Gen.failsWith_iff
    (ExprAST.ArrayExprAST "b" (.VariableExprAST "a")).codegen sampleScope
    (fun s1 => decide ((s1.blocks 0).insts = (sampleScope.blocks 0).insts ++
        [.load 1 .DoubleTy (.Instruction 0) "a", .fptrunc 2 (.Instruction 1),
         .fptosi 3 (.Instruction 2)]))).1 (by decide)
  exact ⟨v, s0, s1, h0, h1, by decide, by decide, of_decide_eq_true h0', of_decide_eq_true h1'⟩

/-- C16, evaluated on the code: in the body of `f` of `global g; def f(a) { 0 }` the
parameter `a` and the global `g` are scalars of type `double`. The element
reference `a[a]` and the element assignments `a[a] = 1` and `g[a] = 1` are all
generated successfully: each computes an element address from the scalar storage,
and loads from it or stores into it. -/
theorem C16_scalars_are_indexed :
    sampleScope.NamedValues "a" = some ⟨0, .DoubleTy⟩ ∧
    sampleScope.NamedValues "g" = none ∧
    sampleScope.globals.find? (fun G => G.Name = "g") = some ⟨0, "g", .DoubleTy⟩ ∧
    (∃ s1, (ExprAST.ArrayExprAST "a" (.VariableExprAST "a")).codegen sampleScope =
        some (some (.Instruction 5), s1) ∧
      (s1.blocks 0).insts = (sampleScope.blocks 0).insts ++
        [.load 1 .DoubleTy (.Instruction 0) "a", .fptrunc 2 (.Instruction 1),
         .fptosi 3 (.Instruction 2), .gep 4 (.Instruction 0) (.Instruction 3),
         .load 5 .DoubleTy (.Instruction 4) "a"]) ∧
    (∃ s1, AssignmentAST.codegen ⟨"a", some (.VariableExprAST "a"), .NumberExprAST 1⟩
        sampleScope = some (some (.ConstantFP 1), s1) ∧
      (s1.blocks 0).insts = (sampleScope.blocks 0).insts ++
        [.load 1 .DoubleTy (.Instruction 0) "a", .fptrunc 2 (.Instruction 1),
         .fptosi 3 (.Instruction 2), .gep 4 (.Instruction 0) (.Instruction 3),
         .store (.ConstantFP 1) (.Instruction 4)]) ∧
    (∃ s1, AssignmentAST.codegen ⟨"g", some (.VariableExprAST "a"), .NumberExprAST 1⟩
        sampleScope = some (some (.ConstantFP 1), s1) ∧
      (s1.blocks 0).insts = (sampleScope.blocks 0).insts ++
        [.load 1 .DoubleTy (.Instruction 0) "a", .fptrunc 2 (.Instruction 1),
         .fptosi 3 (.Instruction 2), .gep 4 (.Global 0) (.Instruction 3),
         .store (.ConstantFP 1) (.Instruction 4)]) := by
  refine ⟨by decide, by decide, by decide, ?_, ?_, ?_⟩
  · obtain ⟨v, s1, h1, h2⟩ := (Gen.succeedsWith_iff
      (ExprAST.ArrayExprAST "a" (.VariableExprAST "a")).codegen sampleScope
      (fun v s1 => decide (v = .Instruction 5 ∧
        (s1.blocks 0).insts = (sampleScope.blocks 0).insts ++
          [.load 1 .DoubleTy (.Instruction 0) "a", .fptrunc 2 (.Instruction 1),
           .fptosi 3 (.Instruction 2), .gep 4 (.Instruction 0) (.Instruction 3),
           .load 5 .DoubleTy (.Instruction 4) "a"]))).1 (by decide)
    obtain ⟨rfl, h3⟩ := of_decide_eq_true h2
    exact ⟨s1, h1, h3⟩
  · obtain ⟨v, s1, h1, h2⟩ := (Gen.succeedsWith_iff
      (AssignmentAST.codegen ⟨"a", some (.VariableExprAST "a"), .NumberExprAST 1⟩) sampleScope
      (fun v s1 => decide (v = .ConstantFP 1 ∧
        (s1.blocks 0).insts = (sampleScope.blocks 0).insts ++
          [.load 1 .DoubleTy (.Instruction 0) "a", .fptrunc 2 (.Instruction 1),
           .fptosi 3 (.Instruction 2), .gep 4 (.Instruction 0) (.Instruction 3),
           .store (.ConstantFP 1) (.Instruction 4)]))).1 (by decide)
    obtain ⟨rfl, h3⟩ := of_decide_eq_true h2
    exact ⟨s1, h1, h3⟩
  · obtain ⟨v, s1, h1, h2⟩ := (Gen.succeedsWith_iff
      (AssignmentAST.codegen ⟨"g", some (.VariableExprAST "a"), .NumberExprAST 1⟩) sampleScope
      (fun v s1 => decide (v = .ConstantFP 1 ∧
        (s1.blocks 0).insts = (sampleScope.blocks 0).insts ++
          [.load 1 .DoubleTy (.Instruction 0) "a", .fptrunc 2 (.Instruction 1),
           .fptosi 3 (.Instruction 2), .gep 4 (.Global 0) (.Instruction 3),
           .store (.ConstantFP 1) (.Instruction 4)]))).1 (by decide)
    obtain ⟨rfl, h3⟩ := of_decide_eq_true h2
    exact ⟨s1, h1, h3⟩

/-- C17, evaluated on the code: in the body of `f` of `global g; def f(a) { 0 }` the
target `a` resolves, the right-hand side `1` lowers successfully and the offset
`z` fails to lower, returning `nullptr`. The element assignment `a[z] = 1` does not
return failure: it passes the null result of the offset to the conversion
instruction, which is undefined behaviour, so it returns nothing at all. -/
theorem C17_failed_offset_is_dereferenced :
    sampleScope.NamedValues "a" = some ⟨0, .DoubleTy⟩ ∧
    (ExprAST.NumberExprAST 1).codegen sampleScope = some (some (.ConstantFP 1), sampleScope) ∧
    (ExprAST.VariableExprAST "z").codegen sampleScope =
      some (none, sampleScope.logError ("Variabile " ++ "z" ++ " non definita")) ∧
    AssignmentAST.codegen ⟨"a", some (.VariableExprAST "z"), .NumberExprAST 1⟩ sampleScope =
      none :=
  ⟨by decide, rfl, VariableExprAST_codegen_undefined "z" sampleScope (by decide) (by decide),
   Option.isNone_iff_eq_none.1 (by decide)⟩

/-! ## Scalar definitions with an initialiser (C21) -/

/-- C21: a scalar definition with an initialiser lowers the initialiser first, in
the state of the call. If that fails the definition fails in the state the
initialiser left: no storage is allocated. If it succeeds with value `v`, exactly
one slot of type `double` is allocated at the start of the entry block of the
current function and exactly one instruction is inserted, the store of `v` into
that slot, and the slot is returned. In every case the symbol table on return is
the one of the call. -/
theorem C21_scalar_binding_with_initializer (Name : String) (Val : ExprAST) (s : World) :
    (∀ c s1, s.InsertBlock = some c → Val.codegen s = some (none, s1) →
      VarBindingAST.codegen Name (some Val) s = some (none, s1)) ∧
    (∀ c f e v s1, s.InsertBlock = some c → (s.blocks c).parent = some f →
      Val.codegen s = some (some v, s1) → (s1.functionBlocks f).head? = some e →
      VarBindingAST.codegen Name (some Val) s =
        some (some ⟨s1.numValues, .DoubleTy⟩,
          (s1.entryAlloca e .DoubleTy Name).insert (.store v (.Instruction s1.numValues)))) ∧
    (∀ r s1, VarBindingAST.codegen Name (some Val) s = some (r, s1) →
      s1.NamedValues = s.NamedValues) := by
  refine ⟨?_, ?_, fun r s1 h => (VarBindingAST_codegen_sameNV Name (some Val)).out s r s1 h⟩
  · intro c s1 hc h
    simp only [VarBindingAST.codegen]
    rw [Gen.bind_of_eq (GetInsertBlockParent_apply s c hc)]
    rw [Gen.bind_of_eq h]
    rfl
  · intro c f e v s1 hc hf h he
    simp only [VarBindingAST.codegen]
    rw [Gen.bind_of_eq (GetInsertBlockParent_apply s c hc)]
    rw [Gen.bind_of_eq h]
    simp only [hf]
    rw [Gen.bind_of_eq (CreateEntryBlockAlloca_apply s1 f e Name .DoubleTy he)]
    rfl

/-- C21 at concrete inputs, in the body of `f` of `global g; def f(a) { 0 }`:
`var x = a` loads `a`, allocates one slot (register 2) and stores the loaded value
into it; `var x = z` fails in the state the lowering of `z` left. -/
theorem C21_scalar_binding_with_initializer_witness :
    VarBindingAST.codegen "x" (some (.VariableExprAST "a")) sampleScope =
      some (some ⟨2, .DoubleTy⟩,
        ((sampleScope.emit fun id => .load id .DoubleTy (.Instruction 0) "a").entryAlloca 0
          .DoubleTy "x").insert (.store (.Instruction 1) (.Instruction 2))) ∧
    VarBindingAST.codegen "x" (some (.VariableExprAST "z")) sampleScope =
      some (none, sampleScope.logError ("Variabile " ++ "z" ++ " non definita")) :=
  ⟨(C21_scalar_binding_with_initializer "x" (.VariableExprAST "a") sampleScope).2.1
      0 0 0 _ _ (by decide) (by decide)
      (VariableExprAST_codegen_local "a" sampleScope ⟨0, .DoubleTy⟩ (by decide)) (by decide),
   (C21_scalar_binding_with_initializer "x" (.VariableExprAST "z") sampleScope).1
      0 _ (by decide)
      (VariableExprAST_codegen_undefined "z" sampleScope (by decide) (by decide))⟩

/-! ## Initialiser lists longer than the array (C23) -/

/-- C23: an array definition whose initialiser list is longer than the declared
size fails in the state of the call: no storage is allocated, no element of the
list is lowered, no instruction is emitted. -/
theorem C23_array_overflow (Name : String) (Size : Double) (Values : List ExprAST) (s : World)
    (hne : Values ≠ []) (hlen : Size < (Values.length : Double)) :
    ArrayBindingAST.codegen Name Size Values s = some (none, s) ∧
    (BindingAST.ArrayBindingAST Name Size Values).codegen s = some (none, s) := by
  have h : ArrayBindingAST.codegen Name Size Values s = some (none, s) := by
    simp only [ArrayBindingAST.codegen]
    rw [if_pos (by
      cases Values with
      | nil => exact absurd rfl hne
      | cons a l => simpa using hlen)]
    rfl
  exact ⟨h, h⟩

/-- C23 at a concrete input: `var arr[2] = {1, 2, 3}` fails in the state of the
call. -/
theorem C23_array_overflow_witness :
    ArrayBindingAST.codegen "arr" 2 [.NumberExprAST 1, .NumberExprAST 2, .NumberExprAST 3]
      sampleScope = some (none, sampleScope) :=
  (C23_array_overflow "arr" 2 [.NumberExprAST 1, .NumberExprAST 2, .NumberExprAST 3]
    sampleScope (List.cons_ne_nil _ _) (by decide)).1

/-! ## Redefinition of a function (C25) -/

/-- C25: the definition of a function whose name is already registered fails in
the state of the call: the registered functions, the symbol table and the emitted
code are exactly as they were. -/
theorem C25_duplicate_definition (F : FunctionAST) (s : World) (G : Function)
    (h : s.functions.find? (fun G => G.Name = F.Proto.Name) = some G) :
    F.codegen s = some (none, s) := by
  simp only [FunctionAST.codegen, FunctionAST.prologue]
  rw [Gen.bind_of_eq (show (getFunction F.Proto.Name >>= _) s = some (none, s) by
    rw [Gen.bind_of_eq (getFunction_apply _ s), h]; rfl)]
  rfl

/-- C25 at a concrete input: in the body of `f` of `global g; def f(a) { 0 }` the
function `f` is registered, and a definition `def f(a b) { 1 }` fails in the state
of the call. -/
theorem C25_duplicate_definition_witness :
    FunctionAST.codegen ⟨⟨"f", ["a", "b"], false⟩, .BlockAST [] [.expr (.NumberExprAST 1)]⟩
      sampleScope = some (none, sampleScope) :=
  C25_duplicate_definition ⟨⟨"f", ["a", "b"], false⟩, .BlockAST [] [.expr (.NumberExprAST 1)]⟩
    sampleScope ⟨0, "f", ["a"]⟩ (by decide)

/-! ## Scalar definitions without initialiser (C22) -/

/-- C22, evaluated on the code: in the body of `f` of `global g; def f(a) { 0 }` the
definition `var x` succeeds and returns the slot of register 1; the only
instruction it adds is the allocation of that slot, at the start of the entry
block, and no store into the slot exists. -/
theorem C22_no_store_without_initializer :
    ∃ s1, VarBindingAST.codegen "x" none sampleScope = some (some ⟨1, .DoubleTy⟩, s1) ∧
      (s1.blocks 0).insts = .alloca 1 .DoubleTy "x" :: (sampleScope.blocks 0).insts ∧
      s1.storesInto 0 (.Instruction 1) = [] := by
  obtain ⟨A, s1, h1, h2⟩ := (Gen.succeedsWith_iff (VarBindingAST.codegen "x" none) sampleScope
    (fun A s1 => decide (A = ⟨1, .DoubleTy⟩ ∧
      (s1.blocks 0).insts = .alloca 1 .DoubleTy "x" :: (sampleScope.blocks 0).insts ∧
      s1.storesInto 0 (.Instruction 1) = []))).1 (by decide)
  obtain ⟨rfl, h3⟩ := of_decide_eq_true h2
  exact ⟨s1, h1, h3⟩

/-- C22 as amended: a scalar definition without initialiser allocates exactly one
slot of type `double` at the start of the entry block of the current function,
returns it, and emits nothing else: the instructions of every block are those of
the call state, with the allocation in front of the entry block. No store
initialises the slot. -/
theorem C22_scalar_binding_without_initializer (Name : String) (s : World) (c f e : Nat)
    (hc : s.InsertBlock = some c) (hf : (s.blocks c).parent = some f)
    (he : (s.functionBlocks f).head? = some e) :
    ∃ s1, VarBindingAST.codegen Name none s = some (some ⟨s.numValues, .DoubleTy⟩, s1) ∧
      (s1.blocks e).insts = .alloca s.numValues .DoubleTy Name :: (s.blocks e).insts ∧
      (∀ b, b ≠ e → (s1.blocks b).insts = (s.blocks b).insts) ∧
      s1.NamedValues = s.NamedValues := by
  refine ⟨s.entryAlloca e .DoubleTy Name, ?_, ?_, ?_, rfl⟩
  · simp only [VarBindingAST.codegen]
    rw [Gen.bind_of_eq (GetInsertBlockParent_apply s c hc)]
    simp only [hf]
    rw [Gen.bind_of_eq (CreateEntryBlockAlloca_apply s f e Name .DoubleTy he)]
    rfl
  · rw [World.entryAlloca_insts]; simp
  · intro b hb
    rw [World.entryAlloca_insts]; simp [hb]

/-- C22 as amended, at a concrete input: `var x` in the body of `f` of
`global g; def f(a) { 0 }`. -/
theorem C22_scalar_binding_without_initializer_witness :
    ∃ s1, VarBindingAST.codegen "x" none sampleScope =
        some (some ⟨sampleScope.numValues, .DoubleTy⟩, s1) ∧
      (s1.blocks 0).insts =
        .alloca sampleScope.numValues .DoubleTy "x" :: (sampleScope.blocks 0).insts ∧
      (∀ b, b ≠ 0 → (s1.blocks b).insts = (sampleScope.blocks b).insts) ∧
      s1.NamedValues = sampleScope.NamedValues :=
  C22_scalar_binding_without_initializer "x" sampleScope 0 0 0 (by decide) (by decide)
    (by decide)

/-! ## The prologue of a function definition -/

theorem FunctionAST_bindArgs_frame (function : Function) :
    ∀ (Args : List String) (ArgNo : Nat), Gen.Rel Frame (FunctionAST.bindArgs function Args ArgNo)
  | [], _ => by simp only [FunctionAST.bindArgs]; exact frame_pure _
  | Arg :: Args, ArgNo => by
    have h := FunctionAST_bindArgs_frame function Args (ArgNo + 1)
    simp only [FunctionAST.bindArgs, CreateStore]
    repeat' first
      | exact frame_pure _
      | exact h
      | exact frame_emitVoid _
      | exact frame_setNamedValue _ _
      | exact frame_CreateEntryBlockAlloca _ _ _
      | apply frame_bind
      | intro _

/-- The prologue of a definition under whose name no function is registered
registers the function, with the next free identifier, at the end of the list of
functions; the name it is registered under is the name of the definition unless a
global variable has that name. -/
theorem FunctionAST_prologue_fresh (D : FunctionAST) (s : World)
    (h : s.functions.find? (fun F => F.Name = D.Proto.Name) = none) :
    ∃ s1, D.prologue s =
        some (some ⟨s.numFunctions, (s.uniqueName D.Proto.Name).1, D.Proto.Args⟩, s1) ∧
      s1.functions =
        s.functions ++ [⟨s.numFunctions, (s.uniqueName D.Proto.Name).1, D.Proto.Args⟩] ∧
      s1.globals = s.globals := by
  obtain ⟨s0, h1, h2⟩ := PrototypeAST_codegen_total D.Proto s
  have hf0 : s0.functions =
      s.functions ++ [⟨s.numFunctions, (s.uniqueName D.Proto.Name).1, D.Proto.Args⟩] ∧
      s0.globals = s.globals := by
    simp only [PrototypeAST.codegen] at h1
    split at h1 <;> simp at h1 <;> rw [← h1] <;> exact ⟨rfl, rfl⟩
  obtain ⟨s2, h3⟩ := FunctionAST_bindArgs_total
    ⟨s.numFunctions, (s.uniqueName D.Proto.Name).1, D.Proto.Args⟩
    D.Proto.Args 0 ((s0.createBlock "entry" (some s.numFunctions)).setInsertPoint s0.numBlocks)
    (by simp [h2])
  refine ⟨s2, ?_, ?_⟩
  · simp only [FunctionAST.prologue]
    rw [Gen.bind_of_eq (getFunction_apply _ s), h]
    simp only []
    rw [Gen.bind_of_eq h1]
    rw [Gen.bind_of_eq (show BasicBlock.Create "entry" _ s0 = some (s0.numBlocks, _) from rfl)]
    rw [Gen.bind_of_eq (show SetInsertPoint s0.numBlocks _ = some ((), _) from rfl)]
    rw [Gen.bind_of_eq h3]
    rfl
  · have h4 := (FunctionAST_bindArgs_frame _ _ _).out _ _ _ h3
    exact ⟨by rw [h4.functions]; simpa using hf0.1, by rw [h4.globals]; simpa using hf0.2⟩

/-! ## A function whose body fails (C26) -/

/-- C26: when the name of a function definition is fresh, the prologue registers
the function, and when the lowering of the body then fails, the definition fails
and the function is erased: the registered functions are those of the call state,
no function of that name is registered, and the prologue of a later definition of
the name is not rejected. The identifiers handed out so far are assumed to be
distinct from the next free one. -/
theorem C26_failed_body_discards_function (F : FunctionAST) (s : World)
    (hfresh : s.functions.find? (fun G => G.Name = F.Proto.Name) = none)
    (hid : ∀ G ∈ s.functions, G.id ≠ s.numFunctions) :
    ∃ fn s1, F.prologue s = some (some fn, s1) ∧
      ∀ s2, F.Body.codegen s1 = some (none, s2) →
        ∃ s3, F.codegen s = some (none, s3) ∧ s3.functions = s.functions ∧
          s3.functions.find? (fun G => G.Name = F.Proto.Name) = none ∧
          ∀ D : FunctionAST, D.Proto.Name = F.Proto.Name →
            ∃ fn1 s4, D.prologue s3 = some (some fn1, s4) := by
  obtain ⟨s1, h1, hf1, _⟩ := FunctionAST_prologue_fresh F s hfresh
  refine ⟨_, s1, h1, fun s2 h2 => ?_⟩
  have hf2 := ((StmtAST_codegen_frame F.Body).out _ _ _ h2).functions
  have hcode : F.codegen s = some (none, { s2 with
      functions := s2.functions.filter (fun G => G.id ≠ s.numFunctions),
      functionBlocks := Function.update s2.functionBlocks s.numFunctions [] }) := by
    simp only [FunctionAST.codegen]
    rw [Gen.bind_of_eq h1]
    simp only []
    rw [Gen.bind_of_eq h2]
    rfl
  have hfun : s2.functions.filter (fun G => G.id ≠ s.numFunctions) = s.functions := by
    rw [hf2, hf1, List.filter_append]
    simp only [ne_eq, decide_not, List.filter_cons, decide_True, Bool.not_true, Bool.false_eq_true,
      ↓reduceIte, List.filter_nil, List.append_nil]
    rw [List.filter_eq_self]
    intro G hG
    simpa using hid G hG
  obtain ⟨s3, hcode3, hfun3⟩ : ∃ s3, F.codegen s = some (none, s3) ∧
      s3.functions = s.functions := ⟨_, hcode, hfun⟩
  refine ⟨s3, hcode3, hfun3, ?_, ?_⟩
  · rw [hfun3]; exact hfresh
  · intro D hD
    obtain ⟨s4, h4, _⟩ := FunctionAST_prologue_fresh D s3 (by rw [hfun3, hD]; exact hfresh)
    exact ⟨_, s4, h4⟩

/-- C26 at a concrete input: in the body of `f` of `global g; def f(a) { 0 }` the
definition `def k(a) { z }` registers `k`, its body fails because `z` is undefined,
and the definition fails leaving the registered functions as they were. -/
theorem C26_failed_body_discards_function_witness :
    ∃ s3, FunctionAST.codegen ⟨⟨"k", ["a"], false⟩, .BlockAST [] [.expr (.VariableExprAST "z")]⟩
        sampleScope = some (none, s3) ∧
      s3.functions = sampleScope.functions := by
  obtain ⟨fn, s1, h1, h⟩ := C26_failed_body_discards_function
    ⟨⟨"k", ["a"], false⟩, .BlockAST [] [.expr (.VariableExprAST "z")]⟩ sampleScope
    (by decide) (by decide)
  obtain ⟨s2, h2, _⟩ := (Gen.failsWith_iff
    (StmtAST.BlockAST [] [.expr (.VariableExprAST "z")]).codegen s1 (fun _ => true)).1 (by
      have e : s1 = bodyEntryIn sampleScope
          ⟨⟨"k", ["a"], false⟩, .BlockAST [] [.expr (.VariableExprAST "z")]⟩ := by
        simp only [bodyEntryIn, h1]
      rw [e]
      decide)
  obtain ⟨s3, h3, h4, _⟩ := h s2 h2
  exact ⟨s3, h3, h4⟩

/-! ## The top-level sequence (C27) -/

theorem RootAST_codegen_programOf : ∀ (items : List (Option RootAST)) (s : World),
    (programOf items).codegen s = (runItems items s).map fun s1 => (none, s1)
  | [], s => rfl
  | none :: rest, s => by
    have ih := RootAST_codegen_programOf rest s
    simp only [programOf, RootAST.codegen, runItems]
    cases h : runItems rest s with
    | none =>
      rw [h] at ih
      rw [Gen.bind_of_none ih]; rfl
    | some s1 =>
      rw [h] at ih
      rw [Gen.bind_of_eq ih]; rfl
  | some item :: rest, s => by
    simp only [programOf, RootAST.codegen, runItems]
    cases h1 : item.codegen s with
    | none => rw [Gen.bind_of_none h1]; rfl
    | some p =>
      obtain ⟨r, s2⟩ := p
      rw [Gen.bind_of_eq h1]
      have ih := RootAST_codegen_programOf rest s2
      simp only [RootAST.codegenContinuation]
      cases h : runItems rest s2 with
      | none =>
        rw [h] at ih
        rw [Gen.bind_of_none ih]; rfl
      | some s1 =>
        rw [h] at ih
        rw [Gen.bind_of_eq ih]; rfl

/-- Root generation of the tree the parser builds for a list of top-level items
generates the present items one after the other in source order, each once, skips
the absent ones, and goes on after an item whose generation failed: it completes
exactly when every item's generation returns, in the state the last item left.
For the empty program it completes in the state it started in: nothing is
generated. -/
theorem driver_codegen_programOf (items : List (Option RootAST)) (s : World) :
    (programOf items).codegen s = (runItems items s).map (fun s1 => (none, s1)) ∧
    driver.codegen (programOf items) s = (runItems items s).map (fun s1 => ((), s1)) ∧
    driver.codegen (programOf []) s = some ((), s) := by
  have h := RootAST_codegen_programOf items s
  refine ⟨h, ?_, rfl⟩
  simp only [driver.codegen]
  cases h1 : runItems items s with
  | none =>
    rw [h1] at h
    rw [Gen.bind_of_none h]; rfl
  | some s1 =>
    rw [h1] at h
    rw [Gen.bind_of_eq h]; rfl

/-- The program `def k() { z }; ; global g;`, whose first item fails because `z` is
undefined and whose second item is absent, is generated to completion, and the
global `g` of its last item is registered. -/
theorem driver_codegen_after_failed_item :
    ∃ s1, driver.codegen (programOf
        [some (.FunctionAST ⟨⟨"k", [], false⟩, .BlockAST [] [.expr (.VariableExprAST "z")]⟩),
         none, some (.GlobalVarAST ⟨"g", 0⟩)]) World.empty = some ((), s1) ∧
      s1.functions = [] ∧ s1.globals = [⟨0, "g", .DoubleTy⟩] ∧
      s1.cerr = ["Variabile z non definita"] := by
  have h := (driver_codegen_programOf
    [some (.FunctionAST ⟨⟨"k", [], false⟩, .BlockAST [] [.expr (.VariableExprAST "z")]⟩),
     none, some (.GlobalVarAST ⟨"g", 0⟩)] World.empty).2.1
  have hs : (runItems
    [some (.FunctionAST ⟨⟨"k", [], false⟩, .BlockAST [] [.expr (.VariableExprAST "z")]⟩),
     none, some (.GlobalVarAST ⟨"g", 0⟩)] World.empty).isSome = true := by decide
  obtain ⟨s1, hr⟩ := Option.isSome_iff_exists.1 hs
  have h2 : (runItems
    [some (.FunctionAST ⟨⟨"k", [], false⟩, .BlockAST [] [.expr (.VariableExprAST "z")]⟩),
     none, some (.GlobalVarAST ⟨"g", 0⟩)] World.empty).all (fun s1 =>
      decide (s1.functions = [] ∧ s1.globals = [⟨0, "g", .DoubleTy⟩] ∧
        s1.cerr = ["Variabile z non definita"])) = true := by decide
  rw [hr] at h h2
  exact ⟨s1, h, of_decide_eq_true h2⟩

/-- C27, evaluated on the code: in the program `def f(a) { a[z] = 1 }; global g;`
the generation of the first item has no defined result, because the element
assignment passes the null result of its offset `z` to the conversion
instruction. Root generation of the program therefore does not complete, and
the item `global g` that follows is not generated; the same program without the
first item registers `g`. -/
theorem C27_undefined_item_stops_root_generation :
    (RootAST.FunctionAST ⟨⟨"f", ["a"], false⟩,
      .BlockAST [] [.assignment ⟨"a", some (.VariableExprAST "z"), .NumberExprAST 1⟩]⟩).codegen
        World.empty = none ∧
    (programOf [some (.FunctionAST ⟨⟨"f", ["a"], false⟩,
        .BlockAST [] [.assignment ⟨"a", some (.VariableExprAST "z"), .NumberExprAST 1⟩]⟩),
      some (.GlobalVarAST ⟨"g", 0⟩)]).codegen World.empty = none ∧
    driver.codegen (programOf [some (.FunctionAST ⟨⟨"f", ["a"], false⟩,
        .BlockAST [] [.assignment ⟨"a", some (.VariableExprAST "z"), .NumberExprAST 1⟩]⟩),
      some (.GlobalVarAST ⟨"g", 0⟩)]) World.empty = none ∧
    ∃ s1, driver.codegen (programOf [some (.GlobalVarAST ⟨"g", 0⟩)]) World.empty =
        some ((), s1) ∧ s1.globals = [⟨0, "g", .DoubleTy⟩] := by
  have hitem : (RootAST.FunctionAST ⟨⟨"f", ["a"], false⟩,
      .BlockAST [] [.assignment ⟨"a", some (.VariableExprAST "z"), .NumberExprAST 1⟩]⟩).codegen
        World.empty = none := Option.isNone_iff_eq_none.1 (by decide)
  have hrun : runItems [some (.FunctionAST ⟨⟨"f", ["a"], false⟩,
        .BlockAST [] [.assignment ⟨"a", some (.VariableExprAST "z"), .NumberExprAST 1⟩]⟩),
      some (.GlobalVarAST ⟨"g", 0⟩)] World.empty = none := by
    simp only [runItems, hitem]
  have h := driver_codegen_programOf [some (.FunctionAST ⟨⟨"f", ["a"], false⟩,
        .BlockAST [] [.assignment ⟨"a", some (.VariableExprAST "z"), .NumberExprAST 1⟩]⟩),
      some (.GlobalVarAST ⟨"g", 0⟩)] World.empty
  rw [hrun] at h
  exact ⟨hitem, h.1, h.2.1, _, rfl, rfl⟩

/-! ## Array definitions with initialisers (C24) -/

theorem World.storeElements_insts (A : Value) : ∀ (vs : List Value) (i : Nat) (s : World) (b : Nat),
    s.InsertBlock = some b →
    ((s.storeElements A vs i).blocks b).insts =
      (s.blocks b).insts ++ elementStores A vs i s.numValues ∧
    (s.storeElements A vs i).InsertBlock = some b ∧
    (s.storeElements A vs i).numValues = s.numValues + vs.length ∧
    (∀ b1, b1 ≠ b → (s.storeElements A vs i).blocks b1 = s.blocks b1)
  | [], i, s, b, hb => by simp [World.storeElements, elementStores, hb]
  | v :: vs, i, s, b, hb => by
    have hb1 : ((s.emit fun id => .gep id A (.ConstantInt i)).insert
        (.store v (.Instruction s.numValues))).InsertBlock = some b := by simpa using hb
    obtain ⟨h1, h2, h3, h4⟩ := World.storeElements_insts A vs (i + 1) _ b hb1
    simp only [World.storeElements, elementStores]
    refine ⟨?_, h2, ?_, ?_⟩
    · rw [h1, World.insert_insts_self _ _ _ (by simpa using hb),
        World.emit_insts_self _ _ _ hb]
      simp [World.emit]
    · rw [h3]; simp [World.emit]; omega
    · intro b1 hb1
      rw [h4 b1 hb1, World.insert_blocks_of_ne _ _ _ (by simpa [hb] using fun x => hb1 x.symm),
        World.emit_blocks_of_ne _ _ _ (by simpa [hb] using fun x => hb1 x.symm)]

theorem ArrayBindingAST_storeValues_run (Alloca : AllocaInst) (bv : List Value) :
    ∀ (m i : Nat) (s : World), i + m ≤ bv.length →
      ArrayBindingAST.storeValues Alloca bv (List.range' i m) s =
        some ((), s.storeElements Alloca.toValue ((bv.drop i).take m) i)
  | 0, i, s, _ => by simp [ArrayBindingAST.storeValues, World.storeElements]; rfl
  | m + 1, i, s, h => by
    have hi : i < bv.length := by omega
    have hd : bv.drop i = bv.get ⟨i, hi⟩ :: bv.drop (i + 1) := by
      exact List.drop_eq_getElem_cons hi
    simp only [List.range'_succ, ArrayBindingAST.storeValues, CreateInBoundsGEP, CreateStore,
      AllocaInst.toValue, Value.isConstant, Bool.false_and, Bool.false_eq_true, if_false]
    rw [Gen.bind_of_eq (emitValue_apply _ s)]
    rw [Gen.bind_of_eq (show Gen.deref (bv.get? i) _ = some (bv.get ⟨i, hi⟩, _) by
      rw [List.get?_eq_get hi]; rfl)]
    rw [Gen.bind_of_eq (emitVoid_apply _ _)]
    rw [ArrayBindingAST_storeValues_run Alloca bv m (i + 1) _ (by omega)]
    rw [hd]
    simp [World.storeElements, AllocaInst.toValue]

theorem ArrayBindingAST_boundValues_zeros (Values : List ExprAST) :
    ∀ (m i : Nat) (s : World), Values.length ≤ i →
      ArrayBindingAST.boundValues Values (List.range' i m) s =
        some (some (List.replicate m Value.getNullValue), s)
  | 0, i, s, _ => rfl
  | m + 1, i, s, h => by
    simp only [List.range'_succ, ArrayBindingAST.boundValues]
    rw [if_pos (by simpa using h)]
    rw [Gen.bind_of_eq (Gen.pure_apply _ _), Gen.bind_of_eq (Gen.pure_apply _ _)]
    simp only []
    rw [Gen.bind_of_eq (ArrayBindingAST_boundValues_zeros Values m (i + 1) s (by omega))]
    rfl

theorem ArrayBindingAST_boundValues_run (Values : List ExprAST) :
    ∀ (m i : Nat) (s : World) (vs : List Value) (s1 : World), i ≤ Values.length →
      Values.length ≤ i + m → LoweredInOrder (Values.drop i) s vs s1 →
      ArrayBindingAST.boundValues Values (List.range' i m) s =
        some (some (vs ++ List.replicate (i + m - Values.length) Value.getNullValue), s1)
  | 0, i, s, vs, s1, h1, h2, hv => by
    have : i = Values.length := by omega
    subst this
    rw [List.drop_length] at hv
    obtain ⟨rfl, rfl⟩ := hv
    simp [ArrayBindingAST.boundValues]; rfl
  | m + 1, i, s, vs, s1, h1, h2, hv => by
    by_cases hi : i < Values.length
    · have hd : Values.drop i = Values.get ⟨i, hi⟩ :: Values.drop (i + 1) := by
        exact List.drop_eq_getElem_cons hi
      rw [hd] at hv
      obtain ⟨v, s2, vs1, hv1, hv2, rfl⟩ := hv
      simp only [List.range'_succ, ArrayBindingAST.boundValues]
      rw [if_neg (by simpa using hi)]
      rw [List.get?_eq_get hi]
      simp only []
      rw [Gen.bind_of_eq hv1, Gen.bind_of_eq (Gen.pure_apply _ _)]
      simp only []
      rw [Gen.bind_of_eq (ArrayBindingAST_boundValues_run Values m (i + 1) s2 vs1 s1 (by omega)
        (by omega) hv2)]
      have : i + 1 + m - Values.length = i + (m + 1) - Values.length := by omega
      rw [this]
      rfl
    · have : i = Values.length := by omega
      subst this
      rw [List.drop_length] at hv
      obtain ⟨rfl, rfl⟩ := hv
      rw [ArrayBindingAST_boundValues_zeros Values (m + 1) _ _ (Nat.le_refl _)]
      simp

theorem LoweredInOrder_length : ∀ (Args : List ExprAST) (s : World) (vs : List Value)
    (s1 : World), LoweredInOrder Args s vs s1 → vs.length = Args.length
  | [], _, _, _, h => by obtain ⟨rfl, _⟩ := h; rfl
  | _ :: Args, _, _, _, h => by
    obtain ⟨v, s2, vs1, _, h2, rfl⟩ := h
    simp [LoweredInOrder_length Args s2 vs1 _ h2]

theorem loopCount_natCast (n : Nat) : loopCount (n : Double) = n := by simp [loopCount]

theorem length_le_loopCount (k : Nat) (Size : Double) (h : (k : Double) ≤ Size) :
    k ≤ loopCount Size := by
  have h1 : ((k : Int) : Double) ≤ Size := by exact_mod_cast h
  have h2 : (k : Int) ≤ ⌈Size⌉ := Int.le_ceil_iff.2 (by
    have : ((k : Int) - 1 : Double) < (k : Int) := by linarith
    push_cast at this ⊢
    linarith)
  unfold loopCount
  omega

/-- An array definition whose declared size `Size` is above `-1`, run where the entry
block of the current function is `e`: the slot holds `⌊Size⌋` scalars. With a
non-empty initialiser list that is not longer than `Size`, for `Size` at most
`2 ^ 31 - 1`, the values stored are the values of the initialisers followed by
zeros, `⌈Size⌉` in all; with an empty list the allocation is all there is. -/
theorem ArrayBindingAST_codegen_run (Name : String) (Size : Double) (Values : List ExprAST)
    (s : World) (c f e : Nat) (hc : s.InsertBlock = some c) (hf : (s.blocks c).parent = some f)
    (he : (s.functionBlocks f).head? = some e) (hlo : -1 < Size) :
    (∀ vs s1, 1 ≤ Values.length → (Values.length : Double) ≤ Size → Size ≤ 2 ^ 31 - 1 →
      LoweredInOrder Values (s.entryAlloca e (.ArrayTy (Int.toNat ⌊Size⌋)) Name) vs s1 →
      ArrayBindingAST.codegen Name Size Values s =
        some (some ⟨s.numValues, .ArrayTy (Int.toNat ⌊Size⌋)⟩,
          s1.storeElements (.Instruction s.numValues)
            (vs ++ List.replicate (loopCount Size - Values.length) Value.getNullValue) 0)) ∧
    (1 ≤ Values.length → (Values.length : Double) ≤ Size → 2 ^ 31 - 1 < Size →
      ArrayBindingAST.codegen Name Size Values s = none) ∧
    ArrayBindingAST.codegen Name Size [] s =
      some (some ⟨s.numValues, .ArrayTy (Int.toNat ⌊Size⌋)⟩,
        s.entryAlloca e (.ArrayTy (Int.toNat ⌊Size⌋)) Name) := by
  have hneg : ¬ (Size ≤ -1) := not_le.2 hlo
  refine ⟨?_, ?_, ?_⟩
  · intro vs s1 hk1 hkn hhi hv
    have hlen := LoweredInOrder_length Values _ vs s1 hv
    have hkl := length_le_loopCount Values.length Size hkn
    simp only [ArrayBindingAST.codegen]
    have hne : Values.isEmpty = false := by
      cases Values with
      | nil => simp at hk1
      | cons a l => rfl
    rw [if_neg (by
      simp only [hne, Bool.not_false, Bool.true_and, decide_eq_true_eq, not_lt]
      exact hkn)]
    rw [Gen.bind_of_eq (Gen.pure_apply _ _)]
    rw [Gen.bind_of_eq (GetInsertBlockParent_apply s c hc)]
    rw [if_neg hneg]
    rw [Gen.bind_of_eq (Gen.pure_apply _ _)]
    simp only [hf]
    rw [Gen.bind_of_eq (CreateEntryBlockAlloca_apply s f e Name _ he)]
    simp only [hne, Bool.not_false, if_true]
    rw [if_neg (not_lt.2 hhi)]
    rw [Gen.bind_of_eq (Gen.pure_apply _ _)]
    rw [List.range_eq_range']
    rw [Gen.bind_of_eq (ArrayBindingAST_boundValues_run Values (loopCount Size) 0 _ vs s1
      (Nat.zero_le _) (by omega) (by simpa using hv))]
    simp only [Nat.zero_add]
    rw [Gen.bind_of_eq (ArrayBindingAST_storeValues_run _ _ (loopCount Size) 0 s1
      (by simp [hlen]; omega))]
    simp only [List.drop_zero]
    rw [List.take_of_length_le (by simp [hlen]; omega)]
    rfl
  · intro hk1 hkn hhi
    simp only [ArrayBindingAST.codegen]
    have hne : Values.isEmpty = false := by
      cases Values with
      | nil => simp at hk1
      | cons a l => rfl
    rw [if_neg (by
      simp only [hne, Bool.not_false, Bool.true_and, decide_eq_true_eq, not_lt]
      exact hkn)]
    rw [Gen.bind_of_eq (Gen.pure_apply _ _)]
    rw [Gen.bind_of_eq (GetInsertBlockParent_apply s c hc)]
    rw [if_neg hneg]
    rw [Gen.bind_of_eq (Gen.pure_apply _ _)]
    simp only [hf]
    rw [Gen.bind_of_eq (CreateEntryBlockAlloca_apply s f e Name _ he)]
    simp only [hne, Bool.not_false, if_true]
    rw [if_pos hhi]
    rfl
  · simp only [ArrayBindingAST.codegen]
    rw [if_neg (by simp)]
    rw [Gen.bind_of_eq (Gen.pure_apply _ _)]
    rw [Gen.bind_of_eq (GetInsertBlockParent_apply s c hc)]
    rw [if_neg hneg]
    rw [Gen.bind_of_eq (Gen.pure_apply _ _)]
    simp only [hf]
    rw [Gen.bind_of_eq (CreateEntryBlockAlloca_apply s f e Name _ he)]
    rfl

/-- C24, evaluated on the code, in the body of `f` of `global g; def f(a) { 0 }`. The
declared size is a `double`: `var arr[2.5] = {1}` allocates a slot of 2 scalars
(register 1) and emits 3 stores, of the constant 1 and of two zeros, at the
offsets 0, 1 and 2, the last one past the end of the slot. And the two loops
count with an `int`: for `var arr[2147483648] = {1}` the loop variable overflows
and the code has no defined result. -/
theorem C24_fractional_size_and_counter_overflow :
    ArrayBindingAST.codegen "arr" (5 / 2) [.NumberExprAST 1] sampleScope =
      some (some ⟨1, .ArrayTy 2⟩,
        World.storeElements (.Instruction 1)
          [.ConstantFP 1, Value.getNullValue, Value.getNullValue] 0
          (sampleScope.entryAlloca 0 (.ArrayTy 2) "arr")) ∧
    elementStores (.Instruction 1) [.ConstantFP 1, Value.getNullValue, Value.getNullValue] 0 2 =
      [.gep 2 (.Instruction 1) (.ConstantInt 0), .store (.ConstantFP 1) (.Instruction 2),
       .gep 3 (.Instruction 1) (.ConstantInt 1), .store Value.getNullValue (.Instruction 3),
       .gep 4 (.Instruction 1) (.ConstantInt 2), .store Value.getNullValue (.Instruction 4)] ∧
    ArrayBindingAST.codegen "arr" (2 ^ 31) [.NumberExprAST 1] sampleScope = none := by
  have hfloor : Int.toNat ⌊(5 / 2 : Double)⌋ = 2 := by
    have : ⌊(5 / 2 : Double)⌋ = 2 := Int.floor_eq_iff.2 ⟨by norm_num, by norm_num⟩
    rw [this]; rfl
  have hceil : loopCount (5 / 2) = 3 := by
    have : ⌈(5 / 2 : Double)⌉ = 3 := Int.ceil_eq_iff.2 ⟨by norm_num, by norm_num⟩
    unfold loopCount
    rw [this]; rfl
  refine ⟨?_, rfl, ?_⟩
  · have h := (ArrayBindingAST_codegen_run "arr" (5 / 2) [.NumberExprAST 1] sampleScope 0 0 0
      (by decide) (by decide) (by decide) (by norm_num)).1 [.ConstantFP 1] _ (by decide)
      (by norm_num) (by norm_num) ⟨_, _, _, rfl, ⟨rfl, rfl⟩, rfl⟩
    rw [hfloor, hceil] at h
    exact h
  · exact (ArrayBindingAST_codegen_run "arr" (2 ^ 31) [.NumberExprAST 1] sampleScope 0 0 0
      (by decide) (by decide) (by decide) (by norm_num)).2.1 (by decide) (by norm_num)
      (by norm_num)

/-- C24 as amended: an array definition whose declared size is a whole number `n`
allocates one slot of `n` scalars at the start of the entry block of the current
function and returns it. With an initialiser list of length `k`, `1 ≤ k ≤ n`, and
`n` at most `2 ^ 31 - 1` (the range of the `int` that counts the loops), whose
elements are lowered one after the other with the values `vs`, the values stored
are `vs` followed by `n - k` zeros: they are `n`, the one at index `i < k` is the
`i`-th initialiser value and the one at index `i ≥ k` is zero; the code added
after the lowering of the elements is, at the end of the insertion block, one
address computation and one store per stored value, at the offsets
`0, 1, ..., n - 1` in this order, and no other block changes. With an empty
initialiser list the allocation is all that is emitted, for a whole size and for
a fractional size `Size` as well, where the slot holds `⌊Size⌋` scalars (sizes
within the range of the 64-bit element count). -/
theorem C24_array_binding_with_initializers (Name : String) (n : Nat) (Values : List ExprAST)
    (s : World) (c f e : Nat) (hc : s.InsertBlock = some c) (hf : (s.blocks c).parent = some f)
    (he : (s.functionBlocks f).head? = some e) :
    (∀ vs s1 b, n < 2 ^ 31 → 1 ≤ Values.length → Values.length ≤ n →
      LoweredInOrder Values (s.entryAlloca e (.ArrayTy n) Name) vs s1 →
      s1.InsertBlock = some b →
      ArrayBindingAST.codegen Name n Values s =
        some (some ⟨s.numValues, .ArrayTy n⟩,
          s1.storeElements (.Instruction s.numValues)
            (vs ++ List.replicate (n - Values.length) Value.getNullValue) 0) ∧
      (vs ++ List.replicate (n - Values.length) Value.getNullValue).length = n ∧
      (∀ i, i < Values.length →
        (vs ++ List.replicate (n - Values.length) Value.getNullValue).get? i = vs.get? i) ∧
      (∀ i, Values.length ≤ i → i < n →
        (vs ++ List.replicate (n - Values.length) Value.getNullValue).get? i =
          some Value.getNullValue) ∧
      ((s1.storeElements (.Instruction s.numValues)
          (vs ++ List.replicate (n - Values.length) Value.getNullValue) 0).blocks b).insts =
        (s1.blocks b).insts ++ elementStores (.Instruction s.numValues)
          (vs ++ List.replicate (n - Values.length) Value.getNullValue) 0 s1.numValues ∧
      (∀ b1, b1 ≠ b →
        (s1.storeElements (.Instruction s.numValues)
          (vs ++ List.replicate (n - Values.length) Value.getNullValue) 0).blocks b1 =
          s1.blocks b1)) ∧
    (n < 2 ^ 64 → ArrayBindingAST.codegen Name n [] s =
      some (some ⟨s.numValues, .ArrayTy n⟩, s.entryAlloca e (.ArrayTy n) Name)) ∧
    (∀ Size : Double, -1 < Size → Size < 2 ^ 64 →
      ArrayBindingAST.codegen Name Size [] s =
        some (some ⟨s.numValues, .ArrayTy (Int.toNat ⌊Size⌋)⟩,
          s.entryAlloca e (.ArrayTy (Int.toNat ⌊Size⌋)) Name)) := by
  have hlo : (-1 : Double) < n := by
    have : (0 : Double) ≤ n := Nat.cast_nonneg n
    linarith
  have hrun := ArrayBindingAST_codegen_run Name n Values s c f e hc hf he hlo
  simp only [Int.floor_natCast, Int.toNat_ofNat, loopCount_natCast] at hrun
  refine ⟨?_, fun _ => hrun.2.2, fun Size h1 _ =>
    (ArrayBindingAST_codegen_run Name Size Values s c f e hc hf he h1).2.2⟩
  intro vs s1 b hn hk1 hkn hv hb
  have hlen := LoweredInOrder_length Values _ vs s1 hv
  have hstored : (vs ++ List.replicate (n - Values.length) Value.getNullValue).length = n := by
    simp [hlen]; omega
  obtain ⟨i1, i2, i3, i4⟩ := World.storeElements_insts (.Instruction s.numValues)
    (vs ++ List.replicate (n - Values.length) Value.getNullValue) 0 s1 b hb
  refine ⟨?_, hstored, ?_, ?_, i1, i4⟩
  · refine hrun.1 vs s1 hk1 (by exact_mod_cast hkn) ?_ hv
    have h1 : n + 1 ≤ 2 ^ 31 := by omega
    have h2 : ((n + 1 : Nat) : Double) ≤ 2 ^ 31 := by exact_mod_cast h1
    push_cast at h2
    linarith
  · intro i hi
    rw [List.get?_eq_getElem?, List.get?_eq_getElem?, List.getElem?_append_left (by omega)]
  · intro i hi1 hi2
    rw [List.get?_eq_getElem?, List.getElem?_append_right (by omega), List.getElem?_replicate,
      if_pos (by omega)]

/-- C24 as amended, at a concrete input, in the body of `f` of
`global g; def f(a) { 0 }`: `var arr[3] = {a, 1}` allocates the array (register 1),
loads `a` (register 2) and stores the loaded value, the constant 1 and zero at the
offsets 0, 1 and 2; `var arr[3]` allocates the array and emits nothing else. -/
theorem C24_array_binding_with_initializers_witness :
    ArrayBindingAST.codegen "arr" ((3 : Nat) : Double)
        [.VariableExprAST "a", .NumberExprAST 1] sampleScope =
      some (some ⟨1, .ArrayTy 3⟩,
        World.storeElements (.Instruction 1)
          [.Instruction 2, .ConstantFP 1, Value.getNullValue] 0
          ((sampleScope.entryAlloca 0 (.ArrayTy 3) "arr").emit
            fun id => .load id .DoubleTy (.Instruction 0) "a")) ∧
    elementStores (.Instruction 1) [.Instruction 2, .ConstantFP 1, Value.getNullValue] 0 3 =
      [.gep 3 (.Instruction 1) (.ConstantInt 0), .store (.Instruction 2) (.Instruction 3),
       .gep 4 (.Instruction 1) (.ConstantInt 1), .store (.ConstantFP 1) (.Instruction 4),
       .gep 5 (.Instruction 1) (.ConstantInt 2), .store Value.getNullValue (.Instruction 5)] ∧
    ArrayBindingAST.codegen "arr" ((3 : Nat) : Double) [] sampleScope =
      some (some ⟨1, .ArrayTy 3⟩, sampleScope.entryAlloca 0 (.ArrayTy 3) "arr") :=
  ⟨((C24_array_binding_with_initializers "arr" 3 [.VariableExprAST "a", .NumberExprAST 1]
      sampleScope 0 0 0 (by decide) (by decide) (by decide)).1
      [.Instruction 2, .ConstantFP 1] _ 0 (by decide) (by decide) (by decide)
      ⟨_, _, _, VariableExprAST_codegen_local "a" _ ⟨0, .DoubleTy⟩ (by decide),
        ⟨_, _, _, rfl, ⟨rfl, rfl⟩, rfl⟩, rfl⟩ (by decide)).1,
   rfl,
   (C24_array_binding_with_initializers "arr" 3 [] sampleScope 0 0 0 (by decide) (by decide)
      (by decide)).2.1 (by decide)⟩

/-! ## Order of the blocks of a conditional expression (C29) -/

theorem IfExprAST_block_order (Cond TrueExp FalseExp : ExprAST) (s : World) :
    (ExprAST.IfExprAST Cond TrueExp FalseExp).codegen.wp
      (fun r s1 => r.isSome = true →
        ∃ g c CondV sc TrueV st FalseV sf addedC addedT addedF,
          Cond.codegen s = some (some CondV, sc) ∧
          sc.InsertBlock = some c ∧ (sc.blocks c).parent = some g ∧
          sc.functionBlocks g = s.functionBlocks g ++ addedC ∧
          TrueExp.codegen
            (((((sc.createBlock "trueexp" (some g)).createBlock "falseexp" none).createBlock
              "endcond" none).insert (.condBr CondV sc.numBlocks (sc.numBlocks + 1))).setInsertPoint
                sc.numBlocks) = some (some TrueV, st) ∧
          st.functionBlocks g = sc.functionBlocks g ++ [sc.numBlocks] ++ addedT ∧
          FalseExp.codegen
            (((st.insert (.br (sc.numBlocks + 2))).insertBlock g (sc.numBlocks + 1)).setInsertPoint
              (sc.numBlocks + 1)) = some (some FalseV, sf) ∧
          sf.functionBlocks g = st.functionBlocks g ++ [sc.numBlocks + 1] ++ addedF ∧
          s1.functionBlocks g = s.functionBlocks g ++ addedC ++ [sc.numBlocks] ++ addedT ++
            [sc.numBlocks + 1] ++ addedF ++ [sc.numBlocks + 2] ∧
          s1.InsertBlock = some (sc.numBlocks + 2)) s := by
  simp only [ExprAST.codegen, Gen.wp_bind]
  intro r sc hcond
  have h12 := (ExprAST_codegen_frame Cond).out _ _ _ hcond
  cases r with
  | none => simp [Gen.wp_pure]
  | some CondV =>
    simp only [Gen.wp_bind, wp_GetInsertBlockParent, wp_Create, CreateCondBr, wp_emitVoid,
      wp_SetInsertPoint, World.createBlock_numBlocks]
    intro c hc r st ht
    have h23 := (ExprAST_codegen_frame TrueExp).out _ _ _ ht
    cases r with
    | none => simp [Gen.wp_pure]
    | some TrueV =>
      simp only [Gen.wp_bind, CreateBr, wp_emitVoid, wp_GetInsertBlock, wp_Function_insert,
        wp_SetInsertPoint, World.insert_InsertBlock]
      intro Pt hPt g hg r sf hf5
      have h45 := (ExprAST_codegen_frame FalseExp).out _ _ _ hf5
      cases r with
      | none => simp [Gen.wp_pure]
      | some FalseV =>
        simp only [Gen.wp_bind, Gen.wp_pure, CreateBr, wp_emitVoid, wp_GetInsertBlock,
          wp_Function_insert, wp_SetInsertPoint, wp_CreatePHI, wp_addIncoming,
          World.insert_InsertBlock]
        intro Pf hPf f2 hf2
        simp only [World.setInsertPoint_InsertBlock, World.emit_InsertBlock, reduceCtorEq,
          false_implies, true_and, Option.some.injEq, forall_eq', World.setInsertPoint_numValues,
          World.insertBlock_numValues, World.insert_numValues]
        intro _
        obtain rfl : g = f2 := Option.some.inj (hg.symm.trans hf2)
        obtain ⟨addedC, hC⟩ := h12.layout g
        obtain ⟨addedT, hT⟩ := h23.layout g
        obtain ⟨addedF, hF⟩ := h45.layout g
        rw [hg] at ht hT
        simp only [World.setInsertPoint_functionBlocks, World.insert_functionBlocks,
          World.createBlock_none_functionBlocks, World.createBlock_some_functionBlocks,
          World.insertBlock_functionBlocks, Function.update_same] at hT hF
        refine ⟨g, c, CondV, sc, TrueV, st, FalseV, sf, addedC, addedT, addedF, hcond, hc, hg, hC,
          ht, hT, hf5, hF, ?_, ?_⟩
        · simp only [World.setInsertPoint_functionBlocks, World.insert_functionBlocks,
            World.insertBlock_functionBlocks, World.addIncoming_functionBlocks,
            World.emit_functionBlocks, Function.update_same, hF, hT, hC]
        · simp

/-- C29: when the lowering of a conditional expression succeeds, the condition, the
true expression and the false expression have been lowered successfully, one after
the other, and the block list of the current function (`g`, the function of the
insertion block after the condition) has received, in this order: the blocks
`addedC` that the lowering of the condition appended, the true block, the blocks
`addedT` that the lowering of the true expression appended, the false block, the
blocks `addedF` that the lowering of the false expression appended, and the merge
block. The three blocks of the expression are the next three block numbers after
the condition. On return the insertion block is the merge block. -/
theorem C29_conditional_expression_block_order (Cond TrueExp FalseExp : ExprAST) (s s1 : World)
    (v : Value) (h : (ExprAST.IfExprAST Cond TrueExp FalseExp).codegen s = some (some v, s1)) :
    ∃ g c CondV sc TrueV st FalseV sf addedC addedT addedF,
      Cond.codegen s = some (some CondV, sc) ∧
      sc.InsertBlock = some c ∧ (sc.blocks c).parent = some g ∧
      sc.functionBlocks g = s.functionBlocks g ++ addedC ∧
      TrueExp.codegen
        (((((sc.createBlock "trueexp" (some g)).createBlock "falseexp" none).createBlock
          "endcond" none).insert (.condBr CondV sc.numBlocks (sc.numBlocks + 1))).setInsertPoint
            sc.numBlocks) = some (some TrueV, st) ∧
      st.functionBlocks g = sc.functionBlocks g ++ [sc.numBlocks] ++ addedT ∧
      FalseExp.codegen
        (((st.insert (.br (sc.numBlocks + 2))).insertBlock g (sc.numBlocks + 1)).setInsertPoint
          (sc.numBlocks + 1)) = some (some FalseV, sf) ∧
      sf.functionBlocks g = st.functionBlocks g ++ [sc.numBlocks + 1] ++ addedF ∧
      s1.functionBlocks g = s.functionBlocks g ++ addedC ++ [sc.numBlocks] ++ addedT ++
        [sc.numBlocks + 1] ++ addedF ++ [sc.numBlocks + 2] ∧
      s1.InsertBlock = some (sc.numBlocks + 2) :=
  IfExprAST_block_order Cond TrueExp FalseExp s _ _ h rfl

set_option maxHeartbeats 4000000 in
/-- C29 at a concrete input: in the body of `def f(a)`, the expression
`((a < 1 ? 1 : 2) < 2) ? (a < 1 ? 1 : 2) : 3` is generated successfully; its
condition creates the blocks 1, 2, 3, its own blocks are 4, 5, 6, its first side
creates the blocks 7, 8, 9, and the block list of the function on return is
`[0, 1, 2, 3, 4, 7, 8, 9, 5, 6]`. -/
theorem C29_conditional_expression_block_order_witness :
    ∃ v s1, sampleCondInCond.codegen (bodyEntry (sampleFunction (.expr sampleCondInCond))) =
        some (some v, s1) ∧
      s1.functionBlocks 0 = [0, 1, 2, 3, 4, 7, 8, 9, 5, 6] ∧
      ∃ g c CondV sc TrueV st FalseV sf addedC addedT addedF,
        (ExprAST.BinaryExprAST '<' sampleCondExp (some (.NumberExprAST 2))).codegen
          (bodyEntry (sampleFunction (.expr sampleCondInCond))) = some (some CondV, sc) ∧
        sc.InsertBlock = some c ∧ (sc.blocks c).parent = some g ∧
        sc.functionBlocks g =
          (bodyEntry (sampleFunction (.expr sampleCondInCond))).functionBlocks g ++ addedC ∧
        sampleCondExp.codegen
          (((((sc.createBlock "trueexp" (some g)).createBlock "falseexp" none).createBlock
            "endcond" none).insert (.condBr CondV sc.numBlocks (sc.numBlocks + 1))).setInsertPoint
              sc.numBlocks) = some (some TrueV, st) ∧
        st.functionBlocks g = sc.functionBlocks g ++ [sc.numBlocks] ++ addedT ∧
        (ExprAST.NumberExprAST 3).codegen
          (((st.insert (.br (sc.numBlocks + 2))).insertBlock g (sc.numBlocks + 1)).setInsertPoint
            (sc.numBlocks + 1)) = some (some FalseV, sf) ∧
        sf.functionBlocks g = st.functionBlocks g ++ [sc.numBlocks + 1] ++ addedF ∧
        s1.functionBlocks g =
          (bodyEntry (sampleFunction (.expr sampleCondInCond))).functionBlocks g ++ addedC ++
            [sc.numBlocks] ++ addedT ++ [sc.numBlocks + 1] ++ addedF ++ [sc.numBlocks + 2] ∧
        s1.InsertBlock = some (sc.numBlocks + 2) := by
  obtain ⟨v, s1, h1, h2⟩ := (Gen.succeedsWith_iff sampleCondInCond.codegen
    (bodyEntry (sampleFunction (.expr sampleCondInCond)))
    (fun _ s1 => decide (s1.functionBlocks 0 = [0, 1, 2, 3, 4, 7, 8, 9, 5, 6]))).1 (by decide)
  exact ⟨v, s1, h1, of_decide_eq_true h2,
    C29_conditional_expression_block_order _ _ _ _ _ _ h1⟩

/-! ## Phi nodes of the loop statements (C30) -/

theorem World.phis_of_eq {s s1 : World} (hn : s1.numBlocks = s.numBlocks)
    (hb : ∀ b, ((s1.blocks b).insts.filter Instr.isPhi).length =
      ((s.blocks b).insts.filter Instr.isPhi).length) : s1.phis = s.phis := by
  simp [World.phis, hn, hb]

theorem World.append_phis (s : World) (b : Nat) (i : Instr) (hi : i.isPhi = false) :
    (s.append b i).phis = s.phis := by
  refine World.phis_of_eq (s := s) rfl ?_
  intro b1
  by_cases e : b1 = b
  · subst e; simp [World.append, List.filter_append, hi]
  · simp [World.append, Function.update_noteq e]

theorem World.insert_phis (s : World) (i : Instr) (hi : i.isPhi = false) :
    (s.insert i).phis = s.phis := by
  unfold World.insert
  split
  · exact World.append_phis s _ i hi
  · rfl

theorem World.emit_phis (s : World) (mk : Nat → Instr) (hi : ∀ id, (mk id).isPhi = false) :
    (s.emit mk).phis = s.phis := by
  unfold World.emit
  rw [World.insert_phis _ _ (hi _)]
  rfl

@[simp] theorem World.createBlock_phis (s : World) (n : String) (p : Option Nat) :
    (s.createBlock n p).phis = s.phis := by
  have h : ∀ b ∈ List.range s.numBlocks,
      (((s.createBlock n p).blocks b).insts.filter Instr.isPhi).length =
        ((s.blocks b).insts.filter Instr.isPhi).length := by
    intro b hb
    have : b ≠ s.numBlocks := Nat.ne_of_lt (List.mem_range.1 hb)
    cases p <;> simp [World.createBlock, Function.update_noteq this]
  have h0 : (((s.createBlock n p).blocks s.numBlocks).insts.filter Instr.isPhi).length = 0 := by
    cases p <;> simp [World.createBlock]
  simp only [World.phis, World.createBlock_numBlocks, List.range_succ, List.map_append,
    List.sum_append, List.map_cons, List.map_nil, List.sum_cons, List.sum_nil, h0, Nat.add_zero]
  rw [List.map_congr_left h]

@[simp] theorem World.insertBlock_phis (s : World) (f BB : Nat) :
    (s.insertBlock f BB).phis = s.phis :=
  World.phis_of_eq (s := s) rfl fun b => by rw [World.insertBlock_insts]

@[simp] theorem World.setInsertPoint_phis (s : World) (BB : Nat) :
    (s.setInsertPoint BB).phis = s.phis := rfl

@[simp] theorem World.setNamedValue_phis (s : World) (n : String) (A : Option AllocaInst) :
    (s.setNamedValue n A).phis = s.phis := rfl

@[simp] theorem World.logError_phis (s : World) (m : String) : (s.logError m).phis = s.phis := rfl

@[simp] theorem World.entryAlloca_phis (s : World) (e : Nat) (T : IRType) (n : String) :
    (s.entryAlloca e T n).phis = s.phis := by
  refine World.phis_of_eq (s := s) rfl ?_
  intro b
  rw [World.entryAlloca_insts]
  split <;> simp [Instr.isPhi]

theorem samePhis_refl (s : World) : SamePhis s s := rfl

theorem samePhis_bind {α β : Type} {m : Gen α} {f : α → Gen β}
    (hm : Gen.Rel SamePhis m) (hf : ∀ a, Gen.Rel SamePhis (f a)) : Gen.Rel SamePhis (m >>= f) :=
  Gen.Rel.bind (fun _ _ _ h1 h2 => h2.trans h1) hm hf

theorem samePhis_pure {α : Type} (a : α) : Gen.Rel SamePhis (Pure.pure a : Gen α) :=
  Gen.Rel.pure samePhis_refl a

theorem samePhis_map {α β : Type} {m : Gen α} (f : α → β) (hm : Gen.Rel SamePhis m) :
    Gen.Rel SamePhis (f <$> m) :=
  Gen.Rel.map f hm

theorem samePhis_deref {α : Type} (o : Option α) : Gen.Rel SamePhis (Gen.deref o) :=
  Gen.Rel.deref samePhis_refl o

theorem samePhis_emitValue (mk : Nat → Instr) (hi : ∀ id, (mk id).isPhi = false) :
    Gen.Rel SamePhis (emitValue mk) :=
  Gen.Rel.of_wp fun s => by rw [wp_emitValue]; exact World.emit_phis s mk hi

theorem samePhis_emitVoid (i : Instr) (hi : i.isPhi = false) : Gen.Rel SamePhis (emitVoid i) :=
  Gen.Rel.of_wp fun s => by rw [wp_emitVoid]; exact World.insert_phis s i hi

theorem samePhis_LogErrorV {α : Type} (m : String) :
    Gen.Rel SamePhis (LogErrorV m : Gen (Option α)) :=
  Gen.Rel.of_wp fun s => by rw [wp_LogErrorV]; rfl

theorem samePhis_printOp (Op : Char) : Gen.Rel SamePhis (printOp Op) :=
  Gen.Rel.of_wp fun s => by rw [wp_printOp]; rfl

theorem samePhis_getNamedValue (n : String) : Gen.Rel SamePhis (getNamedValue n) :=
  Gen.Rel.of_wp fun s => by rw [wp_getNamedValue]; rfl

theorem samePhis_getNamedGlobal (n : String) : Gen.Rel SamePhis (getNamedGlobal n) :=
  Gen.Rel.of_wp fun s => by rw [wp_getNamedGlobal]; rfl

theorem samePhis_GetInsertBlockParent : Gen.Rel SamePhis GetInsertBlockParent :=
  Gen.Rel.of_wp fun s => by rw [wp_GetInsertBlockParent]; exact fun _ _ => rfl

theorem samePhis_CreateEntryBlockAlloca (fn : Option Nat) (n : String) (T : IRType) :
    Gen.Rel SamePhis (CreateEntryBlockAlloca fn n T) :=
  Gen.Rel.of_wp fun s => by
    rw [wp_CreateEntryBlockAlloca]; exact fun _ _ _ _ => World.entryAlloca_phis s _ T n

theorem samePhis_counter_init (n : String) (Val : Double) :
    Gen.Rel SamePhis (VarBindingAST.codegen n (some (.NumberExprAST Val))) := by
  simp only [VarBindingAST.codegen, ExprAST.codegen, CreateStore]
  repeat' first
    | exact samePhis_pure _
    | exact samePhis_GetInsertBlockParent
    | exact samePhis_CreateEntryBlockAlloca _ _ _
    | exact samePhis_emitVoid _ rfl
    | apply samePhis_bind
    | intro _
    | split

theorem samePhis_counter_test (n : String) (Val : Double) :
    Gen.Rel SamePhis (ExprAST.codegen (.BinaryExprAST '<' (.VariableExprAST n)
      (some (.NumberExprAST Val)))) := by
  simp only [ExprAST.codegen, ExprAST.codegenRHS, VariableExprAST.codegen, BinaryExprAST.emit,
    CreateLoad, CreateBinOp]
  repeat' first
    | exact samePhis_pure _
    | exact samePhis_getNamedValue _
    | exact samePhis_getNamedGlobal _
    | exact samePhis_LogErrorV _
    | exact samePhis_deref _
    | exact samePhis_emitValue _ (fun _ => rfl)
    | apply samePhis_map
    | apply samePhis_bind
    | intro _
    | split

theorem samePhis_element_binding (IterName ArrayName n : String) :
    Gen.Rel SamePhis (VarBindingAST.codegen IterName
      (some (.ArrayExprAST ArrayName (.VariableExprAST n)))) := by
  simp only [VarBindingAST.codegen, ExprAST.codegen, VariableExprAST.codegen, CreateStore,
    CreateLoad, CreateFPTrunc, CreateFPToSI, CreateInBoundsGEP]
  repeat' first
    | exact samePhis_pure _
    | exact samePhis_GetInsertBlockParent
    | exact samePhis_CreateEntryBlockAlloca _ _ _
    | exact samePhis_getNamedValue _
    | exact samePhis_getNamedGlobal _
    | exact samePhis_LogErrorV _
    | exact samePhis_emitVoid _ rfl
    | exact samePhis_emitValue _ (fun _ => rfl)
    | apply samePhis_map
    | apply samePhis_bind
    | intro _
    | split

theorem samePhis_counter_increment (n : String) :
    Gen.Rel SamePhis (AssignmentAST.codegen ⟨n, none,
      .BinaryExprAST '+' (.VariableExprAST n) (some (.NumberExprAST 1))⟩) := by
  simp only [AssignmentAST.codegen, ExprAST.codegen, ExprAST.codegenRHS, VariableExprAST.codegen,
    BinaryExprAST.emit, CreateStore, CreateLoad, CreateBinOp]
  repeat' first
    | exact samePhis_pure _
    | exact samePhis_getNamedValue _
    | exact samePhis_getNamedGlobal _
    | exact samePhis_LogErrorV _
    | exact samePhis_deref _
    | exact samePhis_emitVoid _ rfl
    | exact samePhis_emitValue _ (fun _ => rfl)
    | apply samePhis_map
    | apply samePhis_bind
    | intro _
    | split

theorem WhileStmtAST_no_phi (CondExpr : ExprAST) (BodyStmt : StmtAST) (s : World) :
    (StmtAST.WhileStmtAST CondExpr BodyStmt).codegen.wp
      (fun r s1 => ∀ v, r = some v →
        v = Value.getNullValue ∧ s1.InsertBlock = some (s.numBlocks + 2) ∧
        ∃ c g condV c1 b0 bodyV b1, s.InsertBlock = some c ∧ (s.blocks c).parent = some g ∧
          CondExpr.codegen
            (((((s.createBlock "condstmt" (some g)).createBlock "loopstmt" none).createBlock
              "mergestmt" none).insert (.br s.numBlocks)).setInsertPoint s.numBlocks) =
            some (some condV, c1) ∧
          BodyStmt.codegen b0 = some (some bodyV, b1) ∧
          (((((s.createBlock "condstmt" (some g)).createBlock "loopstmt" none).createBlock
              "mergestmt" none).insert (.br s.numBlocks)).setInsertPoint s.numBlocks).phis =
            s.phis ∧
          b0.phis = c1.phis ∧ s1.phis = b1.phis) s := by
  simp only [StmtAST.codegen, Gen.wp_bind, wp_GetInsertBlockParent, wp_Create, CreateBr,
    wp_emitVoid, wp_SetInsertPoint, World.createBlock_numBlocks]
  intro c hc r c1 hcond
  cases r with
  | none => simp [Gen.wp_pure]
  | some condV =>
    simp only [Gen.wp_bind, CreateCondBr, wp_emitVoid, wp_GetInsertBlock, wp_Function_insert,
      wp_SetInsertPoint, World.insert_InsertBlock]
    intro Pc hPc g hg r b1 hbody
    cases r with
    | none => simp [Gen.wp_pure]
    | some bodyV =>
      simp only [Gen.wp_bind, Gen.wp_pure, CreateBr, wp_emitVoid, wp_GetInsertBlock,
        wp_Function_insert, wp_SetInsertPoint, World.insert_InsertBlock]
      intro Pb hPb g2 hg2 v hv
      rw [hg] at hcond
      refine ⟨(Option.some.inj hv).symm, by simp, c, g, condV, c1, _, bodyV, b1, hc, hg, hcond, hbody,
        ?_, ?_, ?_⟩
      · simp [World.insert_phis, Instr.isPhi]
      · simp [World.insert_phis, Instr.isPhi]
      · simp [World.insert_phis, Instr.isPhi]

theorem DoWhileStmtAST_no_phi (BodyStmt : StmtAST) (CondExpr : ExprAST) (s : World) :
    (StmtAST.DoWhileStmtAST BodyStmt CondExpr).codegen.wp
      (fun r s1 => ∀ v, r = some v →
        v = Value.getNullValue ∧ s1.InsertBlock = some (s.numBlocks + 2) ∧
        ∃ c g bodyV b1 c0 condV c1, s.InsertBlock = some c ∧ (s.blocks c).parent = some g ∧
          BodyStmt.codegen
            (((((s.createBlock "loopstmt" (some g)).createBlock "condstmt" none).createBlock
              "mergestmt" none).insert (.br s.numBlocks)).setInsertPoint s.numBlocks) =
            some (some bodyV, b1) ∧
          CondExpr.codegen c0 = some (some condV, c1) ∧
          (((((s.createBlock "loopstmt" (some g)).createBlock "condstmt" none).createBlock
              "mergestmt" none).insert (.br s.numBlocks)).setInsertPoint s.numBlocks).phis =
            s.phis ∧
          c0.phis = b1.phis ∧ s1.phis = c1.phis) s := by
  simp only [StmtAST.codegen, Gen.wp_bind, wp_GetInsertBlockParent, wp_Create, CreateBr,
    wp_emitVoid, wp_SetInsertPoint, World.createBlock_numBlocks]
  intro c hc r b1 hbody
  cases r with
  | none => simp [Gen.wp_pure]
  | some bodyV =>
    simp only [Gen.wp_bind, CreateBr, wp_emitVoid, wp_GetInsertBlock, wp_Function_insert,
      wp_SetInsertPoint, World.insert_InsertBlock, World.insertBlock_InsertBlock]
    intro Pb hPb g hg r c1 hcond
    cases r with
    | none => simp [Gen.wp_pure]
    | some condV =>
      simp only [Gen.wp_bind, Gen.wp_pure, CreateCondBr, wp_emitVoid, wp_GetInsertBlock,
        wp_Function_insert, wp_SetInsertPoint, World.insert_InsertBlock]
      intro Pc hPc g2 hg2 v hv
      rw [hg] at hbody
      refine ⟨(Option.some.inj hv).symm, by simp, c, g, bodyV, b1, _, condV, c1, hc, hg, hbody, hcond,
        ?_, ?_, ?_⟩
      · simp [World.insert_phis, Instr.isPhi]
      · simp [World.insert_phis, Instr.isPhi]
      · simp [World.insert_phis, Instr.isPhi]

theorem ForStmtAST_assignment_no_phi (a : AssignmentAST) (CondExpr : ExprAST)
    (AssignExpr : AssignmentAST) (BodyStmt : StmtAST) (s : World) :
    (StmtAST.ForStmtAST (.assignment a) CondExpr AssignExpr BodyStmt).codegen.wp
      (fun r s1 => ∀ v, r = some v →
        ∃ initV i1 c0 condV c1 b0 bodyV b1 stepV a1,
          a.codegen s = some (some initV, i1) ∧
          CondExpr.codegen c0 = some (some condV, c1) ∧
          BodyStmt.codegen b0 = some (some bodyV, b1) ∧
          AssignExpr.codegen b1 = some (some stepV, a1) ∧
          c0.phis = i1.phis ∧ b0.phis = c1.phis ∧ s1.phis = a1.phis ∧
          v = Value.getNullValue ∧ s1.InsertBlock = some (i1.numBlocks + 2)) s := by
  simp only [StmtAST.codegen, Gen.wp_bind, Gen.wp_pure]
  intro r0 i1 h0
  cases r0 with
  | none => simp [Gen.wp_pure]
  | some initV =>
    simp only [Gen.wp_bind, Gen.wp_pure, wp_GetInsertBlockParent,
      wp_Create, CreateBr, wp_emitVoid, wp_SetInsertPoint, World.createBlock_numBlocks]
    intro c hc r1 c1 hcond
    cases r1 with
    | none => simp [Gen.wp_pure]
    | some condV =>
      simp only [Gen.wp_bind, Gen.wp_pure, CreateCondBr, wp_emitVoid, wp_GetInsertBlock,
        wp_Function_insert, wp_SetInsertPoint, World.insert_InsertBlock]
      intro Pc hPc g hg r2 b1 hbody
      cases r2 with
      | none => simp [Gen.wp_pure]
      | some bodyV =>
        simp only [Gen.wp_bind]
        intro r3 a1 hstep
        cases r3 with
        | none => simp [Gen.wp_pure]
        | some stepV =>
          simp only [Gen.wp_bind, Gen.wp_pure, CreateBr, wp_emitVoid, wp_GetInsertBlock,
            wp_Function_insert, wp_SetInsertPoint, World.insert_InsertBlock]
          intro Pb hPb g2 hg2 v hv
          refine ⟨initV, i1, _, condV, c1, _, bodyV, b1, stepV, a1, h0, hcond, hbody, hstep,
            ?_, ?_, ?_, (Option.some.inj hv).symm, by simp⟩
          · simp [World.insert_phis, Instr.isPhi]
          · simp [World.insert_phis, Instr.isPhi]
          · simp [World.insert_phis, Instr.isPhi]

theorem ForStmtAST_binding_no_phi (b : BindingAST) (CondExpr : ExprAST)
    (AssignExpr : AssignmentAST) (BodyStmt : StmtAST) (s : World) :
    (StmtAST.ForStmtAST (.binding b) CondExpr AssignExpr BodyStmt).codegen.wp
      (fun r s1 => ∀ v, r = some v →
        ∃ boundval i1 c0 condV c1 b0 bodyV b1 stepV a1,
          b.codegen s = some (some boundval, i1) ∧
          CondExpr.codegen c0 = some (some condV, c1) ∧
          BodyStmt.codegen b0 = some (some bodyV, b1) ∧
          AssignExpr.codegen b1 = some (some stepV, a1) ∧
          c0.phis = i1.phis ∧ b0.phis = c1.phis ∧ s1.phis = a1.phis ∧
          v = Value.getNullValue ∧ s1.InsertBlock = some (i1.numBlocks + 2)) s := by
  simp only [StmtAST.codegen, Gen.wp_bind, Gen.wp_pure]
  intro r0 i1 h0
  cases r0 with
  | none => simp [Gen.wp_pure]
  | some boundval =>
    simp only [Gen.wp_bind, Gen.wp_pure, wp_getNamedValue, wp_setNamedValue,
      wp_GetInsertBlockParent, wp_Create, CreateBr, wp_emitVoid, wp_SetInsertPoint,
      World.createBlock_numBlocks, World.setNamedValue_numBlocks]
    intro c hc r1 c1 hcond
    cases r1 with
    | none => simp [Gen.wp_pure]
    | some condV =>
      simp only [Gen.wp_bind, Gen.wp_pure, CreateCondBr, wp_emitVoid, wp_GetInsertBlock,
        wp_Function_insert, wp_SetInsertPoint, World.insert_InsertBlock]
      intro Pc hPc g hg r2 b1 hbody
      cases r2 with
      | none => simp [Gen.wp_pure]
      | some bodyV =>
        simp only [Gen.wp_bind]
        intro r3 a1 hstep
        cases r3 with
        | none => simp [Gen.wp_pure]
        | some stepV =>
          simp only [Gen.wp_bind, Gen.wp_pure, CreateBr, wp_emitVoid, wp_GetInsertBlock,
            wp_Function_insert, wp_SetInsertPoint, wp_setNamedValue, World.insert_InsertBlock]
          intro Pb hPb g2 hg2 v hv
          refine ⟨boundval, i1, _, condV, c1, _, bodyV, b1, stepV, a1, h0, hcond, hbody, hstep,
            ?_, ?_, ?_, (Option.some.inj hv).symm, by simp⟩
          · simp [World.insert_phis, Instr.isPhi]
          · simp [World.insert_phis, Instr.isPhi]
          · simp [World.insert_phis, Instr.isPhi]

theorem ForEachStmtAST_no_phi (IterName ArrayName : String) (BodyStmt : StmtAST) (s : World) :
    (StmtAST.ForEachStmtAST IterName ArrayName BodyStmt).codegen.wp
      (fun r s1 => ∀ v, r = some v →
        ∃ b0 bodyV b1, BodyStmt.codegen b0 = some (some bodyV, b1) ∧
          b0.phis = s.phis ∧ s1.phis = b1.phis ∧
          v = Value.getNullValue ∧ s1.InsertBlock = some (s.numBlocks + 2)) s := by
  simp only [StmtAST.codegen, Gen.wp_bind, wp_GetInsertBlock, wp_GetInsertBlockParent,
    wp_Create, wp_SetInsertPoint, wp_getNamedValue, World.createBlock_numBlocks,
    World.setInsertPoint_InsertBlock, Option.some.injEq, forall_eq']
  intro c hc boundValCounter s1 h1
  have e1 := (samePhis_counter_init _ _).out _ _ _ h1
  simp only [SamePhis, World.createBlock_phis, World.setInsertPoint_phis] at e1
  simp only [Gen.wp_bind, wp_setNamedValue, wp_getNamedValue]
  intro AT s2 h2
  have e2 : SamePhis (s1.setNamedValue (ForEachStmtAST.getCounterName IterName)
      boundValCounter) s2 := by
    refine Gen.Rel.out (R := SamePhis) ?_ _ _ _ h2
    repeat' first
      | exact samePhis_pure _
      | exact samePhis_getNamedGlobal _
      | exact samePhis_LogErrorV _
      | apply samePhis_bind
      | intro _
      | split
  simp only [SamePhis, World.setNamedValue_phis] at e2
  simp only [Gen.wp_pure]
  cases AT with
  | none => simp [Gen.wp_pure]
  | some AT =>
    simp only []
    cases AT with
    | ArrayTy NumElements =>
      simp only [Gen.wp_bind, CreateBr, wp_emitVoid, wp_SetInsertPoint]
      intro r s3 h3
      have e3 := (samePhis_counter_test _ _).out _ _ _ h3
      simp only [SamePhis, World.setInsertPoint_phis, World.insert_phis _ (.br _) rfl] at e3
      cases r with
      | none => simp [Gen.wp_pure]
      | some condV =>
        simp only [Gen.wp_bind, CreateCondBr, wp_emitVoid, wp_GetInsertBlock,
          wp_Function_insert, wp_SetInsertPoint, wp_getNamedValue, World.insert_InsertBlock]
        intro Pc hPc f1 hf1 r s4 h4
        have e4 := (samePhis_element_binding _ _ _).out _ _ _ h4
        simp only [SamePhis, World.setInsertPoint_phis, World.insertBlock_phis,
          World.insert_phis _ (.condBr _ _ _) rfl] at e4
        cases r with
        | none => simp [Gen.wp_pure]
        | some bindingValue =>
          simp only [Gen.wp_bind, wp_setNamedValue]
          intro r s5 h5
          cases r with
          | none => simp [Gen.wp_pure]
          | some bodyV =>
            simp only [Gen.wp_bind]
            intro r s6 h6
            have e6 := (samePhis_counter_increment _).out _ _ _ h6
            simp only [Gen.wp_bind, Gen.wp_pure, CreateBr, wp_emitVoid, wp_GetInsertBlock,
              wp_Function_insert, wp_SetInsertPoint, wp_setNamedValue, World.insert_InsertBlock]
            intro Pb hPb f2 hf2 v hv
            refine ⟨_, bodyV, s5, h5, ?_, ?_, (Option.some.inj hv).symm, by simp⟩
            · simp only [World.setNamedValue_phis]
              rw [e4, e3, e2, e1]
            · simp only [World.setNamedValue_phis, World.setInsertPoint_phis,
                World.insertBlock_phis, World.insert_phis _ (.br _) rfl]
              exact e6
    | DoubleTy => simp [wp_LogErrorV]
    | FloatTy => simp [wp_LogErrorV]
    | Int32Ty => simp [wp_LogErrorV]

/-- C30: when the lowering of a while, do-while, for or for-each statement succeeds,
the value returned is the constant zero and the insertion block on return is the
merge block, the third of the three blocks the statement creates (for a `for`
after the lowering of its init part). The number of phi nodes changes only while
a part of the statement is lowered: the condition and the body of a while or
do-while; the init part, the condition, the body and the step of a `for`; the body
of a for-each, whose counter, test, element binding and increment are lowered by
the statement itself. Before the first part, between two parts and after the last
part the number of phi nodes stays as it is. -/
theorem C30_loops_return_zero_without_phi :
    (∀ (CondExpr : ExprAST) (BodyStmt : StmtAST) (s : World) (v : Value) (s1 : World),
      (StmtAST.WhileStmtAST CondExpr BodyStmt).codegen s = some (some v, s1) →
      v = Value.getNullValue ∧ s1.InsertBlock = some (s.numBlocks + 2) ∧
      ∃ c g condV c1 b0 bodyV b1, s.InsertBlock = some c ∧ (s.blocks c).parent = some g ∧
        CondExpr.codegen
          (((((s.createBlock "condstmt" (some g)).createBlock "loopstmt" none).createBlock
            "mergestmt" none).insert (.br s.numBlocks)).setInsertPoint s.numBlocks) =
          some (some condV, c1) ∧
        BodyStmt.codegen b0 = some (some bodyV, b1) ∧
        (((((s.createBlock "condstmt" (some g)).createBlock "loopstmt" none).createBlock
            "mergestmt" none).insert (.br s.numBlocks)).setInsertPoint s.numBlocks).phis =
          s.phis ∧
        b0.phis = c1.phis ∧ s1.phis = b1.phis) ∧
    (∀ (BodyStmt : StmtAST) (CondExpr : ExprAST) (s : World) (v : Value) (s1 : World),
      (StmtAST.DoWhileStmtAST BodyStmt CondExpr).codegen s = some (some v, s1) →
      v = Value.getNullValue ∧ s1.InsertBlock = some (s.numBlocks + 2) ∧
      ∃ c g bodyV b1 c0 condV c1, s.InsertBlock = some c ∧ (s.blocks c).parent = some g ∧
        BodyStmt.codegen
          (((((s.createBlock "loopstmt" (some g)).createBlock "condstmt" none).createBlock
            "mergestmt" none).insert (.br s.numBlocks)).setInsertPoint s.numBlocks) =
          some (some bodyV, b1) ∧
        CondExpr.codegen c0 = some (some condV, c1) ∧
        (((((s.createBlock "loopstmt" (some g)).createBlock "condstmt" none).createBlock
            "mergestmt" none).insert (.br s.numBlocks)).setInsertPoint s.numBlocks).phis =
          s.phis ∧
        c0.phis = b1.phis ∧ s1.phis = c1.phis) ∧
    (∀ (InitExp : VarOperation) (CondExpr : ExprAST) (AssignExpr : AssignmentAST)
        (BodyStmt : StmtAST) (s : World) (v : Value) (s1 : World),
      (StmtAST.ForStmtAST InitExp CondExpr AssignExpr BodyStmt).codegen s = some (some v, s1) →
      v = Value.getNullValue ∧
      ∃ i1 c0 condV c1 b0 bodyV b1 stepV a1,
        ((∃ a initV, InitExp = .assignment a ∧ a.codegen s = some (some initV, i1)) ∨
         (∃ b boundval, InitExp = .binding b ∧ b.codegen s = some (some boundval, i1))) ∧
        CondExpr.codegen c0 = some (some condV, c1) ∧
        BodyStmt.codegen b0 = some (some bodyV, b1) ∧
        AssignExpr.codegen b1 = some (some stepV, a1) ∧
        c0.phis = i1.phis ∧ b0.phis = c1.phis ∧ s1.phis = a1.phis ∧
        s1.InsertBlock = some (i1.numBlocks + 2)) ∧
    (∀ (IterName ArrayName : String) (BodyStmt : StmtAST) (s : World) (v : Value) (s1 : World),
      (StmtAST.ForEachStmtAST IterName ArrayName BodyStmt).codegen s = some (some v, s1) →
      v = Value.getNullValue ∧ s1.InsertBlock = some (s.numBlocks + 2) ∧
      ∃ b0 bodyV b1, BodyStmt.codegen b0 = some (some bodyV, b1) ∧
        b0.phis = s.phis ∧ s1.phis = b1.phis) := by
  refine ⟨?_, ?_, ?_, ?_⟩
  · intro CondExpr BodyStmt s v s1 h
    exact WhileStmtAST_no_phi CondExpr BodyStmt s _ _ h v rfl
  · intro BodyStmt CondExpr s v s1 h
    exact DoWhileStmtAST_no_phi BodyStmt CondExpr s _ _ h v rfl
  · intro InitExp CondExpr AssignExpr BodyStmt s v s1 h
    cases InitExp with
    | assignment a =>
      obtain ⟨initV, i1, c0, condV, c1, b0, bodyV, b1, stepV, a1, h0, h1, h2, h3, e1, e2, e3, hv,
        hi⟩ := ForStmtAST_assignment_no_phi a CondExpr AssignExpr BodyStmt s _ _ h v rfl
      exact ⟨hv, i1, c0, condV, c1, b0, bodyV, b1, stepV, a1, Or.inl ⟨a, initV, rfl, h0⟩, h1, h2,
        h3, e1, e2, e3, hi⟩
    | binding b =>
      obtain ⟨boundval, i1, c0, condV, c1, b0, bodyV, b1, stepV, a1, h0, h1, h2, h3, e1, e2, e3,
        hv, hi⟩ := ForStmtAST_binding_no_phi b CondExpr AssignExpr BodyStmt s _ _ h v rfl
      exact ⟨hv, i1, c0, condV, c1, b0, bodyV, b1, stepV, a1, Or.inr ⟨b, boundval, rfl, h0⟩, h1,
        h2, h3, e1, e2, e3, hi⟩
  · intro IterName ArrayName BodyStmt s v s1 h
    obtain ⟨b0, bodyV, b1, h1, e1, e2, hv, hi⟩ :=
      ForEachStmtAST_no_phi IterName ArrayName BodyStmt s _ _ h v rfl
    exact ⟨hv, hi, b0, bodyV, b1, h1, e1, e2⟩

set_option maxHeartbeats 4000000 in
/-- C30 at concrete inputs. In the body of `def f(a)` the statements
`while ((a < 1 ? 1 : 2) < 2) a`, `do { a < 1 ? 1 : 2 } while (a < 3)` and
`for (a = 0; (a < 1 ? 1 : 2) < 2; a = a + 1) a`, and in the block
`{ var A[2]; var x = 7; ... }` of `def g()` the for-each over `A` with iterator `x`
and body `{ var x = 1; var x = 2; x }`, are generated successfully: each returns
zero with the insertion point on its merge block (block 3), and the only phi node
is the one of the conditional expression in the first three. -/
theorem C30_loops_return_zero_without_phi_witness :
    (∃ s1, sampleWhile.codegen (bodyEntry (sampleFunction sampleWhile)) =
        some (some Value.getNullValue, s1) ∧ s1.InsertBlock = some 3 ∧ s1.phis = 1) ∧
    (∃ s1, sampleDoWhile.codegen (bodyEntry (sampleFunction sampleDoWhile)) =
        some (some Value.getNullValue, s1) ∧ s1.InsertBlock = some 3 ∧ s1.phis = 1) ∧
    (∃ s1, sampleFor.codegen (bodyEntry (sampleFunction sampleFor)) =
        some (some Value.getNullValue, s1) ∧ s1.InsertBlock = some 3 ∧ s1.phis = 1) ∧
    (∃ s1, sampleForEach.codegen sampleArrayScope =
        some (some Value.getNullValue, s1) ∧ s1.InsertBlock = some 3 ∧ s1.phis = 0) := by
  refine ⟨?_, ?_, ?_, ?_⟩
  · obtain ⟨v, s1, h1, h2⟩ := (Gen.succeedsWith_iff sampleWhile.codegen
      (bodyEntry (sampleFunction sampleWhile)) (fun _ s1 => decide (s1.phis = 1))).1 (by decide)
    have h := C30_loops_return_zero_without_phi.1 _ _ _ _ _ h1
    exact ⟨s1, h.1 ▸ h1, h.2.1, of_decide_eq_true h2⟩
  · obtain ⟨v, s1, h1, h2⟩ := (Gen.succeedsWith_iff sampleDoWhile.codegen
      (bodyEntry (sampleFunction sampleDoWhile)) (fun _ s1 => decide (s1.phis = 1))).1 (by decide)
    have h := C30_loops_return_zero_without_phi.2.1 _ _ _ _ _ h1
    exact ⟨s1, h.1 ▸ h1, h.2.1, of_decide_eq_true h2⟩
  · obtain ⟨v, s1, h1, h2⟩ := (Gen.succeedsWith_iff sampleFor.codegen
      (bodyEntry (sampleFunction sampleFor))
      (fun _ s1 => decide (s1.InsertBlock = some 3 ∧ s1.phis = 1))).1 (by decide)
    have h := C30_loops_return_zero_without_phi.2.2.1 _ _ _ _ _ _ _ h1
    exact ⟨s1, h.1 ▸ h1, of_decide_eq_true h2⟩
  · obtain ⟨v, s1, h1, h2⟩ := (Gen.succeedsWith_iff sampleForEach.codegen sampleArrayScope
      (fun _ s1 => decide (s1.phis = 0))).1 (by decide)
    have h := C30_loops_return_zero_without_phi.2.2.2 _ _ _ _ _ _ h1
    exact ⟨s1, h.1 ▸ h1, h.2.1, of_decide_eq_true h2⟩

/-! ## Number of blocks of a function (C28) -/

theorem Stays_refl (s : World) : Stays s s := ⟨rfl, rfl, rfl, fun _ => rfl⟩

theorem Stays_trans (a b c : World) (h1 : Stays a b) (h2 : Stays b c) : Stays a c :=
  ⟨h2.functionBlocks.trans h1.functionBlocks, h2.InsertBlock.trans h1.InsertBlock,
   h2.numBlocks.trans h1.numBlocks, fun k => (h2.parent k).trans (h1.parent k)⟩

theorem Stays_insert (s : World) (i : Instr) : Stays s (s.insert i) :=
  ⟨by simp, by simp, by simp, fun b => World.insert_parent _ _ _⟩

theorem Stays_emit (s : World) (mk : Nat → Instr) : Stays s (s.emit mk) :=
  ⟨by simp, by simp, by simp, fun b => World.emit_parent _ _ _⟩

theorem Stays_entryAlloca (s : World) (e : Nat) (T : IRType) (n : String) :
    Stays s (s.entryAlloca e T n) :=
  ⟨by simp, by simp, by simp, fun b => by simp⟩

theorem Stays_addIncoming (s : World) (b id : Nat) (V : Value) (BB : Nat) :
    Stays s (s.addIncoming b id V BB) :=
  ⟨by simp, by simp, by simp, fun b => by simp⟩

theorem Stays_setNamedValue (s : World) (n : String) (A : Option AllocaInst) :
    Stays s (s.setNamedValue n A) :=
  ⟨rfl, rfl, rfl, fun _ => rfl⟩

theorem stays_bind {α β : Type} {m : Gen α} {f : α → Gen β}
    (hm : Gen.Rel Stays m) (hf : ∀ a, Gen.Rel Stays (f a)) : Gen.Rel Stays (m >>= f) :=
  Gen.Rel.bind Stays_trans hm hf

theorem stays_pure {α : Type} (a : α) : Gen.Rel Stays (Pure.pure a : Gen α) :=
  Gen.Rel.pure Stays_refl a

theorem stays_map {α β : Type} {m : Gen α} (f : α → β) (hm : Gen.Rel Stays m) :
    Gen.Rel Stays (f <$> m) :=
  Gen.Rel.map f hm

theorem stays_deref {α : Type} (o : Option α) : Gen.Rel Stays (Gen.deref o) :=
  Gen.Rel.deref Stays_refl o

theorem stays_undefined {α : Type} : Gen.Rel Stays (Gen.undefined : Gen α) :=
  Gen.Rel.undefined

theorem stays_emitValue (mk : Nat → Instr) : Gen.Rel Stays (emitValue mk) :=
  Gen.Rel.of_wp fun s => by rw [wp_emitValue]; exact Stays_emit s mk

theorem stays_emitVoid (i : Instr) : Gen.Rel Stays (emitVoid i) :=
  Gen.Rel.of_wp fun s => by rw [wp_emitVoid]; exact Stays_insert s i

theorem stays_LogErrorV {α : Type} (m : String) : Gen.Rel Stays (LogErrorV m : Gen (Option α)) :=
  Gen.Rel.of_wp fun s => by rw [wp_LogErrorV]; exact ⟨rfl, rfl, rfl, fun _ => rfl⟩

theorem stays_printOp (Op : Char) : Gen.Rel Stays (printOp Op) :=
  Gen.Rel.of_wp fun s => by rw [wp_printOp]; exact ⟨rfl, rfl, rfl, fun _ => rfl⟩

theorem stays_getNamedValue (n : String) : Gen.Rel Stays (getNamedValue n) :=
  Gen.Rel.of_wp fun s => by rw [wp_getNamedValue]; exact Stays_refl s

theorem stays_setNamedValue (n : String) (A : Option AllocaInst) :
    Gen.Rel Stays (setNamedValue n A) :=
  Gen.Rel.of_wp fun s => by rw [wp_setNamedValue]; exact ⟨rfl, rfl, rfl, fun _ => rfl⟩

theorem stays_getNamedGlobal (n : String) : Gen.Rel Stays (getNamedGlobal n) :=
  Gen.Rel.of_wp fun s => by rw [wp_getNamedGlobal]; exact Stays_refl s

theorem stays_getFunction (n : String) : Gen.Rel Stays (getFunction n) :=
  Gen.Rel.of_wp fun s => by rw [wp_getFunction]; exact Stays_refl s

theorem stays_GetInsertBlockParent : Gen.Rel Stays GetInsertBlockParent :=
  Gen.Rel.of_wp fun s => by rw [wp_GetInsertBlockParent]; exact fun _ _ => Stays_refl s

theorem stays_CreateEntryBlockAlloca (fn : Option Nat) (n : String) (T : IRType) :
    Gen.Rel Stays (CreateEntryBlockAlloca fn n T) :=
  Gen.Rel.of_wp fun s => by
    rw [wp_CreateEntryBlockAlloca]; exact fun _ _ _ _ => Stays_entryAlloca s _ T n

theorem stays_CreateFPTrunc (V : Value) : Gen.Rel Stays (CreateFPTrunc V) := by
  unfold CreateFPTrunc
  split
  · exact stays_pure _
  · exact stays_emitValue _

theorem stays_CreateFPToSI (V : Value) : Gen.Rel Stays (CreateFPToSI V) := by
  unfold CreateFPToSI
  split
  · exact stays_pure _
  · exact stays_emitValue _

theorem stays_CreateInBoundsGEP (ptr idx : Value) :
    Gen.Rel Stays (CreateInBoundsGEP ptr idx) := by
  unfold CreateInBoundsGEP
  split
  · exact stays_pure _
  · exact stays_emitValue _

theorem VariableExprAST_codegen_stays (Name : String) :
    Gen.Rel Stays (VariableExprAST.codegen Name) := by
  simp only [VariableExprAST.codegen, CreateLoad]
  repeat' first
    | exact stays_pure _
    | exact stays_getNamedValue _
    | exact stays_getNamedGlobal _
    | exact stays_LogErrorV _
    | exact stays_emitValue _
    | apply stays_map
    | apply stays_bind
    | intro _
    | split

theorem BinaryExprAST_emit_stays (Op : Char) (L : Value) (R : Option Value) :
    Gen.Rel Stays (BinaryExprAST.emit Op L R) := by
  unfold BinaryExprAST.emit
  simp only [CreateBinOp, CreateNot]
  repeat' first
    | exact stays_pure _
    | exact stays_deref _
    | exact stays_printOp _
    | exact stays_LogErrorV _
    | exact stays_emitValue _
    | apply stays_map
    | apply stays_bind
    | intro _
    | split

theorem Reached_refl {f : Nat} {s : World} (h : InFunction f s) : Reached f s 0 s :=
  ⟨h, rfl, Nat.le_refl _⟩

theorem Reached_stays {f : Nat} {s s1 s2 : World} {k : Nat} (h : Reached f s k s1)
    (h2 : Stays s1 s2) : Reached f s k s2 := by
  obtain ⟨c, hc, hlt, hp⟩ := h.inFunction
  exact ⟨⟨c, h2.InsertBlock.trans hc, by rw [h2.numBlocks]; exact hlt, (h2.parent c).trans hp⟩,
    by rw [h2.functionBlocks]; exact h.length, by rw [h2.numBlocks]; exact h.numBlocks⟩

theorem Reached_sub {f : Nat} {s s1 s2 : World} {k k2 : Nat} (h : Reached f s k s1)
    (h2 : Reached f s1 k2 s2) : Reached f s (k + k2) s2 :=
  ⟨h2.inFunction, by rw [h2.length, h.length, Nat.add_assoc],
    Nat.le_trans h.numBlocks h2.numBlocks⟩

theorem Reached_of_eq {f : Nat} {s s1 : World} {k k1 : Nat} (h : Reached f s k s1)
    (e : k = k1) : Reached f s k1 s1 := e ▸ h

theorem Reached_parent {f : Nat} {s s1 : World} {k c : Nat} (h : Reached f s k s1)
    (hc : s1.InsertBlock = some c) : (s1.blocks c).parent = some f := by
  obtain ⟨c1, hc1, _, hp⟩ := h.inFunction
  obtain rfl : c1 = c := Option.some.inj (hc1.symm.trans hc)
  exact hp

theorem Reached_createBlock_none {f : Nat} {s s1 : World} {k : Nat} (h : Reached f s k s1)
    (n : String) : Reached f s k (s1.createBlock n none) := by
  obtain ⟨c, hc, hlt, hp⟩ := h.inFunction
  refine ⟨⟨c, by simpa using hc, by simp; omega, ?_⟩, by simpa using h.length,
    by simp; have := h.numBlocks; omega⟩
  simp [Function.update_noteq (Nat.ne_of_lt hlt), hp]

theorem Reached_createBlock_parent {f : Nat} {s s1 : World} {k c : Nat} (h : Reached f s k s1)
    (hc : s1.InsertBlock = some c) (n : String) :
    Reached f s (k + 1) (s1.createBlock n (s1.blocks c).parent) ∧
      ((s1.createBlock n (s1.blocks c).parent).blocks s1.numBlocks).parent = some f := by
  have hp := Reached_parent h hc
  obtain ⟨c1, hc1, hlt, _⟩ := h.inFunction
  obtain rfl : c1 = c := Option.some.inj (hc1.symm.trans hc)
  rw [hp]
  refine ⟨⟨⟨c1, by simpa using hc, by simp; omega, ?_⟩, ?_, by simp; have := h.numBlocks; omega⟩,
    by simp⟩
  · simp [Function.update_noteq (Nat.ne_of_lt hlt), hp]
  · simp [h.length, Nat.add_assoc]

theorem Reached_insertBlock {f : Nat} {s s1 : World} {k : Nat} (h : Reached f s k s1)
    (BB : Nat) : Reached f s (k + 1) (s1.insertBlock f BB) := by
  obtain ⟨c, hc, hlt, hp⟩ := h.inFunction
  refine ⟨⟨c, by simpa using hc, by simpa using hlt, ?_⟩, ?_, by simpa using h.numBlocks⟩
  · rw [World.insertBlock_parent]; split
    · rfl
    · exact hp
  · simp [h.length, Nat.add_assoc]

theorem Reached_setInsertPoint {f : Nat} {s s1 : World} {k : Nat} (h : Reached f s k s1)
    (BB : Nat) (hlt : BB < s1.numBlocks) (hp : (s1.blocks BB).parent = some f) :
    Reached f s k (s1.setInsertPoint BB) :=
  ⟨⟨BB, rfl, hlt, hp⟩, h.length, h.numBlocks⟩

theorem World.enter3_parent (s : World) (n1 n2 n3 : String) (p : Option Nat) (i : Instr) :
    (((((s.createBlock n1 p).createBlock n2 none).createBlock n3 none).insert i).blocks
      s.numBlocks).parent = p := by
  rw [World.insert_parent]
  have h1 : s.numBlocks ≠ s.numBlocks + 1 := by omega
  have h2 : s.numBlocks ≠ s.numBlocks + 1 + 1 := by omega
  simp [Function.update, h1, h2]

theorem World.enter2_parent (s : World) (n1 n2 : String) (p : Option Nat) (i : Instr) :
    ((((s.createBlock n1 p).createBlock n2 none).insert i).blocks s.numBlocks).parent = p := by
  rw [World.insert_parent]
  have h1 : s.numBlocks ≠ s.numBlocks + 1 := by omega
  simp [Function.update, h1]

mutual
theorem ExprAST_codegen_blocks : ∀ (e : ExprAST) (f : Nat) (s : World), InFunction f s →
    e.codegen.wp (fun r s1 => r.isSome = true → Reached f s (3 * e.conditionals) s1) s
  | .NumberExprAST Val, f, s, hs => by
    simp only [ExprAST.codegen, Gen.wp_pure, ExprAST.conditionals]
    exact fun _ => Reached_refl hs
  | .VariableExprAST Name, f, s, hs => by
    simp only [ExprAST.codegen, ExprAST.conditionals]
    intro r s1 h _
    exact Reached_stays (Reached_refl hs) ((VariableExprAST_codegen_stays Name).out _ _ _ h)
  | .BinaryExprAST Op LHS RHS, f, s, hs => by
    have hL := ExprAST_codegen_blocks LHS f s hs
    simp only [ExprAST.codegen, ExprAST.conditionals]
    rw [Gen.wp_bind]
    intro L s1 h1
    rw [Gen.wp_bind]
    intro R s2 h2
    cases L with
    | none => simp [Gen.wp_pure]
    | some L =>
      have r1 := hL _ _ h1 rfl
      have hR := ExprAST_codegenRHS_blocks RHS f s1 r1.inFunction _ _ h2
      simp only []
      split
      · simp [Gen.wp_pure]
      · next hcond =>
        intro r s3 h3
        rw [Gen.bind_of_eq (Gen.pure_apply _ _)] at h3
        intro _
        have r2 := hR (by
          intro hsome
          cases R with
          | none => simp [hsome] at hcond
          | some _ => rfl)
        exact Reached_of_eq (Reached_stays (Reached_sub r1 r2)
          ((BinaryExprAST_emit_stays Op L R).out _ _ _ h3)) (by ring)
  | .CallExprAST Callee Args, f, s, hs => by
    have hA := ExprAST_codegenArgs_blocks Args f s hs
    simp only [ExprAST.codegen, ExprAST.conditionals]
    rw [Gen.wp_bind, wp_getFunction]
    split
    · simp [wp_LogErrorV]
    · split
      · simp [wp_LogErrorV]
      · rw [Gen.wp_bind]
        intro r s1 h1
        cases r with
        | none => simp [Gen.wp_pure]
        | some ArgsV =>
          simp only [CreateCall]
          intro r2 s2 h2 _
          exact Reached_stays (hA _ _ h1 rfl)
            ((stays_map _ (stays_emitValue _)).out _ _ _ h2)
  | .ArrayExprAST Name Offset, f, s, hs => by
    have hO := ExprAST_codegen_blocks Offset f s hs
    simp only [ExprAST.codegen, ExprAST.conditionals]
    rw [Gen.wp_bind]
    intro r s1 h1
    cases r with
    | none => simp [Gen.wp_pure]
    | some doubleIndex =>
      simp only []
      intro r2 s2 h2 _
      refine Reached_stays (hO _ _ h1 rfl) (Gen.Rel.out (R := Stays) ?_ _ _ _ h2)
      simp only [CreateFPTrunc, CreateFPToSI, CreateInBoundsGEP, CreateLoad]
      repeat' first
        | exact stays_pure _
        | exact stays_getNamedValue _
        | exact stays_getNamedGlobal _
        | exact stays_LogErrorV _
        | exact stays_emitValue _
        | apply stays_map
        | apply stays_bind
        | intro _
        | split
  | .IfExprAST Cond TrueExp FalseExp, f, s, hs => by
    have hC := ExprAST_codegen_blocks Cond f s hs
    simp only [ExprAST.codegen, ExprAST.conditionals, Gen.wp_bind]
    intro r sc hcond
    cases r with
    | none => simp [Gen.wp_pure]
    | some CondV =>
      have r1 := hC _ _ hcond rfl
      simp only [Gen.wp_bind, wp_GetInsertBlockParent, wp_Create, CreateCondBr, wp_emitVoid,
        wp_SetInsertPoint, World.createBlock_numBlocks]
      intro c hc
      obtain ⟨r2, p2⟩ := Reached_createBlock_parent r1 hc "trueexp"
      have r3 := Reached_stays (Reached_createBlock_none (Reached_createBlock_none r2 "falseexp")
        "endcond") (Stays_insert _ (.condBr CondV sc.numBlocks (sc.numBlocks + 1)))
      have r4 := Reached_setInsertPoint r3 sc.numBlocks (by simp; omega) (by
        rw [World.enter3_parent]; exact Reached_parent r1 hc)
      intro r st ht
      have hT := ExprAST_codegen_blocks TrueExp f _ r4.inFunction _ _ ht
      cases r with
      | none => simp [Gen.wp_pure]
      | some TrueV =>
        have r5 := Reached_sub r4 (hT rfl)
        simp only [Gen.wp_bind, CreateBr, wp_emitVoid, wp_GetInsertBlock, wp_Function_insert,
          wp_SetInsertPoint, World.insert_InsertBlock]
        intro Pt hPt g hg
        obtain rfl : f = g := Option.some.inj ((Reached_parent r1 hc).symm.trans hg)
        have r6 := Reached_insertBlock (Reached_stays r5 (Stays_insert _
          (.br (sc.numBlocks + 1 + 1)))) (sc.numBlocks + 1)
        have r7 := Reached_setInsertPoint r6 (sc.numBlocks + 1) (by
          have := (hT rfl).numBlocks
          simp at this ⊢; omega) (by rw [World.insertBlock_parent, if_pos rfl])
        intro r sf hf5
        have hF := ExprAST_codegen_blocks FalseExp f _ r7.inFunction _ _ hf5
        cases r with
        | none => simp [Gen.wp_pure]
        | some FalseV =>
          have r8 := Reached_sub r7 (hF rfl)
          simp only [Gen.wp_bind, Gen.wp_pure, CreateBr, wp_emitVoid, wp_GetInsertBlock,
            wp_Function_insert, wp_SetInsertPoint, wp_CreatePHI, wp_addIncoming,
            World.insert_InsertBlock]
          intro Pf hPf f2 hf2
          simp only [World.setInsertPoint_InsertBlock, World.emit_InsertBlock, reduceCtorEq,
            false_implies, true_and, Option.some.injEq, forall_eq', World.setInsertPoint_numValues,
            World.insertBlock_numValues, World.insert_numValues]
          intro _
          obtain rfl : f = f2 := Option.some.inj ((Reached_parent r1 hc).symm.trans hf2)
          have r9 := Reached_insertBlock (Reached_stays r8 (Stays_insert _
            (.br (sc.numBlocks + 1 + 1)))) (sc.numBlocks + 1 + 1)
          have r10 := Reached_setInsertPoint r9 (sc.numBlocks + 1 + 1) (by
            have := (hT rfl).numBlocks
            have := (hF rfl).numBlocks
            simp at *; omega) (by rw [World.insertBlock_parent, if_pos rfl])
          exact Reached_of_eq (Reached_stays (Reached_stays (Reached_stays r10 (Stays_emit _ _))
            (Stays_addIncoming _ _ _ _ _)) (Stays_addIncoming _ _ _ _ _)) (by ring)
theorem ExprAST_codegenRHS_blocks : ∀ (o : Option ExprAST) (f : Nat) (s : World),
    InFunction f s →
    (ExprAST.codegenRHS o).wp (fun r s1 => (o.isSome = true → r.isSome = true) →
      Reached f s (3 * ExprAST.conditionalsRHS o) s1) s
  | none, f, s, hs => by
    simp only [ExprAST.codegenRHS, Gen.wp_pure, ExprAST.conditionalsRHS]
    exact fun _ => Reached_refl hs
  | some RHS, f, s, hs => by
    simp only [ExprAST.codegenRHS, ExprAST.conditionalsRHS]
    intro r s1 h hr
    exact ExprAST_codegen_blocks RHS f s hs _ _ h (hr rfl)
theorem ExprAST_codegenArgs_blocks : ∀ (l : List ExprAST) (f : Nat) (s : World),
    InFunction f s →
    (ExprAST.codegenArgs l).wp (fun r s1 => r.isSome = true →
      Reached f s (3 * ExprAST.conditionalsArgs l) s1) s
  | [], f, s, hs => by
    simp only [ExprAST.codegenArgs, Gen.wp_pure, ExprAST.conditionalsArgs]
    exact fun _ => Reached_refl hs
  | arg :: Args, f, s, hs => by
    have h1 := ExprAST_codegen_blocks arg f s hs
    simp only [ExprAST.codegenArgs, ExprAST.conditionalsArgs, Gen.wp_bind]
    intro r s1 e1
    cases r with
    | none => simp [Gen.wp_pure]
    | some V =>
      have r1 := h1 _ _ e1 rfl
      have h2 := ExprAST_codegenArgs_blocks Args f s1 r1.inFunction
      simp only [Gen.wp_bind]
      intro r s2 e2
      cases r with
      | none => simp [Gen.wp_pure]
      | some ArgsV =>
        simp only [Gen.wp_pure]
        intro _
        exact Reached_of_eq (Reached_sub r1 (h2 _ _ e2 rfl)) (by ring)
end

theorem VarBindingAST_codegen_blocks (Name : String) (Val : Option ExprAST) (f : Nat)
    (s : World) (hs : InFunction f s) :
    (VarBindingAST.codegen Name Val).wp (fun r s1 => r.isSome = true →
      Reached f s (3 * ExprAST.conditionalsRHS Val) s1) s := by
  simp only [VarBindingAST.codegen, Gen.wp_bind, wp_GetInsertBlockParent]
  intro c hc
  cases Val with
  | none =>
    simp only [Gen.wp_bind, Gen.wp_pure, wp_CreateEntryBlockAlloca, ExprAST.conditionalsRHS]
    intro f1 e _ _ _
    exact Reached_stays (Reached_refl hs) (Stays_entryAlloca _ _ _ _)
  | some Val =>
    simp only [Gen.wp_bind, ExprAST.conditionalsRHS]
    intro r s1 h1
    have g1 := ExprAST_codegen_blocks Val f s hs _ _ h1
    cases r with
    | none => simp [Gen.wp_pure]
    | some BoundVal =>
      simp only [Gen.wp_bind, Gen.wp_pure, wp_CreateEntryBlockAlloca, CreateStore, wp_emitVoid]
      intro f1 e _ _ _
      exact Reached_stays (Reached_stays (g1 rfl) (Stays_entryAlloca _ _ _ _)) (Stays_insert _ _)

theorem ArrayBindingAST_storeValues_stays (Alloca : AllocaInst) (boundValues : List Value) :
    ∀ l : List Nat, Gen.Rel Stays (ArrayBindingAST.storeValues Alloca boundValues l)
  | [] => by simp only [ArrayBindingAST.storeValues]; exact stays_pure _
  | i :: rest => by
    have h := ArrayBindingAST_storeValues_stays Alloca boundValues rest
    simp only [ArrayBindingAST.storeValues, CreateInBoundsGEP, CreateStore]
    repeat' first
      | exact h
      | exact stays_deref _
      | exact stays_emitValue _
      | exact stays_emitVoid _
      | apply stays_bind
      | intro _

theorem ArrayBindingAST_boundValues_blocks (Values : List ExprAST) (f : Nat) :
    ∀ (m i : Nat) (s : World), InFunction f s →
      (ArrayBindingAST.boundValues Values (List.range' i m)).wp (fun r s1 => r.isSome = true →
        Reached f s (3 * ExprAST.conditionalsArgs ((Values.drop i).take m)) s1) s
  | 0, i, s, hs => by
    simp only [List.range'_zero, ArrayBindingAST.boundValues, Gen.wp_pure, List.take_zero,
      ExprAST.conditionalsArgs]
    exact fun _ => Reached_refl hs
  | m + 1, i, s, hs => by
    simp only [List.range'_succ, ArrayBindingAST.boundValues, Gen.wp_bind]
    have key : (if i ≥ Values.length then pure (some Value.getNullValue)
        else match Values.get? i with
          | some e => e.codegen
          | none => Gen.undefined : Gen (Option Value)).wp
        (fun r s1 => r.isSome = true →
          Reached f s (3 * ExprAST.conditionalsArgs ((Values.drop i).take 1)) s1) s := by
      split
      · next h =>
        simp only [Gen.wp_pure, List.drop_eq_nil_of_le h, List.take_nil, ExprAST.conditionalsArgs]
        exact fun _ => Reached_refl hs
      · next h =>
        have hi : i < Values.length := by omega
        rw [List.get?_eq_get hi, List.drop_eq_getElem_cons hi]
        simp only [List.take_succ_cons, List.take_zero, ExprAST.conditionalsArgs, Nat.add_zero]
        exact ExprAST_codegen_blocks _ f s hs
    intro r s1 h1
    have g1 := key _ _ h1
    cases r with
    | none => simp [Gen.wp_pure]
    | some boundValue =>
      simp only [Gen.wp_pure, Gen.wp_bind]
      intro r s2 h2
      have g2 := ArrayBindingAST_boundValues_blocks Values f m (i + 1) s1 (g1 rfl).inFunction _ _ h2
      cases r with
      | none => simp [Gen.wp_pure]
      | some boundValues =>
        simp only [Gen.wp_pure]
        intro _
        refine Reached_of_eq (Reached_sub (g1 rfl) (g2 rfl)) ?_
        have e : ExprAST.conditionalsArgs ((Values.drop i).take (m + 1)) =
            ExprAST.conditionalsArgs ((Values.drop i).take 1) +
              ExprAST.conditionalsArgs ((Values.drop (i + 1)).take m) := by
          by_cases hi : i < Values.length
          · rw [List.drop_eq_getElem_cons hi]
            simp [ExprAST.conditionalsArgs]
          · rw [List.drop_eq_nil_of_le (by omega), List.drop_eq_nil_of_le (by omega)]
            simp [ExprAST.conditionalsArgs]
        rw [e]; ring

theorem ArrayBindingAST_codegen_blocks (Name : String) (Size : Double) (Values : List ExprAST)
    (f : Nat) (s : World) (hs : InFunction f s) :
    (ArrayBindingAST.codegen Name Size Values).wp (fun r s1 => r.isSome = true →
      Reached f s (3 * ExprAST.conditionalsArgs Values) s1) s := by
  simp only [ArrayBindingAST.codegen]
  split
  · simp [Gen.wp_pure]
  · next hlen =>
    simp only [Gen.wp_bind, Gen.wp_pure, wp_GetInsertBlockParent]
    intro c hc
    split
    · simp [Gen.wp_bind, Gen.wp_undefined]
    · simp only [Gen.wp_pure, Gen.wp_bind, wp_CreateEntryBlockAlloca]
      intro f1 e _ _
      have g1 := Reached_stays (Reached_refl hs)
        (Stays_entryAlloca s e (IRType.ArrayTy (Int.toNat ⌊Size⌋)) Name)
      split
      · next hne =>
        split
        · simp [Gen.wp_bind, Gen.wp_undefined]
        · simp only [Gen.wp_bind, Gen.wp_pure]
          rw [List.range_eq_range']
          intro r s2 h2
          have g2 := ArrayBindingAST_boundValues_blocks Values f _ 0 _ g1.inFunction _ _ h2
          cases r with
          | none => simp [Gen.wp_pure]
          | some boundValues =>
            simp only [Gen.wp_bind, Gen.wp_pure]
            intro r s3 h3 _
            have hle : Values.length ≤ loopCount Size := by
              have h1 : ¬ ((Values.length : Double) > Size) := by
                intro h; apply hlen; simp [hne, h]
              have h2 : (Values.length : Double) ≤ Size := not_lt.1 h1
              have h3 : ((Values.length : Int) : Double) ≤ Size := by exact_mod_cast h2
              have h4 : (Values.length : Int) ≤ ⌈Size⌉ := Int.le_ceil_iff.2 (by
                have : ((Values.length : Int) : Double) - 1 < Size := by linarith
                exact_mod_cast this)
              unfold loopCount
              omega
            have g3 := Reached_sub g1 (g2 rfl)
            rw [List.drop_zero, List.take_of_length_le hle] at g3
            exact Reached_of_eq (Reached_stays g3
              ((ArrayBindingAST_storeValues_stays _ _ _).out _ _ _ h3)) (by ring)
      · next hne =>
        simp only [Gen.wp_bind, Gen.wp_pure]
        intro _
        have : Values = [] := by
          cases Values with
          | nil => rfl
          | cons a l => simp at hne
        subst this
        exact g1

theorem BindingAST_codegen_blocks (b : BindingAST) (f : Nat) (s : World) (hs : InFunction f s) :
    b.codegen.wp (fun r s1 => r.isSome = true → Reached f s (3 * b.conditionals) s1) s := by
  cases b with
  | VarBindingAST Name Val => exact VarBindingAST_codegen_blocks Name Val f s hs
  | ArrayBindingAST Name Size Values => exact ArrayBindingAST_codegen_blocks Name Size Values f s hs

theorem AssignmentAST_codegen_blocks (a : AssignmentAST) (f : Nat) (s : World)
    (hs : InFunction f s) :
    a.codegen.wp (fun r s1 => r.isSome = true → Reached f s (3 * a.conditionals) s1) s := by
  have key : ∀ A : Value, (do
      let some RHS ← a.AssignExpr.codegen | return none
      match a.OffsetExpr with
      | some OffsetExpr =>
        let doubleIndex ← OffsetExpr.codegen
        let doubleIndex ← Gen.deref doubleIndex
        let floatIndex ← CreateFPTrunc doubleIndex
        let intIndex ← CreateFPToSI floatIndex
        let p ← CreateInBoundsGEP A intIndex
        CreateStore RHS p
      | none => CreateStore RHS A
      return some RHS : Gen (Option Value)).wp
        (fun r s1 => r.isSome = true → Reached f s (3 * a.conditionals) s1) s := by
    intro A
    simp only [Gen.wp_bind, AssignmentAST.conditionals]
    intro r s1 h1
    have g1 := ExprAST_codegen_blocks a.AssignExpr f s hs _ _ h1
    cases r with
    | none => simp [Gen.wp_pure]
    | some RHS =>
      have g1 := g1 rfl
      simp only [Gen.wp_bind]
      split
      · next OffsetExpr ho =>
        simp only [Gen.wp_bind, ho, ExprAST.conditionalsRHS]
        intro r s2 h2
        have g2 := ExprAST_codegen_blocks _ f s1 g1.inFunction _ _ h2
        cases r with
        | none => simp [Gen.wp_deref]
        | some doubleIndex =>
          have g2 := Reached_sub g1 (g2 rfl)
          simp only [Gen.wp_deref, Option.some.injEq, forall_eq']
          refine Gen.wp_of_rel (stays_CreateFPTrunc _) fun _ _ e3 => ?_
          refine Gen.wp_of_rel (stays_CreateFPToSI _) fun _ _ e4 => ?_
          refine Gen.wp_of_rel (stays_CreateInBoundsGEP _ _) fun _ _ e5 => ?_
          simp only [CreateStore, wp_emitVoid, Gen.wp_pure]
          intro _
          exact Reached_of_eq (Reached_stays (Reached_stays (Reached_stays (Reached_stays g2
            e3) e4) e5) (Stays_insert _ _)) (by ring)
      · next ho =>
        simp only [Gen.wp_pure, Gen.wp_bind, CreateStore, wp_emitVoid, ho,
          ExprAST.conditionalsRHS]
        intro _
        exact Reached_of_eq (Reached_stays g1 (Stays_insert _ _)) (by ring)
  simp only [AssignmentAST.codegen, Gen.wp_bind, wp_getNamedValue]
  split
  · simp only [Gen.wp_pure]
    exact key _
  · simp only [Gen.wp_pure, Gen.wp_bind, wp_getNamedGlobal]
    split
    · simp [wp_LogErrorV]
    · exact key _

theorem BlockAST_restore_stays :
    ∀ (Def : List BindingAST) (AllocaTmp : List (Option AllocaInst)),
      Gen.Rel Stays (BlockAST.restore Def AllocaTmp)
  | [], _ => by simp only [BlockAST.restore]; exact stays_pure _
  | _ :: _, [] => by simp only [BlockAST.restore]; exact stays_pure _
  | d :: Def, old :: AllocaTmp => by
    simp only [BlockAST.restore]
    exact stays_bind (stays_setNamedValue _ _) fun _ => BlockAST_restore_stays Def AllocaTmp

theorem BlockAST_bindDefs_blocks (f : Nat) :
    ∀ (Def : List BindingAST) (AllocaTmp : List (Option AllocaInst)) (s : World),
      InFunction f s →
      (BlockAST.bindDefs Def AllocaTmp).wp (fun r s1 => r.isSome = true →
        Reached f s (3 * BindingAST.conditionalsDefs Def) s1) s
  | [], _, s, hs => by
    simp only [BlockAST.bindDefs, Gen.wp_pure, BindingAST.conditionalsDefs]
    exact fun _ => Reached_refl hs
  | d :: Def, AllocaTmp, s, hs => by
    simp only [BlockAST.bindDefs, Gen.wp_bind, BindingAST.conditionalsDefs]
    intro r s1 h1
    have g1 := BindingAST_codegen_blocks d f s hs _ _ h1
    cases r with
    | none => simp [Gen.wp_pure]
    | some boundval =>
      have g1 := g1 rfl
      simp only [Gen.wp_bind, wp_getNamedValue, wp_setNamedValue]
      intro r s2 h2 hr
      have g2 := BlockAST_bindDefs_blocks f Def _ _
        (Reached_stays g1 (⟨rfl, rfl, rfl, fun _ => rfl⟩ :
          Stays s1 (s1.setNamedValue d.getName (some boundval)))).inFunction _ _ h2 hr
      exact Reached_of_eq (Reached_sub g1 ⟨g2.inFunction, g2.length, g2.numBlocks⟩) (by ring)

theorem counter_init_stays (n : String) (Val : Double) :
    Gen.Rel Stays (VarBindingAST.codegen n (some (.NumberExprAST Val))) := by
  simp only [VarBindingAST.codegen, ExprAST.codegen, CreateStore]
  repeat' first
    | exact stays_pure _
    | exact stays_GetInsertBlockParent
    | exact stays_CreateEntryBlockAlloca _ _ _
    | exact stays_emitVoid _
    | apply stays_bind
    | intro _
    | split

theorem counter_test_stays (n : String) (Val : Double) :
    Gen.Rel Stays (ExprAST.codegen (.BinaryExprAST '<' (.VariableExprAST n)
      (some (.NumberExprAST Val)))) := by
  simp only [ExprAST.codegen, ExprAST.codegenRHS]
  repeat' first
    | exact stays_pure _
    | exact VariableExprAST_codegen_stays _
    | exact BinaryExprAST_emit_stays _ _ _
    | apply stays_bind
    | intro _
    | split

theorem element_binding_stays (IterName ArrayName n : String) :
    Gen.Rel Stays (VarBindingAST.codegen IterName
      (some (.ArrayExprAST ArrayName (.VariableExprAST n)))) := by
  simp only [VarBindingAST.codegen, ExprAST.codegen, CreateStore,
    CreateLoad, CreateFPTrunc, CreateFPToSI, CreateInBoundsGEP]
  repeat' first
    | exact stays_pure _
    | exact stays_GetInsertBlockParent
    | exact stays_CreateEntryBlockAlloca _ _ _
    | exact VariableExprAST_codegen_stays _
    | exact stays_getNamedValue _
    | exact stays_getNamedGlobal _
    | exact stays_LogErrorV _
    | exact stays_emitVoid _
    | exact stays_emitValue _
    | apply stays_map
    | apply stays_bind
    | intro _
    | split

theorem counter_increment_stays (n : String) :
    Gen.Rel Stays (AssignmentAST.codegen ⟨n, none,
      .BinaryExprAST '+' (.VariableExprAST n) (some (.NumberExprAST 1))⟩) := by
  simp only [AssignmentAST.codegen, ExprAST.codegen, ExprAST.codegenRHS, CreateStore]
  repeat' first
    | exact stays_pure _
    | exact VariableExprAST_codegen_stays _
    | exact BinaryExprAST_emit_stays _ _ _
    | exact stays_getNamedValue _
    | exact stays_getNamedGlobal _
    | exact stays_LogErrorV _
    | exact stays_emitVoid _
    | apply stays_bind
    | intro _
    | split

theorem Reached_enter3 {f : Nat} {s s1 : World} {k c : Nat} (h : Reached f s k s1)
    (hc : s1.InsertBlock = some c) (n1 n2 n3 : String) (i : Instr) :
    Reached f s (k + 1) (((((s1.createBlock n1 (s1.blocks c).parent).createBlock n2
      none).createBlock n3 none).insert i).setInsertPoint s1.numBlocks) :=
  Reached_setInsertPoint (Reached_stays (Reached_createBlock_none (Reached_createBlock_none
    (Reached_createBlock_parent h hc n1).1 n2) n3) (Stays_insert _ i)) s1.numBlocks
    (by simp; omega) (by rw [World.enter3_parent]; exact Reached_parent h hc)

theorem Reached_enter2 {f : Nat} {s s1 : World} {k c : Nat} (h : Reached f s k s1)
    (hc : s1.InsertBlock = some c) (n1 n2 : String) (i : Instr) :
    Reached f s (k + 1) ((((s1.createBlock n1 (s1.blocks c).parent).createBlock n2
      none).insert i).setInsertPoint s1.numBlocks) :=
  Reached_setInsertPoint (Reached_stays (Reached_createBlock_none
    (Reached_createBlock_parent h hc n1).1 n2) (Stays_insert _ i)) s1.numBlocks
    (by simp; omega) (by rw [World.enter2_parent]; exact Reached_parent h hc)

theorem Reached_next {f : Nat} {s s1 : World} {k : Nat} (h : Reached f s k s1) (i : Instr)
    (BB : Nat) (hlt : BB < s1.numBlocks) :
    Reached f s (k + 1) (((s1.insert i).insertBlock f BB).setInsertPoint BB) :=
  Reached_setInsertPoint (Reached_insertBlock (Reached_stays h (Stays_insert _ i)) BB) BB
    (by simpa using hlt) (by rw [World.insertBlock_parent, if_pos rfl])

theorem Reached_next_swapped {f : Nat} {s s1 : World} {k : Nat} (h : Reached f s k s1)
    (i : Instr) (BB : Nat) (hlt : BB < s1.numBlocks) :
    Reached f s (k + 1) (((s1.insertBlock f BB).insert i).setInsertPoint BB) :=
  Reached_setInsertPoint (Reached_stays (Reached_insertBlock h BB) (Stays_insert _ i)) BB
    (by simpa using hlt) (by rw [World.insert_parent, World.insertBlock_parent, if_pos rfl])

mutual
theorem StmtAST_codegen_blocks : ∀ (st : StmtAST) (f : Nat) (s : World), InFunction f s →
    st.codegen.wp (fun r s1 => r.isSome = true →
      Reached f s (3 * st.threeBlockNodes + 2 * st.twoBlockNodes) s1) s
  | .expr e, f, s, hs => by
    simp only [StmtAST.codegen, StmtAST.threeBlockNodes, StmtAST.twoBlockNodes]
    exact ExprAST_codegen_blocks e f s hs
  | .assignment a, f, s, hs => by
    simp only [StmtAST.codegen, StmtAST.threeBlockNodes, StmtAST.twoBlockNodes]
    exact AssignmentAST_codegen_blocks a f s hs
  | .BlockAST Def Stmts, f, s, hs => by
    simp only [StmtAST.codegen, Gen.wp_bind, StmtAST.threeBlockNodes, StmtAST.twoBlockNodes]
    intro r s1 h1
    have g1 := BlockAST_bindDefs_blocks f Def [] s hs _ _ h1
    cases r with
    | none => simp [Gen.wp_pure]
    | some AllocaTmp =>
      have g1 := g1 rfl
      simp only [Gen.wp_bind]
      intro r s2 h2
      have g2 := StmtAST_codegenStmts_blocks Stmts none f s1 g1.inFunction _ _ h2
      cases r with
      | none => simp [Gen.wp_pure]
      | some blockvalue =>
        have g2 := Reached_sub g1 (g2 rfl)
        simp only [Gen.wp_bind]
        intro r s3 h3
        have g3 := Reached_stays g2 ((BlockAST_restore_stays Def AllocaTmp).out _ _ _ h3)
        simp only [Gen.wp_deref, Gen.wp_pure]
        intro _ _ _
        exact Reached_of_eq g3 (by ring)
  | .IfStmtAST CondExpr TrueStmt (some ElseStmt), f, s, hs => by
    simp only [StmtAST.codegen, Gen.wp_bind, wp_GetInsertBlock, StmtAST.threeBlockNodes,
      StmtAST.twoBlockNodes]
    intro entryBB _ r s1 h1
    have g1 := ExprAST_codegen_blocks CondExpr f s hs _ _ h1
    cases r with
    | none => simp [Gen.wp_pure]
    | some CondV =>
      have g1 := g1 rfl
      simp only [Gen.wp_bind, wp_GetInsertBlockParent, wp_Create, CreateCondBr, wp_emitVoid,
        wp_SetInsertPoint, World.createBlock_numBlocks]
      intro c hc
      have g2 := Reached_enter3 g1 hc "truestmt" "elsestmt" "endstmt"
        (.condBr CondV s1.numBlocks (s1.numBlocks + 1))
      intro r s3 h3
      have g3 := StmtAST_codegen_blocks TrueStmt f _ g2.inFunction _ _ h3
      cases r with
      | none => simp [Gen.wp_pure]
      | some TrueV =>
        have n3 := (g3 rfl).numBlocks
        have g3 := Reached_sub g2 (g3 rfl)
        simp only [Gen.wp_bind, CreateBr, wp_emitVoid, wp_GetInsertBlock, wp_Function_insert,
          wp_SetInsertPoint, World.insert_InsertBlock]
        intro Pt hPt f1 hf1
        obtain rfl : f = f1 := Option.some.inj ((Reached_parent g1 hc).symm.trans hf1)
        have g4 := Reached_next g3 (.br (s1.numBlocks + 1 + 1)) (s1.numBlocks + 1)
          (by simp at n3; omega)
        intro r s5 h5
        have g5 := StmtAST_codegen_blocks ElseStmt f _ g4.inFunction _ _ h5
        cases r with
        | none => simp [Gen.wp_pure]
        | some FalseV =>
          have n5 := (g5 rfl).numBlocks
          have g5 := Reached_sub g4 (g5 rfl)
          simp only [Gen.wp_bind, Gen.wp_pure, CreateBr, wp_emitVoid, wp_GetInsertBlock,
            wp_Function_insert, wp_SetInsertPoint, wp_CreatePHI, wp_addIncoming,
            World.insert_InsertBlock]
          intro Pf hPf f2 hf2
          simp only [World.setInsertPoint_InsertBlock, World.emit_InsertBlock, reduceCtorEq,
            false_implies, true_and, Option.some.injEq, forall_eq', World.setInsertPoint_numValues,
            World.insertBlock_numValues, World.insert_numValues]
          intro _
          obtain rfl : f = f2 := Option.some.inj ((Reached_parent g1 hc).symm.trans hf2)
          have g6 := Reached_next g5 (.br (s1.numBlocks + 1 + 1)) (s1.numBlocks + 1 + 1)
            (by simp at n3 n5; omega)
          exact Reached_of_eq (Reached_stays (Reached_stays (Reached_stays g6 (Stays_emit _ _))
            (Stays_addIncoming _ _ _ _ _)) (Stays_addIncoming _ _ _ _ _)) (by ring)
  | .IfStmtAST CondExpr TrueStmt none, f, s, hs => by
    simp only [StmtAST.codegen, Gen.wp_bind, wp_GetInsertBlock, StmtAST.threeBlockNodes,
      StmtAST.twoBlockNodes]
    intro entryBB _ r s1 h1
    have g1 := ExprAST_codegen_blocks CondExpr f s hs _ _ h1
    cases r with
    | none => simp [Gen.wp_pure]
    | some CondV =>
      have g1 := g1 rfl
      simp only [Gen.wp_bind, wp_GetInsertBlockParent, wp_Create, CreateCondBr, wp_emitVoid,
        wp_SetInsertPoint, World.createBlock_numBlocks]
      intro c hc
      have g2 := Reached_enter2 g1 hc "truestmt" "endstmt"
        (.condBr CondV s1.numBlocks (s1.numBlocks + 1))
      intro r s3 h3
      have g3 := StmtAST_codegen_blocks TrueStmt f _ g2.inFunction _ _ h3
      cases r with
      | none => simp [Gen.wp_pure]
      | some TrueV =>
        have n3 := (g3 rfl).numBlocks
        have g3 := Reached_sub g2 (g3 rfl)
        simp only [Gen.wp_bind, Gen.wp_pure, CreateBr, wp_emitVoid, wp_GetInsertBlock,
          wp_Function_insert, wp_SetInsertPoint, wp_CreatePHI, wp_addIncoming,
          World.insert_InsertBlock]
        intro Pt hPt f1 hf1
        simp only [World.setInsertPoint_InsertBlock, World.emit_InsertBlock, reduceCtorEq,
          false_implies, true_and, Option.some.injEq, forall_eq', World.setInsertPoint_numValues,
          World.insertBlock_numValues, World.insert_numValues]
        intro _
        obtain rfl : f = f1 := Option.some.inj ((Reached_parent g1 hc).symm.trans hf1)
        have g4 := Reached_next g3 (.br (s1.numBlocks + 1)) (s1.numBlocks + 1)
          (by simp at n3; omega)
        exact Reached_of_eq (Reached_stays (Reached_stays (Reached_stays g4 (Stays_emit _ _))
          (Stays_addIncoming _ _ _ _ _)) (Stays_addIncoming _ _ _ _ _)) (by ring)
  | .ForStmtAST InitExp CondExpr AssignExpr BodyStmt, f, s, hs => by
    simp only [StmtAST.codegen, Gen.wp_bind, StmtAST.threeBlockNodes, StmtAST.twoBlockNodes]
    intro r s1 h1
    have g1 : r.isSome = true → Reached f s (3 * InitExp.conditionals) s1 := by
      revert h1
      cases InitExp with
      | binding b =>
        simp only [VarOperation.conditionals]
        refine (?_ : Gen.wp _ (fun r s1 => r.isSome = true →
          Reached f s (3 * b.conditionals) s1) s) r s1
        simp only [Gen.wp_bind]
        intro r0 s0 h0
        have g0 := BindingAST_codegen_blocks b f s hs _ _ h0
        cases r0 with
        | none => simp [Gen.wp_pure]
        | some boundval =>
          simp only [Gen.wp_bind, Gen.wp_pure, wp_getNamedValue, wp_setNamedValue]
          exact fun _ => Reached_stays (g0 rfl) ⟨rfl, rfl, rfl, fun _ => rfl⟩
      | assignment a =>
        simp only [VarOperation.conditionals]
        refine (?_ : Gen.wp _ (fun r s1 => r.isSome = true →
          Reached f s (3 * a.conditionals) s1) s) r s1
        simp only [Gen.wp_bind]
        intro r0 s0 h0
        have g0 := AssignmentAST_codegen_blocks a f s hs _ _ h0
        cases r0 with
        | none => simp [Gen.wp_pure]
        | some v =>
          simp only [Gen.wp_pure]
          exact fun _ => g0 rfl
    simp only [Gen.wp_pure]
    cases r with
    | none => simp [Gen.wp_pure]
    | some tmpAlloca =>
      have g1 := g1 rfl
      simp only [Gen.wp_bind, wp_GetInsertBlockParent, wp_Create, CreateBr, wp_emitVoid,
        wp_SetInsertPoint, World.createBlock_numBlocks]
      intro c hc
      have g2 := Reached_enter3 g1 hc "condstmt" "loopstmt" "mergestmt" (.br s1.numBlocks)
      intro r s3 h3
      have g3 := ExprAST_codegen_blocks CondExpr f _ g2.inFunction _ _ h3
      cases r with
      | none => simp [Gen.wp_pure]
      | some condV =>
        have n3 := (g3 rfl).numBlocks
        have g3 := Reached_sub g2 (g3 rfl)
        simp only [Gen.wp_bind, CreateCondBr, wp_emitVoid, wp_GetInsertBlock, wp_Function_insert,
          wp_SetInsertPoint, World.insert_InsertBlock]
        intro Pc hPc f1 hf1
        obtain rfl : f = f1 := Option.some.inj ((Reached_parent g1 hc).symm.trans hf1)
        have g4 := Reached_next g3 (.condBr condV (s1.numBlocks + 1) (s1.numBlocks + 1 + 1))
          (s1.numBlocks + 1) (by simp at n3; omega)
        intro r s5 h5
        have g5 := StmtAST_codegen_blocks BodyStmt f _ g4.inFunction _ _ h5
        cases r with
        | none => simp [Gen.wp_pure]
        | some bodyV =>
          have n5 := (g5 rfl).numBlocks
          have g5 := Reached_sub g4 (g5 rfl)
          simp only [Gen.wp_bind]
          intro r s6 h6
          have g6 := AssignmentAST_codegen_blocks AssignExpr f _ g5.inFunction _ _ h6
          cases r with
          | none => simp [Gen.wp_pure]
          | some stepV =>
            have n6 := (g6 rfl).numBlocks
            have g6 := Reached_sub g5 (g6 rfl)
            simp only [Gen.wp_bind, Gen.wp_pure, CreateBr, wp_emitVoid, wp_GetInsertBlock,
              wp_Function_insert, wp_SetInsertPoint, World.insert_InsertBlock]
            intro Pb hPb f2 hf2
            obtain rfl : f = f2 := Option.some.inj ((Reached_parent g1 hc).symm.trans hf2)
            have g7 := Reached_next g6 (.br Pc) (s1.numBlocks + 1 + 1)
              (by simp at n3 n5 n6; omega)
            cases InitExp with
            | binding b =>
              simp only [Gen.wp_bind, Gen.wp_pure, wp_setNamedValue]
              intro _
              exact Reached_of_eq (Reached_stays g7 ⟨rfl, rfl, rfl, fun _ => rfl⟩) (by ring)
            | assignment a =>
              simp only [Gen.wp_bind, Gen.wp_pure]
              intro _
              exact Reached_of_eq g7 (by ring)
  | .WhileStmtAST CondExpr BodyStmt, f, s, hs => by
    simp only [StmtAST.codegen, Gen.wp_bind, wp_GetInsertBlockParent, wp_Create, CreateBr,
      wp_emitVoid, wp_SetInsertPoint, World.createBlock_numBlocks, StmtAST.threeBlockNodes,
      StmtAST.twoBlockNodes]
    intro c hc
    have g2 := Reached_enter3 (Reached_refl hs) hc "condstmt" "loopstmt" "mergestmt"
      (.br s.numBlocks)
    intro r s3 h3
    have g3 := ExprAST_codegen_blocks CondExpr f _ g2.inFunction _ _ h3
    cases r with
    | none => simp [Gen.wp_pure]
    | some condV =>
      have n3 := (g3 rfl).numBlocks
      have g3 := Reached_sub g2 (g3 rfl)
      simp only [Gen.wp_bind, CreateCondBr, wp_emitVoid, wp_GetInsertBlock, wp_Function_insert,
        wp_SetInsertPoint, World.insert_InsertBlock]
      intro Pc hPc f1 hf1
      obtain rfl : f = f1 := Option.some.inj ((Reached_parent (Reached_refl hs) hc).symm.trans hf1)
      have g4 := Reached_next g3 (.condBr condV (s.numBlocks + 1) (s.numBlocks + 1 + 1))
        (s.numBlocks + 1) (by simp at n3; omega)
      intro r s5 h5
      have g5 := StmtAST_codegen_blocks BodyStmt f _ g4.inFunction _ _ h5
      cases r with
      | none => simp [Gen.wp_pure]
      | some bodyV =>
        have n5 := (g5 rfl).numBlocks
        have g5 := Reached_sub g4 (g5 rfl)
        simp only [Gen.wp_bind, Gen.wp_pure, CreateBr, wp_emitVoid, wp_GetInsertBlock,
          wp_Function_insert, wp_SetInsertPoint, World.insert_InsertBlock]
        intro Pb hPb f2 hf2 _
        obtain rfl : f = f2 :=
          Option.some.inj ((Reached_parent (Reached_refl hs) hc).symm.trans hf2)
        exact Reached_of_eq (Reached_next g5 (.br Pc) (s.numBlocks + 1 + 1)
          (by simp at n3 n5; omega)) (by ring)
  | .DoWhileStmtAST BodyStmt CondExpr, f, s, hs => by
    simp only [StmtAST.codegen, Gen.wp_bind, wp_GetInsertBlockParent, wp_Create, CreateBr,
      wp_emitVoid, wp_SetInsertPoint, World.createBlock_numBlocks, StmtAST.threeBlockNodes,
      StmtAST.twoBlockNodes]
    intro c hc
    have g2 := Reached_enter3 (Reached_refl hs) hc "loopstmt" "condstmt" "mergestmt"
      (.br s.numBlocks)
    intro r s3 h3
    have g3 := StmtAST_codegen_blocks BodyStmt f _ g2.inFunction _ _ h3
    cases r with
    | none => simp [Gen.wp_pure]
    | some bodyV =>
      have n3 := (g3 rfl).numBlocks
      have g3 := Reached_sub g2 (g3 rfl)
      simp only [Gen.wp_bind, CreateBr, wp_emitVoid, wp_GetInsertBlock, wp_Function_insert,
        wp_SetInsertPoint, World.insert_InsertBlock, World.insertBlock_InsertBlock]
      intro Pb hPb f1 hf1
      obtain rfl : f = f1 := Option.some.inj ((Reached_parent (Reached_refl hs) hc).symm.trans hf1)
      have g4 := Reached_next_swapped g3 (.br (s.numBlocks + 1)) (s.numBlocks + 1)
        (by simp at n3; omega)
      intro r s5 h5
      have g5 := ExprAST_codegen_blocks CondExpr f _ g4.inFunction _ _ h5
      cases r with
      | none => simp [Gen.wp_pure]
      | some condV =>
        have n5 := (g5 rfl).numBlocks
        have g5 := Reached_sub g4 (g5 rfl)
        simp only [Gen.wp_bind, Gen.wp_pure, CreateCondBr, wp_emitVoid, wp_GetInsertBlock,
          wp_Function_insert, wp_SetInsertPoint, World.insert_InsertBlock]
        intro Pc hPc f2 hf2 _
        obtain rfl : f = f2 :=
          Option.some.inj ((Reached_parent (Reached_refl hs) hc).symm.trans hf2)
        exact Reached_of_eq (Reached_next g5 (.condBr condV Pb (s.numBlocks + 1 + 1))
          (s.numBlocks + 1 + 1) (by simp at n3 n5; omega)) (by ring)
  | .ForEachStmtAST IterName ArrayName BodyStmt, f, s, hs => by
    simp only [StmtAST.codegen, Gen.wp_bind, wp_GetInsertBlock, wp_GetInsertBlockParent,
      wp_Create, wp_SetInsertPoint, wp_getNamedValue, World.createBlock_numBlocks,
      World.setInsertPoint_InsertBlock, Option.some.injEq, forall_eq', StmtAST.threeBlockNodes,
      StmtAST.twoBlockNodes]
    intro c hc boundValCounter s1 h1
    have g0 : Reached f s 0 (s.setInsertPoint c) :=
      Reached_stays (Reached_refl hs) ⟨rfl, by simp [hc], rfl, fun _ => rfl⟩
    have hp := Reached_parent (Reached_refl hs) hc
    have g1 := Reached_createBlock_none (Reached_createBlock_none
      (Reached_createBlock_parent g0 (rfl : (s.setInsertPoint c).InsertBlock = some c)
        "condstmt").1 "loopstmt") "mergestmt"
    have p1 : (((((s.setInsertPoint c).createBlock "condstmt"
        ((s.setInsertPoint c).blocks c).parent).createBlock "loopstmt" none).createBlock
          "mergestmt" none).blocks s.numBlocks).parent = some f := by
      have h1 : s.numBlocks ≠ s.numBlocks + 1 := by omega
      have h2 : s.numBlocks ≠ s.numBlocks + 1 + 1 := by omega
      simp [Function.update, h1, h2, hp]
    have e1 := (counter_init_stays _ _).out _ _ _ h1
    have g1 := Reached_stays g1 e1
    have p1 := (e1.parent s.numBlocks).trans p1
    have n1 : s1.numBlocks = s.numBlocks + 3 := by simpa using e1.numBlocks
    simp only [Gen.wp_bind, wp_setNamedValue, wp_getNamedValue]
    intro AT s2 h2
    have e2 : Stays (s1.setNamedValue (ForEachStmtAST.getCounterName IterName)
        boundValCounter) s2 := by
      refine Gen.Rel.out (R := Stays) ?_ _ _ _ h2
      repeat' first
        | exact stays_pure _
        | exact stays_getNamedGlobal _
        | exact stays_LogErrorV _
        | apply stays_bind
        | intro _
        | split
    have g2 := Reached_stays (Reached_stays g1 (⟨rfl, rfl, rfl, fun _ => rfl⟩ :
      Stays s1 (s1.setNamedValue (ForEachStmtAST.getCounterName IterName) boundValCounter))) e2
    have p2 : (s2.blocks s.numBlocks).parent = some f := (e2.parent s.numBlocks).trans p1
    have n2 : s2.numBlocks = s.numBlocks + 3 := e2.numBlocks.trans n1
    simp only [Gen.wp_pure]
    cases AT with
    | none => simp [Gen.wp_pure]
    | some AT =>
      simp only []
      cases AT with
      | ArrayTy NumElements =>
        simp only [Gen.wp_bind, CreateBr, wp_emitVoid, wp_SetInsertPoint]
        have g3 := Reached_setInsertPoint (Reached_stays g2 (Stays_insert _ (.br s.numBlocks)))
          s.numBlocks (by simp; omega) (by rw [World.insert_parent]; exact p2)
        intro r s3 h3
        have e3 := (counter_test_stays _ _).out _ _ _ h3
        have g3 := Reached_stays g3 e3
        have n3 : s3.numBlocks = s.numBlocks + 3 := by
          rw [e3.numBlocks]; simpa using n2
        cases r with
        | none => simp [Gen.wp_pure]
        | some condV =>
          simp only [Gen.wp_bind, CreateCondBr, wp_emitVoid, wp_GetInsertBlock,
            wp_Function_insert, wp_SetInsertPoint, wp_getNamedValue, World.insert_InsertBlock]
          intro Pc hPc f1 hf1
          obtain rfl : f = f1 := Option.some.inj (hp.symm.trans hf1)
          have g4 := Reached_next g3 (.condBr condV (s.numBlocks + 1) (s.numBlocks + 1 + 1))
            (s.numBlocks + 1) (by omega)
          intro r s4 h4
          have e4 := (element_binding_stays _ _ _).out _ _ _ h4
          have g4 := Reached_stays g4 e4
          cases r with
          | none => simp [Gen.wp_pure]
          | some bindingValue =>
            simp only [Gen.wp_bind, wp_setNamedValue]
            have g4 := Reached_stays g4 (⟨rfl, rfl, rfl, fun _ => rfl⟩ :
              Stays s4 (s4.setNamedValue IterName (some bindingValue)))
            intro r s5 h5
            have g5 := StmtAST_codegen_blocks BodyStmt f _ g4.inFunction _ _ h5
            cases r with
            | none => simp [Gen.wp_pure]
            | some bodyV =>
              have n4 := g4.numBlocks
              have n5 := (g5 rfl).numBlocks
              have g5 := Reached_sub g4 (g5 rfl)
              simp only [Gen.wp_bind]
              intro r s6 h6
              have e6 := (counter_increment_stays _).out _ _ _ h6
              have g6 := Reached_stays g5 e6
              have n6 := e6.numBlocks
              simp only [Gen.wp_bind, Gen.wp_pure, CreateBr, wp_emitVoid, wp_GetInsertBlock,
                wp_Function_insert, wp_SetInsertPoint, wp_setNamedValue,
                World.insert_InsertBlock]
              intro Pb hPb f2 hf2 _
              obtain rfl : f = f2 := Option.some.inj (hp.symm.trans hf2)
              have g7 := Reached_next g6 (.br Pc) (s.numBlocks + 1 + 1) (by
                have := e4.numBlocks
                simp at this n5
                omega)
              exact Reached_of_eq (Reached_stays (Reached_stays g7
                (Stays_setNamedValue _ _ _)) (Stays_setNamedValue _ _ _)) (by ring)
      | DoubleTy => simp [wp_LogErrorV]
      | FloatTy => simp [wp_LogErrorV]
      | Int32Ty => simp [wp_LogErrorV]
theorem StmtAST_codegenStmts_blocks : ∀ (l : List StmtAST) (v : Option Value) (f : Nat)
    (s : World), InFunction f s →
    (StmtAST.codegenStmts l v).wp (fun r s1 => r.isSome = true →
      Reached f s (3 * StmtAST.threeBlockNodesList l + 2 * StmtAST.twoBlockNodesList l) s1) s
  | [], v, f, s, hs => by
    simp only [StmtAST.codegenStmts, Gen.wp_pure, StmtAST.threeBlockNodesList,
      StmtAST.twoBlockNodesList]
    exact fun _ => Reached_refl hs
  | st :: Stmts, v, f, s, hs => by
    simp only [StmtAST.codegenStmts, Gen.wp_bind, StmtAST.threeBlockNodesList,
      StmtAST.twoBlockNodesList]
    intro r s1 h1
    have g1 := StmtAST_codegen_blocks st f s hs _ _ h1
    cases r with
    | none => simp [Gen.wp_pure]
    | some blockvalue =>
      have g1 := g1 rfl
      simp only []
      intro r s2 h2 hr
      have g2 := StmtAST_codegenStmts_blocks Stmts (some blockvalue) f s1 g1.inFunction _ _ h2 hr
      exact Reached_of_eq (Reached_sub g1 g2) (by ring)
end

theorem FunctionAST_bindArgs_stays (function : Function) :
    ∀ (Args : List String) (ArgNo : Nat), Gen.Rel Stays (FunctionAST.bindArgs function Args ArgNo)
  | [], _ => by simp only [FunctionAST.bindArgs]; exact stays_pure _
  | Arg :: Args, ArgNo => by
    have h := FunctionAST_bindArgs_stays function Args (ArgNo + 1)
    simp only [FunctionAST.bindArgs, CreateStore]
    repeat' first
      | exact stays_pure _
      | exact h
      | exact stays_emitVoid _
      | exact stays_setNamedValue _ _
      | exact stays_CreateEntryBlockAlloca _ _ _
      | apply stays_bind
      | intro _

theorem FunctionAST_prologue_blocks (F : FunctionAST) (s : World) :
    F.prologue.wp (fun r s1 => ∀ fn, r = some fn →
      InFunction fn.id s1 ∧ (s1.functionBlocks fn.id).length = 1) s := by
  simp only [FunctionAST.prologue, Gen.wp_bind, wp_getFunction]
  split
  · simp [Gen.wp_pure]
  · simp only [Gen.wp_bind]
    intro function s1 h1
    have hf := (PrototypeAST_codegen_fresh _ _ _ _ h1).1
    simp only [wp_Create, wp_SetInsertPoint, Gen.wp_bind]
    intro r s2 h2
    have e2 := (FunctionAST_bindArgs_stays function function.Args 0).out _ _ _ h2
    simp only [Gen.wp_pure, Option.some.injEq]
    intro fn e
    subst e
    refine ⟨⟨s1.numBlocks, ?_, ?_, ?_⟩, ?_⟩
    · rw [e2.InsertBlock]; rfl
    · rw [e2.numBlocks]; simp
    · rw [e2.parent]; simp
    · rw [e2.functionBlocks]; simp [hf]

theorem FunctionAST_codegen_blocks (F : FunctionAST) (s : World) :
    F.codegen.wp (fun r s1 => ∀ fn, r = some fn →
      (s1.functionBlocks fn.id).length =
        1 + 3 * F.Body.threeBlockNodes + 2 * F.Body.twoBlockNodes) s := by
  simp only [FunctionAST.codegen, Gen.wp_bind]
  intro r s1 h1
  have g1 := FunctionAST_prologue_blocks F s _ _ h1
  cases r with
  | none => simp [Gen.wp_pure]
  | some function =>
    obtain ⟨g1, l1⟩ := g1 function rfl
    simp only [Gen.wp_bind]
    intro r s2 h2
    have g2 := StmtAST_codegen_blocks F.Body function.id s1 g1 _ _ h2
    cases r with
    | none =>
      simp only [Gen.wp_bind, Gen.wp_pure]
      intro _ _ _ fn e
      cases e
    | some RetVal =>
      have l2 := (g2 rfl).length
      simp only [Gen.wp_bind, Gen.wp_pure, CreateRet, wp_emitVoid, Option.some.injEq]
      intro r s3 h3 fn e
      subst e
      have e3 : s3.functionBlocks = (s2.insert (.ret RetVal)).functionBlocks := by
        simp only [Function.print, Option.some.injEq, Prod.mk.injEq] at h3
        rw [← h3.2]
      rw [e3, World.insert_functionBlocks, l2, l1]
      ring

/-- C28: when the lowering of a function definition succeeds, the number of blocks
of the function is 1 plus 3 for every conditional expression, if-statement with
else, while, do-while, for and for-each statement of its body plus 2 for every
if-statement without else of its body. In particular, a body that is an expression
gives 1 block plus 3 for each of its conditional expressions, and a body that is a
single `for` loop whose parts hold no such construct gives 4 blocks, 3 beyond the
entry block. -/
theorem C28_number_of_blocks (F : FunctionAST) (s : World) (fn : Function) (s1 : World)
    (h : F.codegen s = some (some fn, s1)) :
    (s1.functionBlocks fn.id).length =
      1 + 3 * F.Body.threeBlockNodes + 2 * F.Body.twoBlockNodes ∧
    (∀ e, F.Body = .expr e → (s1.functionBlocks fn.id).length = 1 + 3 * e.conditionals) ∧
    (∀ InitExp CondExpr AssignExpr BodyStmt,
      F.Body = .ForStmtAST InitExp CondExpr AssignExpr BodyStmt →
      InitExp.conditionals = 0 → CondExpr.conditionals = 0 → AssignExpr.conditionals = 0 →
      BodyStmt.threeBlockNodes = 0 → BodyStmt.twoBlockNodes = 0 →
      (s1.functionBlocks fn.id).length = 1 + 3) := by
  have key := FunctionAST_codegen_blocks F s _ _ h fn rfl
  refine ⟨key, ?_, ?_⟩
  · intro e he
    rw [key, he]
    simp [StmtAST.threeBlockNodes, StmtAST.twoBlockNodes]
  · intro InitExp CondExpr AssignExpr BodyStmt he h1 h2 h3 h4 h5
    rw [key, he]
    simp [StmtAST.threeBlockNodes, StmtAST.twoBlockNodes, h1, h2, h3, h4, h5]

set_option maxHeartbeats 4000000 in
/-- C28 at concrete inputs, each lowered in the empty module.
`def f(a) { if ((a < 1 ? 1 : 2) < 2) a }` has one conditional expression and one
if-statement without else: 6 blocks. `def f(a) a < 1 ? (a < 2 ? 1 : 2) : 3`
has two conditional expressions: 7 blocks. `def f(a) for (var a = 0; a < 3; a = a + 1) a`
is a single `for` loop: 4 blocks. -/
theorem C28_number_of_blocks_witness :
    (∃ fn s1, (sampleFunction sampleIfNoElse).codegen World.empty = some (some fn, s1) ∧
      (s1.functionBlocks fn.id).length = 6) ∧
    (∃ fn s1, FunctionAST.codegen ⟨⟨"f", ["a"], false⟩, .expr sampleNestedCondExp⟩ World.empty =
        some (some fn, s1) ∧
      (s1.functionBlocks fn.id).length = 7) ∧
    (∃ fn s1, FunctionAST.codegen ⟨⟨"f", ["a"], false⟩, sampleForBinding⟩ World.empty =
        some (some fn, s1) ∧
      (s1.functionBlocks fn.id).length = 4) := by
  refine ⟨?_, ?_, ?_⟩
  · obtain ⟨fn, s1, h1, _⟩ := (Gen.succeedsWith_iff (sampleFunction sampleIfNoElse).codegen
      World.empty (fun _ _ => true)).1 (by decide)
    exact ⟨fn, s1, h1, (C28_number_of_blocks _ _ _ _ h1).1.trans (by decide)⟩
  · obtain ⟨fn, s1, h1, _⟩ := (Gen.succeedsWith_iff
      (FunctionAST.codegen ⟨⟨"f", ["a"], false⟩, .expr sampleNestedCondExp⟩)
      World.empty (fun _ _ => true)).1 (by decide)
    exact ⟨fn, s1, h1, ((C28_number_of_blocks _ _ _ _ h1).2.1 _ rfl).trans (by decide)⟩
  · obtain ⟨fn, s1, h1, _⟩ := (Gen.succeedsWith_iff
      (FunctionAST.codegen ⟨⟨"f", ["a"], false⟩, sampleForBinding⟩)
      World.empty (fun _ _ => true)).1 (by decide)
    exact ⟨fn, s1, h1, (C28_number_of_blocks _ _ _ _ h1).2.2 _ _ _ _ rfl (by decide)
      (by decide) (by decide) (by decide) (by decide)⟩

/-! ## Absent children of a sequence node (C40) -/

/-- C40, evaluated on the code: the node `SeqAST(first, nullptr)` whose first child is
the declaration `global g` has no result from the empty state: the child is
generated (on its own it returns), then the absent continuation is dereferenced. -/
theorem C40_absent_continuation_is_dereferenced :
    (∃ r s1, (RootAST.GlobalVarAST ⟨"g", 0⟩).codegen World.empty = some (r, s1)) ∧
    (RootAST.SeqAST (some (.GlobalVarAST ⟨"g", 0⟩)) none).codegen World.empty = none :=
  ⟨⟨_, _, rfl⟩, rfl⟩

/-- C40 as amended: a sequence node whose continuation is present dereferences no
absent child. With `first` present it generates `first`, then the continuation in
the state `first` left, whatever `first` returned, and returns `nullptr` in the
state the continuation left; with `first` absent it generates the continuation
only. The node with both children absent returns `nullptr` at once, in the state
of the call. In every case there is a result whenever the children that are
generated have one. -/
theorem C40_sequence_with_continuation (continuation : RootAST) (s : World) :
    (∀ first r s1, first.codegen s = some (r, s1) →
      (RootAST.SeqAST (some first) (some continuation)).codegen s =
        (continuation.codegen s1).map fun p => (none, p.2)) ∧
    (RootAST.SeqAST none (some continuation)).codegen s =
      (continuation.codegen s).map (fun p => (none, p.2)) ∧
    (RootAST.SeqAST none none).codegen s = some (none, s) := by
  refine ⟨?_, ?_, rfl⟩
  · intro first r s1 h
    simp only [RootAST.codegen, RootAST.codegenContinuation]
    rw [Gen.bind_of_eq h]
    cases h2 : continuation.codegen s1 with
    | none => rw [Gen.bind_of_none h2]; rfl
    | some p => obtain ⟨r2, s2⟩ := p; rw [Gen.bind_of_eq h2]; rfl
  · simp only [RootAST.codegen]
    cases h2 : continuation.codegen s with
    | none => rw [Gen.bind_of_none h2]; rfl
    | some p => obtain ⟨r2, s2⟩ := p; rw [Gen.bind_of_eq h2]; rfl

/-- C40 as amended, at a concrete input: the node whose first child is `global g`
and whose continuation is the end of the program returns `nullptr` with `g`
registered. -/
theorem C40_sequence_with_continuation_witness :
    (RootAST.SeqAST (some (.GlobalVarAST ⟨"g", 0⟩)) (some (.SeqAST none none))).codegen
        World.empty =
      ((RootAST.SeqAST none none).codegen
        { World.empty with globals := [⟨0, "g", .DoubleTy⟩],
                           errs := [.globalVariable 0] }).map (fun p => (none, p.2)) :=
  (C40_sequence_with_continuation (.SeqAST none none) World.empty).1
    (.GlobalVarAST ⟨"g", 0⟩) _ _ rfl

/-! ## Definition after an external declaration (C38) -/

theorem World.uniqueName_of_free (s : World) (Name : String) (h : Name ∉ s.symbols) :
    s.uniqueName Name = (Name, s.LastUnique) := by
  simp only [World.uniqueName, if_neg h]

theorem World.uniqueName_of_taken (s : World) (Name : String) (h : Name ∈ s.symbols) :
    (s.uniqueName Name).1 ≠ Name := by
  simp only [World.uniqueName, if_pos h]
  intro e
  have := congrArg String.length e
  simp only [String.length_append] at this
  have h1 : ".".length = 1 := rfl
  omega

theorem World.find_function_of_free (s : World) (Name : String) (h : Name ∉ s.symbols) :
    s.functions.find? (fun G => G.Name = Name) = none := by
  rw [List.find?_eq_none]
  intro G hG e
  apply h
  simp only [World.symbols, List.mem_append, List.mem_map]
  exact Or.inl ⟨G, hG, by simpa using e⟩

theorem PrototypeAST_codegen_functions (P : PrototypeAST) (s : World) :
    ∃ s1, P.codegen s = some (⟨s.numFunctions, (s.uniqueName P.Name).1, P.Args⟩, s1) ∧
      s1.functions = s.functions ++ [⟨s.numFunctions, (s.uniqueName P.Name).1, P.Args⟩] := by
  simp only [PrototypeAST.codegen]
  split <;> exact ⟨_, rfl, rfl⟩

theorem find_registered (l : List Function) (F : Function)
    (h : l.find? (fun G => G.Name = F.Name) = none) :
    (l ++ [F]).find? (fun G => G.Name = F.Name) = some F := by
  rw [List.find?_append, h]
  simp

theorem find_not_registered (l : List Function) (F : Function) (Name : String)
    (h : l.find? (fun G => G.Name = Name) = none) (hF : F.Name ≠ Name) :
    (l ++ [F]).find? (fun G => G.Name = Name) = none := by
  rw [List.find?_append, h]
  simp [hF]

/-- C38, evaluated on the code: in the program
`global f; extern f(a b); def f(a) { a }` the global variable takes the name `f`
in the symbol table of the module, so the external declaration is registered
under the name `f.1` and the lookup of `f` finds no function. The definition of
`f` that follows is therefore not rejected: its body is lowered and the function
is registered, under the name `f.2`, next to the declaration. -/
theorem C38_definition_after_renamed_declaration :
    ∃ s0 s1 F s2, GlobalVarAST.codegen ⟨"f", 0⟩ World.empty = some (⟨0, "f", .DoubleTy⟩, s0) ∧
      PrototypeAST.codegen ⟨"f", ["a", "b"], true⟩ s0 = some (⟨0, "f.1", ["a", "b"]⟩, s1) ∧
      s1.functions.find? (fun G => G.Name = "f") = none ∧
      FunctionAST.codegen ⟨⟨"f", ["a"], false⟩, .BlockAST [] [.expr (.VariableExprAST "a")]⟩ s1 =
        some (some F, s2) ∧
      F = ⟨1, "f.2", ["a"]⟩ ∧
      s2.functions = [⟨0, "f.1", ["a", "b"]⟩, ⟨1, "f.2", ["a"]⟩] ∧
      (s2.blocks 0).insts = [.alloca 0 .DoubleTy "a", .store (.Argument 1 0) (.Instruction 0),
        .load 1 .DoubleTy (.Instruction 0) "a", .ret (.Instruction 1)] := by
  obtain ⟨p, hp⟩ := Option.isSome_iff_exists.1
    (show (PrototypeAST.codegen ⟨"f", ["a", "b"], true⟩
      { World.empty with globals := [⟨0, "f", .DoubleTy⟩],
                         errs := [.globalVariable 0] }).isSome = true by decide)
  have ht : (PrototypeAST.codegen ⟨"f", ["a", "b"], true⟩
      { World.empty with globals := [⟨0, "f", .DoubleTy⟩],
                         errs := [.globalVariable 0] }).all
      (fun p => decide (p.1 = ⟨0, "f.1", ["a", "b"]⟩ ∧
        p.2.functions.find? (fun G => G.Name = "f") = none ∧
        Gen.succeedsWith (FunctionAST.codegen
          ⟨⟨"f", ["a"], false⟩, .BlockAST [] [.expr (.VariableExprAST "a")]⟩) p.2
          (fun F s2 => decide (F = ⟨1, "f.2", ["a"]⟩ ∧
            s2.functions = [⟨0, "f.1", ["a", "b"]⟩, ⟨1, "f.2", ["a"]⟩] ∧
            (s2.blocks 0).insts = [.alloca 0 .DoubleTy "a",
              .store (.Argument 1 0) (.Instruction 0),
              .load 1 .DoubleTy (.Instruction 0) "a", .ret (.Instruction 1)])) = true)) = true := by
    decide
  rw [hp] at ht
  obtain ⟨r, s1⟩ := p
  obtain ⟨hr, hfind, hdef⟩ := of_decide_eq_true ht
  simp only at hr hfind hdef
  subst hr
  obtain ⟨F, s2, h1, h2⟩ := (Gen.succeedsWith_iff _ _ _).1 hdef
  exact ⟨_, s1, F, s2, rfl, hp, hfind, h1, of_decide_eq_true h2⟩

/-- C38 as amended: a function definition under whose name a function is registered
fails in the state of the call: no body is lowered, nothing is emitted, and the
lookup of the name still finds the registered function with its parameters. An external
declaration of a name that nothing in the module has registers the declared
function under that name, with the parameters of the declaration, so a definition
of that name that follows it fails in this way. When the module already has a
symbol of that name (a global variable), the declaration is registered under
another name: the lookup of the name finds it no more than before, and the name
is then not registered by the declaration. -/
theorem C38_definition_after_declaration (P : PrototypeAST) (D : FunctionAST) (s : World)
    (hname : D.Proto.Name = P.Name) :
    (∀ s1 fn, s1.functions.find? (fun G => G.Name = P.Name) = some fn →
      D.codegen s1 = some (none, s1) ∧ (RootAST.FunctionAST D).codegen s1 = some (none, s1)) ∧
    (P.Name ∉ s.symbols →
      ∃ s1, P.codegen s = some (⟨s.numFunctions, P.Name, P.Args⟩, s1) ∧
        s1.functions.find? (fun G => G.Name = P.Name) =
          some ⟨s.numFunctions, P.Name, P.Args⟩ ∧
        D.codegen s1 = some (none, s1) ∧
        (RootAST.FunctionAST D).codegen s1 = some (none, s1)) ∧
    (P.Name ∈ s.symbols →
      ∃ fn s1, P.codegen s = some (fn, s1) ∧ fn.Name ≠ P.Name ∧
        (s.functions.find? (fun G => G.Name = P.Name) = none →
          s1.functions.find? (fun G => G.Name = P.Name) = none)) := by
  have rejected : ∀ s1 fn, s1.functions.find? (fun G => G.Name = P.Name) = some fn →
      D.codegen s1 = some (none, s1) ∧
        (RootAST.FunctionAST D).codegen s1 = some (none, s1) := by
    intro s1 fn hfind
    have hD : D.codegen s1 = some (none, s1) := by
      simp only [FunctionAST.codegen, FunctionAST.prologue]
      rw [Gen.bind_of_eq (show (getFunction D.Proto.Name >>= _) s1 = some (none, s1) by
        rw [Gen.bind_of_eq (getFunction_apply _ s1), hname, hfind]; rfl)]
      rfl
    refine ⟨hD, ?_⟩
    simp only [RootAST.codegen]
    rw [Gen.bind_of_eq hD]
    rfl
  obtain ⟨s1, h1, h2⟩ := PrototypeAST_codegen_functions P s
  refine ⟨rejected, fun hfree => ?_, fun htaken => ?_⟩
  · rw [World.uniqueName_of_free s P.Name hfree] at h1 h2
    have hfind : s1.functions.find? (fun G => G.Name = P.Name) =
        some ⟨s.numFunctions, P.Name, P.Args⟩ := by
      rw [h2]
      exact find_registered s.functions ⟨s.numFunctions, P.Name, P.Args⟩
        (World.find_function_of_free s P.Name hfree)
    exact ⟨s1, h1, hfind, rejected s1 _ hfind⟩
  · refine ⟨_, s1, h1, World.uniqueName_of_taken s P.Name htaken, fun hnone => ?_⟩
    rw [h2]
    exact find_not_registered s.functions _ P.Name hnone
      (World.uniqueName_of_taken s P.Name htaken)

/-- C38 as amended, at concrete inputs. After `extern f(a b)` in the empty module,
the definition `def f(a) { a }` fails and `f` is still registered with two
parameters. After `global f`, the declaration `extern f(a b)` is registered as
`f.1` and no function is registered under `f`. -/
theorem C38_definition_after_declaration_witness :
    (∃ s1, PrototypeAST.codegen ⟨"f", ["a", "b"], true⟩ World.empty =
        some (⟨0, "f", ["a", "b"]⟩, s1) ∧
      s1.functions.find? (fun G => G.Name = "f") = some ⟨0, "f", ["a", "b"]⟩ ∧
      FunctionAST.codegen ⟨⟨"f", ["a"], false⟩, .BlockAST [] [.expr (.VariableExprAST "a")]⟩ s1 =
        some (none, s1) ∧
      (RootAST.FunctionAST
        ⟨⟨"f", ["a"], false⟩, .BlockAST [] [.expr (.VariableExprAST "a")]⟩).codegen s1 =
        some (none, s1)) ∧
    (∃ fn s1, PrototypeAST.codegen ⟨"f", ["a", "b"], true⟩
        { World.empty with globals := [⟨0, "f", .DoubleTy⟩] } = some (fn, s1) ∧
      fn.Name = "f.1" ∧ s1.functions.find? (fun G => G.Name = "f") = none) := by
  refine ⟨(C38_definition_after_declaration ⟨"f", ["a", "b"], true⟩
    ⟨⟨"f", ["a"], false⟩, .BlockAST [] [.expr (.VariableExprAST "a")]⟩ World.empty rfl).2.1
      (by decide), ?_⟩
  obtain ⟨fn, s1, h1, _, h3⟩ := (C38_definition_after_declaration ⟨"f", ["a", "b"], true⟩
    ⟨⟨"f", ["a"], false⟩, .BlockAST [] [.expr (.VariableExprAST "a")]⟩
    { World.empty with globals := [⟨0, "f", .DoubleTy⟩] } rfl).2.2 (by decide)
  have e : PrototypeAST.codegen ⟨"f", ["a", "b"], true⟩
      { World.empty with globals := [⟨0, "f", .DoubleTy⟩] } =
      some (⟨0, "f.1", ["a", "b"]⟩, s1) ∨ True := Or.inr trivial
  have hn : (PrototypeAST.codegen ⟨"f", ["a", "b"], true⟩
      { World.empty with globals := [⟨0, "f", .DoubleTy⟩] }).all
        (fun p => decide (p.1.Name = "f.1")) = true := by decide
  rw [h1] at hn
  exact ⟨fn, s1, h1, of_decide_eq_true hn, h3 (by decide)⟩

/-! ## Recursive calls (C37) -/

theorem CallExprAST_codegen_of_lowered (Callee : String) (Args : List ExprAST) (s : World)
    (F : Function) (hF : s.functions.find? (fun F => F.Name = Callee) = some F)
    (hn : F.Args.length = Args.length) (vs : List Value) (s1 : World)
    (h : LoweredInOrder Args s vs s1) :
    (ExprAST.CallExprAST Callee Args).codegen s =
      some (some (.Instruction s1.numValues), s1.emit fun id => .call id F.id vs) := by
  have start : (ExprAST.CallExprAST Callee Args).codegen s =
      (do
        let some ArgsV ← ExprAST.codegenArgs Args | return none
        some <$> CreateCall F ArgsV : Gen (Option Value)) s := by
    simp only [ExprAST.codegen]
    rw [Gen.bind_of_eq (getFunction_apply Callee s), hF]
    simp only []
    rw [if_neg (by simpa using hn)]
    try rfl
  rw [start, Gen.bind_of_eq (ExprAST_codegenArgs_of_lowered Args s vs s1 h)]
  exact Gen.map_of_eq rfl

/-- C37, evaluated on the code: in the program `global f; def f(a) { f(a) }` the
global variable takes the name `f` in the symbol table of the module, the
prologue of the definition registers the function under the name `f.1`, and at
the start of the body the call `f(a)` fails as a call of an undefined function:
the state changes only by the message on `cerr`. -/
theorem C37_call_of_renamed_function_fails :
    ∃ s0 s1, GlobalVarAST.codegen ⟨"f", 0⟩ World.empty = some (⟨0, "f", .DoubleTy⟩, s0) ∧
      (sampleFunction (.expr (.CallExprAST "f" [.VariableExprAST "a"]))).prologue s0 =
        some (some ⟨0, "f.1", ["a"]⟩, s1) ∧
      (ExprAST.CallExprAST "f" [.VariableExprAST "a"]).codegen s1 =
        some (none, s1.logError "Funzione non definita") := by
  obtain ⟨p, hp⟩ := Option.isSome_iff_exists.1
    (show ((sampleFunction (.expr (.CallExprAST "f" [.VariableExprAST "a"]))).prologue
      { World.empty with globals := [⟨0, "f", .DoubleTy⟩],
                         errs := [.globalVariable 0] }).isSome = true by decide)
  have ht : ((sampleFunction (.expr (.CallExprAST "f" [.VariableExprAST "a"]))).prologue
      { World.empty with globals := [⟨0, "f", .DoubleTy⟩],
                         errs := [.globalVariable 0] }).all
      (fun p => decide (p.1 = some ⟨0, "f.1", ["a"]⟩ ∧
        p.2.functions.find? (fun F => F.Name = "f") = none)) = true := by decide
  rw [hp] at ht
  obtain ⟨r, s1⟩ := p
  obtain ⟨hr, hfind⟩ := of_decide_eq_true ht
  simp only at hr hfind
  subst hr
  refine ⟨_, s1, rfl, hp, ?_⟩
  simp only [ExprAST.codegen]
  rw [Gen.bind_of_eq (getFunction_apply "f" s1), hfind]
  rfl

/-- C37 as amended: the prologue of a function definition whose name nothing in the
module has (no function and no global variable) registers the function under
that name, with the parameters of its prototype, before the body is lowered. In
every state that the lowering of the body can reach from there (a generator keeps
the registered functions), a call of the function with as many arguments as it
has parameters, all of which lower successfully, emits one call instruction of
the function on the values of the arguments and returns it. -/
theorem C37_recursive_call (F : FunctionAST) (s : World)
    (hfree : F.Proto.Name ∉ s.symbols) :
    ∃ s1, F.prologue s = some (some ⟨s.numFunctions, F.Proto.Name, F.Proto.Args⟩, s1) ∧
      s1.functions.find? (fun G => G.Name = F.Proto.Name) =
        some ⟨s.numFunctions, F.Proto.Name, F.Proto.Args⟩ ∧
      ∀ s2 Args vs s3, Frame s1 s2 → Args.length = F.Proto.Args.length →
        LoweredInOrder Args s2 vs s3 →
        (ExprAST.CallExprAST F.Proto.Name Args).codegen s2 =
          some (some (.Instruction s3.numValues),
            s3.emit fun id => .call id s.numFunctions vs) := by
  have hfresh := World.find_function_of_free s F.Proto.Name hfree
  obtain ⟨s1, h1, h2, _⟩ := FunctionAST_prologue_fresh F s hfresh
  rw [World.uniqueName_of_free s F.Proto.Name hfree] at h1 h2
  have hfind : s1.functions.find? (fun G => G.Name = F.Proto.Name) =
      some ⟨s.numFunctions, F.Proto.Name, F.Proto.Args⟩ := by
    rw [h2]
    exact find_registered s.functions ⟨s.numFunctions, F.Proto.Name, F.Proto.Args⟩ hfresh
  refine ⟨s1, h1, hfind, ?_⟩
  intro s2 Args vs s3 hframe hlen hv
  exact CallExprAST_codegen_of_lowered F.Proto.Name Args s2
    ⟨s.numFunctions, F.Proto.Name, F.Proto.Args⟩ (by rw [hframe.functions]; exact hfind)
    hlen.symm vs s3 hv

/-- C37 as amended, at a concrete input: at the start of the body of
`def f(a) { f(a) }` in the empty module the call `f(a)` loads `a` and emits the call
of `f` (function 0) on the loaded value. -/
theorem C37_recursive_call_witness :
    (ExprAST.CallExprAST "f" [.VariableExprAST "a"]).codegen
        (bodyEntry (sampleFunction (.expr (.CallExprAST "f" [.VariableExprAST "a"])))) =
      some (some (.Instruction 2),
        ((bodyEntry (sampleFunction (.expr (.CallExprAST "f" [.VariableExprAST "a"])))).emit
          fun id => .load id .DoubleTy (.Instruction 0) "a").emit
            fun id => .call id 0 [.Instruction 1]) := by
  obtain ⟨s1, h1, _, h⟩ := C37_recursive_call
    (sampleFunction (.expr (.CallExprAST "f" [.VariableExprAST "a"]))) World.empty (by decide)
  have e : s1 = bodyEntry (sampleFunction (.expr (.CallExprAST "f" [.VariableExprAST "a"]))) := by
    simp only [bodyEntry, h1]
  subst e
  exact h _ [.VariableExprAST "a"] [.Instruction 1] _ (Frame_refl _) rfl
    ⟨_, _, _, VariableExprAST_codegen_local "a" _ ⟨0, .DoubleTy⟩ (by decide), ⟨rfl, rfl⟩, rfl⟩

/-! ## Scalar assignments (C33) -/

/-- C34: generating `def f(x) { var y = x + 1; y * 2 }` from the empty module
succeeds. The module then holds exactly one function, `f` with the one parameter
`x`; the function has exactly one block and the module no phi node. The block
allocates `y` and `x`, stores the argument into `x`, loads `x`, adds 1, stores the
sum into `y`, loads `y`, multiplies by 2 and returns the product. Generating the
program through the root gives the same module. -/
theorem C34_round_trip :
    (∃ s1, sampleRoundTrip.codegen World.empty = some (some ⟨0, "f", ["x"]⟩, s1) ∧
      s1.functions = [⟨0, "f", ["x"]⟩] ∧ s1.functionBlocks 0 = [0] ∧ s1.numBlocks = 1 ∧
      s1.phis = 0 ∧
      (s1.blocks 0).insts =
        [.alloca 3 .DoubleTy "y", .alloca 0 .DoubleTy "x",
         .store (.Argument 0 0) (.Instruction 0),
         .load 1 .DoubleTy (.Instruction 0) "x",
         .binop 2 .FAdd (.Instruction 1) (.ConstantFP 1),
         .store (.Instruction 2) (.Instruction 3),
         .load 4 .DoubleTy (.Instruction 3) "y",
         .binop 5 .FMul (.Instruction 4) (.ConstantFP 2),
         .ret (.Instruction 5)]) ∧
    (∃ s1 s2, sampleRoundTrip.codegen World.empty = some (some ⟨0, "f", ["x"]⟩, s1) ∧
      driver.codegen (programOf [some (.FunctionAST sampleRoundTrip)]) World.empty =
        some ((), s2) ∧
      s2.functions = s1.functions ∧ s2.functionBlocks 0 = s1.functionBlocks 0 ∧
      s2.numBlocks = s1.numBlocks ∧ (s2.blocks 0).insts = (s1.blocks 0).insts) := by
  obtain ⟨fn, s1, h1, h2⟩ := (Gen.succeedsWith_iff sampleRoundTrip.codegen World.empty
    (fun fn s1 => decide (fn = ⟨0, "f", ["x"]⟩ ∧
      s1.functions = [⟨0, "f", ["x"]⟩] ∧ s1.functionBlocks 0 = [0] ∧ s1.numBlocks = 1 ∧
      s1.phis = 0 ∧
      (s1.blocks 0).insts =
        [.alloca 3 .DoubleTy "y", .alloca 0 .DoubleTy "x",
         .store (.Argument 0 0) (.Instruction 0),
         .load 1 .DoubleTy (.Instruction 0) "x",
         .binop 2 .FAdd (.Instruction 1) (.ConstantFP 1),
         .store (.Instruction 2) (.Instruction 3),
         .load 4 .DoubleTy (.Instruction 3) "y",
         .binop 5 .FMul (.Instruction 4) (.ConstantFP 2),
         .ret (.Instruction 5)]))).1 (by decide)
  obtain ⟨rfl, h3⟩ := of_decide_eq_true h2
  refine ⟨⟨s1, h1, h3⟩, s1, s1, h1, ?_, rfl, rfl, rfl, rfl⟩
  have e := (RootAST_codegen_programOf [some (.FunctionAST sampleRoundTrip)] World.empty)
  simp only [driver.codegen]
  have r : runItems [some (.FunctionAST sampleRoundTrip)] World.empty = some s1 := by
    simp only [runItems, RootAST.codegen]
    rw [Gen.bind_of_eq h1]
    rfl
  rw [r] at e
  rw [Gen.bind_of_eq e]
  rfl

/-! ## A for-each that fails at its array check (C39) -/

theorem World.setInsertPoint_self (s : World) (c : Nat) (hc : s.InsertBlock = some c) :
    s.setInsertPoint c = s := by
  cases s
  simp only [World.setInsertPoint] at hc ⊢
  simp [hc]

theorem ForEachStmtAST_codegen_start (IterName ArrayName : String) (BodyStmt : StmtAST)
    (s : World) (c f e : Nat) (hc : s.InsertBlock = some c) (hf : (s.blocks c).parent = some f)
    (he : (s.functionBlocks f).head? = some e) (hclt : c < s.numBlocks) :
    (StmtAST.ForEachStmtAST IterName ArrayName BodyStmt).codegen s =
      (do
        let A ← getNamedValue ArrayName
        let AT ← (match A with
          | none => do
            let A ← getNamedGlobal ArrayName
            match A with
            | none => LogErrorV ("Variabile " ++ ArrayName ++ " non definita.")
            | some A => pure (some A.ValueType)
          | some A => pure (some A.AllocatedType))
        let some AT ← pure AT | return none
        match AT with
        | .ArrayTy NumElements =>
          let ArraySize := toInt32 NumElements
          CreateBr s.numBlocks
          SetInsertPoint s.numBlocks
          let some condV ← ExprAST.codegen (.BinaryExprAST '<'
            (.VariableExprAST (ForEachStmtAST.getCounterName IterName))
            (some (.NumberExprAST ArraySize))) | return none
          CreateCondBr condV (s.numBlocks + 1) (s.numBlocks + 1 + 1)
          let CondBB ← GetInsertBlock
          Function.insert (some f) (s.numBlocks + 1)
          SetInsertPoint (s.numBlocks + 1)
          let tmpIter ← getNamedValue IterName
          let some bindingValue ← VarBindingAST.codegen IterName
            (some (.ArrayExprAST ArrayName
              (.VariableExprAST (ForEachStmtAST.getCounterName IterName)))) | return none
          setNamedValue IterName (some bindingValue)
          let some _ ← StmtAST.codegen BodyStmt | return none
          let _ ← AssignmentAST.codegen ⟨ForEachStmtAST.getCounterName IterName, none,
            .BinaryExprAST '+' (.VariableExprAST (ForEachStmtAST.getCounterName IterName))
              (some (.NumberExprAST 1))⟩
          let _ ← GetInsertBlock
          CreateBr CondBB
          Function.insert (some f) (s.numBlocks + 1 + 1)
          SetInsertPoint (s.numBlocks + 1 + 1)
          setNamedValue (ForEachStmtAST.getCounterName IterName)
            (s.NamedValues (ForEachStmtAST.getCounterName IterName))
          setNamedValue IterName tmpIter
          return some Value.getNullValue
        | _ => LogErrorV ("La variabile " ++ ArrayName ++ " non è un array.") :
          Gen (Option Value))
        (ForEachStmtAST.atArrayCheck IterName s f e) := by
  simp only [StmtAST.codegen]
  rw [Gen.bind_of_eq (show GetInsertBlock s = some (c, s) by simp [GetInsertBlock, hc])]
  rw [Gen.bind_of_eq (show SetInsertPoint c s = some ((), s.setInsertPoint c) from rfl)]
  rw [World.setInsertPoint_self s c hc]
  rw [Gen.bind_of_eq (GetInsertBlockParent_apply s c hc), hf]
  rw [Gen.bind_of_eq (show BasicBlock.Create "condstmt" (some f) s = some (s.numBlocks, _) from rfl)]
  rw [Gen.bind_of_eq (show BasicBlock.Create "loopstmt" none _ = some (_, _) from rfl)]
  rw [Gen.bind_of_eq (show BasicBlock.Create "mergestmt" none _ = some (_, _) from rfl)]
  rw [Gen.bind_of_eq (getNamedValue_apply _ _)]
  rw [Gen.bind_of_eq (show VarBindingAST.codegen (ForEachStmtAST.getCounterName IterName)
      (some (.NumberExprAST 0))
      (((s.createBlock "condstmt" (some f)).createBlock "loopstmt" none).createBlock "mergestmt"
        none) =
      some (some ⟨s.numValues, .DoubleTy⟩,
        ((((s.createBlock "condstmt" (some f)).createBlock "loopstmt" none).createBlock
          "mergestmt" none).entryAlloca e .DoubleTy (ForEachStmtAST.getCounterName IterName)).insert
            (.store (.ConstantFP 0) (.Instruction s.numValues))) by
    simp only [VarBindingAST.codegen]
    rw [Gen.bind_of_eq (GetInsertBlockParent_apply _ c (by simpa using hc))]
    rw [Gen.bind_of_eq (show ExprAST.codegen (.NumberExprAST 0) _ = some (some (.ConstantFP 0), _)
      from rfl)]
    have hp : (((((s.createBlock "condstmt" (some f)).createBlock "loopstmt" none).createBlock
        "mergestmt" none).blocks c).parent) = some f := by
      simp only [World.createBlock_blocks, World.createBlock_numBlocks, Function.update_apply]
      rw [if_neg (by omega), if_neg (by omega), if_neg (by omega)]
      exact hf
    simp only [hp]
    rw [Gen.bind_of_eq (CreateEntryBlockAlloca_apply _ f e _ .DoubleTy (by simp [he]))]
    rfl)]
  rw [Gen.bind_of_eq (show setNamedValue _ _ _ = some ((), _) from rfl)]
  try rfl

theorem ForEachStmtAST_atArrayCheck_facts (IterName : String) (s : World) (c f e : Nat)
    (hc : s.InsertBlock = some c) (hclt : c < s.numBlocks) (helt : e < s.numBlocks) (m : String) :
    ((ForEachStmtAST.atArrayCheck IterName s f e).logError m).NamedValues
        (ForEachStmtAST.getCounterName IterName) = some ⟨s.numValues, .DoubleTy⟩ ∧
    ((ForEachStmtAST.atArrayCheck IterName s f e).logError m).functionBlocks f =
      s.functionBlocks f ++ [s.numBlocks] ∧
    (((ForEachStmtAST.atArrayCheck IterName s f e).logError m).blocks s.numBlocks).insts = [] ∧
    ((ForEachStmtAST.atArrayCheck IterName s f e).logError m).InsertBlock = some c := by
  refine ⟨by simp [ForEachStmtAST.atArrayCheck], by simp [ForEachStmtAST.atArrayCheck], ?_,
    by simp [ForEachStmtAST.atArrayCheck, hc]⟩
  simp only [ForEachStmtAST.atArrayCheck, World.logError_blocks, World.setNamedValue_blocks]
  rw [World.insert_blocks_of_ne _ _ _ (by simp [hc]; omega), World.entryAlloca_insts,
    if_neg (by omega)]
  simp only [World.createBlock_blocks, World.createBlock_numBlocks, Function.update_apply]
  rw [if_neg (by omega), if_neg (by omega)]
  simp

/-- C39: a for-each that is called with the insertion block `c` in function `f`
reaches its array check in the state `atArrayCheck`: the condition block (the next
block number) is created and appended to the block list of `f`, and the counter is
allocated, initialised and installed under the name `<iterator>_counter`. If the
array name is then bound neither in the symbol table nor as a global, or is bound
to storage that is not of array type (which is the case when the array name is
the counter name), the statement fails, and what it leaves behind is that state
with the message on `cerr`: the counter name is bound to the new counter storage
and not to what it was bound to before, the condition block is the last block of
`f` and holds no instruction, hence no terminator, and the insertion block is
still `c`. -/
theorem C39_for_each_array_check (IterName ArrayName : String) (BodyStmt : StmtAST) (s : World)
    (c f e : Nat) (hc : s.InsertBlock = some c) (hf : (s.blocks c).parent = some f)
    (he : (s.functionBlocks f).head? = some e) (hclt : c < s.numBlocks)
    (helt : e < s.numBlocks) :
    (ArrayName ≠ ForEachStmtAST.getCounterName IterName → s.NamedValues ArrayName = none →
      s.globals.find? (fun G => G.Name = ArrayName) = none →
      (StmtAST.ForEachStmtAST IterName ArrayName BodyStmt).codegen s =
        some (none, (ForEachStmtAST.atArrayCheck IterName s f e).logError
          ("Variabile " ++ ArrayName ++ " non definita."))) ∧
    (∀ A, ArrayName ≠ ForEachStmtAST.getCounterName IterName →
      s.NamedValues ArrayName = some A → A.AllocatedType.isArrayTy = false →
      (StmtAST.ForEachStmtAST IterName ArrayName BodyStmt).codegen s =
        some (none, (ForEachStmtAST.atArrayCheck IterName s f e).logError
          ("La variabile " ++ ArrayName ++ " non è un array."))) ∧
    (∀ G, ArrayName ≠ ForEachStmtAST.getCounterName IterName →
      s.NamedValues ArrayName = none →
      s.globals.find? (fun G => G.Name = ArrayName) = some G → G.ValueType.isArrayTy = false →
      (StmtAST.ForEachStmtAST IterName ArrayName BodyStmt).codegen s =
        some (none, (ForEachStmtAST.atArrayCheck IterName s f e).logError
          ("La variabile " ++ ArrayName ++ " non è un array."))) ∧
    (ArrayName = ForEachStmtAST.getCounterName IterName →
      (StmtAST.ForEachStmtAST IterName ArrayName BodyStmt).codegen s =
        some (none, (ForEachStmtAST.atArrayCheck IterName s f e).logError
          ("La variabile " ++ ArrayName ++ " non è un array."))) ∧
    (∀ m,
      ((ForEachStmtAST.atArrayCheck IterName s f e).logError m).NamedValues
          (ForEachStmtAST.getCounterName IterName) = some ⟨s.numValues, .DoubleTy⟩ ∧
      ((ForEachStmtAST.atArrayCheck IterName s f e).logError m).functionBlocks f =
        s.functionBlocks f ++ [s.numBlocks] ∧
      (((ForEachStmtAST.atArrayCheck IterName s f e).logError m).blocks s.numBlocks).insts = [] ∧
      ((ForEachStmtAST.atArrayCheck IterName s f e).logError m).InsertBlock = some c) := by
  have start := ForEachStmtAST_codegen_start IterName ArrayName BodyStmt s c f e hc hf he hclt
  have hnv : ∀ n, n ≠ ForEachStmtAST.getCounterName IterName →
      (ForEachStmtAST.atArrayCheck IterName s f e).NamedValues n = s.NamedValues n := by
    intro n hn
    simp [ForEachStmtAST.atArrayCheck, hn]
  have hself : (ForEachStmtAST.atArrayCheck IterName s f e).NamedValues
      (ForEachStmtAST.getCounterName IterName) = some ⟨s.numValues, .DoubleTy⟩ := by
    simp [ForEachStmtAST.atArrayCheck]
  have hgl : (ForEachStmtAST.atArrayCheck IterName s f e).globals = s.globals := by
    simp [ForEachStmtAST.atArrayCheck]
  refine ⟨?_, ?_, ?_, ?_,
    fun m => ForEachStmtAST_atArrayCheck_facts IterName s c f e hc hclt helt m⟩
  · intro hne h1 h2
    rw [start, Gen.bind_of_eq (getNamedValue_apply _ _), hnv _ hne, h1]
    simp only []
    rw [Gen.bind_of_eq (show (getNamedGlobal ArrayName >>= _) _ = some (none, _) by
      rw [Gen.bind_of_eq (getNamedGlobal_apply _ _), hgl, h2]; rfl)]
    rfl
  · intro A hne h1 h2
    rw [start, Gen.bind_of_eq (getNamedValue_apply _ _), hnv _ hne, h1]
    simp only []
    rw [Gen.bind_of_eq (Gen.pure_apply _ _), Gen.bind_of_eq (Gen.pure_apply _ _)]
    cases hA : A.AllocatedType with
    | ArrayTy n => rw [hA] at h2; simp [IRType.isArrayTy] at h2
    | DoubleTy => rfl
    | FloatTy => rfl
    | Int32Ty => rfl
  · intro G hne h1 h2 h3
    rw [start, Gen.bind_of_eq (getNamedValue_apply _ _), hnv _ hne, h1]
    simp only []
    rw [Gen.bind_of_eq (show (getNamedGlobal ArrayName >>= _) _ = some (some G.ValueType, _) by
      rw [Gen.bind_of_eq (getNamedGlobal_apply _ _), hgl, h2]; rfl)]
    rw [Gen.bind_of_eq (Gen.pure_apply _ _)]
    cases hG : G.ValueType with
    | ArrayTy n => rw [hG] at h3; simp [IRType.isArrayTy] at h3
    | DoubleTy => rfl
    | FloatTy => rfl
    | Int32Ty => rfl
  · intro heq
    rw [start, Gen.bind_of_eq (getNamedValue_apply _ _), heq, hself]
    rfl

/-- C39 at concrete inputs, in the block `{ var A[2]; var x = 7; ... }` of
`def g()`: the for-each over the unbound name `B` and the for-each over the scalar
`x`, both with iterator `i`, fail at the array check; `i_counter`, unbound before,
is bound to the counter storage (register 2) afterwards, and the condition block
(block 1) is the last block of `g` and is empty. -/
theorem C39_for_each_array_check_witness :
    sampleArrayScope.NamedValues "i_counter" = none ∧
    (StmtAST.ForEachStmtAST "i" "B" (.expr (.VariableExprAST "i"))).codegen sampleArrayScope =
      some (none, (ForEachStmtAST.atArrayCheck "i" sampleArrayScope 0 0).logError
        ("Variabile " ++ "B" ++ " non definita.")) ∧
    (StmtAST.ForEachStmtAST "i" "x" (.expr (.VariableExprAST "i"))).codegen sampleArrayScope =
      some (none, (ForEachStmtAST.atArrayCheck "i" sampleArrayScope 0 0).logError
        ("La variabile " ++ "x" ++ " non è un array.")) ∧
    ((ForEachStmtAST.atArrayCheck "i" sampleArrayScope 0 0).logError
        ("Variabile " ++ "B" ++ " non definita.")).NamedValues "i_counter" =
      some ⟨2, .DoubleTy⟩ ∧
    ((ForEachStmtAST.atArrayCheck "i" sampleArrayScope 0 0).logError
        ("Variabile " ++ "B" ++ " non definita.")).functionBlocks 0 = [0, 1] ∧
    (((ForEachStmtAST.atArrayCheck "i" sampleArrayScope 0 0).logError
        ("Variabile " ++ "B" ++ " non definita.")).blocks 1).insts = [] :=
  ⟨by decide,
   (C39_for_each_array_check "i" "B" (.expr (.VariableExprAST "i")) sampleArrayScope 0 0 0
      (by decide) (by decide) (by decide) (by decide) (by decide)).1
      (by decide) (by decide) (by decide),
   (C39_for_each_array_check "i" "x" (.expr (.VariableExprAST "i")) sampleArrayScope 0 0 0
      (by decide) (by decide) (by decide) (by decide) (by decide)).2.1 ⟨1, .DoubleTy⟩
      (by decide) (by decide) (by decide),
   by decide, by decide, by decide⟩

/-! ## Globals after a block that shadows them (C31) -/

/-- C31, evaluated on the code: in the body of `f` of `global g; def f(a) { 0 }` the
name `g` is not in the symbol table and a reference to `g` loads from the global.
The block `{ var g = 1; var g = 2; g }` succeeds there; afterwards `g` is bound to
the storage of the first of the two definitions (register 1), and a reference to
`g` loads from that storage instead of the global. -/
theorem C31_global_hidden_after_block :
    ∃ v s1, sampleDuplicateGlobalName.codegen sampleScope = some (some v, s1) ∧
      sampleScope.NamedValues "g" = none ∧
      (ExprAST.VariableExprAST "g").codegen sampleScope =
        some (some (.Instruction 1),
          sampleScope.emit fun id => .load id .DoubleTy (.Global 0) "g") ∧
      s1.NamedValues "g" = some ⟨1, .DoubleTy⟩ ∧
      (ExprAST.VariableExprAST "g").codegen s1 =
        some (some (.Instruction s1.numValues),
          s1.emit fun id => .load id .DoubleTy (.Instruction 1) "g") := by
  obtain ⟨v, s1, h1, h2⟩ := (Gen.succeedsWith_iff sampleDuplicateGlobalName.codegen sampleScope
    (fun _ s1 => decide (s1.NamedValues "g" = some ⟨1, .DoubleTy⟩))).1 (by decide)
  have h3 := of_decide_eq_true h2
  exact ⟨v, s1, h1, by decide,
    VariableExprAST_codegen_global "g" sampleScope ⟨0, "g", .DoubleTy⟩ (by decide) (by decide),
    h3, VariableExprAST_codegen_local "g" s1 ⟨1, .DoubleTy⟩ h3⟩

/-! ## A block that fails in a statement (C32) -/

theorem BlockAST_bindDefs_bound :
    ∀ (Def : List BindingAST) (AllocaTmp : List (Option AllocaInst)) (s : World),
      (BlockAST.bindDefs Def AllocaTmp).wp (fun r s1 => r.isSome = true →
        (∀ n, (s.NamedValues n).isSome = true → (s1.NamedValues n).isSome = true) ∧
        ∀ d ∈ Def, (s1.NamedValues d.getName).isSome = true) s
  | [], _, s => by
    simp only [BlockAST.bindDefs, Gen.wp_pure]
    exact fun _ => ⟨fun _ h => h, fun d hd => by simp at hd⟩
  | d :: Def, AllocaTmp, s => by
    simp only [BlockAST.bindDefs, Gen.wp_bind]
    intro r s1 h1
    have e1 : s1.NamedValues = s.NamedValues := (BindingAST_codegen_sameNV d).out _ _ _ h1
    cases r with
    | none => simp [Gen.wp_pure]
    | some boundval =>
      simp only [Gen.wp_bind, wp_getNamedValue, wp_setNamedValue]
      intro r s2 h2 hr
      obtain ⟨g1, g2⟩ := BlockAST_bindDefs_bound Def _ _ _ _ h2 hr
      have keep : ∀ n, (s.NamedValues n).isSome = true → (s2.NamedValues n).isSome = true := by
        intro n hn
        apply g1
        rw [World.setNamedValue_apply]
        split
        · rfl
        · rw [e1]; exact hn
      refine ⟨keep, ?_⟩
      intro d1 hd1
      rcases List.mem_cons.1 hd1 with rfl | hd1
      · apply g1
        rw [World.setNamedValue_apply, if_pos rfl]
        rfl
      · exact g2 d1 hd1

theorem StmtAST_codegenStmts_exprs_sameNV : ∀ (l : List ExprAST) (v : Option Value),
    Gen.Rel SameNamedValues (StmtAST.codegenStmts (l.map StmtAST.expr) v)
  | [], v => by simp only [List.map_nil, StmtAST.codegenStmts]; exact sameNV_pure _
  | e :: l, v => by
    simp only [List.map_cons, StmtAST.codegenStmts, StmtAST.codegen]
    apply sameNV_bind (ExprAST_codegen_sameNV e)
    intro r
    split
    · exact StmtAST_codegenStmts_exprs_sameNV l _
    · exact sameNV_pure _

/-- C32, evaluated on the code: the block `{ var x = 1; z }`, lowered where the body
of `def g()` starts, fails in its statement because `z` is undefined; `x` was
unbound before the call and is bound when the failure is returned, to the storage
the block allocated for it. -/
theorem C32_failed_block_leaves_binding :
    ∃ s1, sampleFailingBlock.codegen (bodyEntry sampleNoArgs) = some (none, s1) ∧
      (bodyEntry sampleNoArgs).NamedValues "x" = none ∧
      s1.NamedValues "x" = some ⟨0, .DoubleTy⟩ := by
  obtain ⟨s1, h1, h2⟩ := (Gen.failsWith_iff sampleFailingBlock.codegen (bodyEntry sampleNoArgs)
    (fun s1 => decide (s1.NamedValues "x" = some ⟨0, .DoubleTy⟩))).1 (by decide)
  exact ⟨s1, h1, by decide, of_decide_eq_true h2⟩

theorem bound_of_sameNV (n : String) {α : Type} {m : Gen α} (h : Gen.Rel SameNamedValues m) :
    Gen.Inv (Bound n) m :=
  ⟨fun s a s1 hs e => by
    have e1 : s1.NamedValues = s.NamedValues := h.out s a s1 e
    unfold Bound at *
    rw [e1]; exact hs⟩

theorem bound_setNamedValue (n m : String) (A : Option AllocaInst)
    (h : m = n → A.isSome = true) : Gen.Inv (Bound n) (setNamedValue m A) := by
  refine ⟨fun s a s1 hs e => ?_⟩
  have e1 : s1 = s.setNamedValue m A := by
    simp only [setNamedValue, Option.some.injEq, Prod.mk.injEq] at e
    exact e.2.symm
  subst e1
  unfold Bound at *
  rw [World.setNamedValue_apply]
  split
  · rename_i hn; exact h hn.symm
  · exact hs

theorem bound_getNamedValue_bind (n m : String) {β : Type}
    (rest : Option AllocaInst → Gen β)
    (h : ∀ old, (m = n → old.isSome = true) → Gen.Inv (Bound n) (rest old)) :
    Gen.Inv (Bound n) (getNamedValue m >>= rest) := by
  refine ⟨fun s b s1 hs e => ?_⟩
  rw [Gen.bind_of_eq (getNamedValue_apply m s)] at e
  exact (h (s.NamedValues m) (fun hm => by subst hm; exact hs)).out _ _ _ hs e

theorem Inv_bind_post {P : World → Prop} {α β : Type} {m : Gen α} {f : α → Gen β}
    (Q : α → Prop) (hm : Gen.Inv P m) (hq : ∀ s, P s → m.wp (fun a _ => Q a) s)
    (hf : ∀ a, Q a → Gen.Inv P (f a)) : Gen.Inv P (m >>= f) := by
  refine ⟨fun s b s1 hP h => ?_⟩
  cases hms : m s with
  | none => rw [Gen.bind_of_none hms] at h; cases h
  | some p =>
    obtain ⟨a, s2⟩ := p
    rw [Gen.bind_of_eq hms] at h
    exact (hf a (hq s hP a s2 hms)).out _ _ _ (hm.out _ _ _ hP hms) h

theorem VarBindingAST_codegen_number (Name : String) (x : Double) (s : World) :
    (VarBindingAST.codegen Name (some (.NumberExprAST x))).wp
      (fun r _ => r.isSome = true) s := by
  simp only [VarBindingAST.codegen, ExprAST.codegen, Gen.wp_bind, Gen.wp_pure,
    wp_GetInsertBlockParent, wp_CreateEntryBlockAlloca, CreateStore, wp_emitVoid]
  intros
  rfl

theorem bound_expr (n : String) (e : ExprAST) : Gen.Inv (Bound n) e.codegen :=
  bound_of_sameNV n (ExprAST_codegen_sameNV e)
theorem bound_assignment (n : String) (a : AssignmentAST) : Gen.Inv (Bound n) a.codegen :=
  bound_of_sameNV n (AssignmentAST_codegen_sameNV a)
theorem bound_binding (n : String) (b : BindingAST) : Gen.Inv (Bound n) b.codegen :=
  bound_of_sameNV n (BindingAST_codegen_sameNV b)
theorem bound_varBinding (n : String) (Name : String) (Val : Option ExprAST) :
    Gen.Inv (Bound n) (VarBindingAST.codegen Name Val) :=
  bound_of_sameNV n (VarBindingAST_codegen_sameNV Name Val)
theorem bound_getNamedGlobal (n : String) (m : String) : Gen.Inv (Bound n) (getNamedGlobal m) :=
  bound_of_sameNV n (sameNV_getNamedGlobal m)
theorem bound_LogErrorV (n : String) {α : Type} (m : String) :
    Gen.Inv (Bound n) (LogErrorV m : Gen (Option α)) :=
  bound_of_sameNV n (sameNV_LogErrorV m)
theorem bound_GetInsertBlockParent (n : String) : Gen.Inv (Bound n) GetInsertBlockParent :=
  bound_of_sameNV n sameNV_GetInsertBlockParent
theorem bound_GetInsertBlock (n : String) : Gen.Inv (Bound n) GetInsertBlock :=
  bound_of_sameNV n sameNV_GetInsertBlock
theorem bound_Create (n : String) (m : String) (p : Option Nat) :
    Gen.Inv (Bound n) (BasicBlock.Create m p) :=
  bound_of_sameNV n (sameNV_Create m p)
theorem bound_emitVoid (n : String) (i : Instr) : Gen.Inv (Bound n) (emitVoid i) :=
  bound_of_sameNV n (sameNV_emitVoid i)
theorem bound_Function_insert (n : String) (fn : Option Nat) (BB : Nat) :
    Gen.Inv (Bound n) (Function.insert fn BB) :=
  bound_of_sameNV n (sameNV_Function_insert fn BB)
theorem bound_SetInsertPoint (n : String) (BB : Nat) : Gen.Inv (Bound n) (SetInsertPoint BB) :=
  bound_of_sameNV n (sameNV_SetInsertPoint BB)
theorem bound_CreatePHI (n : String) : Gen.Inv (Bound n) CreatePHI :=
  bound_of_sameNV n sameNV_CreatePHI
theorem bound_addIncoming (n : String) (PN : PHINode) (V : Value) (BB : Nat) :
    Gen.Inv (Bound n) (PN.addIncoming V BB) :=
  bound_of_sameNV n (sameNV_addIncoming PN V BB)

/-- The values that the first loop of a block saved for the definitions `Def`: the
one saved for a definition of the name `n` is a binding. -/
theorem BlockAST_restore_bound (n : String) :
    ∀ (Def : List BindingAST) (AllocaTmp : List (Option AllocaInst)),
      List.Forall₂ (fun (d : BindingAST) (old : Option AllocaInst) =>
        d.getName = n → old.isSome = true) Def AllocaTmp →
      Gen.Inv (Bound n) (BlockAST.restore Def AllocaTmp)
  | [], _, _ => by simp only [BlockAST.restore]; exact Inv_pure _
  | _ :: _, [], _ => by simp only [BlockAST.restore]; exact Inv_pure _
  | d :: Def, old :: AllocaTmp, h => by
    simp only [BlockAST.restore]
    cases h with
    | cons h1 h2 =>
      exact Inv_bind (bound_setNamedValue _ _ _ h1) fun _ => BlockAST_restore_bound n Def AllocaTmp h2

theorem BlockAST_bindDefs_saved (n : String) :
    ∀ (Def : List BindingAST) (AllocaTmp : List (Option AllocaInst)) (s : World), Bound n s →
      (BlockAST.bindDefs Def AllocaTmp).wp (fun r s1 => Bound n s1 ∧ ∀ l, r = some l →
        ∃ saved, l = AllocaTmp ++ saved ∧
          List.Forall₂ (fun (d : BindingAST) (old : Option AllocaInst) =>
            d.getName = n → old.isSome = true) Def saved) s
  | [], AllocaTmp, s, hs => by
    simp only [BlockAST.bindDefs, Gen.wp_pure, Option.some.injEq]
    exact ⟨hs, fun l hl => ⟨[], by simp [hl], List.Forall₂.nil⟩⟩
  | d :: Def, AllocaTmp, s, hs => by
    simp only [BlockAST.bindDefs, Gen.wp_bind]
    intro r s1 h1
    have e1 : s1.NamedValues = s.NamedValues := (BindingAST_codegen_sameNV d).out _ _ _ h1
    have hs1 : Bound n s1 := by unfold Bound at *; rw [e1]; exact hs
    cases r with
    | none => simp only [Gen.wp_pure]; exact ⟨hs1, fun l hl => by cases hl⟩
    | some boundval =>
      simp only [Gen.wp_bind, wp_getNamedValue, wp_setNamedValue]
      have hs2 : Bound n (s1.setNamedValue d.getName (some boundval)) := by
        unfold Bound at *
        rw [World.setNamedValue_apply]
        split
        · rfl
        · exact hs1
      refine Gen.wp_mono (BlockAST_bindDefs_saved n Def _ _ hs2) ?_
      intro r s2 ⟨g1, g2⟩
      refine ⟨g1, fun l hl => ?_⟩
      obtain ⟨saved, e, hsaved⟩ := g2 l hl
      refine ⟨s1.NamedValues d.getName :: saved, by simp [e], List.Forall₂.cons ?_ hsaved⟩
      intro hd
      rw [hd]
      exact hs1

mutual
theorem StmtAST_codegen_bound (n : String) : ∀ st : StmtAST, Gen.Inv (Bound n) st.codegen
  | .expr e => by
    simp only [StmtAST.codegen]; exact bound_of_sameNV _ (ExprAST_codegen_sameNV e)
  | .assignment a => by
    simp only [StmtAST.codegen]; exact bound_of_sameNV _ (AssignmentAST_codegen_sameNV a)
  | .BlockAST Def Stmts => by
    have hS := fun v => StmtAST_codegenStmts_bound n Stmts v
    simp only [StmtAST.codegen]
    refine Inv_bind_post (fun r => ∀ l, r = some l →
      List.Forall₂ (fun (d : BindingAST) (old : Option AllocaInst) =>
        d.getName = n → old.isSome = true) Def l)
      ⟨fun s a s1 hs e => (BlockAST_bindDefs_saved n Def [] s hs a s1 e).1⟩ ?_ ?_
    · intro s hs a s1 e l hl
      obtain ⟨saved, e1, h1⟩ := (BlockAST_bindDefs_saved n Def [] s hs a s1 e).2 l hl
      rw [e1]
      exact h1
    · intro r hr
      cases r with
      | none => exact Inv_pure _
      | some AllocaTmp =>
        simp only []
        apply Inv_bind (hS _)
        intro r
        cases r with
        | none => exact Inv_pure _
        | some blockvalue =>
          simp only []
          apply Inv_bind (BlockAST_restore_bound n Def AllocaTmp (hr _ rfl))
          intro _
          exact Inv_bind (Inv_deref _) fun _ => Inv_pure _
  | .IfStmtAST CondExpr TrueStmt (some ElseStmt) => by
    have hB := StmtAST_codegen_bound n TrueStmt
    have hE := StmtAST_codegen_bound n ElseStmt
    simp only [StmtAST.codegen, CreateCondBr, CreateBr]
    repeat' first
      | exact hE
      | exact Inv_pure _
      | exact Inv_deref _
      | exact hB
      | exact bound_expr _ _
      | exact bound_assignment _ _
      | exact bound_binding _ _
      | exact bound_varBinding _ _ _
      | exact bound_getNamedGlobal _ _
      | exact bound_LogErrorV _ _
      | exact bound_GetInsertBlockParent _
      | exact bound_GetInsertBlock _
      | exact bound_Create _ _ _
      | exact bound_emitVoid _ _
      | exact bound_Function_insert _ _ _
      | exact bound_SetInsertPoint _ _
      | exact bound_CreatePHI _
      | exact bound_addIncoming _ _ _ _
      | exact bound_setNamedValue _ _ _ (fun _ => rfl)
      | exact bound_setNamedValue _ _ _ (by assumption)
      | exact bound_setNamedValue _ _ _ (fun _ => by assumption)
      | apply bound_getNamedValue_bind
      | apply Inv_bind
      | intro _
      | split
  | .IfStmtAST CondExpr TrueStmt none => by
    have hB := StmtAST_codegen_bound n TrueStmt
    simp only [StmtAST.codegen, CreateCondBr, CreateBr]
    repeat' first
      | exact Inv_pure _
      | exact Inv_deref _
      | exact hB
      | exact bound_expr _ _
      | exact bound_assignment _ _
      | exact bound_binding _ _
      | exact bound_varBinding _ _ _
      | exact bound_getNamedGlobal _ _
      | exact bound_LogErrorV _ _
      | exact bound_GetInsertBlockParent _
      | exact bound_GetInsertBlock _
      | exact bound_Create _ _ _
      | exact bound_emitVoid _ _
      | exact bound_Function_insert _ _ _
      | exact bound_SetInsertPoint _ _
      | exact bound_CreatePHI _
      | exact bound_addIncoming _ _ _ _
      | exact bound_setNamedValue _ _ _ (fun _ => rfl)
      | exact bound_setNamedValue _ _ _ (by assumption)
      | exact bound_setNamedValue _ _ _ (fun _ => by assumption)
      | apply bound_getNamedValue_bind
      | apply Inv_bind
      | intro _
      | split
  | .ForStmtAST (.assignment a) CondExpr AssignExpr BodyStmt => by
    have hB := StmtAST_codegen_bound n BodyStmt
    simp only [StmtAST.codegen, CreateCondBr, CreateBr]
    repeat' first
      | exact Inv_pure _
      | exact Inv_deref _
      | exact hB
      | exact bound_expr _ _
      | exact bound_assignment _ _
      | exact bound_binding _ _
      | exact bound_varBinding _ _ _
      | exact bound_getNamedGlobal _ _
      | exact bound_LogErrorV _ _
      | exact bound_GetInsertBlockParent _
      | exact bound_GetInsertBlock _
      | exact bound_Create _ _ _
      | exact bound_emitVoid _ _
      | exact bound_Function_insert _ _ _
      | exact bound_SetInsertPoint _ _
      | exact bound_CreatePHI _
      | exact bound_addIncoming _ _ _ _
      | exact bound_setNamedValue _ _ _ (fun _ => rfl)
      | exact bound_setNamedValue _ _ _ (by assumption)
      | exact bound_setNamedValue _ _ _ (fun _ => by assumption)
      | apply bound_getNamedValue_bind
      | apply Inv_bind
      | intro _
      | split
  | .ForStmtAST (.binding b) CondExpr AssignExpr BodyStmt => by
    have hB := StmtAST_codegen_bound n BodyStmt
    simp only [StmtAST.codegen, CreateCondBr, CreateBr]
    refine Inv_bind_post (fun r => ∀ old, r = some old → b.getName = n → old.isSome = true)
      ?_ ?_ ?_
    · repeat' first
        | exact Inv_pure _
        | exact Inv_deref _
        | exact hB
        | exact bound_expr _ _
        | exact bound_assignment _ _
        | exact bound_binding _ _
        | exact bound_varBinding _ _ _
        | exact bound_getNamedGlobal _ _
        | exact bound_LogErrorV _ _
        | exact bound_GetInsertBlockParent _
        | exact bound_GetInsertBlock _
        | exact bound_Create _ _ _
        | exact bound_emitVoid _ _
        | exact bound_Function_insert _ _ _
        | exact bound_SetInsertPoint _ _
        | exact bound_CreatePHI _
        | exact bound_addIncoming _ _ _ _
        | exact bound_setNamedValue _ _ _ (fun _ => rfl)
        | exact bound_setNamedValue _ _ _ (by assumption)
        | exact bound_setNamedValue _ _ _ (fun _ => by assumption)
        | apply bound_getNamedValue_bind
        | apply Inv_bind
        | intro _
        | split
    · intro s hs
      simp only [Gen.wp_bind]
      intro r s1 h1
      have e1 : s1.NamedValues = s.NamedValues := (BindingAST_codegen_sameNV b).out _ _ _ h1
      cases r with
      | none => simp [Gen.wp_pure]
      | some boundval =>
        simp only [Gen.wp_bind, Gen.wp_pure, wp_getNamedValue, wp_setNamedValue,
          Option.some.injEq, forall_eq']
        intro hb
        rw [e1, hb]
        exact hs
    · intro r hr
      refine Inv_bind_post (fun x => x = r) (Inv_pure _)
        (fun s _ => by simp [Gen.wp_pure]) ?_
      intro x hx
      subst hx
      cases x with
      | none => exact Inv_pure _
      | some tmpAlloca =>
        have hq : b.getName = n → tmpAlloca.isSome = true := hr _ rfl
        clear hr
        simp only []
        repeat' first
          | exact Inv_pure _
          | exact Inv_deref _
          | exact hB
          | exact bound_expr _ _
          | exact bound_assignment _ _
          | exact bound_binding _ _
          | exact bound_varBinding _ _ _
          | exact bound_getNamedGlobal _ _
          | exact bound_LogErrorV _ _
          | exact bound_GetInsertBlockParent _
          | exact bound_GetInsertBlock _
          | exact bound_Create _ _ _
          | exact bound_emitVoid _ _
          | exact bound_Function_insert _ _ _
          | exact bound_SetInsertPoint _ _
          | exact bound_CreatePHI _
          | exact bound_addIncoming _ _ _ _
          | exact bound_setNamedValue _ _ _ (fun _ => rfl)
          | exact bound_setNamedValue _ _ _ (by assumption)
          | exact bound_setNamedValue _ _ _ (fun _ => by assumption)
          | apply bound_getNamedValue_bind
          | apply Inv_bind
          | intro _
          | split
  | .WhileStmtAST CondExpr BodyStmt => by
    have hB := StmtAST_codegen_bound n BodyStmt
    simp only [StmtAST.codegen, CreateCondBr, CreateBr]
    repeat' first
      | exact Inv_pure _
      | exact Inv_deref _
      | exact hB
      | exact bound_expr _ _
      | exact bound_assignment _ _
      | exact bound_binding _ _
      | exact bound_varBinding _ _ _
      | exact bound_getNamedGlobal _ _
      | exact bound_LogErrorV _ _
      | exact bound_GetInsertBlockParent _
      | exact bound_GetInsertBlock _
      | exact bound_Create _ _ _
      | exact bound_emitVoid _ _
      | exact bound_Function_insert _ _ _
      | exact bound_SetInsertPoint _ _
      | exact bound_CreatePHI _
      | exact bound_addIncoming _ _ _ _
      | exact bound_setNamedValue _ _ _ (fun _ => rfl)
      | exact bound_setNamedValue _ _ _ (by assumption)
      | exact bound_setNamedValue _ _ _ (fun _ => by assumption)
      | apply bound_getNamedValue_bind
      | apply Inv_bind
      | intro _
      | split
  | .DoWhileStmtAST BodyStmt CondExpr => by
    have hB := StmtAST_codegen_bound n BodyStmt
    simp only [StmtAST.codegen, CreateCondBr, CreateBr]
    repeat' first
      | exact Inv_pure _
      | exact Inv_deref _
      | exact hB
      | exact bound_expr _ _
      | exact bound_assignment _ _
      | exact bound_binding _ _
      | exact bound_varBinding _ _ _
      | exact bound_getNamedGlobal _ _
      | exact bound_LogErrorV _ _
      | exact bound_GetInsertBlockParent _
      | exact bound_GetInsertBlock _
      | exact bound_Create _ _ _
      | exact bound_emitVoid _ _
      | exact bound_Function_insert _ _ _
      | exact bound_SetInsertPoint _ _
      | exact bound_CreatePHI _
      | exact bound_addIncoming _ _ _ _
      | exact bound_setNamedValue _ _ _ (fun _ => rfl)
      | exact bound_setNamedValue _ _ _ (by assumption)
      | exact bound_setNamedValue _ _ _ (fun _ => by assumption)
      | apply bound_getNamedValue_bind
      | apply Inv_bind
      | intro _
      | split
  | .ForEachStmtAST IterName ArrayName BodyStmt => by
    have hB := StmtAST_codegen_bound n BodyStmt
    simp only [StmtAST.codegen, CreateCondBr, CreateBr]
    repeat' first
      | exact Inv_bind_post (fun r => r.isSome = true)
          (bound_varBinding _ _ _)
          (fun s _ => VarBindingAST_codegen_number _ _ s) (fun _ _ => by
            repeat' first
              | exact Inv_pure _
              | exact hB
              | exact bound_expr _ _
              | exact bound_assignment _ _
              | exact bound_varBinding _ _ _
              | exact bound_getNamedGlobal _ _
              | exact bound_LogErrorV _ _
              | exact bound_GetInsertBlock _
              | exact bound_emitVoid _ _
              | exact bound_Function_insert _ _ _
              | exact bound_SetInsertPoint _ _
              | exact bound_setNamedValue _ _ _ (fun _ => rfl)
              | exact bound_setNamedValue _ _ _ (by assumption)
              | exact bound_setNamedValue _ _ _ (fun _ => by assumption)
              | apply bound_getNamedValue_bind
              | apply Inv_bind
              | intro _
              | split)
      | exact Inv_pure _
      | exact Inv_deref _
      | exact hB
      | exact bound_expr _ _
      | exact bound_assignment _ _
      | exact bound_binding _ _
      | exact bound_varBinding _ _ _
      | exact bound_getNamedGlobal _ _
      | exact bound_LogErrorV _ _
      | exact bound_GetInsertBlockParent _
      | exact bound_GetInsertBlock _
      | exact bound_Create _ _ _
      | exact bound_emitVoid _ _
      | exact bound_Function_insert _ _ _
      | exact bound_SetInsertPoint _ _
      | exact bound_CreatePHI _
      | exact bound_addIncoming _ _ _ _
      | exact bound_setNamedValue _ _ _ (fun _ => rfl)
      | exact bound_setNamedValue _ _ _ (by assumption)
      | exact bound_setNamedValue _ _ _ (fun _ => by assumption)
      | apply bound_getNamedValue_bind
      | apply Inv_bind
      | intro _

theorem StmtAST_codegenStmts_bound (n : String) :
    ∀ (l : List StmtAST) (v : Option Value), Gen.Inv (Bound n) (StmtAST.codegenStmts l v)
  | [], v => by simp only [StmtAST.codegenStmts]; exact Inv_pure _
  | st :: Stmts, v => by
    have h1 := StmtAST_codegen_bound n st
    have h2 := fun v => StmtAST_codegenStmts_bound n Stmts v
    simp only [StmtAST.codegenStmts]
    repeat' first
      | exact Inv_pure _
      | exact h1
      | exact h2 _
      | apply Inv_bind
      | intro _
      | split
end

/-- C32 as amended: when the definitions of a block have been bound, leaving state
`s1`, and the lowering of its statements fails, leaving state `s2`, the block
returns the failure in `s2`: the restore loop is not run and no entry of the
symbol table is written back. After the definitions every name the block defines
is bound, and each of these names is bound when the failure is returned, whatever
the statements are (a statement binds names and restores bindings, but never
leaves a bound name unbound). When the statements are expressions the symbol
table on return is the one the definitions left, so each of these names is still
bound to storage of the block. -/
theorem C32_failed_statement_skips_restore (Def : List BindingAST) (Stmts : List StmtAST)
    (s : World) (AllocaTmp : List (Option AllocaInst)) (s1 s2 : World)
    (hdefs : BlockAST.bindDefs Def [] s = some (some AllocaTmp, s1))
    (hfail : StmtAST.codegenStmts Stmts none s1 = some (none, s2)) :
    (StmtAST.BlockAST Def Stmts).codegen s = some (none, s2) ∧
    (∀ d ∈ Def, (s1.NamedValues d.getName).isSome = true) ∧
    (∀ d ∈ Def, (s2.NamedValues d.getName).isSome = true) ∧
    (∀ es : List ExprAST, Stmts = es.map StmtAST.expr → s2.NamedValues = s1.NamedValues) := by
  have hb := (BlockAST_bindDefs_bound Def [] s _ _ hdefs rfl).2
  refine ⟨?_, hb, ?_, ?_⟩
  · simp only [StmtAST.codegen]
    rw [Gen.bind_of_eq hdefs]
    simp only []
    rw [Gen.bind_of_eq hfail]
    rfl
  · intro d hd
    exact (StmtAST_codegenStmts_bound d.getName Stmts none).out _ _ _ (hb d hd) hfail
  · intro es hes
    subst hes
    exact (StmtAST_codegenStmts_exprs_sameNV es none).out _ _ _ hfail

/-- C32 as amended, at a concrete input: the block `{ var x = 1; z }` where the
body of `def g()` starts. The definitions leave `x` bound, the statement `z`
fails, the block returns the failure, and `x` is bound in the state returned. -/
theorem C32_failed_statement_skips_restore_witness :
    ∃ s1 s2, BlockAST.bindDefs [.VarBindingAST "x" (some (.NumberExprAST 1))] []
        (bodyEntry sampleNoArgs) = some (some [none], s1) ∧
      sampleFailingBlock.codegen (bodyEntry sampleNoArgs) = some (none, s2) ∧
      s2.NamedValues = s1.NamedValues ∧ (s1.NamedValues "x").isSome = true ∧
      (s2.NamedValues "x").isSome = true := by
  have hs : (BlockAST.bindDefs [.VarBindingAST "x" (some (.NumberExprAST 1))] []
      (bodyEntry sampleNoArgs)).isSome = true := by decide
  obtain ⟨p, hp⟩ := Option.isSome_iff_exists.1 hs
  have ht : (BlockAST.bindDefs [.VarBindingAST "x" (some (.NumberExprAST 1))] []
      (bodyEntry sampleNoArgs)).all (fun p => decide (p.1 = some [none])) = true := by decide
  rw [hp] at ht
  obtain ⟨r, s1⟩ := p
  obtain rfl : r = some [none] := of_decide_eq_true ht
  have hf : Gen.failsWith (StmtAST.codegenStmts [.expr (.VariableExprAST "z")] none) s1
      (fun _ => true) = true := by
    have e : s1 = scopeAfter [.VarBindingAST "x" (some (.NumberExprAST 1))]
        (bodyEntry sampleNoArgs) := by
      simp only [scopeAfter, hp]
    rw [e]
    decide
  obtain ⟨s2, h2, _⟩ := (Gen.failsWith_iff _ s1 (fun _ => true)).1 hf
  obtain ⟨g1, g2, g3, g4⟩ := C32_failed_statement_skips_restore
    [.VarBindingAST "x" (some (.NumberExprAST 1))] [.expr (.VariableExprAST "z")]
    (bodyEntry sampleNoArgs) [none] s1 s2 hp h2
  exact ⟨s1, s2, hp, g1, g4 [.VariableExprAST "z"] rfl, g2 _ (List.mem_singleton.2 rfl),
    g3 _ (List.mem_singleton.2 rfl)⟩

/-! ## Order of the definitions of a block and its value (C36) -/

theorem installed_of_not_defined : ∀ (Def : List BindingAST) (As : List AllocaInst)
    (nv : String → Option AllocaInst) (n : String), n ∉ Def.map BindingAST.getName →
    installed Def As nv n = nv n
  | [], _, _, _, _ => rfl
  | _ :: _, [], _, _, _ => rfl
  | d :: Def, A :: As, nv, n, h => by
    simp only [List.map_cons, List.mem_cons, not_or] at h
    rw [installed, installed_of_not_defined Def As _ n h.2, Function.update_noteq h.1]

theorem DefinedInOrder_namedValues : ∀ (Def : List BindingAST) (s : World)
    (As : List AllocaInst) (s1 : World), DefinedInOrder Def s As s1 →
    s1.NamedValues = installed Def As s.NamedValues ∧ As.length = Def.length
  | [], s, As, s1, h => by
    obtain ⟨rfl, rfl⟩ := h
    exact ⟨rfl, rfl⟩
  | d :: Def, s, As, s1, h => by
    obtain ⟨A, s2, As1, h1, h2, rfl⟩ := h
    have e : s2.NamedValues = s.NamedValues := (BindingAST_codegen_sameNV d).out _ _ _ h1
    obtain ⟨g1, g2⟩ := DefinedInOrder_namedValues Def _ As1 s1 h2
    refine ⟨?_, by simp [g2]⟩
    rw [g1, installed]
    simp only [World.setNamedValue, e]

theorem BlockAST_bindDefs_defined :
    ∀ (Def : List BindingAST) (AllocaTmp : List (Option AllocaInst)) (s : World),
      (BlockAST.bindDefs Def AllocaTmp).wp (fun r s1 => r.isSome = true →
        ∃ As, DefinedInOrder Def s As s1) s
  | [], _, s => by
    simp only [BlockAST.bindDefs, Gen.wp_pure]
    exact fun _ => ⟨[], rfl, rfl⟩
  | d :: Def, AllocaTmp, s => by
    simp only [BlockAST.bindDefs, Gen.wp_bind]
    intro r s1 h1
    cases r with
    | none => simp [Gen.wp_pure]
    | some boundval =>
      simp only [Gen.wp_bind, wp_getNamedValue, wp_setNamedValue]
      intro r s2 h2 hr
      obtain ⟨As, g⟩ := BlockAST_bindDefs_defined Def _ _ _ _ h2 hr
      exact ⟨boundval :: As, boundval, s1, As, h1, g, rfl⟩

theorem DefinedInOrder_split : ∀ (pre : List BindingAST) (d : BindingAST)
    (post : List BindingAST) (s : World) (As : List AllocaInst) (s1 : World),
    DefinedInOrder (pre ++ d :: post) s As s1 →
    ∃ Apre sd A s2 Apost, DefinedInOrder pre s Apre sd ∧ d.codegen sd = some (some A, s2) ∧
      DefinedInOrder post (s2.setNamedValue d.getName (some A)) Apost s1 ∧
      As = Apre ++ A :: Apost
  | [], d, post, s, As, s1, h => by
    obtain ⟨A, s2, As1, h1, h2, rfl⟩ := h
    exact ⟨[], s, A, s2, As1, ⟨rfl, rfl⟩, h1, h2, rfl⟩
  | p :: pre, d, post, s, As, s1, h => by
    obtain ⟨Ap, sp, As1, h1, h2, rfl⟩ := h
    obtain ⟨Apre, sd, A, s2, Apost, g1, g2, g3, rfl⟩ :=
      DefinedInOrder_split pre d post _ As1 s1 h2
    exact ⟨Ap :: Apre, sd, A, s2, Apost, ⟨Ap, sp, Apre, h1, g1, rfl⟩, g2, g3, rfl⟩

theorem VarBindingAST_codegen_initializer (Name : String) (Val : ExprAST) (s : World) :
    (VarBindingAST.codegen Name (some Val)).wp (fun r _ => r.isSome = true →
      ∃ v s2, Val.codegen s = some (some v, s2)) s := by
  simp only [VarBindingAST.codegen, Gen.wp_bind, wp_GetInsertBlockParent]
  intro c hc r s1 h1
  cases r with
  | none => simp [Gen.wp_pure]
  | some BoundVal =>
    simp only [Gen.wp_bind, Gen.wp_pure, wp_CreateEntryBlockAlloca, CreateStore, wp_emitVoid]
    intro f1 e _ _ _
    exact ⟨BoundVal, s1, h1⟩

theorem StmtAST_codegenStmts_last : ∀ (init : List StmtAST) (last : StmtAST)
    (bv : Option Value) (s : World),
    (StmtAST.codegenStmts (init ++ [last]) bv).wp (fun r s1 => ∀ w, r = some w →
      ∃ v w0 sa, w = some v ∧ StmtAST.codegenStmts init bv s = some (some w0, sa) ∧
        last.codegen sa = some (some v, s1)) s
  | [], last, bv, s => by
    simp only [List.nil_append, StmtAST.codegenStmts, Gen.wp_bind]
    intro r s1 h1
    cases r with
    | none => simp [Gen.wp_pure]
    | some v =>
      simp only [Gen.wp_pure, Option.some.injEq]
      intro w hw
      exact ⟨v, bv, s, hw.symm, rfl, h1⟩
  | st :: init, last, bv, s => by
    simp only [List.cons_append, StmtAST.codegenStmts, Gen.wp_bind]
    intro r s1 h1
    cases r with
    | none => simp [Gen.wp_pure]
    | some v =>
      simp only []
      refine Gen.wp_mono (StmtAST_codegenStmts_last init last (some v) s1) ?_
      intro r s2 hr w hw
      obtain ⟨v1, w0, sa, g1, g2, g3⟩ := hr w hw
      refine ⟨v1, w0, sa, g1, ?_, g3⟩
      rw [Gen.bind_of_eq h1]
      exact g2

theorem BlockAST_codegen_success (Def : List BindingAST) (Stmts : List StmtAST) (s : World) :
    (StmtAST.BlockAST Def Stmts).codegen.wp (fun r s1 => ∀ v, r = some v →
      ∃ AllocaTmp sd ss, BlockAST.bindDefs Def [] s = some (some AllocaTmp, sd) ∧
        StmtAST.codegenStmts Stmts none sd = some (some (some v), ss) ∧
        BlockAST.restore Def AllocaTmp ss = some ((), s1)) s := by
  simp only [StmtAST.codegen, Gen.wp_bind]
  intro r sd h1
  cases r with
  | none => simp [Gen.wp_pure]
  | some AllocaTmp =>
    simp only [Gen.wp_bind]
    intro r ss h2
    cases r with
    | none => simp [Gen.wp_pure]
    | some blockvalue =>
      simp only [Gen.wp_bind]
      intro r s3 h3
      simp only [Gen.wp_deref, Gen.wp_pure, Option.some.injEq]
      intro a ha v hv
      subst ha hv
      exact ⟨AllocaTmp, sd, ss, h1, h2, h3⟩

/-- C36: when the lowering of a block, called in state `s`, succeeds with value `v`
in state `s1`, its three loops ran one after the other: the definitions from `s`
to `sd`, the statements from `sd` to `ss` with value `v`, the restore from `ss` to
`s1`. The definitions have been lowered in order. The definition `d` that follows
the definitions `pre` is lowered in the state `sp` in which the names of `pre`
are installed, each bound to the storage its definition returned: the symbol
table of `sp` is the one of the call with these bindings, so a name that `pre` does
not define, the own name of `d` included, resolves in `sp` as it did when the
block was entered. The initialiser of a scalar definition `d` is lowered in `sp`,
the name of `d` is installed after `d` has been lowered, and the definitions
`post` after `d` are lowered from there to `sd`. When the statement list is not
empty, the statements before the last one are lowered from `sd` to a state `sa`,
the last statement is lowered in `sa`, ends in `ss`, and the value it returns is
the value `v` of the block. -/
theorem C36_block_definitions_and_value (Def : List BindingAST) (Stmts : List StmtAST)
    (s : World) (v : Value) (s1 : World)
    (h : (StmtAST.BlockAST Def Stmts).codegen s = some (some v, s1)) :
    ∃ AllocaTmp sd ss, BlockAST.bindDefs Def [] s = some (some AllocaTmp, sd) ∧
      StmtAST.codegenStmts Stmts none sd = some (some (some v), ss) ∧
      BlockAST.restore Def AllocaTmp ss = some ((), s1) ∧
      (∀ pre d post, Def = pre ++ d :: post →
        ∃ Apre sp A s2, DefinedInOrder pre s Apre sp ∧
          sp.NamedValues = installed pre Apre s.NamedValues ∧
          (∀ n, n ∉ pre.map BindingAST.getName → sp.NamedValues n = s.NamedValues n) ∧
          d.codegen sp = some (some A, s2) ∧
          (∀ n e, d = .VarBindingAST n (some e) → ∃ w se, e.codegen sp = some (some w, se)) ∧
          ∃ Apost, DefinedInOrder post (s2.setNamedValue d.getName (some A)) Apost sd) ∧
      (∀ init last, Stmts = init ++ [last] →
        ∃ w sa, StmtAST.codegenStmts init none sd = some (some w, sa) ∧
          last.codegen sa = some (some v, ss)) := by
  obtain ⟨AllocaTmp, sd, ss, h1, h2, h3⟩ := BlockAST_codegen_success Def Stmts s _ _ h v rfl
  refine ⟨AllocaTmp, sd, ss, h1, h2, h3, ?_, ?_⟩
  · intro pre d post hdef
    subst hdef
    obtain ⟨As, hAs⟩ := BlockAST_bindDefs_defined _ _ _ _ _ h1 rfl
    obtain ⟨Apre, sp, A, s2, Apost, g1, g2, g3, _⟩ := DefinedInOrder_split pre d post s As sd hAs
    have e := (DefinedInOrder_namedValues pre s Apre sp g1).1
    refine ⟨Apre, sp, A, s2, g1, e, ?_, g2, ?_, ?_⟩
    · intro n hn
      rw [e, installed_of_not_defined pre Apre _ n hn]
    · intro n e1 hd
      subst hd
      exact VarBindingAST_codegen_initializer n e1 sp _ _ g2 rfl
    · exact ⟨Apost, g3⟩
  · intro init last hst
    subst hst
    obtain ⟨v1, w, sa, hw, hi, hl⟩ := StmtAST_codegenStmts_last init last none sd _ _ h2 _ rfl
    cases hw
    exact ⟨w, sa, hi, hl⟩

/-- C36 at a concrete input: the block `{ var y = 1; var a = a + y; 5; a }` in the
body of `f` of `global g; def f(a) { 0 }` succeeds. The definition of `a` is
lowered after `y` is installed and while `a` still resolves to the parameter; the
state after the definitions is the one in which the new `a` is installed, the
statement `5` is lowered in it, and the value of the block is the value that the
last statement `a` returns in the state after `5`. -/
theorem C36_block_definitions_and_value_witness :
    ∃ v s1, sampleShadowingBlock.codegen sampleScope = some (some v, s1) ∧
      ∃ AllocaTmp sd ss,
        BlockAST.bindDefs [.VarBindingAST "y" (some (.NumberExprAST 1)),
          .VarBindingAST "a" (some (.BinaryExprAST '+' (.VariableExprAST "a")
            (some (.VariableExprAST "y"))))] [] sampleScope = some (some AllocaTmp, sd) ∧
        BlockAST.restore [.VarBindingAST "y" (some (.NumberExprAST 1)),
          .VarBindingAST "a" (some (.BinaryExprAST '+' (.VariableExprAST "a")
            (some (.VariableExprAST "y"))))] AllocaTmp ss = some ((), s1) ∧
        (∃ Apre sp A s2,
          DefinedInOrder [.VarBindingAST "y" (some (.NumberExprAST 1))] sampleScope Apre sp ∧
          sp.NamedValues "a" = sampleScope.NamedValues "a" ∧
          (BindingAST.VarBindingAST "a" (some (.BinaryExprAST '+' (.VariableExprAST "a")
            (some (.VariableExprAST "y"))))).codegen sp = some (some A, s2) ∧
          (∃ w se, (ExprAST.BinaryExprAST '+' (.VariableExprAST "a")
            (some (.VariableExprAST "y"))).codegen sp = some (some w, se)) ∧
          sd = s2.setNamedValue "a" (some A)) ∧
        ∃ w sa, StmtAST.codegenStmts [.expr (.NumberExprAST 5)] none sd = some (some w, sa) ∧
          (StmtAST.expr (.VariableExprAST "a")).codegen sa = some (some v, ss) := by
  obtain ⟨v, s1, h1, _⟩ := (Gen.succeedsWith_iff sampleShadowingBlock.codegen sampleScope
    (fun _ _ => true)).1 (by decide)
  obtain ⟨AllocaTmp, sd, ss, g1, _, g3, g4, g5⟩ := C36_block_definitions_and_value _ _ _ _ _ h1
  obtain ⟨Apre, sp, A, s2, k1, _, k3, k4, k5, Apost, _, k6⟩ :=
    g4 [.VarBindingAST "y" (some (.NumberExprAST 1))] _ [] rfl
  exact ⟨v, s1, h1, AllocaTmp, sd, ss, g1, g3,
    ⟨Apre, sp, A, s2, k1, k3 "a" (by decide), k4, k5 _ _ rfl, k6⟩,
    g5 [.expr (.NumberExprAST 5)] _ rfl⟩

/-! ## Blocks that wait to be appended stay open -/

theorem Kept_insert {B : Nat} {s : World} (h : Kept B s) (i : Instr) : Kept B (s.insert i) :=
  ⟨by simpa using h.1, by simpa using h.2.1, by
    rw [World.insert_blocks_of_ne _ _ _ h.2.1]; exact h.2.2⟩

theorem Kept_emit {B : Nat} {s : World} (h : Kept B s) (mk : Nat → Instr) : Kept B (s.emit mk) :=
  ⟨by simpa using h.1, by simpa using h.2.1, by
    rw [World.emit_blocks_of_ne _ _ _ h.2.1]; exact h.2.2⟩

theorem Kept_entryAlloca {B : Nat} {s : World} (h : Kept B s) (e : Nat) (T : IRType)
    (n : String) : Kept B (s.entryAlloca e T n) := by
  refine ⟨by simpa using h.1, by simpa using h.2.1, ?_⟩
  rw [World.entryAlloca_insts]
  split
  · exact Unterminated_cons h.2.2 rfl
  · exact h.2.2

theorem Kept_addIncoming {B : Nat} {s : World} (h : Kept B s) (b id : Nat) (V : Value)
    (BB : Nat) : Kept B (s.addIncoming b id V BB) := by
  refine ⟨by simpa using h.1, by simpa using h.2.1, ?_⟩
  rw [World.addIncoming_insts]
  split
  · exact Unterminated_map_addIncoming _ _ _ h.2.2
  · exact h.2.2

theorem Kept_createBlock {B : Nat} {s : World} (h : Kept B s) (n : String) (p : Option Nat) :
    Kept B (s.createBlock n p) := by
  refine ⟨by simp; have := h.1; omega, by simpa using h.2.1, ?_⟩
  rw [World.createBlock_blocks, Function.update_noteq (Nat.ne_of_lt h.1)]
  exact h.2.2

theorem Kept_insertBlock {B : Nat} {s : World} (h : Kept B s) (f BB : Nat) :
    Kept B (s.insertBlock f BB) :=
  ⟨by simpa using h.1, by simpa using h.2.1, by rw [World.insertBlock_insts]; exact h.2.2⟩

theorem Kept_setInsertPoint {B : Nat} {s : World} (h : Kept B s) (BB : Nat) (hne : BB ≠ B) :
    Kept B (s.setInsertPoint BB) :=
  ⟨h.1, by simpa using hne, h.2.2⟩

theorem Kept_created (s : World) (c : Nat) (hc : s.InsertBlock = some c) (hlt : c < s.numBlocks)
    (n : String) (p : Option Nat) : Kept s.numBlocks (s.createBlock n p) := by
  refine ⟨by simp, by simp [hc]; omega, ?_⟩
  rw [World.createBlock_blocks, Function.update_same]
  exact Unterminated_nil

theorem kept_emitValue (B : Nat) (mk : Nat → Instr) : Gen.Inv (Kept B) (emitValue mk) :=
  Inv_of_wp fun s hs => by rw [wp_emitValue]; exact Kept_emit hs mk

theorem kept_emitVoid (B : Nat) (i : Instr) : Gen.Inv (Kept B) (emitVoid i) :=
  Inv_of_wp fun s hs => by rw [wp_emitVoid]; exact Kept_insert hs i

theorem kept_LogErrorV (B : Nat) {α : Type} (m : String) :
    Gen.Inv (Kept B) (LogErrorV m : Gen (Option α)) :=
  Inv_of_wp fun s hs => by rw [wp_LogErrorV]; exact hs

theorem kept_printOp (B : Nat) (Op : Char) : Gen.Inv (Kept B) (printOp Op) :=
  Inv_of_wp fun s hs => by rw [wp_printOp]; exact hs

theorem kept_getNamedValue (B : Nat) (n : String) : Gen.Inv (Kept B) (getNamedValue n) :=
  Inv_of_wp fun s hs => by rw [wp_getNamedValue]; exact hs

theorem kept_setNamedValue (B : Nat) (n : String) (A : Option AllocaInst) :
    Gen.Inv (Kept B) (setNamedValue n A) :=
  Inv_of_wp fun s hs => by rw [wp_setNamedValue]; exact hs

theorem kept_getNamedGlobal (B : Nat) (n : String) : Gen.Inv (Kept B) (getNamedGlobal n) :=
  Inv_of_wp fun s hs => by rw [wp_getNamedGlobal]; exact hs

theorem kept_getFunction (B : Nat) (n : String) : Gen.Inv (Kept B) (getFunction n) :=
  Inv_of_wp fun s hs => by rw [wp_getFunction]; exact hs

theorem kept_GetInsertBlockParent (B : Nat) : Gen.Inv (Kept B) GetInsertBlockParent :=
  Inv_of_wp fun s hs => by rw [wp_GetInsertBlockParent]; exact fun _ _ => hs

theorem kept_GetInsertBlock (B : Nat) : Gen.Inv (Kept B) GetInsertBlock :=
  Inv_of_wp fun s hs => by rw [wp_GetInsertBlock]; exact fun _ _ => hs

theorem kept_CreateEntryBlockAlloca (B : Nat) (fn : Option Nat) (n : String) (T : IRType) :
    Gen.Inv (Kept B) (CreateEntryBlockAlloca fn n T) :=
  Inv_of_wp fun s hs => by
    rw [wp_CreateEntryBlockAlloca]; exact fun _ e _ _ => Kept_entryAlloca hs e T n

theorem kept_CreatePHI (B : Nat) : Gen.Inv (Kept B) CreatePHI :=
  Inv_of_wp fun s hs => by rw [wp_CreatePHI]; exact Kept_emit hs _

theorem kept_addIncoming (B : Nat) (PN : PHINode) (V : Value) (BB : Nat) :
    Gen.Inv (Kept B) (PN.addIncoming V BB) :=
  Inv_of_wp fun s hs => by
    rw [wp_addIncoming]; exact ⟨fun _ => hs, fun b _ => Kept_addIncoming hs b _ V BB⟩

theorem kept_Function_insert (B : Nat) (fn : Option Nat) (BB : Nat) :
    Gen.Inv (Kept B) (Function.insert fn BB) :=
  Inv_of_wp fun s hs => by rw [wp_Function_insert]; exact fun f _ => Kept_insertBlock hs f BB

theorem kept_SetInsertPoint (B BB : Nat) (hne : BB ≠ B) : Gen.Inv (Kept B) (SetInsertPoint BB) :=
  Inv_of_wp fun s hs => by rw [wp_SetInsertPoint]; exact Kept_setInsertPoint hs BB hne

theorem kept_Create_bind (B : Nat) (n : String) (p : Option Nat) {β : Type}
    (rest : Nat → Gen β) (h : ∀ BB, B < BB → Gen.Inv (Kept B) (rest BB)) :
    Gen.Inv (Kept B) (BasicBlock.Create n p >>= rest) := by
  refine ⟨fun s b s1 hs e => ?_⟩
  rw [Gen.bind_of_eq (show BasicBlock.Create n p s = some (s.numBlocks, s.createBlock n p)
    from rfl)] at e
  exact (h s.numBlocks hs.1).out _ _ _ (Kept_createBlock hs n p) e

theorem kept_GetInsertBlock_bind (B : Nat) {β : Type} (rest : Nat → Gen β)
    (h : ∀ c, c ≠ B → Gen.Inv (Kept B) (rest c)) :
    Gen.Inv (Kept B) (GetInsertBlock >>= rest) := by
  refine ⟨fun s b s1 hs e => ?_⟩
  cases hc : s.InsertBlock with
  | none =>
    rw [Gen.bind_of_none (show GetInsertBlock s = none by simp [GetInsertBlock, hc])] at e
    cases e
  | some c =>
    rw [Gen.bind_of_eq (show GetInsertBlock s = some (c, s) by simp [GetInsertBlock, hc])] at e
    refine (h c ?_).out _ _ _ hs e
    intro hcB
    exact hs.2.1 (by rw [hc, hcB])

theorem VariableExprAST_codegen_kept (B : Nat) (Name : String) :
    Gen.Inv (Kept B) (VariableExprAST.codegen Name) := by
  simp only [VariableExprAST.codegen, CreateLoad]
  repeat' first
    | exact Inv_pure _
    | exact kept_getNamedValue _ _
    | exact kept_getNamedGlobal _ _
    | exact kept_LogErrorV _ _
    | exact kept_emitValue _ _
    | apply Inv_map
    | apply Inv_bind
    | intro _
    | split

theorem BinaryExprAST_emit_kept (B : Nat) (Op : Char) (L : Value) (R : Option Value) :
    Gen.Inv (Kept B) (BinaryExprAST.emit Op L R) := by
  unfold BinaryExprAST.emit
  simp only [CreateBinOp, CreateNot]
  repeat' first
    | exact Inv_pure _
    | exact Inv_deref _
    | exact kept_printOp _ _
    | exact kept_LogErrorV _ _
    | exact kept_emitValue _ _
    | apply Inv_map
    | apply Inv_bind
    | intro _
    | split

mutual
theorem ExprAST_codegen_kept (B : Nat) : ∀ e : ExprAST, Gen.Inv (Kept B) e.codegen
  | .NumberExprAST Val => by
    simp only [ExprAST.codegen]; exact Inv_pure _
  | .VariableExprAST Name => by
    simp only [ExprAST.codegen]; exact VariableExprAST_codegen_kept B Name
  | .BinaryExprAST Op LHS RHS => by
    have hL := ExprAST_codegen_kept B LHS
    have hR := ExprAST_codegenRHS_kept B RHS
    simp only [ExprAST.codegen]
    repeat' first
      | exact Inv_pure _
      | exact hL
      | exact hR
      | exact BinaryExprAST_emit_kept _ _ _ _
      | apply Inv_bind
      | intro _
      | split
  | .CallExprAST Callee Args => by
    have hA := ExprAST_codegenArgs_kept B Args
    simp only [ExprAST.codegen, CreateCall]
    repeat' first
      | exact Inv_pure _
      | exact hA
      | exact kept_getFunction _ _
      | exact kept_LogErrorV _ _
      | exact kept_emitValue _ _
      | apply Inv_bind
      | apply Inv_map
      | intro _
      | split
  | .ArrayExprAST Name Offset => by
    have hO := ExprAST_codegen_kept B Offset
    simp only [ExprAST.codegen, CreateFPTrunc, CreateFPToSI, CreateInBoundsGEP, CreateLoad]
    repeat' first
      | exact Inv_pure _
      | exact hO
      | exact kept_getNamedValue _ _
      | exact kept_getNamedGlobal _ _
      | exact kept_LogErrorV _ _
      | exact kept_emitValue _ _
      | apply Inv_bind
      | apply Inv_map
      | intro _
      | split
  | .IfExprAST Cond TrueExp FalseExp => by
    have hC := ExprAST_codegen_kept B Cond
    have hT := ExprAST_codegen_kept B TrueExp
    have hF := ExprAST_codegen_kept B FalseExp
    simp only [ExprAST.codegen, CreateCondBr, CreateBr]
    repeat' first
      | exact Inv_pure _
      | exact hC
      | exact hT
      | exact hF
      | exact kept_GetInsertBlockParent _
      | exact kept_GetInsertBlock _
      | exact kept_emitVoid _ _
      | exact kept_Function_insert _ _ _
      | exact kept_CreatePHI _
      | exact kept_addIncoming _ _ _ _
      | exact kept_SetInsertPoint _ _ (by omega)
      | apply kept_Create_bind
      | apply Inv_bind
      | intro _
      | split
theorem ExprAST_codegenRHS_kept (B : Nat) :
    ∀ o : Option ExprAST, Gen.Inv (Kept B) (ExprAST.codegenRHS o)
  | none => by simp only [ExprAST.codegenRHS]; exact Inv_pure _
  | some RHS => by simp only [ExprAST.codegenRHS]; exact ExprAST_codegen_kept B RHS
theorem ExprAST_codegenArgs_kept (B : Nat) :
    ∀ l : List ExprAST, Gen.Inv (Kept B) (ExprAST.codegenArgs l)
  | [] => by simp only [ExprAST.codegenArgs]; exact Inv_pure _
  | arg :: Args => by
    have h1 := ExprAST_codegen_kept B arg
    have h2 := ExprAST_codegenArgs_kept B Args
    simp only [ExprAST.codegenArgs]
    repeat' first
      | exact Inv_pure _
      | exact h1
      | exact h2
      | apply Inv_bind
      | intro _
      | split
end

theorem VarBindingAST_codegen_kept (B : Nat) (Name : String) (Val : Option ExprAST) :
    Gen.Inv (Kept B) (VarBindingAST.codegen Name Val) := by
  simp only [VarBindingAST.codegen, CreateStore]
  repeat' first
    | exact Inv_pure _
    | exact ExprAST_codegen_kept _ _
    | exact kept_GetInsertBlockParent _
    | exact kept_CreateEntryBlockAlloca _ _ _ _
    | exact kept_emitVoid _ _
    | apply Inv_bind
    | intro _
    | split

theorem ArrayBindingAST_boundValues_kept (B : Nat) (Values : List ExprAST) :
    ∀ l : List Nat, Gen.Inv (Kept B) (ArrayBindingAST.boundValues Values l)
  | [] => by simp only [ArrayBindingAST.boundValues]; exact Inv_pure _
  | i :: rest => by
    have h := ArrayBindingAST_boundValues_kept B Values rest
    simp only [ArrayBindingAST.boundValues]
    repeat' first
      | exact Inv_pure _
      | exact Inv_undefined
      | exact h
      | exact ExprAST_codegen_kept _ _
      | apply Inv_bind
      | intro _
      | split

theorem ArrayBindingAST_storeValues_kept (B : Nat) (Alloca : AllocaInst)
    (boundValues : List Value) :
    ∀ l : List Nat, Gen.Inv (Kept B) (ArrayBindingAST.storeValues Alloca boundValues l)
  | [] => by simp only [ArrayBindingAST.storeValues]; exact Inv_pure _
  | i :: rest => by
    have h := ArrayBindingAST_storeValues_kept B Alloca boundValues rest
    simp only [ArrayBindingAST.storeValues, CreateInBoundsGEP, CreateStore]
    repeat' first
      | exact Inv_pure _
      | exact h
      | exact Inv_deref _
      | exact kept_emitValue _ _
      | exact kept_emitVoid _ _
      | apply Inv_bind
      | intro _

theorem ArrayBindingAST_codegen_kept (B : Nat) (Name : String) (Size : Double)
    (Values : List ExprAST) : Gen.Inv (Kept B) (ArrayBindingAST.codegen Name Size Values) := by
  simp only [ArrayBindingAST.codegen]
  repeat' first
    | exact Inv_pure _
    | exact Inv_undefined
    | exact ArrayBindingAST_boundValues_kept _ _ _
    | exact ArrayBindingAST_storeValues_kept _ _ _ _
    | exact kept_GetInsertBlockParent _
    | exact kept_CreateEntryBlockAlloca _ _ _ _
    | apply Inv_bind
    | intro _
    | split

theorem BindingAST_codegen_kept (B : Nat) (b : BindingAST) : Gen.Inv (Kept B) b.codegen := by
  cases b with
  | VarBindingAST Name Val => exact VarBindingAST_codegen_kept B Name Val
  | ArrayBindingAST Name Size Values => exact ArrayBindingAST_codegen_kept B Name Size Values

theorem AssignmentAST_codegen_kept (B : Nat) (a : AssignmentAST) :
    Gen.Inv (Kept B) a.codegen := by
  simp only [AssignmentAST.codegen, CreateFPTrunc, CreateFPToSI, CreateInBoundsGEP, CreateStore]
  repeat' first
    | exact Inv_pure _
    | exact Inv_deref _
    | exact ExprAST_codegen_kept _ _
    | exact kept_getNamedValue _ _
    | exact kept_getNamedGlobal _ _
    | exact kept_LogErrorV _ _
    | exact kept_emitValue _ _
    | exact kept_emitVoid _ _
    | apply Inv_bind
    | intro _
    | split

theorem BlockAST_bindDefs_kept (B : Nat) :
    ∀ (Def : List BindingAST) (AllocaTmp : List (Option AllocaInst)),
      Gen.Inv (Kept B) (BlockAST.bindDefs Def AllocaTmp)
  | [], _ => by simp only [BlockAST.bindDefs]; exact Inv_pure _
  | d :: Def, AllocaTmp => by
    have h := fun l => BlockAST_bindDefs_kept B Def l
    simp only [BlockAST.bindDefs]
    repeat' first
      | exact Inv_pure _
      | exact h _
      | exact BindingAST_codegen_kept _ _
      | exact kept_getNamedValue _ _
      | exact kept_setNamedValue _ _ _
      | apply Inv_bind
      | intro _
      | split

theorem BlockAST_restore_kept (B : Nat) :
    ∀ (Def : List BindingAST) (AllocaTmp : List (Option AllocaInst)),
      Gen.Inv (Kept B) (BlockAST.restore Def AllocaTmp)
  | [], _ => by simp only [BlockAST.restore]; exact Inv_pure _
  | _ :: _, [] => by simp only [BlockAST.restore]; exact Inv_pure _
  | d :: Def, old :: AllocaTmp => by
    simp only [BlockAST.restore]
    exact Inv_bind (kept_setNamedValue _ _ _) fun _ => BlockAST_restore_kept B Def AllocaTmp

mutual
theorem StmtAST_codegen_kept (B : Nat) : ∀ st : StmtAST, Gen.Inv (Kept B) st.codegen
  | .expr e => by simp only [StmtAST.codegen]; exact ExprAST_codegen_kept B e
  | .assignment a => by simp only [StmtAST.codegen]; exact AssignmentAST_codegen_kept B a
  | .BlockAST Def Stmts => by
    have h := fun v => StmtAST_codegenStmts_kept B Stmts v
    simp only [StmtAST.codegen]
    repeat' first
      | exact Inv_pure _
      | exact Inv_deref _
      | exact h _
      | exact BlockAST_bindDefs_kept _ _ _
      | exact BlockAST_restore_kept _ _ _
      | apply Inv_bind
      | intro _
      | split
  | .IfStmtAST CondExpr TrueStmt (some ElseStmt) => by
    have hT := StmtAST_codegen_kept B TrueStmt
    have hE := StmtAST_codegen_kept B ElseStmt
    simp only [StmtAST.codegen, CreateCondBr, CreateBr]
    repeat' first
      | exact Inv_pure _
      | exact hT
      | exact hE
      | exact ExprAST_codegen_kept _ _
      | exact kept_GetInsertBlockParent _
      | exact kept_GetInsertBlock _
      | exact kept_emitVoid _ _
      | exact kept_Function_insert _ _ _
      | exact kept_CreatePHI _
      | exact kept_addIncoming _ _ _ _
      | exact kept_SetInsertPoint _ _ (by omega)
      | apply kept_Create_bind
      | apply Inv_bind
      | intro _
      | split
  | .IfStmtAST CondExpr TrueStmt none => by
    have hT := StmtAST_codegen_kept B TrueStmt
    simp only [StmtAST.codegen, CreateCondBr, CreateBr]
    repeat' first
      | exact Inv_pure _
      | exact hT
      | exact ExprAST_codegen_kept _ _
      | exact kept_GetInsertBlockParent _
      | exact kept_GetInsertBlock _
      | exact kept_emitVoid _ _
      | exact kept_Function_insert _ _ _
      | exact kept_CreatePHI _
      | exact kept_addIncoming _ _ _ _
      | exact kept_SetInsertPoint _ _ (by omega)
      | apply kept_Create_bind
      | apply Inv_bind
      | intro _
      | split
  | .ForStmtAST InitExp CondExpr AssignExpr BodyStmt => by
    have hB := StmtAST_codegen_kept B BodyStmt
    simp only [StmtAST.codegen, CreateCondBr, CreateBr]
    repeat' first
      | exact Inv_pure _
      | exact hB
      | exact ExprAST_codegen_kept _ _
      | exact AssignmentAST_codegen_kept _ _
      | exact BindingAST_codegen_kept _ _
      | exact kept_getNamedValue _ _
      | exact kept_setNamedValue _ _ _
      | exact kept_GetInsertBlockParent _
      | exact kept_GetInsertBlock _
      | exact kept_emitVoid _ _
      | exact kept_Function_insert _ _ _
      | exact kept_SetInsertPoint _ _ (by omega)
      | apply kept_Create_bind
      | apply Inv_bind
      | intro _
      | split
  | .WhileStmtAST CondExpr BodyStmt => by
    have hB := StmtAST_codegen_kept B BodyStmt
    simp only [StmtAST.codegen, CreateCondBr, CreateBr]
    repeat' first
      | exact Inv_pure _
      | exact hB
      | exact ExprAST_codegen_kept _ _
      | exact kept_GetInsertBlockParent _
      | exact kept_GetInsertBlock _
      | exact kept_emitVoid _ _
      | exact kept_Function_insert _ _ _
      | exact kept_SetInsertPoint _ _ (by omega)
      | apply kept_Create_bind
      | apply Inv_bind
      | intro _
      | split
  | .DoWhileStmtAST BodyStmt CondExpr => by
    have hB := StmtAST_codegen_kept B BodyStmt
    simp only [StmtAST.codegen, CreateCondBr, CreateBr]
    repeat' first
      | exact Inv_pure _
      | exact hB
      | exact ExprAST_codegen_kept _ _
      | exact kept_GetInsertBlockParent _
      | exact kept_GetInsertBlock _
      | exact kept_emitVoid _ _
      | exact kept_Function_insert _ _ _
      | exact kept_SetInsertPoint _ _ (by omega)
      | apply kept_Create_bind
      | apply Inv_bind
      | intro _
      | split
  | .ForEachStmtAST IterName ArrayName BodyStmt => by
    have hB := StmtAST_codegen_kept B BodyStmt
    simp only [StmtAST.codegen, CreateCondBr, CreateBr]
    repeat' first
      | exact Inv_pure _
      | exact hB
      | exact ExprAST_codegen_kept _ _
      | exact AssignmentAST_codegen_kept _ _
      | exact VarBindingAST_codegen_kept _ _ _
      | exact kept_getNamedValue _ _
      | exact kept_setNamedValue _ _ _
      | exact kept_getNamedGlobal _ _
      | exact kept_LogErrorV _ _
      | exact kept_GetInsertBlockParent _
      | exact kept_emitVoid _ _
      | exact kept_Function_insert _ _ _
      | exact kept_SetInsertPoint _ _ (by omega)
      | apply kept_Create_bind
      | apply kept_GetInsertBlock_bind
      | apply Inv_bind
      | intro _
      | split
theorem StmtAST_codegenStmts_kept (B : Nat) :
    ∀ (l : List StmtAST) (v : Option Value), Gen.Inv (Kept B) (StmtAST.codegenStmts l v)
  | [], v => by simp only [StmtAST.codegenStmts]; exact Inv_pure _
  | st :: Stmts, v => by
    have h1 := StmtAST_codegen_kept B st
    have h2 := fun v => StmtAST_codegenStmts_kept B Stmts v
    simp only [StmtAST.codegenStmts]
    repeat' first
      | exact Inv_pure _
      | exact h1
      | exact h2 _
      | apply Inv_bind
      | intro _
      | split
end

/-! ## The insertion block stays the open last block (C35) -/

theorem Kept_setNamedValue {B : Nat} {s : World} (h : Kept B s) (n : String)
    (A : Option AllocaInst) : Kept B (s.setNamedValue n A) := h

theorem AtOpenEnd_parent {f c : Nat} {s : World} (h : AtOpenEnd f s)
    (hc : s.InsertBlock = some c) : (s.blocks c).parent = some f := by
  obtain ⟨c1, hc1, _, hp, _⟩ := h
  obtain rfl : c1 = c := Option.some.inj (hc1.symm.trans hc)
  exact hp

theorem AtOpenEnd_lt {f c : Nat} {s : World} (h : AtOpenEnd f s)
    (hc : s.InsertBlock = some c) : c < s.numBlocks := by
  obtain ⟨c1, hc1, hlt, _⟩ := h
  obtain rfl : c1 = c := Option.some.inj (hc1.symm.trans hc)
  exact hlt

theorem AtOpenEnd_stays {f : Nat} {s s1 : World} (h : AtOpenEnd f s) (h2 : Stays s s1)
    (hu : ∀ c, s.InsertBlock = some c → Unterminated (s.blocks c).insts →
      Unterminated (s1.blocks c).insts) : AtOpenEnd f s1 := by
  obtain ⟨c, hc, hlt, hp, hl, hopen⟩ := h
  exact ⟨c, h2.InsertBlock.trans hc, by rw [h2.numBlocks]; exact hlt, (h2.parent c).trans hp,
    by rw [h2.functionBlocks]; exact hl, hu c hc hopen⟩

theorem AtOpenEnd_insert {f : Nat} {s : World} (h : AtOpenEnd f s) (i : Instr)
    (hi : i.isTerminator = false) : AtOpenEnd f (s.insert i) :=
  AtOpenEnd_stays h (Stays_insert s i) fun c hc hu => by
    rw [World.insert_insts_self _ _ _ hc]; exact Unterminated_append hu hi

theorem AtOpenEnd_emit {f : Nat} {s : World} (h : AtOpenEnd f s) (mk : Nat → Instr)
    (hi : ∀ n, (mk n).isTerminator = false) : AtOpenEnd f (s.emit mk) :=
  AtOpenEnd_stays h (Stays_emit s mk) fun c hc hu => by
    rw [World.emit_insts_self _ _ _ hc]; exact Unterminated_append hu (hi _)

theorem AtOpenEnd_entryAlloca {f : Nat} {s : World} (h : AtOpenEnd f s) (e : Nat) (T : IRType)
    (n : String) : AtOpenEnd f (s.entryAlloca e T n) :=
  AtOpenEnd_stays h (Stays_entryAlloca s e T n) fun c _ hu => by
    rw [World.entryAlloca_insts]
    split
    · exact Unterminated_cons hu rfl
    · exact hu

theorem AtOpenEnd_addIncoming {f : Nat} {s : World} (h : AtOpenEnd f s) (b id : Nat) (V : Value)
    (BB : Nat) : AtOpenEnd f (s.addIncoming b id V BB) :=
  AtOpenEnd_stays h (Stays_addIncoming s b id V BB) fun c _ hu => by
    rw [World.addIncoming_insts]
    split
    · exact Unterminated_map_addIncoming _ _ _ hu
    · exact hu

theorem AtOpenEnd_setNamedValue {f : Nat} {s : World} (h : AtOpenEnd f s) (n : String)
    (A : Option AllocaInst) : AtOpenEnd f (s.setNamedValue n A) := h

theorem AtOpenEnd_enter {f BB : Nat} {t : World} (hK : Kept BB t)
    (hp : (t.blocks BB).parent = some f) (hl : (t.functionBlocks f).getLast? = some BB) :
    AtOpenEnd f (t.setInsertPoint BB) :=
  ⟨BB, rfl, hK.1, hp, hl, hK.2.2⟩

theorem AtOpenEnd_next {f BB : Nat} {t : World} (hK : Kept BB t) (i : Instr) :
    AtOpenEnd f (((t.insert i).insertBlock f BB).setInsertPoint BB) := by
  refine AtOpenEnd_enter (Kept_insertBlock (Kept_insert hK i) f BB) ?_ ?_
  · rw [World.insertBlock_parent, if_pos rfl]
  · simp

theorem AtOpenEnd_next_swapped {f BB : Nat} {t : World} (hK : Kept BB t) (i : Instr) :
    AtOpenEnd f (((t.insertBlock f BB).insert i).setInsertPoint BB) := by
  refine AtOpenEnd_enter (Kept_insert (Kept_insertBlock hK f BB) i) ?_ ?_
  · rw [World.insert_parent, World.insertBlock_parent, if_pos rfl]
  · simp

theorem Kept_next {B : Nat} {t : World} (hK : Kept B t) (BB : Nat) (hne : BB ≠ B) (i : Instr)
    (f : Nat) :
    Kept B (((t.insert i).insertBlock f BB).setInsertPoint BB) :=
  Kept_setInsertPoint (Kept_insertBlock (Kept_insert hK i) f BB) BB hne

theorem Kept_next_swapped {B : Nat} {t : World} (hK : Kept B t) (BB : Nat) (hne : BB ≠ B)
    (i : Instr) (f : Nat) : Kept B (((t.insertBlock f BB).insert i).setInsertPoint BB) :=
  Kept_setInsertPoint (Kept_insert (Kept_insertBlock hK f BB) i) BB hne

theorem AtOpenEnd_enter3 {f c : Nat} {s : World} (hc : s.InsertBlock = some c)
    (hlt : c < s.numBlocks) (n1 n2 n3 : String) (i : Instr) :
    AtOpenEnd f (((((s.createBlock n1 (some f)).createBlock n2 none).createBlock n3 none).insert
        i).setInsertPoint s.numBlocks) ∧
      Kept (s.numBlocks + 1) (((((s.createBlock n1 (some f)).createBlock n2 none).createBlock n3
        none).insert i).setInsertPoint s.numBlocks) ∧
      Kept (s.numBlocks + 1 + 1) (((((s.createBlock n1 (some f)).createBlock n2 none).createBlock
        n3 none).insert i).setInsertPoint s.numBlocks) := by
  have k0 : Kept s.numBlocks ((((s.createBlock n1 (some f)).createBlock n2 none).createBlock n3
      none).insert i) :=
    Kept_insert (Kept_createBlock (Kept_createBlock (Kept_created s c hc hlt n1 _) n2 _) n3 _) i
  have k1 : Kept (s.numBlocks + 1) ((((s.createBlock n1 (some f)).createBlock n2
      none).createBlock n3 none).insert i) :=
    Kept_insert (Kept_createBlock (by
      simpa using Kept_created (s.createBlock n1 (some f)) c (by simpa using hc)
        (by simp; omega) n2 none) n3 _) i
  have k2 : Kept (s.numBlocks + 1 + 1) ((((s.createBlock n1 (some f)).createBlock n2
      none).createBlock n3 none).insert i) :=
    Kept_insert (by
      simpa using Kept_created ((s.createBlock n1 (some f)).createBlock n2 none) c
        (by simpa using hc) (by simp; omega) n3 none) i
  refine ⟨AtOpenEnd_enter k0 (World.enter3_parent s n1 n2 n3 (some f) i) (by simp),
    Kept_setInsertPoint k1 _ (by omega), Kept_setInsertPoint k2 _ (by omega)⟩

theorem AtOpenEnd_enter2 {f c : Nat} {s : World} (hc : s.InsertBlock = some c)
    (hlt : c < s.numBlocks) (n1 n2 : String) (i : Instr) :
    AtOpenEnd f ((((s.createBlock n1 (some f)).createBlock n2 none).insert
        i).setInsertPoint s.numBlocks) ∧
      Kept (s.numBlocks + 1) ((((s.createBlock n1 (some f)).createBlock n2 none).insert
        i).setInsertPoint s.numBlocks) := by
  have k0 : Kept s.numBlocks (((s.createBlock n1 (some f)).createBlock n2 none).insert i) :=
    Kept_insert (Kept_createBlock (Kept_created s c hc hlt n1 _) n2 _) i
  have k1 : Kept (s.numBlocks + 1) (((s.createBlock n1 (some f)).createBlock n2
      none).insert i) :=
    Kept_insert (by
      simpa using Kept_created (s.createBlock n1 (some f)) c (by simpa using hc)
        (by simp; omega) n2 none) i
  exact ⟨AtOpenEnd_enter k0 (World.enter2_parent s n1 n2 (some f) i) (by simp),
    Kept_setInsertPoint k1 _ (by omega)⟩

theorem open_emitValue (f : Nat) (mk : Nat → Instr) (hi : ∀ n, (mk n).isTerminator = false) :
    Gen.Inv (AtOpenEnd f) (emitValue mk) :=
  Inv_of_wp fun s hs => by rw [wp_emitValue]; exact AtOpenEnd_emit hs mk hi

theorem open_emitVoid (f : Nat) (i : Instr) (hi : i.isTerminator = false) :
    Gen.Inv (AtOpenEnd f) (emitVoid i) :=
  Inv_of_wp fun s hs => by rw [wp_emitVoid]; exact AtOpenEnd_insert hs i hi

theorem open_LogErrorV (f : Nat) {α : Type} (m : String) :
    Gen.Inv (AtOpenEnd f) (LogErrorV m : Gen (Option α)) :=
  Inv_of_wp fun s hs => by rw [wp_LogErrorV]; exact hs

theorem open_printOp (f : Nat) (Op : Char) : Gen.Inv (AtOpenEnd f) (printOp Op) :=
  Inv_of_wp fun s hs => by rw [wp_printOp]; exact hs

theorem open_getNamedValue (f : Nat) (n : String) : Gen.Inv (AtOpenEnd f) (getNamedValue n) :=
  Inv_of_wp fun s hs => by rw [wp_getNamedValue]; exact hs

theorem open_setNamedValue (f : Nat) (n : String) (A : Option AllocaInst) :
    Gen.Inv (AtOpenEnd f) (setNamedValue n A) :=
  Inv_of_wp fun s hs => by rw [wp_setNamedValue]; exact hs

theorem open_getNamedGlobal (f : Nat) (n : String) : Gen.Inv (AtOpenEnd f) (getNamedGlobal n) :=
  Inv_of_wp fun s hs => by rw [wp_getNamedGlobal]; exact hs

theorem open_getFunction (f : Nat) (n : String) : Gen.Inv (AtOpenEnd f) (getFunction n) :=
  Inv_of_wp fun s hs => by rw [wp_getFunction]; exact hs

theorem open_GetInsertBlockParent (f : Nat) : Gen.Inv (AtOpenEnd f) GetInsertBlockParent :=
  Inv_of_wp fun s hs => by rw [wp_GetInsertBlockParent]; exact fun _ _ => hs

theorem open_CreateEntryBlockAlloca (f : Nat) (fn : Option Nat) (n : String) (T : IRType) :
    Gen.Inv (AtOpenEnd f) (CreateEntryBlockAlloca fn n T) :=
  Inv_of_wp fun s hs => by
    rw [wp_CreateEntryBlockAlloca]; exact fun _ e _ _ => AtOpenEnd_entryAlloca hs e T n

theorem open_CreateFPTrunc (f : Nat) (V : Value) : Gen.Inv (AtOpenEnd f) (CreateFPTrunc V) := by
  unfold CreateFPTrunc
  split
  · exact Inv_pure _
  · exact open_emitValue _ _ (fun _ => rfl)

theorem open_CreateFPToSI (f : Nat) (V : Value) : Gen.Inv (AtOpenEnd f) (CreateFPToSI V) := by
  unfold CreateFPToSI
  split
  · exact Inv_pure _
  · exact open_emitValue _ _ (fun _ => rfl)

theorem open_CreateInBoundsGEP (f : Nat) (ptr idx : Value) :
    Gen.Inv (AtOpenEnd f) (CreateInBoundsGEP ptr idx) := by
  unfold CreateInBoundsGEP
  split
  · exact Inv_pure _
  · exact open_emitValue _ _ (fun _ => rfl)

theorem VariableExprAST_codegen_open (f : Nat) (Name : String) :
    Gen.Inv (AtOpenEnd f) (VariableExprAST.codegen Name) := by
  simp only [VariableExprAST.codegen, CreateLoad]
  repeat' first
    | exact Inv_pure _
    | exact open_getNamedValue _ _
    | exact open_getNamedGlobal _ _
    | exact open_LogErrorV _ _
    | exact open_emitValue _ _ (fun _ => rfl)
    | apply Inv_map
    | apply Inv_bind
    | intro _
    | split

theorem BinaryExprAST_emit_open (f : Nat) (Op : Char) (L : Value) (R : Option Value) :
    Gen.Inv (AtOpenEnd f) (BinaryExprAST.emit Op L R) := by
  unfold BinaryExprAST.emit
  simp only [CreateBinOp, CreateNot]
  repeat' first
    | exact Inv_pure _
    | exact Inv_deref _
    | exact open_printOp _ _
    | exact open_LogErrorV _ _
    | exact open_emitValue _ _ (fun _ => rfl)
    | apply Inv_map
    | apply Inv_bind
    | intro _
    | split

mutual
theorem ExprAST_codegen_open : ∀ (e : ExprAST) (f : Nat) (s : World), AtOpenEnd f s →
    e.codegen.wp (fun r s1 => r.isSome = true → AtOpenEnd f s1) s
  | .NumberExprAST Val, f, s, hs => by
    simp only [ExprAST.codegen, Gen.wp_pure]
    exact fun _ => hs
  | .VariableExprAST Name, f, s, hs => by
    simp only [ExprAST.codegen]
    intro r s1 h _
    exact (VariableExprAST_codegen_open f Name).out _ _ _ hs h
  | .BinaryExprAST Op LHS RHS, f, s, hs => by
    have hL := ExprAST_codegen_open LHS f s hs
    simp only [ExprAST.codegen]
    rw [Gen.wp_bind]
    intro L s1 h1
    rw [Gen.wp_bind]
    intro R s2 h2
    cases L with
    | none => simp [Gen.wp_pure]
    | some L =>
      have r1 := hL _ _ h1 rfl
      have hR := ExprAST_codegenRHS_open RHS f s1 r1 _ _ h2
      simp only []
      split
      · simp [Gen.wp_pure]
      · next hcond =>
        intro r s3 h3
        rw [Gen.bind_of_eq (Gen.pure_apply _ _)] at h3
        intro _
        have r2 := hR (by
          intro hsome
          cases R with
          | none => simp [hsome] at hcond
          | some _ => rfl)
        exact (BinaryExprAST_emit_open f Op L R).out _ _ _ r2 h3
  | .CallExprAST Callee Args, f, s, hs => by
    have hA := ExprAST_codegenArgs_open Args f s hs
    simp only [ExprAST.codegen]
    rw [Gen.wp_bind, wp_getFunction]
    split
    · simp [wp_LogErrorV]
    · split
      · simp [wp_LogErrorV]
      · rw [Gen.wp_bind]
        intro r s1 h1
        cases r with
        | none => simp [Gen.wp_pure]
        | some ArgsV =>
          simp only [CreateCall]
          intro r2 s2 h2 _
          refine Gen.Inv.out (P := AtOpenEnd f) ?_ _ _ _ (hA _ _ h1 rfl) h2
          exact Inv_map _ (open_emitValue _ _ (fun _ => rfl))
  | .ArrayExprAST Name Offset, f, s, hs => by
    have hO := ExprAST_codegen_open Offset f s hs
    simp only [ExprAST.codegen]
    rw [Gen.wp_bind]
    intro r s1 h1
    cases r with
    | none => simp [Gen.wp_pure]
    | some doubleIndex =>
      simp only []
      intro r2 s2 h2 _
      refine Gen.Inv.out (P := AtOpenEnd f) ?_ _ _ _ (hO _ _ h1 rfl) h2
      simp only [CreateFPTrunc, CreateFPToSI, CreateInBoundsGEP, CreateLoad]
      repeat' first
        | exact Inv_pure _
        | exact open_getNamedValue _ _
        | exact open_getNamedGlobal _ _
        | exact open_LogErrorV _ _
        | exact open_emitValue _ _ (fun _ => rfl)
        | apply Inv_map
        | apply Inv_bind
        | intro _
        | split
  | .IfExprAST Cond TrueExp FalseExp, f, s, hs => by
    have hC := ExprAST_codegen_open Cond f s hs
    simp only [ExprAST.codegen, Gen.wp_bind]
    intro r sc hcond
    cases r with
    | none => simp [Gen.wp_pure]
    | some CondV =>
      have r1 := hC _ _ hcond rfl
      simp only [Gen.wp_bind, wp_GetInsertBlockParent, wp_Create, CreateCondBr, wp_emitVoid,
        wp_SetInsertPoint, World.createBlock_numBlocks]
      intro c hc
      rw [AtOpenEnd_parent r1 hc]
      obtain ⟨g2, k1, k2⟩ := AtOpenEnd_enter3 (f := f) hc (AtOpenEnd_lt r1 hc) "trueexp"
        "falseexp" "endcond" (.condBr CondV sc.numBlocks (sc.numBlocks + 1))
      intro r st ht
      have hT := ExprAST_codegen_open TrueExp f _ g2 _ _ ht
      have k1 := (ExprAST_codegen_kept _ TrueExp).out _ _ _ k1 ht
      have k2 := (ExprAST_codegen_kept _ TrueExp).out _ _ _ k2 ht
      cases r with
      | none => simp [Gen.wp_pure]
      | some TrueV =>
        simp only [Gen.wp_bind, CreateBr, wp_emitVoid, wp_GetInsertBlock, wp_Function_insert,
          wp_SetInsertPoint, World.insert_InsertBlock, Option.some.injEq, forall_eq']
        intro Pt hPt
        have g4 : AtOpenEnd f (((st.insert (.br (sc.numBlocks + 1 + 1))).insertBlock f
            (sc.numBlocks + 1)).setInsertPoint (sc.numBlocks + 1)) := AtOpenEnd_next k1 _
        have k2 := Kept_next k2 (sc.numBlocks + 1) (by omega)
          (.br (sc.numBlocks + 1 + 1)) f
        intro r sf hf5
        have hF := ExprAST_codegen_open FalseExp f _ g4 _ _ hf5
        have k2 := (ExprAST_codegen_kept _ FalseExp).out _ _ _ k2 hf5
        cases r with
        | none => simp [Gen.wp_pure]
        | some FalseV =>
          simp only [Gen.wp_bind, Gen.wp_pure, CreateBr, wp_emitVoid, wp_GetInsertBlock,
            wp_Function_insert, wp_SetInsertPoint, wp_CreatePHI, wp_addIncoming,
            World.insert_InsertBlock]
          intro Pf hPf
          simp only [World.setInsertPoint_InsertBlock, World.emit_InsertBlock, reduceCtorEq,
            false_implies, true_and, Option.some.injEq, forall_eq', World.setInsertPoint_numValues,
            World.insertBlock_numValues, World.insert_numValues]
          intro _
          refine AtOpenEnd_addIncoming (AtOpenEnd_addIncoming (AtOpenEnd_emit
            (AtOpenEnd_next k2 _) _ ?_) _ _ _ _) _ _ _ _
          intro _; rfl
theorem ExprAST_codegenRHS_open : ∀ (o : Option ExprAST) (f : Nat) (s : World),
    AtOpenEnd f s →
    (ExprAST.codegenRHS o).wp (fun r s1 => (o.isSome = true → r.isSome = true) →
      AtOpenEnd f s1) s
  | none, f, s, hs => by
    simp only [ExprAST.codegenRHS, Gen.wp_pure]
    exact fun _ => hs
  | some RHS, f, s, hs => by
    simp only [ExprAST.codegenRHS]
    intro r s1 h hr
    exact ExprAST_codegen_open RHS f s hs _ _ h (hr rfl)
theorem ExprAST_codegenArgs_open : ∀ (l : List ExprAST) (f : Nat) (s : World),
    AtOpenEnd f s →
    (ExprAST.codegenArgs l).wp (fun r s1 => r.isSome = true → AtOpenEnd f s1) s
  | [], f, s, hs => by
    simp only [ExprAST.codegenArgs, Gen.wp_pure]
    exact fun _ => hs
  | arg :: Args, f, s, hs => by
    have h1 := ExprAST_codegen_open arg f s hs
    simp only [ExprAST.codegenArgs, Gen.wp_bind]
    intro r s1 e1
    cases r with
    | none => simp [Gen.wp_pure]
    | some V =>
      have r1 := h1 _ _ e1 rfl
      have h2 := ExprAST_codegenArgs_open Args f s1 r1
      simp only [Gen.wp_bind]
      intro r s2 e2
      cases r with
      | none => simp [Gen.wp_pure]
      | some ArgsV =>
        simp only [Gen.wp_pure]
        intro _
        exact h2 _ _ e2 rfl
end

theorem VarBindingAST_codegen_open (Name : String) (Val : Option ExprAST) (f : Nat)
    (s : World) (hs : AtOpenEnd f s) :
    (VarBindingAST.codegen Name Val).wp (fun r s1 => r.isSome = true → AtOpenEnd f s1) s := by
  simp only [VarBindingAST.codegen, Gen.wp_bind, wp_GetInsertBlockParent]
  intro c hc
  cases Val with
  | none =>
    simp only [Gen.wp_bind, Gen.wp_pure, wp_CreateEntryBlockAlloca]
    intro f1 e _ _ _
    exact AtOpenEnd_entryAlloca hs _ _ _
  | some Val =>
    simp only [Gen.wp_bind]
    intro r s1 h1
    have g1 := ExprAST_codegen_open Val f s hs _ _ h1
    cases r with
    | none => simp [Gen.wp_pure]
    | some BoundVal =>
      simp only [Gen.wp_bind, Gen.wp_pure, wp_CreateEntryBlockAlloca, CreateStore, wp_emitVoid]
      intro f1 e _ _ _
      exact AtOpenEnd_insert (AtOpenEnd_entryAlloca (g1 rfl) _ _ _) _ rfl

theorem ArrayBindingAST_storeValues_open (f : Nat) (Alloca : AllocaInst)
    (boundValues : List Value) :
    ∀ l : List Nat, Gen.Inv (AtOpenEnd f) (ArrayBindingAST.storeValues Alloca boundValues l)
  | [] => by simp only [ArrayBindingAST.storeValues]; exact Inv_pure _
  | i :: rest => by
    have h := ArrayBindingAST_storeValues_open f Alloca boundValues rest
    simp only [ArrayBindingAST.storeValues, CreateInBoundsGEP, CreateStore]
    repeat' first
      | exact h
      | exact Inv_deref _
      | exact open_emitValue _ _ (fun _ => rfl)
      | exact open_emitVoid _ _ rfl
      | apply Inv_bind
      | intro _

theorem ArrayBindingAST_boundValues_open (Values : List ExprAST) (f : Nat) :
    ∀ (l : List Nat) (s : World), AtOpenEnd f s →
      (ArrayBindingAST.boundValues Values l).wp (fun r s1 => r.isSome = true →
        AtOpenEnd f s1) s
  | [], s, hs => by
    simp only [ArrayBindingAST.boundValues, Gen.wp_pure]
    exact fun _ => hs
  | i :: rest, s, hs => by
    simp only [ArrayBindingAST.boundValues, Gen.wp_bind]
    have key : (if i ≥ Values.length then pure (some Value.getNullValue)
        else match Values.get? i with
          | some e => e.codegen
          | none => Gen.undefined : Gen (Option Value)).wp
        (fun r s1 => r.isSome = true → AtOpenEnd f s1) s := by
      split
      · simp only [Gen.wp_pure]
        exact fun _ => hs
      · split
        · exact ExprAST_codegen_open _ f s hs
        · simp [Gen.wp_undefined]
    intro r s1 h1
    have g1 := key _ _ h1
    cases r with
    | none => simp [Gen.wp_pure]
    | some boundValue =>
      simp only [Gen.wp_pure, Gen.wp_bind]
      intro r s2 h2
      have g2 := ArrayBindingAST_boundValues_open Values f rest s1 (g1 rfl) _ _ h2
      cases r with
      | none => simp [Gen.wp_pure]
      | some boundValues =>
        simp only [Gen.wp_pure]
        intro _
        exact g2 rfl

theorem ArrayBindingAST_codegen_open (Name : String) (Size : Double) (Values : List ExprAST)
    (f : Nat) (s : World) (hs : AtOpenEnd f s) :
    (ArrayBindingAST.codegen Name Size Values).wp (fun r s1 => r.isSome = true →
      AtOpenEnd f s1) s := by
  simp only [ArrayBindingAST.codegen]
  split
  · simp [Gen.wp_pure]
  · simp only [Gen.wp_bind, Gen.wp_pure, wp_GetInsertBlockParent]
    intro c hc
    split
    · simp [Gen.wp_bind, Gen.wp_undefined]
    · simp only [Gen.wp_pure, Gen.wp_bind, wp_CreateEntryBlockAlloca]
      intro f1 e _ _
      have g1 := AtOpenEnd_entryAlloca hs e (IRType.ArrayTy (Int.toNat ⌊Size⌋)) Name
      split
      · split
        · simp [Gen.wp_bind, Gen.wp_undefined]
        · simp only [Gen.wp_bind, Gen.wp_pure]
          intro r s2 h2
          have g2 := ArrayBindingAST_boundValues_open Values f _ _ g1 _ _ h2
          cases r with
          | none => simp [Gen.wp_pure]
          | some boundValues =>
            simp only [Gen.wp_bind, Gen.wp_pure]
            intro r s3 h3 _
            exact (ArrayBindingAST_storeValues_open f _ _ _).out _ _ _ (g2 rfl) h3
      · simp only [Gen.wp_bind, Gen.wp_pure]
        intro _
        exact g1

theorem BindingAST_codegen_open (b : BindingAST) (f : Nat) (s : World) (hs : AtOpenEnd f s) :
    b.codegen.wp (fun r s1 => r.isSome = true → AtOpenEnd f s1) s := by
  cases b with
  | VarBindingAST Name Val => exact VarBindingAST_codegen_open Name Val f s hs
  | ArrayBindingAST Name Size Values => exact ArrayBindingAST_codegen_open Name Size Values f s hs

theorem AssignmentAST_codegen_open (a : AssignmentAST) (f : Nat) (s : World)
    (hs : AtOpenEnd f s) :
    a.codegen.wp (fun r s1 => r.isSome = true → AtOpenEnd f s1) s := by
  have key : ∀ A : Value, (do
      let some RHS ← a.AssignExpr.codegen | return none
      match a.OffsetExpr with
      | some OffsetExpr =>
        let doubleIndex ← OffsetExpr.codegen
        let doubleIndex ← Gen.deref doubleIndex
        let floatIndex ← CreateFPTrunc doubleIndex
        let intIndex ← CreateFPToSI floatIndex
        let p ← CreateInBoundsGEP A intIndex
        CreateStore RHS p
      | none => CreateStore RHS A
      return some RHS : Gen (Option Value)).wp
        (fun r s1 => r.isSome = true → AtOpenEnd f s1) s := by
    intro A
    simp only [Gen.wp_bind]
    intro r s1 h1
    have g1 := ExprAST_codegen_open a.AssignExpr f s hs _ _ h1
    cases r with
    | none => simp [Gen.wp_pure]
    | some RHS =>
      have g1 := g1 rfl
      simp only [Gen.wp_bind]
      split
      · next OffsetExpr ho =>
        simp only [Gen.wp_bind]
        intro r s2 h2
        have g2 := ExprAST_codegen_open _ f s1 g1 _ _ h2
        cases r with
        | none => simp [Gen.wp_deref]
        | some doubleIndex =>
          have g2 := g2 rfl
          simp only [Gen.wp_deref, Option.some.injEq, forall_eq']
          refine Gen.wp_of_inv (open_CreateFPTrunc f _) g2 fun _ _ g3 => ?_
          refine Gen.wp_of_inv (open_CreateFPToSI f _) g3 fun _ _ g4 => ?_
          refine Gen.wp_of_inv (open_CreateInBoundsGEP f _ _) g4 fun _ _ g5 => ?_
          simp only [CreateStore, wp_emitVoid, Gen.wp_pure]
          intro _
          exact AtOpenEnd_insert g5 _ rfl
      · simp only [Gen.wp_pure, Gen.wp_bind, CreateStore, wp_emitVoid]
        intro _
        exact AtOpenEnd_insert g1 _ rfl
  simp only [AssignmentAST.codegen, Gen.wp_bind, wp_getNamedValue]
  split
  · simp only [Gen.wp_pure]
    exact key _
  · simp only [Gen.wp_pure, Gen.wp_bind, wp_getNamedGlobal]
    split
    · simp [wp_LogErrorV]
    · exact key _

theorem BlockAST_restore_open (f : Nat) :
    ∀ (Def : List BindingAST) (AllocaTmp : List (Option AllocaInst)),
      Gen.Inv (AtOpenEnd f) (BlockAST.restore Def AllocaTmp)
  | [], _ => by simp only [BlockAST.restore]; exact Inv_pure _
  | _ :: _, [] => by simp only [BlockAST.restore]; exact Inv_pure _
  | d :: Def, old :: AllocaTmp => by
    simp only [BlockAST.restore]
    exact Inv_bind (open_setNamedValue _ _ _) fun _ => BlockAST_restore_open f Def AllocaTmp

theorem BlockAST_bindDefs_open (f : Nat) :
    ∀ (Def : List BindingAST) (AllocaTmp : List (Option AllocaInst)) (s : World),
      AtOpenEnd f s →
      (BlockAST.bindDefs Def AllocaTmp).wp (fun r s1 => r.isSome = true → AtOpenEnd f s1) s
  | [], _, s, hs => by
    simp only [BlockAST.bindDefs, Gen.wp_pure]
    exact fun _ => hs
  | d :: Def, AllocaTmp, s, hs => by
    simp only [BlockAST.bindDefs, Gen.wp_bind]
    intro r s1 h1
    have g1 := BindingAST_codegen_open d f s hs _ _ h1
    cases r with
    | none => simp [Gen.wp_pure]
    | some boundval =>
      have g1 := g1 rfl
      simp only [Gen.wp_bind, wp_getNamedValue, wp_setNamedValue]
      intro r s2 h2 hr
      exact BlockAST_bindDefs_open f Def _ _ (AtOpenEnd_setNamedValue g1 _ _) _ _ h2 hr

theorem counter_test_open (f : Nat) (n : String) (Val : Double) :
    Gen.Inv (AtOpenEnd f) (ExprAST.codegen (.BinaryExprAST '<' (.VariableExprAST n)
      (some (.NumberExprAST Val)))) := by
  simp only [ExprAST.codegen, ExprAST.codegenRHS]
  repeat' first
    | exact Inv_pure _
    | exact VariableExprAST_codegen_open _ _
    | exact BinaryExprAST_emit_open _ _ _ _
    | apply Inv_bind
    | intro _
    | split

theorem element_binding_open (f : Nat) (IterName ArrayName n : String) :
    Gen.Inv (AtOpenEnd f) (VarBindingAST.codegen IterName
      (some (.ArrayExprAST ArrayName (.VariableExprAST n)))) := by
  simp only [VarBindingAST.codegen, ExprAST.codegen, CreateStore,
    CreateLoad, CreateFPTrunc, CreateFPToSI, CreateInBoundsGEP]
  repeat' first
    | exact Inv_pure _
    | exact open_GetInsertBlockParent _
    | exact open_CreateEntryBlockAlloca _ _ _ _
    | exact VariableExprAST_codegen_open _ _
    | exact open_getNamedValue _ _
    | exact open_getNamedGlobal _ _
    | exact open_LogErrorV _ _
    | exact open_emitVoid _ _ rfl
    | exact open_emitValue _ _ (fun _ => rfl)
    | apply Inv_map
    | apply Inv_bind
    | intro _
    | split

theorem counter_increment_open (f : Nat) (n : String) :
    Gen.Inv (AtOpenEnd f) (AssignmentAST.codegen ⟨n, none,
      .BinaryExprAST '+' (.VariableExprAST n) (some (.NumberExprAST 1))⟩) := by
  simp only [AssignmentAST.codegen, ExprAST.codegen, ExprAST.codegenRHS, CreateStore]
  repeat' first
    | exact Inv_pure _
    | exact VariableExprAST_codegen_open _ _
    | exact BinaryExprAST_emit_open _ _ _ _
    | exact open_getNamedValue _ _
    | exact open_getNamedGlobal _ _
    | exact open_LogErrorV _ _
    | exact open_emitVoid _ _ rfl
    | apply Inv_bind
    | intro _
    | split

theorem Kept_created3 {f c : Nat} {s : World} (hc : s.InsertBlock = some c)
    (hlt : c < s.numBlocks) (n1 n2 n3 : String) :
    Kept s.numBlocks (((s.createBlock n1 (some f)).createBlock n2 none).createBlock n3 none) ∧
      Kept (s.numBlocks + 1 + 1)
        (((s.createBlock n1 (some f)).createBlock n2 none).createBlock n3 none) ∧
      ((((s.createBlock n1 (some f)).createBlock n2 none).createBlock n3 none).blocks
        s.numBlocks).parent = some f ∧
      ((((s.createBlock n1 (some f)).createBlock n2 none).createBlock n3 none).functionBlocks
        f).getLast? = some s.numBlocks := by
  refine ⟨Kept_createBlock (Kept_createBlock (Kept_created s c hc hlt n1 _) n2 _) n3 _, ?_, ?_,
    by simp⟩
  · simpa using Kept_created ((s.createBlock n1 (some f)).createBlock n2 none) c
      (by simpa using hc) (by simp; omega) n3 none
  · have h1 : s.numBlocks ≠ s.numBlocks + 1 := by omega
    have h2 : s.numBlocks ≠ s.numBlocks + 1 + 1 := by omega
    simp [Function.update, h1, h2]

mutual
theorem StmtAST_codegen_open : ∀ (st : StmtAST) (f : Nat) (s : World), AtOpenEnd f s →
    st.codegen.wp (fun r s1 => r.isSome = true → AtOpenEnd f s1) s
  | .expr e, f, s, hs => by
    simp only [StmtAST.codegen]
    exact ExprAST_codegen_open e f s hs
  | .assignment a, f, s, hs => by
    simp only [StmtAST.codegen]
    exact AssignmentAST_codegen_open a f s hs
  | .BlockAST Def Stmts, f, s, hs => by
    simp only [StmtAST.codegen, Gen.wp_bind]
    intro r s1 h1
    have g1 := BlockAST_bindDefs_open f Def [] s hs _ _ h1
    cases r with
    | none => simp [Gen.wp_pure]
    | some AllocaTmp =>
      simp only [Gen.wp_bind]
      intro r s2 h2
      have g2 := StmtAST_codegenStmts_open Stmts none f s1 (g1 rfl) _ _ h2
      cases r with
      | none => simp [Gen.wp_pure]
      | some blockvalue =>
        simp only [Gen.wp_bind]
        intro r s3 h3
        have g3 := (BlockAST_restore_open f Def AllocaTmp).out _ _ _ (g2 rfl) h3
        simp only [Gen.wp_deref, Gen.wp_pure]
        intro _ _ _
        exact g3
  | .IfStmtAST CondExpr TrueStmt (some ElseStmt), f, s, hs => by
    simp only [StmtAST.codegen, Gen.wp_bind, wp_GetInsertBlock]
    intro entryBB _ r s1 h1
    have g1 := ExprAST_codegen_open CondExpr f s hs _ _ h1
    cases r with
    | none => simp [Gen.wp_pure]
    | some CondV =>
      have g1 := g1 rfl
      simp only [Gen.wp_bind, wp_GetInsertBlockParent, wp_Create, CreateCondBr, wp_emitVoid,
        wp_SetInsertPoint, World.createBlock_numBlocks]
      intro c hc
      rw [AtOpenEnd_parent g1 hc]
      obtain ⟨_, k1, k2⟩ := AtOpenEnd_enter3 (f := f) hc (AtOpenEnd_lt g1 hc) "truestmt"
        "elsestmt" "endstmt" (.condBr CondV s1.numBlocks (s1.numBlocks + 1))
      intro r s3 h3
      have k1 := (StmtAST_codegen_kept _ TrueStmt).out _ _ _ k1 h3
      have k2 := (StmtAST_codegen_kept _ TrueStmt).out _ _ _ k2 h3
      cases r with
      | none => simp [Gen.wp_pure]
      | some TrueV =>
        simp only [Gen.wp_bind, CreateBr, wp_emitVoid, wp_GetInsertBlock, wp_Function_insert,
          wp_SetInsertPoint, World.insert_InsertBlock, Option.some.injEq, forall_eq']
        intro Pt hPt
        have k2 := Kept_next k2 (s1.numBlocks + 1) (by omega)
          (.br (s1.numBlocks + 1 + 1)) f
        intro r s5 h5
        have k2 := (StmtAST_codegen_kept _ ElseStmt).out _ _ _ k2 h5
        cases r with
        | none => simp [Gen.wp_pure]
        | some FalseV =>
          simp only [Gen.wp_bind, Gen.wp_pure, CreateBr, wp_emitVoid, wp_GetInsertBlock,
            wp_Function_insert, wp_SetInsertPoint, wp_CreatePHI, wp_addIncoming,
            World.insert_InsertBlock]
          intro Pf hPf
          simp only [World.setInsertPoint_InsertBlock, World.emit_InsertBlock, reduceCtorEq,
            false_implies, true_and, Option.some.injEq, forall_eq', World.setInsertPoint_numValues,
            World.insertBlock_numValues, World.insert_numValues]
          intro _
          refine AtOpenEnd_addIncoming (AtOpenEnd_addIncoming (AtOpenEnd_emit
            (AtOpenEnd_next k2 _) _ ?_) _ _ _ _) _ _ _ _
          intro _; rfl
  | .IfStmtAST CondExpr TrueStmt none, f, s, hs => by
    simp only [StmtAST.codegen, Gen.wp_bind, wp_GetInsertBlock]
    intro entryBB _ r s1 h1
    have g1 := ExprAST_codegen_open CondExpr f s hs _ _ h1
    cases r with
    | none => simp [Gen.wp_pure]
    | some CondV =>
      have g1 := g1 rfl
      simp only [Gen.wp_bind, wp_GetInsertBlockParent, wp_Create, CreateCondBr, wp_emitVoid,
        wp_SetInsertPoint, World.createBlock_numBlocks]
      intro c hc
      rw [AtOpenEnd_parent g1 hc]
      obtain ⟨_, k1⟩ := AtOpenEnd_enter2 (f := f) hc (AtOpenEnd_lt g1 hc) "truestmt"
        "endstmt" (.condBr CondV s1.numBlocks (s1.numBlocks + 1))
      intro r s3 h3
      have k1 := (StmtAST_codegen_kept _ TrueStmt).out _ _ _ k1 h3
      cases r with
      | none => simp [Gen.wp_pure]
      | some TrueV =>
        simp only [Gen.wp_bind, Gen.wp_pure, CreateBr, wp_emitVoid, wp_GetInsertBlock,
          wp_Function_insert, wp_SetInsertPoint, wp_CreatePHI, wp_addIncoming,
          World.insert_InsertBlock]
        intro Pt hPt
        simp only [World.setInsertPoint_InsertBlock, World.emit_InsertBlock, reduceCtorEq,
          false_implies, true_and, Option.some.injEq, forall_eq', World.setInsertPoint_numValues,
          World.insertBlock_numValues, World.insert_numValues]
        intro _
        refine AtOpenEnd_addIncoming (AtOpenEnd_addIncoming (AtOpenEnd_emit
          (AtOpenEnd_next k1 _) _ ?_) _ _ _ _) _ _ _ _
        intro _; rfl
  | .ForStmtAST InitExp CondExpr AssignExpr BodyStmt, f, s, hs => by
    simp only [StmtAST.codegen, Gen.wp_bind]
    intro r s1 h1
    have g1 : r.isSome = true → AtOpenEnd f s1 := by
      revert h1
      cases InitExp with
      | binding b =>
        refine (?_ : Gen.wp _ (fun r s1 => r.isSome = true → AtOpenEnd f s1) s) r s1
        simp only [Gen.wp_bind]
        intro r0 s0 h0
        have g0 := BindingAST_codegen_open b f s hs _ _ h0
        cases r0 with
        | none => simp [Gen.wp_pure]
        | some boundval =>
          simp only [Gen.wp_bind, Gen.wp_pure, wp_getNamedValue, wp_setNamedValue]
          exact fun _ => AtOpenEnd_setNamedValue (g0 rfl) _ _
      | assignment a =>
        refine (?_ : Gen.wp _ (fun r s1 => r.isSome = true → AtOpenEnd f s1) s) r s1
        simp only [Gen.wp_bind]
        intro r0 s0 h0
        have g0 := AssignmentAST_codegen_open a f s hs _ _ h0
        cases r0 with
        | none => simp [Gen.wp_pure]
        | some v =>
          simp only [Gen.wp_pure]
          exact fun _ => g0 rfl
    simp only [Gen.wp_pure]
    cases r with
    | none => simp [Gen.wp_pure]
    | some tmpAlloca =>
      have g1 := g1 rfl
      simp only [Gen.wp_bind, wp_GetInsertBlockParent, wp_Create, CreateBr, wp_emitVoid,
        wp_SetInsertPoint, World.createBlock_numBlocks]
      intro c hc
      rw [AtOpenEnd_parent g1 hc]
      obtain ⟨_, k1, k2⟩ := AtOpenEnd_enter3 (f := f) hc (AtOpenEnd_lt g1 hc) "condstmt"
        "loopstmt" "mergestmt" (.br s1.numBlocks)
      intro r s3 h3
      have k1 := (ExprAST_codegen_kept _ CondExpr).out _ _ _ k1 h3
      have k2 := (ExprAST_codegen_kept _ CondExpr).out _ _ _ k2 h3
      cases r with
      | none => simp [Gen.wp_pure]
      | some condV =>
        simp only [Gen.wp_bind, CreateCondBr, wp_emitVoid, wp_GetInsertBlock, wp_Function_insert,
          wp_SetInsertPoint, World.insert_InsertBlock, Option.some.injEq, forall_eq']
        intro Pc hPc
        have k2 := Kept_next k2 (s1.numBlocks + 1) (by omega)
          (.condBr condV (s1.numBlocks + 1) (s1.numBlocks + 1 + 1)) f
        intro r s5 h5
        have k2 := (StmtAST_codegen_kept _ BodyStmt).out _ _ _ k2 h5
        cases r with
        | none => simp [Gen.wp_pure]
        | some bodyV =>
          simp only [Gen.wp_bind]
          intro r s6 h6
          have k2 := (AssignmentAST_codegen_kept _ AssignExpr).out _ _ _ k2 h6
          cases r with
          | none => simp [Gen.wp_pure]
          | some stepV =>
            simp only [Gen.wp_bind, Gen.wp_pure, CreateBr, wp_emitVoid, wp_GetInsertBlock,
              wp_Function_insert, wp_SetInsertPoint, World.insert_InsertBlock,
              Option.some.injEq, forall_eq']
            intro Pb hPb
            cases InitExp with
            | binding b =>
              simp only [Gen.wp_bind, Gen.wp_pure, wp_setNamedValue]
              intro _
              exact AtOpenEnd_setNamedValue (AtOpenEnd_next k2 _) _ _
            | assignment a =>
              simp only [Gen.wp_bind, Gen.wp_pure]
              intro _
              exact AtOpenEnd_next k2 _
  | .WhileStmtAST CondExpr BodyStmt, f, s, hs => by
    simp only [StmtAST.codegen, Gen.wp_bind, wp_GetInsertBlockParent, wp_Create, CreateBr,
      wp_emitVoid, wp_SetInsertPoint, World.createBlock_numBlocks]
    intro c hc
    rw [AtOpenEnd_parent hs hc]
    obtain ⟨_, k1, k2⟩ := AtOpenEnd_enter3 (f := f) hc (AtOpenEnd_lt hs hc) "condstmt"
      "loopstmt" "mergestmt" (.br s.numBlocks)
    intro r s3 h3
    have k1 := (ExprAST_codegen_kept _ CondExpr).out _ _ _ k1 h3
    have k2 := (ExprAST_codegen_kept _ CondExpr).out _ _ _ k2 h3
    cases r with
    | none => simp [Gen.wp_pure]
    | some condV =>
      simp only [Gen.wp_bind, CreateCondBr, wp_emitVoid, wp_GetInsertBlock, wp_Function_insert,
        wp_SetInsertPoint, World.insert_InsertBlock, Option.some.injEq, forall_eq']
      intro Pc hPc
      have k2 := Kept_next k2 (s.numBlocks + 1) (by omega)
        (.condBr condV (s.numBlocks + 1) (s.numBlocks + 1 + 1)) f
      intro r s5 h5
      have k2 := (StmtAST_codegen_kept _ BodyStmt).out _ _ _ k2 h5
      cases r with
      | none => simp [Gen.wp_pure]
      | some bodyV =>
        simp only [Gen.wp_bind, Gen.wp_pure, CreateBr, wp_emitVoid, wp_GetInsertBlock,
          wp_Function_insert, wp_SetInsertPoint, World.insert_InsertBlock, Option.some.injEq,
          forall_eq']
        intro Pb hPb _
        exact AtOpenEnd_next k2 _
  | .DoWhileStmtAST BodyStmt CondExpr, f, s, hs => by
    simp only [StmtAST.codegen, Gen.wp_bind, wp_GetInsertBlockParent, wp_Create, CreateBr,
      wp_emitVoid, wp_SetInsertPoint, World.createBlock_numBlocks]
    intro c hc
    rw [AtOpenEnd_parent hs hc]
    obtain ⟨_, k1, k2⟩ := AtOpenEnd_enter3 (f := f) hc (AtOpenEnd_lt hs hc) "loopstmt"
      "condstmt" "mergestmt" (.br s.numBlocks)
    intro r s3 h3
    have k1 := (StmtAST_codegen_kept _ BodyStmt).out _ _ _ k1 h3
    have k2 := (StmtAST_codegen_kept _ BodyStmt).out _ _ _ k2 h3
    cases r with
    | none => simp [Gen.wp_pure]
    | some bodyV =>
      simp only [Gen.wp_bind, CreateBr, wp_emitVoid, wp_GetInsertBlock, wp_Function_insert,
        wp_SetInsertPoint, World.insert_InsertBlock, World.insertBlock_InsertBlock,
        Option.some.injEq, forall_eq']
      intro Pb hPb
      have k2 := Kept_next_swapped k2 (s.numBlocks + 1) (by omega)
        (.br (s.numBlocks + 1)) f
      intro r s5 h5
      have k2 := (ExprAST_codegen_kept _ CondExpr).out _ _ _ k2 h5
      cases r with
      | none => simp [Gen.wp_pure]
      | some condV =>
        simp only [Gen.wp_bind, Gen.wp_pure, CreateCondBr, wp_emitVoid, wp_GetInsertBlock,
          wp_Function_insert, wp_SetInsertPoint, World.insert_InsertBlock, Option.some.injEq,
          forall_eq']
        intro Pc hPc _
        exact AtOpenEnd_next k2 _
  | .ForEachStmtAST IterName ArrayName BodyStmt, f, s, hs => by
    simp only [StmtAST.codegen, Gen.wp_bind, wp_GetInsertBlock, wp_GetInsertBlockParent,
      wp_Create, wp_SetInsertPoint, wp_getNamedValue, World.createBlock_numBlocks,
      World.setInsertPoint_InsertBlock, Option.some.injEq, forall_eq']
    intro c hc
    have hp : ((s.setInsertPoint c).blocks c).parent = some f :=
      (AtOpenEnd_parent hs hc : (s.blocks c).parent = some f)
    rw [hp]
    obtain ⟨_, k2, _, _⟩ := Kept_created3 (f := f) (s := s.setInsertPoint c) rfl
      (AtOpenEnd_lt hs hc : c < s.numBlocks) "condstmt" "loopstmt" "mergestmt"
    intro boundValCounter s1 h1
    have k2 := (VarBindingAST_codegen_kept _ _ _).out _ _ _ k2 h1
    simp only [Gen.wp_bind, wp_setNamedValue, wp_getNamedValue]
    intro AT s2 h2
    have k2 : Kept (s.numBlocks + 1 + 1) s2 := by
      refine Gen.Inv.out (P := Kept (s.numBlocks + 1 + 1)) ?_ _ _ _
        (Kept_setNamedValue k2 (ForEachStmtAST.getCounterName IterName) boundValCounter) h2
      repeat' first
        | exact Inv_pure _
        | exact kept_getNamedGlobal _ _
        | exact kept_LogErrorV _ _
        | apply Inv_bind
        | intro _
        | split
    simp only [Gen.wp_pure]
    cases AT with
    | none => simp [Gen.wp_pure]
    | some AT =>
      simp only []
      cases AT with
      | ArrayTy NumElements =>
        simp only [Gen.wp_bind, CreateBr, wp_emitVoid, wp_SetInsertPoint]
        have k2 := Kept_setInsertPoint (Kept_insert k2 (.br s.numBlocks)) s.numBlocks (by omega)
        intro r s3 h3
        have k2 := (ExprAST_codegen_kept _ _).out _ _ _ k2 h3
        cases r with
        | none => simp [Gen.wp_pure]
        | some condV =>
          simp only [Gen.wp_bind, CreateCondBr, wp_emitVoid, wp_GetInsertBlock,
            wp_Function_insert, wp_SetInsertPoint, wp_getNamedValue, World.insert_InsertBlock,
            Option.some.injEq, forall_eq']
          intro Pc hPc
          have k2 := Kept_next k2 (s.numBlocks + 1) (by omega)
            (.condBr condV (s.numBlocks + 1) (s.numBlocks + 1 + 1)) f
          intro r s4 h4
          have k2 := (VarBindingAST_codegen_kept _ _ _).out _ _ _ k2 h4
          cases r with
          | none => simp [Gen.wp_pure]
          | some bindingValue =>
            simp only [Gen.wp_bind, wp_setNamedValue]
            intro r s5 h5
            have k2 := (StmtAST_codegen_kept _ BodyStmt).out _ _ _
              (Kept_setNamedValue k2 IterName (some bindingValue)) h5
            cases r with
            | none => simp [Gen.wp_pure]
            | some bodyV =>
              simp only [Gen.wp_bind]
              intro r s6 h6
              have k2 := (AssignmentAST_codegen_kept _ _).out _ _ _ k2 h6
              simp only [Gen.wp_bind, Gen.wp_pure, CreateBr, wp_emitVoid, wp_GetInsertBlock,
                wp_Function_insert, wp_SetInsertPoint, wp_setNamedValue,
                World.insert_InsertBlock, Option.some.injEq, forall_eq']
              intro Pb hPb _
              exact AtOpenEnd_setNamedValue (AtOpenEnd_setNamedValue (AtOpenEnd_next k2 _) _ _)
                _ _
      | DoubleTy => simp [wp_LogErrorV]
      | FloatTy => simp [wp_LogErrorV]
      | Int32Ty => simp [wp_LogErrorV]
theorem StmtAST_codegenStmts_open : ∀ (l : List StmtAST) (v : Option Value) (f : Nat)
    (s : World), AtOpenEnd f s →
    (StmtAST.codegenStmts l v).wp (fun r s1 => r.isSome = true → AtOpenEnd f s1) s
  | [], v, f, s, hs => by
    simp only [StmtAST.codegenStmts, Gen.wp_pure]
    exact fun _ => hs
  | st :: Stmts, v, f, s, hs => by
    simp only [StmtAST.codegenStmts, Gen.wp_bind]
    intro r s1 h1
    have g1 := StmtAST_codegen_open st f s hs _ _ h1
    cases r with
    | none => simp [Gen.wp_pure]
    | some blockvalue =>
      simp only []
      intro r s2 h2 hr
      exact StmtAST_codegenStmts_open Stmts (some blockvalue) f s1 (g1 rfl) _ _ h2 hr
end

theorem AtOpenEnd_appends {f : Nat} {s : World} (h : AtOpenEnd f s) (BB : Nat) :
    ∃ l c, s.InsertBlock = some c ∧ (s.insertBlock f BB).functionBlocks f = l ++ [c, BB] := by
  obtain ⟨c, hc, _, _, hl, _⟩ := h
  obtain ⟨l, hl⟩ := List.getLast?_eq_some_iff.1 hl
  exact ⟨l, c, hc, by simp [hl]⟩

theorem FunctionAST_bindArgs_open (f : Nat) (function : Function) :
    ∀ (Args : List String) (ArgNo : Nat),
      Gen.Inv (AtOpenEnd f) (FunctionAST.bindArgs function Args ArgNo)
  | [], _ => by simp only [FunctionAST.bindArgs]; exact Inv_pure _
  | Arg :: Args, ArgNo => by
    have h := FunctionAST_bindArgs_open f function Args (ArgNo + 1)
    simp only [FunctionAST.bindArgs, CreateStore]
    repeat' first
      | exact h
      | exact open_emitVoid _ _ rfl
      | exact open_setNamedValue _ _ _
      | exact open_CreateEntryBlockAlloca _ _ _ _
      | apply Inv_bind
      | intro _

theorem FunctionAST_prologue_open (F : FunctionAST) (s : World) :
    F.prologue.wp (fun r s1 => ∀ fn, r = some fn → AtOpenEnd fn.id s1) s := by
  simp only [FunctionAST.prologue, Gen.wp_bind, wp_getFunction]
  split
  · simp [Gen.wp_pure]
  · simp only [Gen.wp_bind]
    intro function s1 h1
    have hf := (PrototypeAST_codegen_fresh _ _ _ _ h1).1
    simp only [wp_Create, wp_SetInsertPoint, Gen.wp_bind]
    intro r s2 h2
    simp only [Gen.wp_pure, Option.some.injEq]
    intro fn e
    subst e
    refine (FunctionAST_bindArgs_open function.id function function.Args 0).out _ _ _ ?_ h2
    refine ⟨s1.numBlocks, rfl, by simp, by simp, by simp [hf], ?_⟩
    simp only [World.setInsertPoint_blocks, World.createBlock_blocks, Function.update_same]
    exact Unterminated_nil

/-- C35: invariant of the lowering. When a statement, expression or binding generator
is called in a state whose insertion block is a block of function `f`, is the last
block of the block list of `f` and has no terminator, and the generator succeeds,
then in the state it returns the insertion block is again the last block of the
block list of `f` and has no terminator. In such a state a block appended to `f`
is placed right after the insertion block. -/
theorem C35_insertion_block_stays_last_and_open (f : Nat) (s : World) (h : AtOpenEnd f s) :
    (∀ (st : StmtAST) (v : Value) (s1 : World),
        st.codegen s = some (some v, s1) → AtOpenEnd f s1) ∧
      (∀ (e : ExprAST) (v : Value) (s1 : World),
        e.codegen s = some (some v, s1) → AtOpenEnd f s1) ∧
      (∀ (b : BindingAST) (A : AllocaInst) (s1 : World),
        b.codegen s = some (some A, s1) → AtOpenEnd f s1) ∧
      (∀ s1 : World, AtOpenEnd f s1 → ∀ BB : Nat, ∃ l c, s1.InsertBlock = some c ∧
        (s1.insertBlock f BB).functionBlocks f = l ++ [c, BB]) :=
  ⟨fun st _ _ e => StmtAST_codegen_open st f s h _ _ e rfl,
    fun e _ _ e1 => ExprAST_codegen_open e f s h _ _ e1 rfl,
    fun b _ _ e => BindingAST_codegen_open b f s h _ _ e rfl,
    fun _ h1 BB => AtOpenEnd_appends h1 BB⟩

theorem C35_insertion_block_stays_last_and_open_witness :
    AtOpenEnd 0 (bodyEntry (sampleFunction sampleWhile)) ∧
      (∃ v s1, sampleWhile.codegen (bodyEntry (sampleFunction sampleWhile)) = some (some v, s1) ∧
        s1.InsertBlock = some 3 ∧ s1.functionBlocks 0 = [0, 1, 4, 5, 6, 2, 3] ∧
        AtOpenEnd 0 s1) ∧
      (∃ v s1, sampleCondExp.codegen (bodyEntry (sampleFunction sampleWhile)) =
          some (some v, s1) ∧
        s1.InsertBlock = some 3 ∧ s1.functionBlocks 0 = [0, 1, 2, 3] ∧ AtOpenEnd 0 s1) ∧
      (∃ A s1, (BindingAST.VarBindingAST "y" (some sampleCondExp)).codegen
          (bodyEntry (sampleFunction sampleWhile)) = some (some A, s1) ∧
        s1.InsertBlock = some 3 ∧ AtOpenEnd 0 s1) := by
  have h0 : AtOpenEnd 0 (bodyEntry (sampleFunction sampleWhile)) :=
    ⟨0, by decide, by decide, by decide, by decide, by
      show ∀ i ∈ ((bodyEntry (sampleFunction sampleWhile)).blocks 0).insts, i.isTerminator = false
      decide⟩
  refine ⟨h0, ?_, ?_, ?_⟩
  · obtain ⟨v, s1, h1, h2⟩ := (Gen.succeedsWith_iff sampleWhile.codegen
      (bodyEntry (sampleFunction sampleWhile)) (fun _ s1 => decide (s1.InsertBlock = some 3 ∧
        s1.functionBlocks 0 = [0, 1, 4, 5, 6, 2, 3]))).1 (by decide)
    have h2 := of_decide_eq_true h2
    exact ⟨v, s1, h1, h2.1, h2.2,
      (C35_insertion_block_stays_last_and_open 0 _ h0).1 _ _ _ h1⟩
  · obtain ⟨v, s1, h1, h2⟩ := (Gen.succeedsWith_iff sampleCondExp.codegen
      (bodyEntry (sampleFunction sampleWhile)) (fun _ s1 => decide (s1.InsertBlock = some 3 ∧
        s1.functionBlocks 0 = [0, 1, 2, 3]))).1 (by decide)
    have h2 := of_decide_eq_true h2
    exact ⟨v, s1, h1, h2.1, h2.2,
      (C35_insertion_block_stays_last_and_open 0 _ h0).2.1 _ _ _ h1⟩
  · obtain ⟨A, s1, h1, h2⟩ := (Gen.succeedsWith_iff
      (BindingAST.VarBindingAST "y" (some sampleCondExp)).codegen
      (bodyEntry (sampleFunction sampleWhile))
      (fun _ s1 => decide (s1.InsertBlock = some 3))).1 (by decide)
    exact ⟨A, s1, h1, of_decide_eq_true h2,
      (C35_insertion_block_stays_last_and_open 0 _ h0).2.2.1 _ _ _ h1⟩

end Kaleidoscope
